import Mathlib

/-!
# zsLib-eventing IDL compiler: lexer

A shallow embedding of the hand-written scanner of
`zsLib_eventing_tool_IDLCompiler.cpp`.

* A `const char *` cursor into the NUL-terminated buffer is the list of bytes
  from the cursor up to (not including) the terminating NUL; `*p` is `peek p`,
  `++p` is `List.drop 1`, and `String(start, p - start)` is
  `start.take (start.length - p.length)`.
* `ULONG` line counters are `Nat`: the functions below never do arithmetic on a
  line counter themselves, they only hand it to `Helper` routines.
* The `Helper::` routines live in another translation unit. The scanner is
  written over a record of them (`Helper`); `specHelper` is one instance,
  modelled from the specification.
-/

namespace IDLCompiler

/-! ## Data model -/

/-- The token kinds of `IDLCompiler::TokenTypes`. -/
inductive TokenTypes
  | TokenType_Unknown
  | TokenType_Directive
  | TokenType_Documentation
  | TokenType_Char
  | TokenType_Quote
  | TokenType_Number
  | TokenType_Identifier
  | TokenType_SemiColon
  | TokenType_Brace
  | TokenType_CurlyBrace
  | TokenType_SquareBrace
  | TokenType_AngleBrace
  | TokenType_Operator
  | TokenType_ScopeOperator
  | TokenType_CommaOperator
  | TokenType_ColonOperator
  | TokenType_EqualsOperator
  deriving DecidableEq, Repr

open TokenTypes

/-- The record `IDLCompiler::Token`: kind, lexeme and line. -/
structure Token where
  mTokenType : TokenTypes
  mToken : List Char
  mLineCount : Nat
  deriving DecidableEq, Repr

/-! ## Bytes and cursors -/

/-- The terminating byte of a C string. -/
def NUL : Char := Char.ofNat 0

/-- The byte under the cursor, `*p`; at the end of the buffer it is the NUL. -/
def peek (p : List Char) : Char := p.headD NUL

/-- The byte `*(p+n)`. -/
def peekAt (p : List Char) (n : Nat) : Char := p.getD n NUL

/-- The C library's `isspace` in the "C" locale. -/
def isspace (c : Char) : Bool :=
  c = ' ' || c = '\t' || c = '\n' || c = Char.ofNat 11 || c = Char.ofNat 12 || c = '\r'

/-- The C library's `isnumber` (the decimal digits). -/
def isnumber (c : Char) : Bool :=
  c = '0' || c = '1' || c = '2' || c = '3' || c = '4' ||
  c = '5' || c = '6' || c = '7' || c = '8' || c = '9'

/-- The C library's `isalpha` in the "C" locale. -/
def isalpha (c : Char) : Bool :=
  (65 ≤ c.toNat && c.toNat ≤ 90) || (97 ≤ c.toNat && c.toNat ≤ 122)

/-- The C library's `isalnum` in the "C" locale. -/
def isalnum (c : Char) : Bool := isalpha c || isnumber c

/-- A line terminator byte, as `skipPreprocessor` tests for it. -/
def isEOL (c : Char) : Bool := c = '\n' || c = '\r'

/-! ## The `Helper` routines -/

/-- The routines of `Helper::` the scanner calls. Each takes the cursor (and
the line counter where the source passes it) and returns its `bool` result
with the cursor and counter it leaves behind; `decodeCEscape` returns `none`
when it throws. -/
structure Helper where
  skipWhitespaceExceptEOL : List Char → Bool × List Char
  skipEOL : List Char → Nat → Bool × List Char × Nat
  skipToEOL : List Char → List Char
  skipCComments : List Char → Nat → Bool × List Char × Nat
  skipCPPComments : List Char → Bool × List Char
  skipQuote : List Char → Nat → Bool × List Char × Nat
  decodeCEscape : List Char → Nat → Option (List Char × Nat)

/-- Modelled from the spec: `Helper::skipToEOL` is not in the source tree; it
stops at the first line terminator or NUL. -/
def specSkipToEOL : List Char → List Char
  | [] => []
  | c :: cs => if c = NUL ∨ isEOL c then c :: cs else specSkipToEOL cs

/-- Modelled from the spec: `Helper::skipEOL` is not in the source tree; it
consumes one line terminator and increments the counter. -/
def specSkipEOL (p : List Char) (line : Nat) : Bool × List Char × Nat :=
  if isEOL (peek p) then (true, p.drop 1, line + 1) else (false, p, line)

/-- Modelled from the spec: `Helper::skipWhitespaceExceptEOL` is not in the
source tree; it skips horizontal whitespace and reports whether it moved. -/
def specSkipWhitespaceExceptEOL (p : List Char) : Bool × List Char :=
  let q := p.dropWhile (fun c => isspace c && !isEOL c)
  (decide (q.length ≠ p.length), q)

/-- The scan for the closing `*/` of a C comment, counting line terminators. -/
def specCCommentBody : List Char → Nat → List Char × Nat
  | [], line => ([], line)
  | c :: cs, line =>
    if c = NUL then (c :: cs, line)
    else if c = '*' ∧ peek cs = '/' then (cs.drop 1, line)
    else specCCommentBody cs (if isEOL c then line + 1 else line)

/-- Modelled from the spec: `Helper::skipCComments` is not in the source tree;
it skips a `/* … */` comment and updates the line counter. -/
def specSkipCComments (p : List Char) (line : Nat) : Bool × List Char × Nat :=
  if peek p = '/' ∧ peekAt p 1 = '*' then
    let r := specCCommentBody (p.drop 2) line
    (true, r.1, r.2)
  else (false, p, line)

/-- Modelled from the spec: `Helper::skipCPPComments` is not in the source
tree; it skips a `//` comment up to the end of its line. -/
def specSkipCPPComments (p : List Char) : Bool × List Char :=
  if peek p = '/' ∧ peekAt p 1 = '/' then (true, specSkipToEOL (p.drop 2)) else (false, p)

/-- The scan for the closing double quote of a string literal, counting line
terminators; the flag says that the byte before was a backslash, which takes
the next byte with it. -/
def specQuoteBody : Bool → List Char → Nat → Option (List Char × Nat)
  | _, [], _ => none
  | escaped, c :: cs, line =>
    if c = NUL then none
    else if escaped then specQuoteBody false cs (if isEOL c then line + 1 else line)
    else if c = '"' then some (cs, line)
    else if c = '\\' then specQuoteBody true cs line
    else specQuoteBody false cs (if isEOL c then line + 1 else line)

/-- Modelled from the spec: `Helper::skipQuote` is not in the source tree; it
skips a double-quoted string literal honouring backslash escapes, and leaves
the cursor alone when the literal is not closed. -/
def specSkipQuote (p : List Char) (line : Nat) : Bool × List Char × Nat :=
  if peek p = '"' then
    match specQuoteBody false (p.drop 1) line with
    | some r => (true, r.1, r.2)
    | none => (false, p, line)
  else (false, p, line)

/-- Modelled from the spec: `Helper::decodeCEscape` is not in the source tree;
it steps over a backslash escape (`\x` takes two hex digits with it). -/
def specDecodeCEscape (p : List Char) (line : Nat) : Option (List Char × Nat) :=
  if peek p = '\\' then
    if peekAt p 1 = NUL then none
    else if peekAt p 1 = 'x' then some (p.drop 4, line)
    else some (p.drop 2, line)
  else some (p, line)

/-- Modelled from the spec: the `Helper` routines, which are not in the source
tree, as the specification describes them. -/
def specHelper : Helper where
  skipWhitespaceExceptEOL := specSkipWhitespaceExceptEOL
  skipEOL := specSkipEOL
  skipToEOL := specSkipToEOL
  skipCComments := specSkipCComments
  skipCPPComments := specSkipCPPComments
  skipQuote := specSkipQuote
  decodeCEscape := specDecodeCEscape

/-! ## Numbers -/

/-- The prefix switch of `getNumberToken`: the base chosen and the cursor
after the prefix. -/
def getNumberBase (p : List Char) : Nat × List Char :=
  if peek p = '0' then
    let c := peekAt p 1
    if c = 'x' ∨ c = 'X' then (16, p.drop 2)
    else if c = 'b' ∨ c = 'B' then (2, p.drop 2)
    else if c = '.' then (10, p)
    else if c = '0' ∨ c = '1' ∨ c = '2' ∨ c = '3' ∨ c = '4' ∨ c = '5' ∨ c = '6' ∨ c = '7'
      then (8, p.drop 1)
    else (10, p)
  else (10, p)

/-- The letters `a`-`f`, `A`-`F` of the digit loop's last case group. -/
def isHexLetter (c : Char) : Bool :=
  c = 'a' || c = 'A' || c = 'b' || c = 'B' || c = 'c' || c = 'C' ||
  c = 'd' || c = 'D' || c = 'e' || c = 'E' || c = 'f' || c = 'F'

/-- The digit loop of `getNumberToken` (`while ('\0' != *p) switch (*p)`):
the cursor where it leaves for `check_exponent`. The flag `foundDot` is
written but never read, and is left out. -/
def digitLoop (base : Nat) : List Char → List Char
  | [] => []
  | c :: cs =>
    if c = NUL then c :: cs
    else if c = '.' then
      if base ≠ 10 then c :: cs else digitLoop base cs
    else if c = '0' ∨ c = '1' then digitLoop base cs
    else if c = '2' ∨ c = '3' ∨ c = '4' ∨ c = '5' ∨ c = '6' ∨ c = '7' then
      if base ≥ 8 then digitLoop base cs else c :: cs
    else if c = '8' ∨ c = '9' then
      if base ≥ 10 then digitLoop base cs else c :: cs
    else if isHexLetter c then
      if base ≥ 10 then digitLoop base cs else c :: cs
    else c :: cs

/-- The block `check_exponent`: `none` is the jump to `done` with the cursor
put back on the `e`; `some q` is the cursor handed to `check_postfix`. -/
def checkExponent (base : Nat) (p : List Char) : Option (List Char) :=
  if peek p ≠ 'e' ∧ peek p ≠ 'E' then some p
  else if base ≠ 10 then some p
  else
    let p1 := p.drop 1
    let p2 := if peek p1 = '-' ∨ peek p1 = '+' then p1.drop 1 else p1
    let p3 := p2.dropWhile isnumber
    let foundExponentNumber := isnumber (peek p2)
    if !foundExponentNumber then none else some p3

/-- The loop of `check_postfix`, with its locals `mUnsigned`, `mFloat`,
`foundLongs`, `lastWasLong`: `none` is `invalid_postfix`, `some q` is the
cursor at `done`. -/
def postfixLoop (base : Nat) : Bool → Bool → Nat → Bool → List Char → Option (List Char)
  | _, _, _, _, [] => some []
  | mUnsigned, mFloat, foundLongs, lastWasLong, c :: cs =>
    if c = 'u' ∨ c = 'U' then
      if mUnsigned then none
      else if mFloat then none
      else postfixLoop base true mFloat foundLongs false cs
    else if c = 'l' ∨ c = 'L' then
      if foundLongs > 0 ∧ mFloat then none
      else if foundLongs > 0 ∧ lastWasLong = false then none
      else if foundLongs + 1 > 2 then none
      else postfixLoop base mUnsigned mFloat (foundLongs + 1) true cs
    else if c = 'f' ∨ c = 'F' then
      if base ≠ 10 then none
      else if mUnsigned then none
      else if foundLongs > 1 then none
      else if mFloat then none
      else postfixLoop base mUnsigned true foundLongs false cs
    else some (c :: cs)

/-- The block `check_postfix`: the cursor at `done` (`postFixStart` when the
suffix is invalid). -/
def checkPostfix (base : Nat) (p : List Char) : List Char :=
  match postfixLoop base false false 0 false p with
  | some q => q
  | none => p

/-- The cursor at `done` of `getNumberToken`, from the first digit `start`. -/
def numberEnd (start : List Char) : List Char :=
  let bp := getNumberBase start
  let p := digitLoop bp.1 bp.2
  match checkExponent bp.1 p with
  | none => p
  | some q => checkPostfix bp.1 q

/-- The function `getNumberToken`: `none` is the null `TokenPtr` (cursor
untouched), otherwise the token and the cursor after it. -/
def getNumberToken (h : Helper) (p : List Char) (lineCount : Nat) :
    Option (Token × List Char) :=
  let foundNegative := decide (peek p = '-')
  let start := if foundNegative then (h.skipWhitespaceExceptEOL (p.drop 1)).2 else p
  if !isnumber (peek start) then none
  else
    let q := numberEnd start
    let mToken := start.take (start.length - q.length)
    some ({ mTokenType := TokenType_Number
            mToken := if foundNegative then '-' :: mToken else mToken
            mLineCount := lineCount }, q)

/-! ## Comments, quotes, characters -/

/-- The function `getCPPDirectiveToken`. The cursor is passed by value, so
only the token and the line counter come back. The lexeme is built by
`String(p, p - start)` with `p` already at the end of the line: it is read from
`p`, not from `start` (bytes past the terminating NUL are not modelled). -/
def getCPPDirectiveToken (h : Helper) (p : List Char) (ioLineCount : Nat) :
    Option (Token × Nat) :=
  if peek p ≠ '/' then none
  else if peekAt p 1 ≠ '/' then none
  else if peekAt p 2 ≠ '!' then none
  else
    let start := p.drop 3
    let q := h.skipToEOL start
    let str := q.take (start.length - q.length)
    some ({ mTokenType := TokenType_Directive, mToken := str, mLineCount := ioLineCount },
          (h.skipEOL q ioLineCount).2.2)

/-- The function `getCPPDocToken`; as `getCPPDirectiveToken`, for `///`. -/
def getCPPDocToken (h : Helper) (p : List Char) (ioLineCount : Nat) :
    Option (Token × Nat) :=
  if peek p ≠ '/' then none
  else if peekAt p 1 ≠ '/' then none
  else if peekAt p 2 ≠ '/' then none
  else
    let start := p.drop 3
    let q := h.skipToEOL start
    let str := q.take (start.length - q.length)
    some ({ mTokenType := TokenType_Documentation, mToken := str, mLineCount := ioLineCount },
          (h.skipEOL q ioLineCount).2.2)

/-- The function `getQuoteToken`: the token (if any) with the cursor and line
counter `Helper::skipQuote` leaves behind. -/
def getQuoteToken (h : Helper) (p : List Char) (ioLineCount : Nat) :
    Option Token × List Char × Nat :=
  let currentLine := ioLineCount
  let r := h.skipQuote p ioLineCount
  if !r.1 then (none, r.2.1, r.2.2)
  else
    (some { mTokenType := TokenType_Quote
            mToken := p.take (p.length - r.2.1.length)
            mLineCount := currentLine }, r.2.1, r.2.2)

/-- The function `getCharToken`: `none` when `Helper::decodeCEscape` throws. No
function of the source calls it. -/
def getCharToken (h : Helper) (p : List Char) (ioLineCount : Nat) :
    Option (Option Token × List Char × Nat) :=
  let currentLine := ioLineCount
  if peek p ≠ '\'' then some (none, p, ioLineCount)
  else
    let p1 := p.drop 1
    match (if peek p1 = '\\' then h.decodeCEscape p1 ioLineCount
           else some (p1.drop 1, ioLineCount)) with
    | none => none
    | some r =>
      if peek r.1 ≠ '\'' then some (none, r.1, r.2)
      else
        let q := r.1.drop 1
        some (some { mTokenType := TokenType_Char
                     mToken := p.take (p.length - q.length)
                     mLineCount := currentLine }, q, r.2)

/-! ## Identifiers, operators, unknown bytes -/

/-- The function `getIdentifierToken`. -/
def getIdentifierToken (p : List Char) (lineCount : Nat) : Option (Token × List Char) :=
  if !isalpha (peek p) ∧ peek p ≠ '_' then none
  else
    let q := p.dropWhile (fun c => isalnum c || c = '_')
    some ({ mTokenType := TokenType_Identifier
            mToken := p.take (p.length - q.length)
            mLineCount := lineCount }, q)

/-- The table `operators` of `getOperatorToken` (its live entries). -/
def operators : List (List Char) :=
  [['{'], ['}'], ['('], [')'], ['['], [']'], [';'], ['<'], ['>'], [':', ':'],
   ['='], [':'], [','], ['?']]

/-- The scanning loop of `getOperatorToken`: `valid` grows by one byte while
`valid` plus the next byte is in the table. -/
def operatorLoop : List Char → List Char → List Char × List Char
  | valid, [] => (valid, [])
  | valid, c :: cs =>
    if c = NUL then (valid, c :: cs)
    else
      let test := valid ++ [c]
      if test ∈ operators then operatorLoop test cs else (valid, c :: cs)

/-- The kind `getOperatorToken` gives to a lexeme. -/
def operatorKind (valid : List Char) : TokenTypes :=
  if valid = [';'] then TokenType_SemiColon
  else if valid = ['('] then TokenType_Brace
  else if valid = [')'] then TokenType_Brace
  else if valid = ['{'] then TokenType_CurlyBrace
  else if valid = ['}'] then TokenType_CurlyBrace
  else if valid = ['['] then TokenType_SquareBrace
  else if valid = [']'] then TokenType_SquareBrace
  else if valid = ['<'] then TokenType_AngleBrace
  else if valid = ['>'] then TokenType_AngleBrace
  else if valid = [':', ':'] then TokenType_ScopeOperator
  else if valid = [','] then TokenType_CommaOperator
  else if valid = [':'] then TokenType_ColonOperator
  else if valid = ['='] then TokenType_EqualsOperator
  else TokenType_Operator

/-- The function `getOperatorToken`. It builds its result unconditionally: the
returned pointer is never null, also when no operator was read. -/
def getOperatorToken (p : List Char) (lineCount : Nat) : Option (Token × List Char) :=
  let r := operatorLoop [] p
  some ({ mTokenType := operatorKind r.1, mToken := r.1, mLineCount := lineCount }, r.2)

/-- The function `getUnknownToken`. -/
def getUnknownToken (p : List Char) (lineCount : Nat) : Option (Token × List Char) :=
  if peek p = NUL then none
  else some ({ mTokenType := TokenType_Unknown, mToken := p.take 1, mLineCount := lineCount },
             p.drop 1)

/-! ## Preprocessor lines -/

/-- How the backward walk of `skipPreprocessor` ends. -/
inductive LookBack
  | atStart
  | lineBreak (i : Nat)
  | found (i : Nat)
  deriving DecidableEq, Repr

/-- The inner loop of `skipPreprocessor`, `while (p != startPos) { --p; … }`,
up to its first byte that is not skipped; the cursor is the offset `i` from
`startPos`. -/
def lookBack (startPos : List Char) : Nat → LookBack
  | 0 => LookBack.atStart
  | i + 1 =>
    let c := peekAt startPos i
    if c = '\n' ∨ c = '\r' then LookBack.lineBreak i
    else if isspace c then lookBack startPos i
    else LookBack.found i

/-- The function `skipPreprocessor`, one unit of fuel for each turn of its
`while (true)`; `none` when the fuel runs out. -/
def skipPreprocessor (h : Helper) (startPos : List Char) :
    Nat → List Char → Nat → Option (List Char × Nat)
  | 0, _, _ => none
  | fuel + 1, p, ioLineCount =>
    let p1 := h.skipToEOL p
    match lookBack startPos (startPos.length - p1.length) with
    | LookBack.atStart => skipPreprocessor h startPos fuel startPos ioLineCount
    | LookBack.lineBreak i => skipPreprocessor h startPos fuel (startPos.drop i) ioLineCount
    | LookBack.found i =>
      let q := startPos.drop i
      if peek q = '\\' then
        let r := h.skipEOL (h.skipToEOL q) ioLineCount
        if r.1 then skipPreprocessor h startPos fuel r.2.1 r.2.2
        else
          let r2 := h.skipEOL (h.skipToEOL r.2.1) r.2.2
          some (r2.2.1, r2.2.2)
      else
        let r2 := h.skipEOL (h.skipToEOL q) ioLineCount
        some (r2.2.1, r2.2.2)

/-! ## The main loop -/

/-- The variables `getNextToken` works on by reference. -/
structure LexState where
  p : List Char
  ioStartOfLine : Bool
  ioLineCount : Nat
  deriving DecidableEq, Repr

/-- How one turn of the loop of `getNextToken` ends: at a `continue`, at a
`return`, or with `skipPreprocessor` out of fuel. -/
inductive Turn
  | continueLoop (st : LexState)
  | returnToken (r : Option Token) (st : LexState)
  | outOfFuel
  deriving DecidableEq, Repr

/-- The second half of a turn of `getNextToken`: the attempts at a quote, a
number, an identifier, an operator and an unknown byte, in this order. -/
def getNextTokenAttempts (h : Helper) (st : LexState) : Turn :=
  match getQuoteToken h st.p st.ioLineCount with
  | (some t, q, line) => Turn.returnToken (some t) ⟨q, false, line⟩
  | (none, q, line) =>
    match getNumberToken h q line with
    | some r => Turn.returnToken (some r.1) ⟨r.2, false, line⟩
    | none =>
      match getIdentifierToken q line with
      | some r => Turn.returnToken (some r.1) ⟨r.2, false, line⟩
      | none =>
        match getOperatorToken q line with
        | some r => Turn.returnToken (some r.1) ⟨r.2, false, line⟩
        | none =>
          match getUnknownToken q line with
          | some r => Turn.returnToken (some r.1) ⟨r.2, false, line⟩
          | none => Turn.continueLoop ⟨q, st.ioStartOfLine, line⟩

/-- One turn of the loop of `getNextToken`, entered with `'\0' != *p`; `fuel`
is what `skipPreprocessor` may use. -/
def getNextTokenTurn (h : Helper) (fuel : Nat) (st : LexState) : Turn :=
  let activeLine := st.ioLineCount
  let ws := h.skipWhitespaceExceptEOL st.p
  if ws.1 then Turn.continueLoop { st with p := ws.2 }
  else
    let eol := h.skipEOL ws.2 st.ioLineCount
    if eol.1 then Turn.continueLoop ⟨eol.2.1, true, eol.2.2⟩
    else if st.ioStartOfLine ∧ peek eol.2.1 = '#' then
      match skipPreprocessor h eol.2.1 fuel eol.2.1 eol.2.2 with
      | none => Turn.outOfFuel
      | some r => Turn.continueLoop ⟨r.1, true, r.2⟩
    else
      let cc := h.skipCComments eol.2.1 eol.2.2
      if cc.1 then
        Turn.continueLoop
          ⟨cc.2.1, if activeLine ≠ cc.2.2 then true else st.ioStartOfLine, cc.2.2⟩
      else
        match getCPPDirectiveToken h cc.2.1 cc.2.2 with
        | some r => Turn.returnToken (some r.1) ⟨cc.2.1, true, r.2⟩
        | none =>
          match getCPPDocToken h cc.2.1 cc.2.2 with
          | some r => Turn.returnToken (some r.1) ⟨cc.2.1, true, r.2⟩
          | none =>
            let cpp := h.skipCPPComments cc.2.1
            if cpp.1 then
              let e := h.skipEOL cpp.2 cc.2.2
              Turn.continueLoop ⟨e.2.1, true, e.2.2⟩
            else getNextTokenAttempts h ⟨cpp.2, st.ioStartOfLine, cc.2.2⟩

/-- The function `getNextToken`, one unit of fuel for each turn of its
`while ('\0' != *p)`: `none` when the fuel runs out, `some (none, st)` for the
null `TokenPtr` at the end of input, `some (some t, st)` for a token. -/
def getNextToken (h : Helper) : Nat → LexState → Option (Option Token × LexState)
  | 0, _ => none
  | fuel + 1, st =>
    if peek st.p = NUL then some (none, st)
    else
      match getNextTokenTurn h fuel st with
      | Turn.continueLoop st' => getNextToken h fuel st'
      | Turn.returnToken r st' => some (r, st')
      | Turn.outOfFuel => none

/-- The loop of `tokenize`, cut after `n` calls of `getNextToken`: the tokens
pushed to `outTokens` so far, and whether the loop has reached its `break`. -/
def tokenizeLoop (h : Helper) (fuel : Nat) : Nat → LexState → List Token × Bool
  | 0, _ => ([], false)
  | n + 1, st =>
    match getNextToken h fuel st with
    | none => ([], false)
    | some (none, _) => ([], true)
    | some (some t, st') =>
      let r := tokenizeLoop h fuel n st'
      (t :: r.1, r.2)

/-- The function `tokenize`: the token list it fills, when its loop ends within
`n` tokens of `fuel` scanner steps each. -/
def tokenize (h : Helper) (fuel n : Nat) (p : List Char) (startLineNumber : Nat) :
    Option (List Token) :=
  let r := tokenizeLoop h fuel n ⟨p, true, startLineNumber⟩
  if r.2 then some r.1 else none

/-! ## Predicates of the specification -/

/-- The `Helper` routines that take the line counter never decrease it. -/
def LineMonotone (h : Helper) : Prop :=
  (∀ p l, l ≤ (h.skipEOL p l).2.2) ∧ (∀ p l, l ≤ (h.skipCComments p l).2.2) ∧
  (∀ p l, l ≤ (h.skipQuote p l).2.2)

/-- A token kind other than Char and Unknown. -/
def Emittable (k : TokenTypes) : Prop := k ≠ TokenType_Char ∧ k ≠ TokenType_Unknown

/-- What a turn of the loop hands on, in terms of the state it started from. -/
def TurnOK (h : Helper) (st : LexState) : Turn → Prop
  | Turn.continueLoop st' => LineMonotone h → st.ioLineCount ≤ st'.ioLineCount
  | Turn.returnToken r st' =>
    (LineMonotone h → st.ioLineCount ≤ st'.ioLineCount ∧
      ∀ t, r = some t → st.ioLineCount ≤ t.mLineCount ∧ t.mLineCount ≤ st'.ioLineCount) ∧
    (∀ t, r = some t → Emittable t.mTokenType)
  | Turn.outOfFuel => True

/-- The suffix letter `u` or `U`. -/
def isSuffixU (c : Char) : Bool := c = 'u' || c = 'U'

/-- The suffix letter `l` or `L`. -/
def isSuffixL (c : Char) : Bool := c = 'l' || c = 'L'

/-- A byte the suffix scanner of `getNumberToken` has a case for. -/
def isSuffixByte (c : Char) : Bool := isSuffixU c || isSuffixL c || c = 'f' || c = 'F'

/-- A byte the digit loop consumes in base 10. -/
def continuesDigits (c : Char) : Bool := isnumber c || c = '.' || isHexLetter c

/-- The `l`s of a suffix stand together: after the first block of `l`s there
is no further `l`. -/
def longsAdjacent (s : List Char) : Bool :=
  ((s.dropWhile (fun c => !isSuffixL c)).dropWhile isSuffixL).all (fun c => !isSuffixL c)

/-- A suffix as the specification accepts it: at most one `u`, at most two
`l`s, and these adjacent. -/
def wellFormedSuffix (s : List Char) : Bool :=
  decide (s.countP isSuffixU ≤ 1) && decide (s.countP isSuffixL ≤ 2) && longsAdjacent s

/-- The same condition on the rest of a suffix, seen from the locals of
`check_postfix` after the part already read. -/
def suffixOK (mUnsigned : Bool) (foundLongs : Nat) (lastWasLong : Bool) (s : List Char) : Bool :=
  decide ((if mUnsigned then 1 else 0) + s.countP isSuffixU ≤ 1) &&
  decide (foundLongs + s.countP isSuffixL ≤ 2) &&
  (if foundLongs = 0 then longsAdjacent s
   else if lastWasLong then (s.dropWhile isSuffixL).all (fun c => !isSuffixL c)
   else s.all (fun c => !isSuffixL c))

/-! ## Token methods -/

/-- The method `Token::isBrace`. -/
def Token.isBrace (t : Token) : Bool :=
  match t.mTokenType with
  | TokenType_Brace => true
  | TokenType_CurlyBrace => true
  | TokenType_SquareBrace => true
  | TokenType_AngleBrace => true
  | _ => false

/-- The method `Token::isOpenBrace`. -/
def Token.isOpenBrace (t : Token) : Bool :=
  match t.mTokenType with
  | TokenType_Brace => t.mToken = ['(']
  | TokenType_CurlyBrace => t.mToken = ['{']
  | TokenType_SquareBrace => t.mToken = ['[']
  | TokenType_AngleBrace => t.mToken = ['<']
  | _ => false

/-- The method `Token::isCloseBrace`. -/
def Token.isCloseBrace (t : Token) : Bool :=
  match t.mTokenType with
  | TokenType_Brace => t.mToken = [')']
  | TokenType_CurlyBrace => t.mToken = ['}']
  | TokenType_SquareBrace => t.mToken = [']']
  | TokenType_AngleBrace => t.mToken = ['>']
  | _ => false

/-! ## Errors, compiler state and the monad of the parser -/

/-- The error codes passed to the exceptions (macros of another header). -/
inductive ErrorCode
  | ZS_EVENTING_TOOL_INVALID_CONTENT
  | ZS_EVENTING_TOOL_UNEXPECTED_EOF
  | ZS_EVENTING_TOOL_FILE_FAILED_TO_LOAD
  | ZS_EVENTING_TOOL_SYSTEM_ERROR
  deriving DecidableEq, Repr

open ErrorCode

/-- The exceptions the parser raises: `FailureWithLine` with code, line and
message, the `InvalidUsage` of `ZS_THROW_INVALID_USAGE`, the
`InvalidArgument` of the modifier table where no `catch` stands around its
call, and the `InvalidContent` of the type resolver. -/
inductive Failure
  | FailureWithLine (code : ErrorCode) (line : Nat) (message : List Char)
  | InvalidUsage (message : List Char)
  | InvalidArgument
  | InvalidContent (message : List Char)
  deriving DecidableEq, Repr

/-- The members of `IDLCompiler` the parser works on. The stacks have their
top at the head of the list; a null `TokenPtr` is `none`; `mProject` is the
object graph behind `mConfig.mProject`, whose classes are declared outside
this source file and which stays a type parameter. -/
structure IDLCompilerState (G : Type) where
  mTokenListStack : List (List Token)
  mLastTokenStack : List (Option Token)
  mLastToken : Option Token
  mPendingDocumentation : List Token
  mPendingModifiers : List (List Char × List (List Char))
  mProject : G

/-- How a member function ends: it returns a value, it throws, or the fuel
given to its loops has run out before it did either. The state is the one it
leaves behind. -/
inductive Result (G α : Type)
  | ok (a : α) (s : IDLCompilerState G)
  | error (e : Failure) (s : IDLCompilerState G)
  | timeout

/-- A member function of `IDLCompiler` with result type `α`. -/
def M (G α : Type) : Type := IDLCompilerState G → Result G α

/-- A plain `return`. -/
def M.pure {G α : Type} (a : α) : M G α := fun s => Result.ok a s

/-- Sequencing: an error or a timeout of the first part ends the whole. -/
def M.bind {G α β : Type} (m : M G α) (f : α → M G β) : M G β := fun s =>
  match m s with
  | Result.ok a s' => f a s'
  | Result.error e s' => Result.error e s'
  | Result.timeout => Result.timeout

instance instMonadM (G : Type) : Monad (M G) where
  pure := M.pure
  bind := M.bind

/-- A `throw`. -/
def throwFailure {G α : Type} (e : Failure) : M G α := fun s => Result.error e s

/-- A loop that has used up its fuel. -/
def outOfFuel {G α : Type} : M G α := fun _ => Result.timeout

/-- Read the members. -/
def getState {G : Type} : M G (IDLCompilerState G) := fun s => Result.ok s s

/-- Write the members. -/
def setState {G : Type} (s : IDLCompilerState G) : M G Unit := fun _ => Result.ok () s

/-! ## The token-stack machine -/

/-- The method `getTokens`: the active stream, a null pointer when the stack is
empty. -/
def getTokens {G : Type} (s : IDLCompilerState G) : Option (List Token) :=
  if s.mTokenListStack.length < 1 then none else s.mTokenListStack.head?

/-- The method `hasMoreTokens`. -/
def hasMoreTokens {G : Type} (s : IDLCompilerState G) : Bool :=
  if s.mTokenListStack.length < 1 then false
  else if ((getTokens s).getD []).length < 1 then false
  else true

/-- The method `getLastLineNumber`. -/
def getLastLineNumber {G : Type} (s : IDLCompilerState G) : Nat :=
  match s.mLastToken with
  | none => 1
  | some t => t.mLineCount

/-- The method `pushTokens` (both overloads: the stream is kept by value). -/
def pushTokens {G : Type} (tokens : List Token) : M G Unit := fun s =>
  Result.ok ()
    { s with mTokenListStack := tokens :: s.mTokenListStack
             mLastTokenStack := tokens.head? :: s.mLastTokenStack }

/-- The method `popTokens`; popping an empty `std::stack` is outside the model
and leaves it empty. -/
def popTokens {G : Type} : M G (List Token) := fun s =>
  let result := s.mTokenListStack.headD []
  let lastTokenStack := s.mLastTokenStack.drop 1
  Result.ok result
    { s with mTokenListStack := s.mTokenListStack.drop 1
             mLastTokenStack := lastTokenStack
             mLastToken :=
               match lastTokenStack with
               | some token :: _ => some token
               | _ => s.mLastToken }

/-- The end-of-input throw shared by `peekNextToken` and `extractNextToken`:
with a frame on `mLastTokenStack` the result of `top()` is dropped and
`lastToken` stays null, so the line is 0. -/
def unexpectedEOF {G α : Type} (whatExpectingMoreTokens : List Char) : M G α := fun s =>
  let lastToken : Option Token :=
    if s.mLastTokenStack.length > 0 then none else s.mLastToken
  Result.error
    (Failure.FailureWithLine ZS_EVENTING_TOOL_UNEXPECTED_EOF
      (match lastToken with
       | some t => t.mLineCount
       | none => 0)
      (whatExpectingMoreTokens ++ " unexpectedly reached EOF".toList)) s

/-- The method `peekNextToken`. -/
def peekNextToken {G : Type} (whatExpectingMoreTokens : List Char) : M G Token := fun s =>
  match s.mTokenListStack with
  | (token :: _) :: _ => Result.ok token s
  | _ => unexpectedEOF whatExpectingMoreTokens s

/-- The method `extractNextToken`. -/
def extractNextToken {G : Type} (whatExpectingMoreTokens : List Char) : M G Token := fun s =>
  match s.mTokenListStack with
  | (token :: rest) :: lower =>
    Result.ok token
      { s with mLastToken := some token
               mLastTokenStack := some token :: s.mLastTokenStack.drop 1
               mTokenListStack := rest :: lower }
  | _ => unexpectedEOF whatExpectingMoreTokens s

/-- The method `putBackToken`. -/
def putBackToken {G : Type} (token : Token) : M G Unit := fun s =>
  match s.mTokenListStack with
  | [] => Result.error (Failure.InvalidUsage "must have active stack of tokens".toList) s
  | tokens :: lower =>
    Result.ok ()
      { s with mTokenListStack := (token :: tokens) :: lower
               mLastToken := some token
               mLastTokenStack := some token :: s.mLastTokenStack.drop 1 }

/-- The method `insertBefore`: onto an empty list by assignment, otherwise by
`push_front` of the new tokens from the last to the first. -/
def insertBefore (tokens insertTheseTokens : List Token) : List Token :=
  if tokens.length < 1 then insertTheseTokens
  else insertTheseTokens.reverse.foldl (fun acc t => t :: acc) tokens

/-- The method `putBackTokens`. -/
def putBackTokens {G : Type} (tokens : List Token) : M G Unit := fun s =>
  match s.mTokenListStack with
  | [] => Result.error (Failure.InvalidUsage "must have active stack of tokens".toList) s
  | existingTokens :: lower =>
    let existingTokens := insertBefore existingTokens tokens
    let firstToken := existingTokens.head?
    Result.ok ()
      { s with mTokenListStack := existingTokens :: lower
               mLastToken := match firstToken with
                             | some t => some t
                             | none => s.mLastToken
               mLastTokenStack := firstToken :: s.mLastTokenStack.drop 1 }

/-! ## Brace-balanced extraction -/

/-- The four depth counters of `extractToClosingBraceToken`. -/
structure BraceCounts where
  countBrace : Nat
  countCurly : Nat
  countSquare : Nat
  countAngle : Nat
  deriving DecidableEq, Repr

/-- The counter update for one token inside the loop of
`extractToClosingBraceToken`; `none` is the jump to `brace_mismatch`. -/
def BraceCounts.update (c : BraceCounts) (token : Token) : Option BraceCounts :=
  if token.isBrace then
    if token.isOpenBrace then
      match token.mTokenType with
      | TokenType_Brace => some { c with countBrace := c.countBrace + 1 }
      | TokenType_CurlyBrace => some { c with countCurly := c.countCurly + 1 }
      | TokenType_SquareBrace => some { c with countSquare := c.countSquare + 1 }
      | TokenType_AngleBrace => some { c with countAngle := c.countAngle + 1 }
      | _ => some c
    else
      match token.mTokenType with
      | TokenType_Brace =>
        if c.countBrace < 1 then none else some { c with countBrace := c.countBrace - 1 }
      | TokenType_CurlyBrace =>
        if c.countCurly < 1 then none else some { c with countCurly := c.countCurly - 1 }
      | TokenType_SquareBrace =>
        if c.countSquare < 1 then none else some { c with countSquare := c.countSquare - 1 }
      | TokenType_AngleBrace =>
        if c.countAngle < 1 then none else some { c with countAngle := c.countAngle - 1 }
      | _ => some c
  else some c

/-- The condition of the `do … while` of `extractToClosingBraceToken`. -/
def BraceCounts.anyOpen (c : BraceCounts) : Bool :=
  decide (c.countBrace > 0) || decide (c.countCurly > 0) || decide (c.countSquare > 0) ||
    decide (c.countAngle > 0)

/-- The `do … while` loop of `extractToClosingBraceToken`, one unit of fuel for
each turn; it returns `outTokens`. -/
def extractToClosingBraceLoop {G : Type} (whatExpectingClosingToken : List Char) :
    Nat → BraceCounts → List Token → M G (List Token)
  | 0, _, _ => outOfFuel
  | fuel + 1, c, outTokens => do
    let token ← extractNextToken whatExpectingClosingToken
    let outTokens := outTokens ++ [token]
    match c.update token with
    | none =>
      let s ← getState
      throwFailure (Failure.FailureWithLine ZS_EVENTING_TOOL_INVALID_CONTENT
        (getLastLineNumber s) (whatExpectingClosingToken ++ " brace mismatch".toList))
    | some c' =>
      if c'.anyOpen then extractToClosingBraceLoop whatExpectingClosingToken fuel c' outTokens
      else pure outTokens

/-- Modelled from the spec: the default value of the parameter
`includeOuterBrace` of `extractToClosingBraceToken`. The header that declares
the method is not among the sources; the specification writes
`includeOuter=true`. -/
def includeOuterBraceDefault : Bool := true

/-- Modelled from the spec: the default value of the parameter
`includeFoundToken` of `extractToTokenType`, declared in the same header; the
specification writes `includeFoundToken=false`. -/
def includeFoundTokenDefault : Bool := false

/-- Modelled from the spec: the default value of the parameter
`processBrackets` of `extractToTokenType`, declared in the same header; the
specification writes `processBrackets=true`. -/
def processBracketsDefault : Bool := true

/-- The method `extractToClosingBraceToken`: its `bool` result and `outTokens`
as it leaves it. -/
def extractToClosingBraceToken {G : Type} (whatExpectingClosingToken : List Char)
    (outTokens : List Token) (includeOuterBrace : Bool) (fuel : Nat) :
    M G (Bool × List Token) := do
  let token ← peekNextToken whatExpectingClosingToken
  if !token.isBrace then return (false, outTokens)
  if !token.isOpenBrace then return (false, outTokens)
  let outTokens ← extractToClosingBraceLoop whatExpectingClosingToken fuel ⟨0, 0, 0, 0⟩ outTokens
  if !includeOuterBrace then
    if outTokens.length > 1 then
      return (true, (outTokens.drop 1).dropLast)
  return (true, outTokens)

/-- The method `extractToTokenType`, one unit of fuel for each turn of its
loop; the region extraction inside has the rest of the fuel. -/
def extractToTokenType {G : Type} (whatExpectingComma : List Char)
    (searchTokenType : TokenTypes) (includeFoundToken processBrackets : Bool) :
    Nat → List Token → M G (Bool × List Token)
  | 0, _ => outOfFuel
  | fuel + 1, outTokens => do
    let s ← getState
    if !hasMoreTokens s then return (true, outTokens)
    let token ← extractNextToken whatExpectingComma
    if searchTokenType = token.mTokenType then
      if !includeFoundToken then
        putBackToken token
      return (true, outTokens)
    if processBrackets && token.isBrace then
      putBackToken token
      if token.isCloseBrace then return (true, outTokens)
      let r ← extractToClosingBraceToken whatExpectingComma [] true fuel
      extractToTokenType whatExpectingComma searchTokenType includeFoundToken processBrackets
        fuel (outTokens ++ r.2)
    else
      extractToTokenType whatExpectingComma searchTokenType includeFoundToken processBrackets
        fuel (outTokens ++ [token])

/-- The method `extractToComma`; it leaves the two flags to their defaults. -/
def extractToComma {G : Type} (whatExpectingComma : List Char) (outTokens : List Token)
    (fuel : Nat) : M G (Bool × List Token) :=
  extractToTokenType whatExpectingComma TokenType_CommaOperator includeFoundTokenDefault
    processBracketsDefault fuel outTokens

/-- The method `extractToEquals`; it leaves the two flags to their defaults. -/
def extractToEquals {G : Type} (whatExpectingComma : List Char) (outTokens : List Token)
    (fuel : Nat) : M G (Bool × List Token) :=
  extractToTokenType whatExpectingComma TokenType_EqualsOperator includeFoundTokenDefault
    processBracketsDefault fuel outTokens

/-! ## Predicates of the specification: token streams and brace regions -/

/-- The state `s` after tokens of the active stream have been extracted, the
last of them `t`, with `rest` left in the active stream. -/
def consumed {G : Type} (s : IDLCompilerState G) (t : Token) (rest : List Token) :
    IDLCompilerState G :=
  { s with mLastToken := some t
           mLastTokenStack := some t :: s.mLastTokenStack.drop 1
           mTokenListStack := rest :: s.mTokenListStack.drop 1 }

/-- The state `s` with the active stream replaced by `active`, after the
extraction of `last` if there was one. -/
def withActive {G : Type} (s : IDLCompilerState G) (last : Option Token)
    (active : List Token) : IDLCompilerState G :=
  match last with
  | none => { s with mTokenListStack := active :: s.mTokenListStack.drop 1 }
  | some t => consumed s t active

/-- The kinds of brace tokens. -/
def braceKinds : List TokenTypes :=
  [TokenType_Brace, TokenType_CurlyBrace, TokenType_SquareBrace, TokenType_AngleBrace]

/-- The counter kept for a brace kind. -/
def BraceCounts.get (c : BraceCounts) (k : TokenTypes) : Nat :=
  match k with
  | TokenType_Brace => c.countBrace
  | TokenType_CurlyBrace => c.countCurly
  | TokenType_SquareBrace => c.countSquare
  | TokenType_AngleBrace => c.countAngle
  | _ => 0

/-- The number of open braces of kind `k` in a token list. -/
def openCount (k : TokenTypes) (ts : List Token) : Nat :=
  ts.countP (fun t => decide (t.mTokenType = k) && t.isOpenBrace)

/-- The number of close braces of kind `k` in a token list. -/
def closeCount (k : TokenTypes) (ts : List Token) : Nat :=
  ts.countP (fun t => decide (t.mTokenType = k) && t.isCloseBrace)

/-- For each brace kind as many open as close tokens. -/
def Balanced (ts : List Token) : Prop :=
  ∀ k ∈ braceKinds, openCount k ts = closeCount k ts

instance instDecidableBalanced (ts : List Token) : Decidable (Balanced ts) := by
  unfold Balanced
  infer_instance

/-- A token that, when it is of a brace kind, is an open or a close brace. -/
def LexedBrace (t : Token) : Prop :=
  t.isBrace = true → t.isOpenBrace = true ∨ t.isCloseBrace = true

/-- A turn of the lexer that hands on no token or a `LexedBrace` one. -/
def TurnBraces : Turn → Prop
  | Turn.returnToken (some t) _ => LexedBrace t
  | _ => True

/-- Every token of a brace kind is an open or a close brace, as every token
of the lexer is. -/
def LexedBraces (ts : List Token) : Prop :=
  ∀ t ∈ ts, t.isBrace = true → t.isOpenBrace = true ∨ t.isCloseBrace = true

instance instDecidableLexedBraces (ts : List Token) : Decidable (LexedBraces ts) := by
  unfold LexedBraces
  infer_instance

/-- A brace region as `extractToClosingBraceToken` takes it, entered with
counters `c`: no close brace meets a zero counter of its kind, the counters
are not all zero before the end, and they are all zero at the end. -/
def RegionFrom (c : BraceCounts) (q : List Token) : Prop :=
  q ≠ [] ∧
  (∀ n, 0 < n → n ≤ q.length → ∀ k ∈ braceKinds,
    closeCount k (q.take n) ≤ c.get k + openCount k (q.take n)) ∧
  (∀ n, 0 < n → n < q.length → ∃ k ∈ braceKinds,
    closeCount k (q.take n) < c.get k + openCount k (q.take n)) ∧
  (∀ k ∈ braceKinds, c.get k + openCount k q = closeCount k q)

/-- A balanced brace region: it starts with an open brace and is a
`RegionFrom` all counters zero. -/
def IsRegion (q : List Token) : Prop :=
  (∃ t, q.head? = some t ∧ t.isOpenBrace = true) ∧ RegionFrom ⟨0, 0, 0, 0⟩ q

/-- How the scan of `extractToClosingBraceToken` over a token list ends, each
time with the tokens `taken` off the list: balanced with `rest` left, at a
close brace (the last one taken) that meets a zero counter, or at the end of
the list. -/
inductive BraceScan
  | balanced (taken rest : List Token)
  | mismatch (taken rest : List Token)
  | eof (taken : List Token)

/-- The loop of `extractToClosingBraceToken` as a function of the active
stream alone. -/
def scanBraces : BraceCounts → List Token → List Token → BraceScan
  | _, taken, [] => BraceScan.eof taken
  | c, taken, t :: ts =>
    match c.update t with
    | none => BraceScan.mismatch (taken ++ [t]) ts
    | some c' =>
      if c'.anyOpen then scanBraces c' (taken ++ [t]) ts
      else BraceScan.balanced (taken ++ [t]) ts

/-- The result of the loop of `extractToClosingBraceToken` that belongs to a
scan, for a loop entered in state `s` with `outTokens`. -/
def scanResult {G : Type} (what : List Char) (s : IDLCompilerState G)
    (outTokens : List Token) : BraceScan → Result G (List Token)
  | BraceScan.balanced taken rest =>
    Result.ok (outTokens ++ taken) (withActive s taken.getLast? rest)
  | BraceScan.mismatch taken rest =>
    Result.error (Failure.FailureWithLine ZS_EVENTING_TOOL_INVALID_CONTENT
      (getLastLineNumber (withActive s taken.getLast? rest))
      (what ++ " brace mismatch".toList)) (withActive s taken.getLast? rest)
  | BraceScan.eof taken => unexpectedEOF what (withActive s taken.getLast? [])

/-- A run of tokens outside every brace region with no token of kind `kind`
among them: single tokens that are no braces, and whole brace regions. -/
inductive TopLevelRun (kind : TokenTypes) : List Token → Prop
  | nil : TopLevelRun kind []
  | token (t : Token) (ts : List Token) : t.mTokenType ≠ kind → t.isBrace = false →
      TopLevelRun kind ts → TopLevelRun kind (t :: ts)
  | region (r ts : List Token) : IsRegion r → LexedBraces r →
      (∀ t, r.head? = some t → t.mTokenType ≠ kind) →
      TopLevelRun kind ts → TopLevelRun kind (r ++ ts)

/-- A token list inside an open brace region, entered with counters `c`:
after each of its non-empty prefixes no close brace has met a zero counter
of its kind and some counter is positive. -/
def OpenRunFrom (c : BraceCounts) (pre : List Token) : Prop :=
  ∀ n, 0 < n → n ≤ pre.length →
    (∀ k ∈ braceKinds, closeCount k (pre.take n) ≤ c.get k + openCount k (pre.take n)) ∧
    (∃ k ∈ braceKinds, closeCount k (pre.take n) < c.get k + openCount k (pre.take n))

/-- A token list that starts an unfinished brace region. -/
def OpenRun (pre : List Token) : Prop := OpenRunFrom ⟨0, 0, 0, 0⟩ pre

/-! ## Alias replacement -/

/-- The project's `IEventingTypes::AliasMap`, a map from an alias to the text
that replaces it (the header that declares it is not part of the sources at
hand; a `std::map` of strings, looked up with `find`). -/
abbrev AliasMap : Type := List (List Char × List Char)

/-- The loop of `replaceAliases`: `before` holds the tokens in front of the
iterator `current`. The replacement tokens are walked from `rbegin` to `rend`
and each one is inserted in front of `current`. -/
def replaceAliasesLoop (h : Helper) (fuel n : Nat) (aliases : AliasMap) :
    List Token → List Token → Option (List Token)
  | before, [] => some before
  | before, token :: after =>
    match aliases.lookup token.mToken with
    | none => replaceAliasesLoop h fuel n aliases (before ++ [token]) after
    | some found =>
      match tokenize h fuel n found token.mLineCount with
      | none => none
      | some replacementTokens =>
        replaceAliasesLoop h fuel n aliases
          (replacementTokens.reverse.foldl (fun l replaceToken => l ++ [replaceToken]) before)
          after

/-- Replace the tokens whose lexeme is an alias by the tokens of the
alias text; `fuel` and `n` bound the lexer runs. -/
def replaceAliases (h : Helper) (fuel n : Nat) (aliases : AliasMap)
    (ioTokens : List Token) : Option (List Token) :=
  replaceAliasesLoop h fuel n aliases [] ioTokens

/-- Alias replacement as the specification words it: the concatenation, over
the tokens in order, of the tokens of the alias text, lexed at the line of
the token, when the lexeme of the token is an alias (and, with
`identifiersOnly`, the token is an identifier), and of the token itself
otherwise. -/
def expandAliases (h : Helper) (fuel n : Nat) (aliases : AliasMap) (identifiersOnly : Bool) :
    List Token → Option (List Token)
  | [] => some []
  | token :: after =>
    match (if identifiersOnly && !(token.mTokenType == TokenType_Identifier) then none
           else aliases.lookup token.mToken) with
    | none => (expandAliases h fuel n aliases identifiersOnly after).map (fun l => token :: l)
    | some found =>
      match tokenize h fuel n found token.mLineCount with
      | none => none
      | some replacementTokens =>
        (expandAliases h fuel n aliases identifiersOnly after).map
          (fun l => replacementTokens ++ l)

/-! ## The parser -/

/-- The parts of the compiler that work on the object graph. The classes of
the graph (`Namespace`, `Struct`, `GenericType`, the modifier table) are
declared in headers outside this source file: `G` is the graph behind
`mConfig.mProject`, `Node` a pointer to one of its objects, `Modifier` the
modifier enumeration. The first fields are members of those classes; from
`fillContext` on they are the member functions of `IDLCompiler` that build the
graph, which may throw and may use the token stacks. `toModifier` and
`getTotalParams` give `none` where they throw `InvalidArgument`. -/
structure ObjectModel (G Node Modifier : Type) where
  findChildNamespace : G → Node → List Char → Option Node
  createChildNamespace : G → Node → List Char → G × Node
  findNamespace : G → Node → List Char → Option Node
  findType : G → Node → List Char → Option Node
  definedExclusives : G → List (List Char)
  toModifier : List Char → Option Modifier
  getTotalParams : Modifier → Option Int
  pushGeneric : G → Node → List Char → Option Node → G
  fillContext : Node → M G Unit
  processUsingNamespace : Node → Node → M G Unit
  processUsingType : Node → Node → M G Unit
  processTypedef : Node → List Token → List Char → M G Unit
  processStructForward : Node → List Char → M G (Node × Bool)
  processRelated : Node → List Token → M G Unit
  findTypeOrCreateTypedef : Node → List Token → M G (Option Node)

/-- The throw of a `FailureWithLine` with `ZS_EVENTING_TOOL_INVALID_CONTENT` at
`getLastLineNumber()`. -/
def throwInvalidContent {G α : Type} (message : List Char) : M G α := fun s =>
  Result.error
    (Failure.FailureWithLine ZS_EVENTING_TOOL_INVALID_CONTENT (getLastLineNumber s) message) s

/-- The members of the string in lower case (`String::toLower`). -/
def toLower (str : List Char) : List Char := str.map Char.toLower

/-- The loop of `parseDocumentation`. -/
def parseDocumentationLoop {G : Type} : Nat → Bool → M G Bool
  | 0, _ => outOfFuel
  | fuel + 1, found => do
    let s ← getState
    if !hasMoreTokens s then return found
    let token ← peekNextToken "documentation".toList
    if TokenType_Documentation ≠ token.mTokenType then return found
    let token ← extractNextToken "documentation".toList
    let s ← getState
    setState { s with mPendingDocumentation := s.mPendingDocumentation ++ [token] }
    parseDocumentationLoop fuel true

/-- The method `parseDocumentation`. -/
def parseDocumentation {G : Type} (fuel : Nat) : M G Bool :=
  parseDocumentationLoop fuel false

/-- The method `parseSemiColon`. -/
def parseSemiColon {G : Type} : M G Bool := do
  let token ← peekNextToken [';']
  if TokenType_SemiColon ≠ token.mTokenType then return false
  let _ ← extractNextToken [';']
  return true

/-- The method `parseComma`. -/
def parseComma {G : Type} : M G Bool := do
  let token ← peekNextToken [',']
  if TokenType_CommaOperator ≠ token.mTokenType then return false
  let _ ← extractNextToken [',']
  return true

/-- The innermost loop of `parseModifiers`: the lexemes of one parameter,
joined by blanks. -/
def parseModifiersValueLoop {G : Type} : Nat → List Char → Bool → M G (List Char)
  | 0, _, _ => outOfFuel
  | fuel + 1, value, added => do
    let s ← getState
    if !hasMoreTokens s then return value
    let token ← extractNextToken "modifiers".toList
    parseModifiersValueLoop fuel ((if added then value ++ [' '] else value) ++ token.mToken) true

/-- The loop of `parseModifiers` over the parameters of one modifier. -/
def parseModifiersParamsLoop {G : Type} : Nat → List (List Char) → M G (List (List Char))
  | 0, _ => outOfFuel
  | fuel + 1, values => do
    let s ← getState
    if !hasMoreTokens s then return values
    let paramTokens ← extractToComma "modifiers".toList [] fuel
    pushTokens paramTokens.2
    let value ← parseModifiersValueLoop fuel [] false
    let _ ← popTokens
    parseModifiersParamsLoop fuel (values ++ [value])

/-- The outer loop of `parseModifiers`, one modifier a turn. The `catch` of
`InvalidArgument` is the `none` of `toModifier` and `getTotalParams`. -/
def parseModifiersLoop {G Node Modifier : Type} (om : ObjectModel G Node Modifier) :
    Nat → M G Unit
  | 0 => outOfFuel
  | fuel + 1 => do
    let what := "modifiers".toList
    let s ← getState
    if !hasMoreTokens s then return
    let modifierTokens ← extractToComma what [] fuel
    let _ ← parseComma
    pushTokens modifierTokens.2
    let token ← extractNextToken what
    if TokenType_Identifier ≠ token.mTokenType then
      throwInvalidContent (what ++ " expecting identifier".toList)
    let modiferNameStr := toLower token.mToken
    match (om.toModifier modiferNameStr).bind om.getTotalParams with
    | none => throwInvalidContent (what ++ " modifier is not recognized:".toList ++ token.mToken)
    | some totalParams =>
      let s ← getState
      let values ←
        if hasMoreTokens s then do
          let modifierParamTokens ← extractToClosingBraceToken what [] includeOuterBraceDefault fuel
          pushTokens modifierParamTokens.2
          let values ← parseModifiersParamsLoop fuel []
          let _ ← popTokens
          pure values
        else do
          if 0 ≠ totalParams then
            throwInvalidContent (what ++ " expecting parameters".toList)
          pure []
      if -1 ≠ totalParams then
        if totalParams ≠ (values.length : Int) then
          throwInvalidContent (what ++ " expecting total parameter mismatch: ".toList
            ++ (toString totalParams).toList ++ ", found=".toList
            ++ (toString values.length).toList)
      let s ← getState
      if (s.mPendingModifiers.lookup modiferNameStr).isSome then
        throwInvalidContent (what ++ " modifier is already set:".toList ++ modiferNameStr)
      setState { s with mPendingModifiers := s.mPendingModifiers ++ [(modiferNameStr, values)] }
      let _ ← popTokens
      parseModifiersLoop om fuel

/-- The method `parseModifiers`. -/
def parseModifiers {G Node Modifier : Type} (om : ObjectModel G Node Modifier) (fuel : Nat) :
    M G Bool := do
  let what := "modifiers".toList
  let token ← peekNextToken what
  if TokenType_SquareBrace ≠ token.mTokenType then return false
  let allModifierTokens ← extractToClosingBraceToken what [] includeOuterBraceDefault fuel
  pushTokens allModifierTokens.2
  parseModifiersLoop om fuel
  let _ ← popTokens
  return true

/-- The method `pushDirectiveTokens`; it returns false on every path. -/
def pushDirectiveTokens {G : Type} (h : Helper) (fuel : Nat) (token : Option Token) :
    M G Bool :=
  match token with
  | none => pure false
  | some token =>
    if TokenType_Directive ≠ token.mTokenType then pure false
    else
      match tokenize h fuel fuel token.mToken token.mLineCount with
      | none => outOfFuel
      | some tokens => do
        pushTokens tokens
        return false

/-- The value of the constant `ZS_WRAPPER_COMPILER_DIRECTIVE_EXCLUSIZE`. -/
def ZS_WRAPPER_COMPILER_DIRECTIVE_EXCLUSIZE : List Char := "EXCLUSIVE".toList

/-- The method `parseDirectiveExclusive`; the second component of the result is
`outIgnoreMode` as the call leaves it. -/
def parseDirectiveExclusive {G Node Modifier : Type} (om : ObjectModel G Node Modifier)
    (outIgnoreMode : Bool) : M G (Bool × Bool) := do
  let what := "Directive ".toList ++ ZS_WRAPPER_COMPILER_DIRECTIVE_EXCLUSIZE
  let token ← peekNextToken what
  if TokenType_Identifier ≠ token.mTokenType then return (false, outIgnoreMode)
  if ZS_WRAPPER_COMPILER_DIRECTIVE_EXCLUSIZE ≠ token.mToken then return (false, outIgnoreMode)
  let _ ← extractNextToken what
  let token ← extractNextToken what
  if TokenType_Identifier ≠ token.mTokenType then
    throwInvalidContent (what ++ " expecting identifier".toList)
  let exclusiveId := token.mToken
  let s ← getState
  if toLower exclusiveId = ['x'] ∨ exclusiveId ∈ om.definedExclusives s.mProject then
    return (true, false)
  return (true, true)

/-- The loop of `parseDirective` that skips tokens in ignore mode; true stands
for the jump to `check_exclusive_again`. -/
def parseDirectiveSkipLoop {G : Type} (h : Helper) : Nat → M G Bool
  | 0 => outOfFuel
  | fuel + 1 => do
    let s ← getState
    if !hasMoreTokens s then return false
    let token ← extractNextToken "directive".toList
    if (← pushDirectiveTokens h fuel (some token)) then return true
    parseDirectiveSkipLoop h fuel

/-- The `do ... while (ignoreMode)` loop of `parseDirective`, up to the label
`done`. -/
def parseDirectiveLoop {G Node Modifier : Type} (om : ObjectModel G Node Modifier)
    (h : Helper) : Nat → Bool → M G Unit
  | 0, _ => outOfFuel
  | fuel + 1, ignoreMode => do
    let r ← parseDirectiveExclusive om ignoreMode
    if !r.1 then return
    let ignoreMode := r.2
    if !ignoreMode then return
    let _ ← popTokens
    let again ← parseDirectiveSkipLoop h fuel
    if !again then return
    if ignoreMode then parseDirectiveLoop om h fuel ignoreMode

/-- The method `parseDirective`. -/
def parseDirective {G Node Modifier : Type} (om : ObjectModel G Node Modifier) (h : Helper)
    (fuel : Nat) : M G Bool := do
  let what := "directive".toList
  let token ← peekNextToken what
  if TokenType_Directive ≠ token.mTokenType then return false
  let _ ← extractNextToken what
  let _ ← pushDirectiveTokens h fuel (some token)
  parseDirectiveLoop om h fuel false
  let _ ← popTokens
  return true

/-- The method `parseNamespace`; the call of `parseNamespaceContents` is a
parameter. -/
def parseNamespace {G Node Modifier : Type} (om : ObjectModel G Node Modifier)
    (parseNamespaceContents : Node → M G Unit) (parent : Node) : M G Bool := do
  let what := "namespace".toList
  let token ← peekNextToken what
  if TokenType_Identifier ≠ token.mTokenType then return false
  if "namespace".toList ≠ token.mToken then return false
  let _ ← extractNextToken what
  let token ← extractNextToken what
  if TokenType_Identifier ≠ token.mTokenType then
    throwInvalidContent "namespace missing identifier".toList
  let namespaceStr := token.mToken
  let token ← extractNextToken what
  if TokenType_CurlyBrace ≠ token.mTokenType ∨ token.isOpenBrace = true then
    throwInvalidContent "namespace expecting \"\x7b\"".toList
  let s ← getState
  let namespaceObj ←
    match om.findChildNamespace s.mProject parent namespaceStr with
    | none => do
      let created := om.createChildNamespace s.mProject parent namespaceStr
      setState { s with mProject := created.1 }
      pure created.2
    | some found => pure found
  om.fillContext namespaceObj
  parseNamespaceContents namespaceObj
  let token ← extractNextToken what
  if TokenType_CurlyBrace ≠ token.mTokenType ∨ token.isCloseBrace = true then
    throwInvalidContent "namespace expecting \"\x7d\"".toList
  return true

/-- The two loops of `parseUsing` and the loop of `parseTypedef` up to a
semicolon: `token` is read before the loop and not again inside. -/
def parseUsingLoop {G : Type} (what : List Char) (token : Token) :
    Nat → List Char → M G (List Char)
  | 0, _ => outOfFuel
  | fuel + 1, pathStr =>
    if TokenType_SemiColon ≠ token.mTokenType then do
      let _ ← extractNextToken what
      parseUsingLoop what token fuel (pathStr ++ token.mToken)
    else pure pathStr

/-- The method `parseUsing`. -/
def parseUsing {G Node Modifier : Type} (om : ObjectModel G Node Modifier) (fuel : Nat)
    (namespaceObj : Node) : M G Bool := do
  let what := "using".toList
  let token ← peekNextToken what
  if TokenType_Identifier ≠ token.mTokenType then return false
  if "using".toList ≠ token.mToken then return false
  let _ ← extractNextToken what
  let token ← peekNextToken what
  if TokenType_Identifier = token.mTokenType ∧ "namespace".toList = token.mToken then
    let _ ← extractNextToken what
    let token ← peekNextToken what
    let namespacePathStr ← parseUsingLoop what token fuel []
    let s ← getState
    match om.findNamespace s.mProject namespaceObj namespacePathStr with
    | none =>
      throwInvalidContent ("using namespace was not found:".toList ++ namespacePathStr)
    | some foundNamespace =>
      om.processUsingNamespace namespaceObj foundNamespace
      return true
  let token ← peekNextToken what
  let typePathStr ← parseUsingLoop what token fuel []
  let s ← getState
  match om.findType s.mProject namespaceObj typePathStr with
  | none => throwInvalidContent ("using type was not found:".toList ++ typePathStr)
  | some foundType =>
    om.processUsingType namespaceObj foundType
    return true

/-- The loop of `parseTypedef`: `token` is read before the loop and not again
inside. -/
def parseTypedefLoop {G : Type} (what : List Char) (token : Token) :
    Nat → List Token → M G (List Token)
  | 0, _ => outOfFuel
  | fuel + 1, typeTokens =>
    if TokenType_SemiColon ≠ token.mTokenType then do
      let extracted ← extractNextToken what
      parseTypedefLoop what token fuel (typeTokens ++ [extracted])
    else pure typeTokens

/-- The method `parseTypedef`; `typeTokens.back()` is the `some` of
`getLast?`, an empty list falls under `size() < 2`. -/
def parseTypedef {G Node Modifier : Type} (om : ObjectModel G Node Modifier) (fuel : Nat)
    (context : Node) : M G Bool := do
  let what := "typedef".toList
  let token ← peekNextToken what
  if TokenType_Identifier ≠ token.mTokenType then return false
  if "typedef".toList ≠ token.mToken then return false
  let _ ← extractNextToken what
  let token ← peekNextToken what
  let typeTokens ← parseTypedefLoop what token fuel []
  match typeTokens.getLast? with
  | none => throwInvalidContent "typedef typename was not found".toList
  | some lastToken =>
    if typeTokens.length < 2 then
      throwInvalidContent "typedef typename was not found".toList
    let typeTokens := typeTokens.dropLast
    if TokenType_Identifier ≠ lastToken.mTokenType then
      throwInvalidContent "typedef identifier was not found".toList
    let typeName := lastToken.mToken
    om.processTypedef context typeTokens typeName
    return true

/-- The loop of `parseStruct` over the template arguments; `foundDefault` is
declared in front of the loop and stays set once a default was found. -/
def parseStructTemplateLoop {G Node Modifier : Type} (om : ObjectModel G Node Modifier) :
    Nat → Node → Bool → M G Unit
  | 0, _, _ => outOfFuel
  | fuel + 1, newStruct, foundDefault => do
    let what := "interface/struct".toList
    let s ← getState
    if !hasMoreTokens s then return
    let comma ← parseComma
    if comma then parseStructTemplateLoop om fuel newStruct foundDefault
    else do
      let token ← extractNextToken what
      if TokenType_Identifier ≠ token.mTokenType then
        throwInvalidContent (what ++ " template expecting generic name".toList)
      let genericName := token.mToken
      let s ← getState
      let found ←
        if hasMoreTokens s then do
          let token ← peekNextToken what
          if TokenType_EqualsOperator = token.mTokenType then do
            let _ ← extractNextToken what
            let typeTokens ← extractToComma what [] fuel
            let defaultType ← om.findTypeOrCreateTypedef newStruct typeTokens.2
            pure (true, defaultType)
          else pure (foundDefault, none)
        else pure (foundDefault, none)
      if found.1 && found.2.isNone then
        throwInvalidContent (what ++ " template expecting default type".toList)
      let s ← getState
      setState { s with mProject := om.pushGeneric s.mProject newStruct genericName found.2 }
      parseStructTemplateLoop om fuel newStruct found.1

/-- The loop of `parseStruct` over the related types, up to a curly brace; the
result is `token` and `inheritTypeTokens` as the loop leaves them. -/
def parseStructInheritLoop {G Node Modifier : Type} (om : ObjectModel G Node Modifier) :
    Nat → Node → Token → List Token → M G (Token × List Token)
  | 0, _, _, _ => outOfFuel
  | fuel + 1, newStruct, token, inheritTypeTokens =>
    if TokenType_CurlyBrace ≠ token.mTokenType then do
      let what := "interface/struct".toList
      let comma ← parseComma
      let inheritTypeTokens ←
        if comma then do
          if inheritTypeTokens.length < 1 then
            throwInvalidContent (what ++ " expecting related type name".toList)
          om.processRelated newStruct inheritTypeTokens
          pure []
        else do
          let _ ← extractNextToken what
          pure (inheritTypeTokens ++ [token])
      let token ← peekNextToken what
      parseStructInheritLoop om fuel newStruct token inheritTypeTokens
    else pure (token, inheritTypeTokens)

/-- One turn of the loop of `parseStruct` over the body of the struct: the
productions are tried in order, and the first one that returns true ends the
turn; the call of `parseStruct` is a parameter. -/
def parseStructBodyTurn {G Node Modifier : Type} (om : ObjectModel G Node Modifier)
    (h : Helper) (fuel : Nat) (parseStruct : Node → M G Bool) (newStruct : Node) :
    M G Unit := do
  if (← parseDocumentation fuel) then return
  if (← parseSemiColon) then return
  if (← parseDirective om h fuel) then return
  if (← parseModifiers om fuel) then return
  if (← parseTypedef om fuel newStruct) then return
  if (← parseStruct newStruct) then return

/-- The loop of `parseStruct` over the body of the struct. -/
def parseStructBodyLoop {G Node Modifier : Type} (om : ObjectModel G Node Modifier)
    (h : Helper) (parseStruct : Node → M G Bool) : Nat → Node → M G Unit
  | 0, _ => outOfFuel
  | fuel + 1, newStruct => do
    let s ← getState
    if !hasMoreTokens s then return
    parseStructBodyTurn om h fuel parseStruct newStruct
    parseStructBodyLoop om h parseStruct fuel newStruct

/-- The method `parseStruct`; one unit of fuel for each nesting level, the rest
for each of its loops. The flag `isInterface` is set and not read, and is
left out. -/
def parseStruct {G Node Modifier : Type} (om : ObjectModel G Node Modifier) (h : Helper) :
    Nat → Node → M G Bool
  | 0, _ => outOfFuel
  | fuel + 1, context => do
    let what := "interface/struct".toList
    let token ← peekNextToken what
    if TokenType_Identifier ≠ token.mTokenType then return false
    let template ←
      if "template".toList = token.mToken then do
        let _ ← extractNextToken what
        let templateTokens ← extractToClosingBraceToken what [] false fuel
        if !templateTokens.1 then
          throwInvalidContent (what ++ " template expecting arguments".toList)
        let token ← peekNextToken what
        pure (true, templateTokens.2, token)
      else pure (false, [], token)
    let foundTemplate := template.1
    let templateTokens := template.2.1
    let token := template.2.2
    if "class".toList ≠ token.mToken ∧ "interface".toList ≠ token.mToken ∧
        "interaction".toList ≠ token.mToken ∧ "struct".toList ≠ token.mToken then
      if foundTemplate then
        throwInvalidContent
          (what ++ " template expecting keyword struct or interface".toList)
      return false
    let _ ← extractNextToken what
    let token ← extractNextToken what
    let structName := token.mToken
    if TokenType_Identifier ≠ token.mTokenType then
      throwInvalidContent (what ++ " expecting name identifier".toList)
    let token ← peekNextToken what
    if TokenType_SemiColon = token.mTokenType then
      if foundTemplate then
        throwInvalidContent (what ++ " template is missing template body".toList)
      let _ ← om.processStructForward context structName
      return true
    let forward ← om.processStructForward context structName
    let newStruct := forward.1
    if !forward.2 then
      throwInvalidContent
        (what ++ " struct/interface was not created: ".toList ++ structName)
    if foundTemplate then
      pushTokens templateTokens
      parseStructTemplateLoop om fuel newStruct false
      let _ ← popTokens
    let token ← extractNextToken what
    let token ←
      if TokenType_ColonOperator = token.mTokenType then do
        let _ ← extractNextToken what
        let token ← peekNextToken what
        let inherit ← parseStructInheritLoop om fuel newStruct token []
        if inherit.2.length < 1 then
          throwInvalidContent (what ++ " expecting related type name".toList)
        om.processRelated newStruct inherit.2
        pure inherit.1
      else pure token
    if TokenType_CurlyBrace ≠ token.mTokenType then
      throwInvalidContent (what ++ " template expecting generic name".toList)
    let structTokens ← extractToClosingBraceToken what [] includeOuterBraceDefault fuel
    pushTokens structTokens.2
    parseStructBodyLoop om h (parseStruct om h fuel) fuel newStruct
    let _ ← popTokens
    return true

/-- One turn of the loop of `parseNamespaceContents`: the productions are
tried in order, and the first one that returns true ends the turn (its
`continue`); when none does the turn ends as well. The call of
`parseNamespaceContents` from `parseNamespace` is a parameter. -/
def parseNamespaceContentsTurn {G Node Modifier : Type} (om : ObjectModel G Node Modifier)
    (h : Helper) (fuel : Nat) (parseNamespaceContents : Node → M G Unit)
    (namespaceObj : Node) : M G Unit := do
  if (← parseDocumentation fuel) then return
  if (← parseSemiColon) then return
  if (← parseDirective om h fuel) then return
  if (← parseModifiers om fuel) then return
  if (← parseNamespace om parseNamespaceContents namespaceObj) then return
  if (← parseUsing om fuel namespaceObj) then return
  if (← parseTypedef om fuel namespaceObj) then return
  if (← parseStruct om h fuel namespaceObj) then return

/-- The method `parseNamespaceContents`: `while (hasMoreTokens())` around the
turn, one unit of fuel for each test of the loop; the loops inside a turn
have the rest. -/
def parseNamespaceContents {G Node Modifier : Type} (om : ObjectModel G Node Modifier)
    (h : Helper) : Nat → Node → M G Unit
  | 0, _ => outOfFuel
  | fuel + 1, namespaceObj => do
    let s ← getState
    if !hasMoreTokens s then return
    parseNamespaceContentsTurn om h fuel (parseNamespaceContents om h fuel) namespaceObj
    parseNamespaceContents om h fuel namespaceObj

/-- The keywords that start a production of `parseNamespaceContents`. -/
def namespaceKeywords : List (List Char) :=
  ["namespace".toList, "using".toList, "typedef".toList, "template".toList, "class".toList,
    "interface".toList, "interaction".toList, "struct".toList]

/-- A front token that starts none of the productions of
`parseNamespaceContents`: no documentation, semicolon, directive or square
brace, and no identifier that is one of the keywords. -/
def StartsNoProduction (t : Token) : Prop :=
  t.mTokenType ≠ TokenType_Documentation ∧ t.mTokenType ≠ TokenType_SemiColon ∧
  t.mTokenType ≠ TokenType_Directive ∧ t.mTokenType ≠ TokenType_SquareBrace ∧
  (t.mTokenType = TokenType_Identifier → t.mToken ∉ namespaceKeywords)

instance instDecidableStartsNoProduction (t : Token) : Decidable (StartsNoProduction t) := by
  unfold StartsNoProduction
  infer_instance

/-! ## The type resolver: modifier folding -/

/-- Modelled from the spec: the enumeration `PredefinedTypedefs`, declared in a
header outside the source file. Its members are the predefined typedefs the
specification lists, which are the case labels of `mergePredefined`. -/
inductive PredefinedTypedefs
  | PredefinedTypedef_void | PredefinedTypedef_bool
  | PredefinedTypedef_uchar | PredefinedTypedef_char | PredefinedTypedef_schar
  | PredefinedTypedef_ushort | PredefinedTypedef_short | PredefinedTypedef_sshort
  | PredefinedTypedef_uint | PredefinedTypedef_int | PredefinedTypedef_sint
  | PredefinedTypedef_ulong | PredefinedTypedef_long | PredefinedTypedef_slong
  | PredefinedTypedef_ulonglong | PredefinedTypedef_longlong | PredefinedTypedef_slonglong
  | PredefinedTypedef_uint8 | PredefinedTypedef_uint16 | PredefinedTypedef_uint32
  | PredefinedTypedef_uint64
  | PredefinedTypedef_byte | PredefinedTypedef_word | PredefinedTypedef_dword
  | PredefinedTypedef_qword
  | PredefinedTypedef_int8 | PredefinedTypedef_sint8 | PredefinedTypedef_int16
  | PredefinedTypedef_sint16 | PredefinedTypedef_int32 | PredefinedTypedef_sint32
  | PredefinedTypedef_int64 | PredefinedTypedef_sint64
  | PredefinedTypedef_float | PredefinedTypedef_float32 | PredefinedTypedef_float64
  | PredefinedTypedef_double | PredefinedTypedef_ldouble
  | PredefinedTypedef_pointer | PredefinedTypedef_binary | PredefinedTypedef_size
  | PredefinedTypedef_string | PredefinedTypedef_astring | PredefinedTypedef_wstring
  deriving DecidableEq, Repr

open PredefinedTypedefs

/-- The exception `InvalidContent` of the type resolver, with its message. -/
structure InvalidContent where
  message : List Char
  deriving DecidableEq, Repr

/-- The struct `FoundBasicTypeModifiers`; `mTotalLongs` is a `size_t` that
`insert` keeps at 2 or below. -/
structure FoundBasicTypeModifiers where
  mAnyBasicTypeModifiers : Bool := false
  mAnyOtherModifier : Bool := false
  mSigned : Bool := false
  mUnsigned : Bool := false
  mChar : Bool := false
  mShort : Bool := false
  mInt : Bool := false
  mTotalLongs : Nat := 0
  mFloat : Bool := false
  mDouble : Bool := false
  mConst : Bool := false
  mLastWasTypename : Bool := false
  mLastWasScope : Bool := false
  mTypeName : List Char := []
  deriving DecidableEq, Repr

namespace FoundBasicTypeModifiers

/-- The method `throwInvalidModifier`. -/
def throwInvalidModifier {α : Type} : Except InvalidContent α :=
  Except.error ⟨"has invalid type modifier".toList⟩

/-- The method `insert`. The second test for `long` stands where the source
has it, behind the first one. -/
def insert (m : FoundBasicTypeModifiers) (modifierStr : List Char) :
    Except InvalidContent FoundBasicTypeModifiers :=
  if "signed".toList = modifierStr then
    if m.mUnsigned || m.mSigned || m.mFloat || m.mDouble then throwInvalidModifier
    else pure { m with mSigned := true, mAnyBasicTypeModifiers := true }
  else if "unsigned".toList = modifierStr then
    if m.mUnsigned || m.mSigned || m.mFloat || m.mDouble then throwInvalidModifier
    else pure { m with mUnsigned := true, mAnyBasicTypeModifiers := true }
  else if "long".toList = modifierStr then
    if decide (m.mTotalLongs > 1) || m.mChar || m.mShort || m.mFloat then throwInvalidModifier
    else if decide (m.mTotalLongs > 1) && m.mDouble then throwInvalidModifier
    else pure { m with mTotalLongs := m.mTotalLongs + 1, mAnyBasicTypeModifiers := true }
  else if "char".toList = modifierStr then
    if decide (m.mTotalLongs > 0) || m.mChar || m.mShort || m.mInt || m.mFloat || m.mDouble then
      throwInvalidModifier
    else pure { m with mChar := true, mAnyBasicTypeModifiers := true }
  else if "short".toList = modifierStr then
    if decide (m.mTotalLongs > 0) || m.mChar || m.mShort || m.mFloat || m.mDouble then
      throwInvalidModifier
    else pure { m with mShort := true, mAnyBasicTypeModifiers := true }
  else if "int".toList = modifierStr then
    if m.mChar || m.mInt || m.mFloat || m.mDouble then throwInvalidModifier
    else pure { m with mInt := true, mAnyBasicTypeModifiers := true }
  else if "long".toList = modifierStr then
    if decide (m.mTotalLongs > 1) || m.mChar || m.mShort || m.mFloat then throwInvalidModifier
    else if decide (m.mTotalLongs > 0) && m.mDouble then throwInvalidModifier
    else pure { m with mTotalLongs := m.mTotalLongs + 1, mAnyBasicTypeModifiers := true }
  else if "float".toList = modifierStr then
    if m.mSigned || m.mUnsigned || decide (m.mTotalLongs > 0) || m.mChar || m.mInt || m.mFloat
        || m.mDouble then throwInvalidModifier
    else pure { m with mFloat := true, mAnyBasicTypeModifiers := true }
  else if "double".toList = modifierStr then
    if m.mSigned || m.mUnsigned || decide (m.mTotalLongs > 1) || m.mChar || m.mInt || m.mFloat
        || m.mDouble then throwInvalidModifier
    else pure { m with mDouble := true, mAnyBasicTypeModifiers := true }
  else if "const".toList = modifierStr then
    if m.mConst then throwInvalidModifier
    else pure { m with mConst := true, mAnyOtherModifier := true }
  else if m.mTypeName ≠ [] then Except.error ⟨"has type name redeclared".toList⟩
  else if m.mLastWasTypename then throwInvalidModifier
  else pure { m with mLastWasTypename := true, mLastWasScope := false,
                      mTypeName := m.mTypeName ++ modifierStr }

/-- The method `insertScope`. -/
def insertScope (m : FoundBasicTypeModifiers) : Except InvalidContent FoundBasicTypeModifiers :=
  if m.mLastWasScope then throwInvalidModifier
  else pure { m with mLastWasTypename := false, mLastWasScope := true,
                      mTypeName := m.mTypeName ++ "::".toList }

/-- The signed and the unsigned refinement at the end of a case of
`mergePredefined`: `if (mSigned) newBasicType = s; if (mUnsigned) newBasicType
= u;`. -/
def refine (m : FoundBasicTypeModifiers) (b s u : PredefinedTypedefs) : PredefinedTypedefs :=
  let newBasicType := if m.mSigned then s else b
  if m.mUnsigned then u else newBasicType

/-- The method `mergePredefined`: the new basic type, and the modifiers as the
call leaves them (some cases clear `mInt`). -/
def mergePredefined (m : FoundBasicTypeModifiers) (existingBasicType : PredefinedTypedefs) :
    Except InvalidContent (PredefinedTypedefs × FoundBasicTypeModifiers) :=
  match existingBasicType with
  | PredefinedTypedef_void =>
    if m.mAnyBasicTypeModifiers then throwInvalidModifier else pure (existingBasicType, m)
  | PredefinedTypedef_bool =>
    if m.mAnyBasicTypeModifiers then throwInvalidModifier else pure (existingBasicType, m)
  | PredefinedTypedef_uchar =>
    if m.mSigned || m.mChar || m.mShort || m.mInt || decide (m.mTotalLongs > 0) || m.mFloat
        || m.mDouble then throwInvalidModifier
    else pure (existingBasicType, m)
  | PredefinedTypedef_char =>
    if m.mChar || m.mShort || m.mInt || decide (m.mTotalLongs > 0) || m.mFloat || m.mDouble then
      throwInvalidModifier
    else pure (m.refine existingBasicType PredefinedTypedef_schar PredefinedTypedef_uchar, m)
  | PredefinedTypedef_schar =>
    if m.mUnsigned || m.mChar || m.mShort || m.mInt || decide (m.mTotalLongs > 0) || m.mFloat
        || m.mDouble then throwInvalidModifier
    else pure (existingBasicType, m)
  | PredefinedTypedef_ushort =>
    if m.mSigned || m.mChar || m.mShort || decide (m.mTotalLongs > 0) || m.mFloat || m.mDouble then
      throwInvalidModifier
    else pure (existingBasicType, { m with mInt := false })
  | PredefinedTypedef_short =>
    if m.mChar || m.mShort || decide (m.mTotalLongs > 0) || m.mFloat || m.mDouble then
      throwInvalidModifier
    else pure (m.refine existingBasicType PredefinedTypedef_sshort PredefinedTypedef_ushort,
      { m with mInt := false })
  | PredefinedTypedef_sshort =>
    if m.mUnsigned || m.mChar || m.mShort || decide (m.mTotalLongs > 0) || m.mFloat
        || m.mDouble then throwInvalidModifier
    else pure (existingBasicType, { m with mInt := false })
  | PredefinedTypedef_uint =>
    if m.mSigned || m.mChar || m.mInt || decide (m.mTotalLongs > 0) || m.mFloat || m.mDouble then
      throwInvalidModifier
    else pure (if m.mShort then PredefinedTypedef_ushort else existingBasicType, m)
  | PredefinedTypedef_int =>
    if m.mChar || m.mInt || decide (m.mTotalLongs > 0) || m.mFloat || m.mDouble then
      throwInvalidModifier
    else if m.mShort then
      pure (if m.mSigned then PredefinedTypedef_sshort
            else if m.mUnsigned then PredefinedTypedef_ushort
            else PredefinedTypedef_short, m)
    else pure (m.refine existingBasicType PredefinedTypedef_sint PredefinedTypedef_uint, m)
  | PredefinedTypedef_sint =>
    if m.mUnsigned || m.mChar || m.mInt || decide (m.mTotalLongs > 0) || m.mFloat
        || m.mDouble then throwInvalidModifier
    else pure (if m.mShort then PredefinedTypedef_sshort else existingBasicType, m)
  | PredefinedTypedef_ulong =>
    if m.mSigned || m.mChar || m.mShort || decide (m.mTotalLongs > 1) || m.mFloat || m.mDouble then
      throwInvalidModifier
    else pure (if m.mTotalLongs > 0 then PredefinedTypedef_ulonglong else existingBasicType,
      { m with mInt := false })
  | PredefinedTypedef_long =>
    if m.mChar || m.mShort || decide (m.mTotalLongs > 1) || m.mFloat || m.mDouble then
      throwInvalidModifier
    else if m.mTotalLongs > 0 then
      pure (if m.mSigned then PredefinedTypedef_slonglong
            else if m.mUnsigned then PredefinedTypedef_ulonglong
            else PredefinedTypedef_longlong, { m with mInt := false })
    else pure (m.refine existingBasicType PredefinedTypedef_slong PredefinedTypedef_ulong,
      { m with mInt := false })
  | PredefinedTypedef_slong =>
    if m.mUnsigned || m.mChar || m.mShort || decide (m.mTotalLongs > 1) || m.mFloat
        || m.mDouble then throwInvalidModifier
    else pure (if m.mTotalLongs > 0 then PredefinedTypedef_slonglong else existingBasicType,
      { m with mInt := false })
  | PredefinedTypedef_ulonglong =>
    if m.mSigned || m.mChar || m.mShort || decide (m.mTotalLongs > 0) || m.mFloat || m.mDouble then
      throwInvalidModifier
    else pure (existingBasicType, { m with mInt := false })
  | PredefinedTypedef_longlong =>
    if m.mChar || m.mShort || decide (m.mTotalLongs > 0) || m.mFloat || m.mDouble then
      throwInvalidModifier
    else pure (m.refine existingBasicType PredefinedTypedef_slonglong PredefinedTypedef_ulonglong,
      { m with mInt := false })
  | PredefinedTypedef_slonglong =>
    if m.mUnsigned || m.mChar || m.mShort || decide (m.mTotalLongs > 0) || m.mFloat
        || m.mDouble then throwInvalidModifier
    else pure (existingBasicType, { m with mInt := false })
  | PredefinedTypedef_uint8 | PredefinedTypedef_uint16 | PredefinedTypedef_uint32
  | PredefinedTypedef_uint64 | PredefinedTypedef_byte | PredefinedTypedef_word
  | PredefinedTypedef_dword | PredefinedTypedef_qword =>
    if m.mSigned || m.mChar || m.mShort || m.mInt || decide (m.mTotalLongs > 0) || m.mFloat
        || m.mDouble then throwInvalidModifier
    else pure (existingBasicType, m)
  | PredefinedTypedef_int8 =>
    if m.mChar || m.mShort || m.mInt || decide (m.mTotalLongs > 0) || m.mFloat || m.mDouble then
      throwInvalidModifier
    else pure (m.refine existingBasicType PredefinedTypedef_sint8 PredefinedTypedef_uint8, m)
  | PredefinedTypedef_sint8 | PredefinedTypedef_sint16 | PredefinedTypedef_sint32
  | PredefinedTypedef_sint64 =>
    if m.mUnsigned || m.mChar || m.mShort || m.mInt || decide (m.mTotalLongs > 0) || m.mFloat
        || m.mDouble then throwInvalidModifier
    else pure (existingBasicType, m)
  | PredefinedTypedef_int16 =>
    if m.mChar || m.mShort || m.mInt || decide (m.mTotalLongs > 0) || m.mFloat || m.mDouble then
      throwInvalidModifier
    else pure (m.refine existingBasicType PredefinedTypedef_sint16 PredefinedTypedef_uint16, m)
  | PredefinedTypedef_int32 =>
    if m.mChar || m.mShort || m.mInt || decide (m.mTotalLongs > 0) || m.mFloat || m.mDouble then
      throwInvalidModifier
    else pure (m.refine existingBasicType PredefinedTypedef_sint32 PredefinedTypedef_uint32, m)
  | PredefinedTypedef_int64 =>
    if m.mChar || m.mShort || m.mInt || decide (m.mTotalLongs > 0) || m.mFloat || m.mDouble then
      throwInvalidModifier
    else pure (m.refine existingBasicType PredefinedTypedef_sint64 PredefinedTypedef_uint64, m)
  | PredefinedTypedef_float | PredefinedTypedef_float32 | PredefinedTypedef_float64 =>
    if m.mSigned || m.mUnsigned || m.mChar || m.mShort || m.mInt || decide (m.mTotalLongs > 0)
        || m.mFloat || m.mDouble then throwInvalidModifier
    else pure (existingBasicType, m)
  | PredefinedTypedef_double =>
    if m.mSigned || m.mUnsigned || m.mChar || m.mShort || m.mInt || decide (m.mTotalLongs > 1)
        || m.mFloat || m.mDouble then throwInvalidModifier
    else pure (if m.mTotalLongs > 0 then PredefinedTypedef_ldouble else existingBasicType, m)
  | PredefinedTypedef_ldouble =>
    if m.mSigned || m.mUnsigned || m.mChar || m.mShort || m.mInt || decide (m.mTotalLongs > 0)
        || m.mFloat || m.mDouble then throwInvalidModifier
    else pure (existingBasicType, m)
  | PredefinedTypedef_pointer | PredefinedTypedef_binary | PredefinedTypedef_size
  | PredefinedTypedef_string | PredefinedTypedef_astring | PredefinedTypedef_wstring =>
    throwInvalidModifier

/-- The method `getBasicType`. -/
def getBasicType (m : FoundBasicTypeModifiers) : Except InvalidContent PredefinedTypedefs :=
  if m.mChar then
    if m.mUnsigned then pure PredefinedTypedef_uchar
    else if m.mSigned then pure PredefinedTypedef_schar
    else pure PredefinedTypedef_char
  else if m.mShort then
    if m.mUnsigned then pure PredefinedTypedef_ushort
    else if m.mSigned then pure PredefinedTypedef_sshort
    else pure PredefinedTypedef_short
  else if m.mFloat then pure PredefinedTypedef_float
  else if m.mDouble then
    if m.mTotalLongs > 0 then pure PredefinedTypedef_ldouble
    else pure PredefinedTypedef_double
  else if m.mTotalLongs > 1 then
    if m.mUnsigned then pure PredefinedTypedef_ulonglong
    else if m.mSigned then pure PredefinedTypedef_slonglong
    else pure PredefinedTypedef_longlong
  else if m.mTotalLongs > 0 then
    if m.mUnsigned then pure PredefinedTypedef_ulong
    else if m.mSigned then pure PredefinedTypedef_slong
    else pure PredefinedTypedef_long
  else if m.mInt then
    if m.mUnsigned then pure PredefinedTypedef_uint
    else if m.mSigned then pure PredefinedTypedef_sint
    else pure PredefinedTypedef_int
  else Except.error ⟨"is not a basic type".toList⟩

end FoundBasicTypeModifiers

/-- The fold of `insert` over the lexemes of a run of identifier tokens, the
way the loop of `findTypeOrCreateTypedef` feeds them to it: the first
exception ends the fold. -/
def insertAll : FoundBasicTypeModifiers → List (List Char) →
    Except InvalidContent FoundBasicTypeModifiers
  | m, [] => pure m
  | m, modifierStr :: rest =>
    match m.insert modifierStr with
    | Except.error e => Except.error e
    | Except.ok m' => insertAll m' rest

/-- The members of the classes `Context`, `Type`, `TypedefType` and
`BasicType` and of `IEventingTypes` that `processType` calls. The classes are
declared in headers outside the source file: `G` is the object graph, `Node` a
pointer to one of its objects, a null pointer is `none`. `createTypedef` is
`TypedefType::create(context)`, `copyModifiers g a b` the assignment
`a->mModifiers = b->mModifiers`, `setOriginalType g a b` the assignment
`a->mOriginalType = b`. -/
structure TypeModel (G Node : Type) where
  findType : G → Node → List Char → Option Node
  toTypedefType : G → Node → Option Node
  toBasicType : G → Node → Option Node
  mOriginalType : G → Node → Option Node
  mBaseType : G → Node → PredefinedTypedefs
  resolveTypedefs : G → Node → G
  createTypedef : G → Node → G × Node
  copyModifiers : G → Node → Node → G
  setOriginalType : G → Node → Node → G
  toString : PredefinedTypedefs → List Char

/-- The loop `while (typedefObj)` of `processType`: `typedefObj` and
`basicType` as the loop leaves them, `none` when the fuel runs out (a typedef
whose original type is gone is looked at again and again). -/
def processTypeLoop {G Node : Type} (tm : TypeModel G Node) (g : G) :
    Nat → Option Node → Option Node → Option (Option Node × Option Node)
  | 0, _, _ => none
  | _ + 1, none, basicType => some (none, basicType)
  | fuel + 1, some typedefObj, basicType =>
    match tm.mOriginalType g typedefObj with
    | some foundType =>
      processTypeLoop tm g fuel (tm.toTypedefType g foundType) (tm.toBasicType g foundType)
    | none => processTypeLoop tm g fuel (some typedefObj) basicType

/-- The throw of an `InvalidContent` inside the parser. -/
def throwInvalidContentOf {G α : Type} (e : InvalidContent) : M G α :=
  throwFailure (Failure.InvalidContent e.message)

/-- Write the object graph. -/
def setProject {G : Type} (g : G) : M G Unit := fun s =>
  Result.ok () { s with mProject := g }

/-- The method `FoundBasicTypeModifiers::processType`: the type it returns and
`outCreatedTypedef` as it leaves it. The modifiers are a local of the caller
that is not read after the call, so the change of `mInt` is not handed
back. -/
def processType {G Node : Type} (tm : TypeModel G Node) (fuel : Nat)
    (modifiers : FoundBasicTypeModifiers) (context : Node) (outCreatedTypedef : Option Node) :
    M G (Node × Option Node) := do
  let m : FoundBasicTypeModifiers :=
    if modifiers.mShort && modifiers.mInt then { modifiers with mInt := false } else modifiers
  if m.mTypeName ≠ [] then
    let s ← getState
    match tm.findType s.mProject context m.mTypeName with
    | none => throwInvalidContentOf ⟨"has invalid type modifier".toList⟩
    | some existingType =>
      let typedefObj := tm.toTypedefType s.mProject existingType
      match typedefObj with
      | some t => setProject (tm.resolveTypedefs s.mProject t)
      | none => pure ()
      let s ← getState
      match processTypeLoop tm s.mProject fuel typedefObj none with
      | none => outOfFuel
      | some (typedefObj, some basicType) =>
        let created := tm.createTypedef s.mProject context
        setProject created.1
        match typedefObj with
        | some t => setProject (tm.copyModifiers created.1 created.2 t)
        | none => pure ()
        match m.mergePredefined (tm.mBaseType created.1 basicType) with
        | Except.error e => throwInvalidContentOf e
        | Except.ok merged =>
          let s ← getState
          match tm.findType s.mProject context (tm.toString merged.1) with
          | none => throwInvalidContentOf ⟨"did not find new basic type".toList⟩
          | some foundNewBasicType =>
            setProject (tm.setOriginalType s.mProject created.2 foundNewBasicType)
            return (created.2, some created.2)
      | some (_, none) =>
        if m.mAnyBasicTypeModifiers then
          throwInvalidContentOf ⟨"has invalid type modifier".toList⟩
        if !m.mAnyOtherModifier then return (existingType, outCreatedTypedef)
        let created := tm.createTypedef s.mProject context
        let g := tm.setOriginalType created.1 created.2 existingType
        setProject (tm.resolveTypedefs g created.2)
        return (created.2, some created.2)
  else
    if !m.mAnyBasicTypeModifiers then
      throwInvalidContentOf ⟨"has invalid type modifier".toList⟩
    match m.getBasicType with
    | Except.error e => throwInvalidContentOf e
    | Except.ok predefinedType =>
      let s ← getState
      match tm.findType s.mProject context (tm.toString predefinedType) with
      | none => throwInvalidContentOf ⟨"did not find basic type".toList⟩
      | some existingBasicType =>
        if m.mAnyOtherModifier then
          let created := tm.createTypedef s.mProject context
          setProject (tm.setOriginalType created.1 created.2 existingBasicType)
          return (created.2, some created.2)
        return (existingBasicType, outCreatedTypedef)

/-! ## Predicates of the specification: the type resolver -/

/-- The keywords `insert` has a case for. -/
def modifierKeywords : List (List Char) :=
  ["signed".toList, "unsigned".toList, "long".toList, "char".toList, "short".toList,
    "int".toList, "float".toList, "double".toList, "const".toList]

/-- The basic modifiers among them: all but `const`. -/
def basicModifierKeywords : List (List Char) :=
  ["signed".toList, "unsigned".toList, "long".toList, "char".toList, "short".toList,
    "int".toList, "float".toList, "double".toList]

/-- The plain, the signed or the unsigned variant of a type, the unsigned flag
looked at first. -/
def signVariant (m : FoundBasicTypeModifiers) (plain s u : PredefinedTypedefs) :
    PredefinedTypedefs :=
  if m.mUnsigned then u else if m.mSigned then s else plain

/-- The reference table of the specification for a bag of modifiers: the rows
in their order of priority, each with its condition. -/
def basicTypeRows (m : FoundBasicTypeModifiers) : List (Bool × PredefinedTypedefs) :=
  [(m.mChar, signVariant m PredefinedTypedef_char PredefinedTypedef_schar PredefinedTypedef_uchar),
   (m.mShort,
      signVariant m PredefinedTypedef_short PredefinedTypedef_sshort PredefinedTypedef_ushort),
   (m.mFloat, PredefinedTypedef_float),
   (m.mDouble && decide (1 ≤ m.mTotalLongs), PredefinedTypedef_ldouble),
   (m.mDouble, PredefinedTypedef_double),
   (decide (2 ≤ m.mTotalLongs),
      signVariant m PredefinedTypedef_longlong PredefinedTypedef_slonglong
        PredefinedTypedef_ulonglong),
   (decide (1 ≤ m.mTotalLongs),
      signVariant m PredefinedTypedef_long PredefinedTypedef_slong PredefinedTypedef_ulong),
   (m.mInt, signVariant m PredefinedTypedef_int PredefinedTypedef_sint PredefinedTypedef_uint)]

/-- The entry of the reference table for a bag: the type of the first row
whose condition holds, if there is one. -/
def basicTypeTable (m : FoundBasicTypeModifiers) : Option PredefinedTypedefs :=
  ((basicTypeRows m).find? fun row => row.1).map fun row => row.2

/-- The bases without a sign that `mergePredefined` refines, each with its
signed and its unsigned variant. -/
def signedVariants : List (PredefinedTypedefs × PredefinedTypedefs × PredefinedTypedefs) :=
  [(PredefinedTypedef_char, PredefinedTypedef_schar, PredefinedTypedef_uchar),
   (PredefinedTypedef_short, PredefinedTypedef_sshort, PredefinedTypedef_ushort),
   (PredefinedTypedef_int, PredefinedTypedef_sint, PredefinedTypedef_uint),
   (PredefinedTypedef_long, PredefinedTypedef_slong, PredefinedTypedef_ulong),
   (PredefinedTypedef_longlong, PredefinedTypedef_slonglong, PredefinedTypedef_ulonglong),
   (PredefinedTypedef_int8, PredefinedTypedef_sint8, PredefinedTypedef_uint8),
   (PredefinedTypedef_int16, PredefinedTypedef_sint16, PredefinedTypedef_uint16),
   (PredefinedTypedef_int32, PredefinedTypedef_sint32, PredefinedTypedef_uint32),
   (PredefinedTypedef_int64, PredefinedTypedef_sint64, PredefinedTypedef_uint64)]

/-- The fold of `insert` over `pre` succeeds, the insert of `last` into its
result throws `message`, and so does the fold over `pre`, `last` and whatever
follows. -/
def FailsAtInsert (pre : List (List Char)) (last message : List Char) : Prop :=
  ∃ m, insertAll {} pre = Except.ok m ∧ m.insert last = Except.error ⟨message⟩ ∧
    ∀ rest, insertAll {} (pre ++ last :: rest) = Except.error ⟨message⟩

/-- The keywords that name a type of their own: the basic modifiers but
`signed` and `unsigned`. -/
def baseModifierKeywords : List (List Char) :=
  ["long".toList, "char".toList, "short".toList, "int".toList, "float".toList,
    "double".toList]

/-- One of char, short, int, long, float, double is in the bag. -/
def FoundBasicTypeModifiers.hasBaseModifier (m : FoundBasicTypeModifiers) : Bool :=
  m.mChar || m.mShort || m.mFloat || m.mDouble || decide (m.mTotalLongs > 0) || m.mInt

/-! ## The object graph -/

/-- Modelled from the spec: the variants of a `Context`, the nodes of the
object graph. The classes are declared in headers outside the source
file. -/
inductive ContextKind
  | Namespace | Struct | Enum | TypedefType | BasicType | GenericType
  deriving DecidableEq, Repr

/-- Modelled from the spec: an XML `Element` as the documentation of a node
needs it, the list of the texts of its children. The class comes from a
library outside the source file. -/
structure Element where
  children : List (List Char)
  deriving DecidableEq, Repr

/-- Modelled from the spec: a `Context` node with the capabilities the
specification gives it (name, documentation, modifiers, parent) and the
mappings from name to child of `Namespace` and `Struct`; a child is the index
of its node in the graph, maps are association lists, the original type of a
typedef is `mOriginalType`. -/
structure Context (Modifier : Type) where
  kind : ContextKind
  mName : List Char := []
  parent : Option Nat := none
  mDocumentation : Option Element := none
  mModifiers : List (Modifier × List (List Char)) := []
  mNamespaces : List (List Char × Nat) := []
  mStructs : List (List Char × Nat) := []
  mEnums : List (List Char × Nat) := []
  mTypedefs : List (List Char × Nat) := []
  mOriginalType : Option Nat := none

/-- Modelled from the spec: the `Project` behind `mConfig.mProject`: the nodes
of the object graph, addressed by index, and the set of defined
exclusives. -/
structure Project (Modifier : Type) where
  nodes : List (Context Modifier)
  mDefinedExclusives : List (List Char) := []

/-- The node behind a pointer, `none` for a pointer to nothing. -/
def Project.node {Modifier : Type} (g : Project Modifier) (p : Nat) :
    Option (Context Modifier) :=
  g.nodes.get? p

/-- An assignment through a pointer. -/
def Project.update {Modifier : Type} (g : Project Modifier) (p : Nat)
    (f : Context Modifier → Context Modifier) : Project Modifier :=
  { g with nodes := g.nodes.modify f p }

/-- The creation of a node (`Namespace::create`, `Struct::create`): the graph
with the new node, and the pointer to it. -/
def Project.create {Modifier : Type} (g : Project Modifier) (c : Context Modifier) :
    Project Modifier × Nat :=
  ({ g with nodes := g.nodes ++ [c] }, g.nodes.length)

/-- The assignment `map[key] = value` of a `std::map`. -/
def mapInsert (map : List (List Char × Nat)) (key : List Char) (value : Nat) :
    List (List Char × Nat) :=
  if (map.lookup key).isSome then
    map.map fun entry => if entry.1 = key then (key, value) else entry
  else map ++ [(key, value)]

/-- Modelled from the spec: the method `Context::hasModifier`. -/
def Project.hasModifier {Modifier : Type} [DecidableEq Modifier] (g : Project Modifier)
    (p : Nat) (modifier : Modifier) : Bool :=
  match g.node p with
  | none => false
  | some c => (c.mModifiers.lookup modifier).isSome

/-- Modelled from the spec: the method `Context::setModifier`. -/
def Project.setModifier {Modifier : Type} (g : Project Modifier) (p : Nat)
    (modifier : Modifier) (values : List (List Char)) : Project Modifier :=
  g.update p fun c => { c with mModifiers := c.mModifiers ++ [(modifier, values)] }

/-- Modelled from the spec: `UseHelper::toXML` on the string that
`getDocumentation` builds, `<documentation>`, a text, `</documentation>`: the
element whose one child is the text. -/
def documentationElement (text : List Char) : Element :=
  ⟨if text = [] then [] else [text]⟩

/-- The loop of `getDocumentation` that joins the lexemes of the pending
documentation tokens with blanks. -/
def joinDocumentation : Bool → List Token → List Char
  | _, [] => []
  | first, token :: rest =>
    (if first then token.mToken else ' ' :: token.mToken) ++ joinDocumentation false rest

/-- The method `getDocumentation`: it drains the pending documentation. -/
def getDocumentation {G : Type} : M G (Option Element) := do
  let s ← getState
  if s.mPendingDocumentation.length < 1 then return none
  setState { s with mPendingDocumentation := [] }
  return some (documentationElement (joinDocumentation true s.mPendingDocumentation))

/-- The method `mergeDocumentation` on the documentation of the node `p`. -/
def mergeDocumentation {Modifier : Type} (p : Nat) : M (Project Modifier) Unit := do
  let rootEl ← getDocumentation
  match rootEl with
  | none => return
  | some rootEl =>
    let s ← getState
    setProject (s.mProject.update p fun c =>
      { c with mDocumentation :=
                 match c.mDocumentation with
                 | none => some rootEl
                 | some existing => some ⟨existing.children ++ rootEl.children⟩ })

/-- The loop of `mergeModifiers` over the pending modifiers; the list stands
for the map, in its order. -/
def mergeModifiersLoop {Modifier : Type} [DecidableEq Modifier]
    (toModifier : List Char → Option Modifier) (context : Nat) :
    List (List Char × List (List Char)) → M (Project Modifier) Unit
  | [] => pure ()
  | (name, values) :: rest => do
    match toModifier name with
    | none => throwFailure Failure.InvalidArgument
    | some modifier =>
      let s ← getState
      if s.mProject.hasModifier context modifier then
        throwFailure (Failure.FailureWithLine ZS_EVENTING_TOOL_UNEXPECTED_EOF
          (getLastLineNumber s)
          ("merge modifiers".toList ++ " has duplicate modifier: ".toList ++ name))
      setProject (s.mProject.setModifier context modifier values)
      mergeModifiersLoop toModifier context rest

/-- The method `mergeModifiers` for a context that is not null. -/
def mergeModifiers {Modifier : Type} [DecidableEq Modifier]
    (toModifier : List Char → Option Modifier) (context : Nat) : M (Project Modifier) Unit := do
  let s ← getState
  mergeModifiersLoop toModifier context s.mPendingModifiers
  let s ← getState
  setState { s with mPendingModifiers := [] }

/-- The method `fillContext` for a context that is not null. -/
def fillContext {Modifier : Type} [DecidableEq Modifier]
    (toModifier : List Char → Option Modifier) (context : Nat) : M (Project Modifier) Unit := do
  mergeDocumentation context
  mergeModifiers toModifier context

/-- The block of `processStructForward` for a context that is a namespace or a
struct: both have it word for word, on their own `mStructs`. The key of the
new entry is `getMappingName()`, modelled from the spec as the name. -/
def processStructForwardIn {Modifier : Type} [DecidableEq Modifier]
    (toModifier : List Char → Option Modifier) (context : Nat) (c : Context Modifier)
    (typeName : List Char) : M (Project Modifier) (Nat × Bool) :=
  match c.mStructs.lookup typeName with
  | some found => do
    fillContext toModifier found
    return (found, false)
  | none => do
    let s ← getState
    let created := s.mProject.create { kind := ContextKind.Struct, parent := some context }
    let structObj := created.2
    setProject (created.1.update structObj fun n => { n with mName := typeName })
    fillContext toModifier structObj
    let s ← getState
    setProject (s.mProject.update context fun n =>
      { n with mStructs := mapInsert n.mStructs typeName structObj })
    return (structObj, true)

/-- The method `processStructForward`: the struct, and what it writes to
`*wasCreated`. -/
def processStructForward {Modifier : Type} [DecidableEq Modifier]
    (toModifier : List Char → Option Modifier) (context : Nat) (typeName : List Char) :
    M (Project Modifier) (Nat × Bool) := do
  let s ← getState
  match s.mProject.node context with
  | some c =>
    if c.kind = ContextKind.Namespace then
      processStructForwardIn toModifier context c typeName
    else if c.kind = ContextKind.Struct then
      processStructForwardIn toModifier context c typeName
    else
      throwInvalidContent
        "struct/class forward not attached to namespace or struct context".toList
  | none =>
    throwInvalidContent "struct/class forward not attached to namespace or struct context".toList

/-- The object model over the graph: the fields of `om` whose code or data is
given above replace those of `om`; the others, the rest of the compiler, stay
those of `om`. -/
def graphObjectModel {Modifier : Type} [DecidableEq Modifier]
    (om : ObjectModel (Project Modifier) Nat Modifier) :
    ObjectModel (Project Modifier) Nat Modifier :=
  { om with
    findChildNamespace := fun g parent name =>
      (g.node parent).bind fun c => c.mNamespaces.lookup name
    createChildNamespace := fun g parent name =>
      let created := g.create { kind := ContextKind.Namespace, parent := some parent }
      let g1 := created.1.update created.2 fun n => { n with mName := name }
      (g1.update parent fun n => { n with mNamespaces := mapInsert n.mNamespaces name created.2 },
        created.2)
    definedExclusives := fun g => g.mDefinedExclusives
    fillContext := fillContext om.toModifier
    processStructForward := processStructForward om.toModifier }

/-! ## Predicates of the specification: structs -/

/-- The keywords that start a struct: `struct`, and the three for an
interface. -/
def structKeywords : List (List Char) :=
  ["struct".toList, "class".toList, "interface".toList, "interaction".toList]

/-- The state after `fillContext` on the node `p` when no modifiers are
pending: the pending documentation, when there is some, is merged into the
documentation of the node and drained. -/
def documented {Modifier : Type} (s : IDLCompilerState (Project Modifier)) (p : Nat) :
    IDLCompilerState (Project Modifier) :=
  if s.mPendingDocumentation.length < 1 then s
  else
    { s with
      mPendingDocumentation := []
      mProject := s.mProject.update p fun c =>
        { c with mDocumentation :=
                   match c.mDocumentation with
                   | none =>
                     some (documentationElement (joinDocumentation true s.mPendingDocumentation))
                   | some existing =>
                     some ⟨existing.children ++
                       (documentationElement
                         (joinDocumentation true s.mPendingDocumentation)).children⟩ } }

/-- The state after `processStructForward` has created the struct `typeName`
in `context` when no modifiers are pending. -/
def forwardCreated {Modifier : Type} (s : IDLCompilerState (Project Modifier)) (context : Nat)
    (typeName : List Char) : IDLCompilerState (Project Modifier) :=
  let created := s.mProject.create { kind := ContextKind.Struct, parent := some context }
  let s1 := documented
    { s with mProject := created.1.update created.2 fun n => { n with mName := typeName } }
    created.2
  { s1 with mProject := s1.mProject.update context fun n =>
      { n with mStructs := mapInsert n.mStructs typeName created.2 } }

/-- The graph after the loop of `mergeModifiers` has called `setModifier` on
the node `p` for each of the modifiers `resolved`, in their order. -/
def Project.setModifiers {Modifier : Type} (g : Project Modifier) (p : Nat)
    (resolved : List (Modifier × List (List Char))) : Project Modifier :=
  resolved.foldl (fun g r => g.setModifier p r.1 r.2) g

/-- The pending modifiers `pending` are all known to `toModifier`, and
`resolved` holds the modifiers it gives for their names, each with the values
of its entry, in the same order. -/
def ResolvedModifiers {Modifier : Type} (toModifier : List Char → Option Modifier)
    (pending : List (List Char × List (List Char)))
    (resolved : List (Modifier × List (List Char))) : Prop :=
  List.Forall₂ (fun entry r => toModifier entry.1 = some r.1 ∧ entry.2 = r.2) pending resolved

/-- The state after `fillContext` on the node `p` when the pending modifiers
resolve to `resolved`, no two to the same modifier and none to a modifier that
the node has: the pending documentation is merged into the documentation of
the node, the modifiers are set on it, and both buffers are empty. -/
def filled {Modifier : Type} (s : IDLCompilerState (Project Modifier)) (p : Nat)
    (resolved : List (Modifier × List (List Char))) : IDLCompilerState (Project Modifier) :=
  { documented s p with
    mProject := (documented s p).mProject.setModifiers p resolved
    mPendingModifiers := [] }

/-- No basic modifier is in the bag: all the flags are false and there is no
`long`. -/
def FoundBasicTypeModifiers.noBasicModifier (m : FoundBasicTypeModifiers) : Bool :=
  !m.mAnyBasicTypeModifiers && !m.mSigned && !m.mUnsigned && !m.mChar && !m.mShort && !m.mInt
    && decide (m.mTotalLongs = 0) && !m.mFloat && !m.mDouble

/-- The predefined typedefs for which `mergePredefined` has no case but the
throw. -/
def unmergedTypedefs : List PredefinedTypedefs :=
  [PredefinedTypedef_pointer, PredefinedTypedef_binary, PredefinedTypedef_size,
    PredefinedTypedef_string, PredefinedTypedef_astring, PredefinedTypedef_wstring]

/-- Proper nesting of the braces of a token list: each close brace is of the
kind of the last open brace that is still open; `open` holds the kinds of the
open braces, the last one first. -/
def properlyNested : List TokenTypes → List Token → Bool
  | open_, [] => open_.isEmpty
  | open_, t :: ts =>
    if t.isOpenBrace then properlyNested (t.mTokenType :: open_) ts
    else if t.isCloseBrace then
      match open_ with
      | k :: rest => decide (k = t.mTokenType) && properlyNested rest ts
      | [] => false
    else properlyNested open_ ts

/-- The active stream of a state: the top of the stack of token streams, no
token when the stack is empty. -/
def activeTokens {G : Type} (s : IDLCompilerState G) : List Token :=
  s.mTokenListStack.headD []

/-! ## The type resolver: `findTypeOrCreateTypedef` -/

/-- The members of `Type` that `findTypeOrCreateTypedef` calls besides those
`processType` calls; the class is declared in a header outside the source
file. -/
structure TypeSearchModel (G Node : Type) extends TypeModel G Node where
  toStruct : G → Node → Option Node
  getTypeBypassingTypedefIfNoop : G → Node → Node

/-- The handler `catch (const InvalidContent &e)` of `findTypeOrCreateTypedef`
around `m`: the exception is thrown on as a `FailureWithLine` at
`getLastLineNumber()`, its message behind `what` and a blank. -/
def catchInvalidContent {G α : Type} (what : List Char) (m : M G α) : M G α := fun s =>
  match m s with
  | Result.error (Failure.InvalidContent message) s' =>
    Result.error
      (Failure.FailureWithLine ZS_EVENTING_TOOL_INVALID_CONTENT (getLastLineNumber s')
        (what ++ " ".toList ++ message)) s'
  | r => r

/-- The loop of `findTypeOrCreateTypedef` that folds the tokens before the
template arguments into the modifiers. -/
def findTypeModifiersLoop {G : Type} :
    Nat → FoundBasicTypeModifiers → M G FoundBasicTypeModifiers
  | 0, _ => outOfFuel
  | fuel + 1, modifiers => do
    let s ← getState
    if !hasMoreTokens s then return modifiers
    let token ← extractNextToken "Type search".toList
    match token.mTokenType with
    | TokenType_Identifier =>
      match modifiers.insert token.mToken with
      | Except.error e => throwInvalidContentOf e
      | Except.ok modifiers => findTypeModifiersLoop fuel modifiers
    | TokenType_ScopeOperator =>
      match modifiers.insertScope with
      | Except.error e => throwInvalidContentOf e
      | Except.ok modifiers => findTypeModifiersLoop fuel modifiers
    | _ =>
      throwInvalidContent ("Type search".toList ++ " has not legal type modifier".toList)

/-- The loop of `findTypeOrCreateTypedef` over the template arguments; the
call of `findTypeOrCreateTypedef` on the tokens of an argument is a
parameter. -/
def findTypeTemplateLoop {G Node : Type} (findTypeOrCreateTypedef : List Token → M G Node) :
    Nat → List Node → M G (List Node)
  | 0, _ => outOfFuel
  | fuel + 1, templateTypes => do
    let s ← getState
    if !hasMoreTokens s then return templateTypes
    let _ ← parseComma
    let templateTypeTokens ← extractToComma "Type search".toList [] fuel
    let foundType ← findTypeOrCreateTypedef templateTypeTokens.2
    findTypeTemplateLoop findTypeOrCreateTypedef fuel (templateTypes ++ [foundType])

/-- The loop of `findTypeOrCreateTypedef` that searches for the template
arguments: `pretemplateTokens` and `templateTypes` as it leaves them. -/
def findTypePretemplateLoop {G Node : Type} (findTypeOrCreateTypedef : List Token → M G Node) :
    Nat → List Token → M G (List Token × List Node)
  | 0, _ => outOfFuel
  | fuel + 1, pretemplateTokens => do
    let what := "Type search".toList
    let s ← getState
    if !hasMoreTokens s then return (pretemplateTokens, [])
    let token ← extractNextToken what
    let pretemplateTokens := pretemplateTokens ++ [token]
    if TokenType_AngleBrace = token.mTokenType then
      putBackToken token
      let templateContents ← extractToClosingBraceToken what [] includeOuterBraceDefault fuel
      pushTokens templateContents.2
      let templateTypes ← findTypeTemplateLoop findTypeOrCreateTypedef fuel []
      let _ ← popTokens
      return (pretemplateTokens, templateTypes)
    else findTypePretemplateLoop findTypeOrCreateTypedef fuel pretemplateTokens

/-- The method `findTypeOrCreateTypedef`: the type it returns and
`outCreatedTypedef` as it leaves it; one unit of fuel for each level of
template arguments, the rest for each of its loops. When the original type of
the typedef is gone the source calls `toStruct` through a null pointer, which
is outside the model and taken as no struct. -/
def findTypeOrCreateTypedef {G Node : Type} (tm : TypeSearchModel G Node) :
    Nat → Node → List Token → Option Node → M G (Node × Option Node)
  | 0, _, _, _ => outOfFuel
  | fuel + 1, context, inTokens, outCreatedTypedef => do
    let what := "Type search".toList
    pushTokens inTokens
    let pre ← findTypePretemplateLoop
      (fun tokens => do
        let found ← findTypeOrCreateTypedef tm fuel context tokens none
        return found.1)
      fuel []
    let _ ← popTokens
    let result ← catchInvalidContent what (do
      pushTokens pre.1
      let modifiers ← findTypeModifiersLoop fuel {}
      let _ ← popTokens
      let result ← processType tm.toTypeModel fuel modifiers context outCreatedTypedef
      let s ← getState
      let originalType :=
        match tm.toTypedefType s.mProject result.1 with
        | some typedefObj => tm.mOriginalType s.mProject typedefObj
        | none => some result.1
      let structObj := originalType.bind (tm.toStruct s.mProject)
      if structObj.isNone then
        if pre.2.length > 0 then
          throwInvalidContent (what ++
            " has template parameters but type referenced isn\x27t a struct or generic template".toList)
      return result)
    let s ← getState
    return (tm.getTypeBypassingTypedefIfNoop s.mProject result.1, result.2)

/-! ## The object graph: `using namespace` -/

/-- The body of each of the three loops of `processUsingNamespace` for one
entry of a map of `usingNamespace`: unless `currentNamespace` has a typedef of
that name, a new typedef of `currentNamespace` with the name and the original
type `type` is put into its typedef map. A namespace that is not in the graph
is outside the model and left alone. -/
def processUsingEntry {Modifier : Type} (currentNamespace : Nat) (name : List Char) (type : Nat)
    (g : Project Modifier) : Project Modifier :=
  match g.node currentNamespace with
  | none => g
  | some c =>
    if (c.mTypedefs.lookup name).isSome then g
    else
      let created := g.create { kind := ContextKind.TypedefType, parent := some currentNamespace }
      let newTypedef := created.2
      let g1 := created.1.update newTypedef fun n =>
        { n with mName := name, mOriginalType := some type }
      g1.update currentNamespace fun n =>
        { n with mTypedefs := mapInsert n.mTypedefs name newTypedef }

/-- One of the three loops of `processUsingNamespace` over a map of
`usingNamespace`; `originalType` is what the loop does to the type of an entry
before it becomes the original type of the typedef. A `std::map` is walked in
the order of its keys, the list of the model in its own order, which decides
only which of the new nodes has which index. -/
def processUsingLoop {Modifier : Type} (currentNamespace : Nat)
    (originalType : Project Modifier → Nat → Nat) :
    List (List Char × Nat) → Project Modifier → Project Modifier
  | [], g => g
  | (name, type) :: rest, g =>
    processUsingLoop currentNamespace originalType rest
      (processUsingEntry currentNamespace name (originalType g type) g)

/-- The method `processUsingNamespace` on the graph: the loops over the enums,
the structs and the typedefs of `usingNamespace`. The method
`getTypeBypassingTypedefIfNoop` of `Type` is declared outside the source file
and is a parameter. -/
def processUsingNamespaceIn {Modifier : Type}
    (getTypeBypassingTypedefIfNoop : Project Modifier → Nat → Nat)
    (currentNamespace usingNamespace : Nat) (g : Project Modifier) : Project Modifier :=
  if currentNamespace = usingNamespace then g
  else
    let g1 := processUsingLoop currentNamespace (fun _ type => type)
      (((g.node usingNamespace).map fun n => n.mEnums).getD []) g
    let g2 := processUsingLoop currentNamespace getTypeBypassingTypedefIfNoop
      (((g1.node usingNamespace).map fun n => n.mStructs).getD []) g1
    processUsingLoop currentNamespace (fun _ type => type)
      (((g2.node usingNamespace).map fun n => n.mTypedefs).getD []) g2

/-- The method `processUsingNamespace`. -/
def processUsingNamespace {Modifier : Type}
    (getTypeBypassingTypedefIfNoop : Project Modifier → Nat → Nat)
    (currentNamespace usingNamespace : Nat) : M (Project Modifier) Unit := do
  let s ← getState
  setProject
    (processUsingNamespaceIn getTypeBypassingTypedefIfNoop currentNamespace usingNamespace
      s.mProject)

/-! ## Predicates of the specification: `using namespace` -/

/-- The graph `g` is `g0` after typedefs for the names `names` have been
imported into the namespace `cur`: the key set of the typedef map of `cur` is
the old one united with `names`, the old entries are as they were, each new
entry is a new node, a typedef with that name whose parent is `cur`, and
nothing else of the old graph has changed. -/
def Imported {Modifier : Type} (g0 g : Project Modifier) (cur : Nat)
    (names : List (List Char)) : Prop :=
  g0.nodes.length ≤ g.nodes.length ∧ g.mDefinedExclusives = g0.mDefinedExclusives ∧
  (∀ q, q < g0.nodes.length → q ≠ cur → g.node q = g0.node q) ∧
  ∃ c0 c, g0.node cur = some c0 ∧ g.node cur = some c ∧
    c = { c0 with mTypedefs := c.mTypedefs } ∧
    (∀ name, (c.mTypedefs.lookup name).isSome
      ↔ (c0.mTypedefs.lookup name).isSome ∨ name ∈ names) ∧
    (∀ name v, c0.mTypedefs.lookup name = some v → c.mTypedefs.lookup name = some v) ∧
    (∀ name v, c0.mTypedefs.lookup name = none → c.mTypedefs.lookup name = some v →
      g0.nodes.length ≤ v ∧ ∃ n, g.node v = some n ∧ n.kind = ContextKind.TypedefType ∧
        n.mName = name ∧ n.parent = some cur)

/-- The names of the entries of a map. -/
def mapKeys (map : List (List Char × Nat)) : List (List Char) := map.map fun entry => entry.1

/-! ## Predicates of the specification: the depth of the stacks -/

/-- The stack of token streams and the stack of last tokens have the same
depth, as they have after any number of `pushTokens` and `popTokens`, which
push and pop both. -/
def Synced {G : Type} (s : IDLCompilerState G) : Prop :=
  s.mLastTokenStack.length = s.mTokenListStack.length

/-- Both stacks of the state have the same depth, and this depth is `d` when
`exact` is set and at most `d` when it is not. -/
def DepthIs {G : Type} (exact : Bool) (d : Nat) (s : IDLCompilerState G) : Prop :=
  Synced s ∧ s.mTokenListStack.length ≤ d ∧ (exact = true → s.mTokenListStack.length = d)

/-- Every normal return of `m` from a state with `P` gives a result and a
state with `Q`. -/
def Triple {G α : Type} (P : IDLCompilerState G → Prop) (m : M G α)
    (Q : α → IDLCompilerState G → Prop) : Prop :=
  ∀ s, P s → ∀ a s', m s = Result.ok a s' → Q a s'

/-- Every normal return of `m` from a state whose stacks have depth `d` ends,
for every `d`, in a state whose stacks have depth `d` (`exact` set) or at most
`d` (`exact` not set). -/
abbrev KeepsDepth {G α : Type} (exact : Bool) (m : M G α) : Prop :=
  ∀ d, Triple (DepthIs exact d) m (fun _ => DepthIs exact d)

/-- The members of the object model that `parseStruct` calls leave the stack
of token streams and the stack of last tokens at their depth on every normal
return. In the source `processStructForward` does not touch the stacks, and
`processRelated` is a call of `findTypeOrCreateTypedef`. -/
def ObjectModel.KeepsStacks {G Node Modifier : Type} (om : ObjectModel G Node Modifier) :
    Prop :=
  (∀ context name, KeepsDepth true (om.processStructForward context name)) ∧
  (∀ structObj typeTokens, KeepsDepth true (om.processRelated structObj typeTokens)) ∧
  (∀ context typeTokens, KeepsDepth true (om.findTypeOrCreateTypedef context typeTokens))

/-- A run of binary digits is consumed by the digit loop in base 2. -/
theorem digitLoop_binary_run (bits rest : List Char) (hb : ∀ b ∈ bits, b = '0' ∨ b = '1') :
    digitLoop 2 (bits ++ rest) = digitLoop 2 rest := by
  induction bits with
  | nil => rfl
  | cons b bs ih =>
    have hb0 := hb b (by simp)
    have ih2 := ih (fun x hx => hb x (by simp [hx]))
    rcases hb0 with rfl | rfl <;> simpa [digitLoop, NUL] using ih2

/-- A run of octal digits is consumed by the digit loop in base 8. -/
theorem digitLoop_octal_run (ds rest : List Char)
    (hd : ∀ b ∈ ds, b ∈ ['0', '1', '2', '3', '4', '5', '6', '7']) :
    digitLoop 8 (ds ++ rest) = digitLoop 8 rest := by
  induction ds with
  | nil => rfl
  | cons b bs ih =>
    have hb0 := hd b (by simp)
    have ih2 := ih (fun x hx => hd x (by simp [hx]))
    simp only [List.mem_cons, List.mem_singleton, List.not_mem_nil, or_false] at hb0
    rcases hb0 with rfl | rfl | rfl | rfl | rfl | rfl | rfl | rfl <;>
      simpa [digitLoop, NUL] using ih2

/-- A run of hexadecimal digits is consumed by the digit loop in base 16. -/
theorem digitLoop_hex_run (hs rest : List Char)
    (hh : ∀ b ∈ hs, isnumber b = true ∨ isHexLetter b = true) :
    digitLoop 16 (hs ++ rest) = digitLoop 16 rest := by
  induction hs with
  | nil => rfl
  | cons b bs ih =>
    have hb0 := hh b (by simp)
    have ih2 := ih (fun x hx => hh x (by simp [hx]))
    simp only [isnumber, isHexLetter, Bool.or_eq_true, decide_eq_true_eq] at hb0
    rcases hb0 with
      (((((((((rfl | rfl) | rfl) | rfl) | rfl) | rfl) | rfl) | rfl) | rfl) | rfl) |
      (((((((((((rfl | rfl) | rfl) | rfl) | rfl) | rfl) | rfl) | rfl) | rfl) | rfl) | rfl) | rfl)
      <;> simpa [digitLoop, NUL, isHexLetter] using ih2

/-- The cursor at `done` behind a prefix and a digit run that ends at a byte
which neither the exponent block nor the suffix block takes. -/
theorem numberEnd_run (base : Nat) (start run : List Char) (c : Char) (rest : List Char)
    (hbase : base ≠ 10)
    (hstart : getNumberBase (start ++ (run ++ c :: rest)) = (base, run ++ c :: rest))
    (hrun : digitLoop base (run ++ c :: rest) = c :: rest)
    (hc : c ∉ ['u', 'U', 'l', 'L', 'f', 'F']) :
    numberEnd (start ++ (run ++ c :: rest)) = c :: rest := by
  simp only [List.mem_cons, List.mem_singleton, List.not_mem_nil, or_false, not_or] at hc
  obtain ⟨h1, h2, h3, h4, h5, h6⟩ := hc
  unfold numberEnd
  simp only [hstart, hrun, checkExponent, hbase, ne_eq, not_false_eq_true, if_true, ite_self,
    checkPostfix, postfixLoop, h1, h2, h3, h4, h5, h6, or_self, if_false]

/-- The function `getNumberToken` on a text that starts with `0`, from the
cursor at `done`. -/
theorem getNumberToken_zero (h : Helper) (pre q : List Char) (lineCount : Nat)
    (hend : numberEnd ('0' :: (pre ++ q)) = q) :
    getNumberToken h ('0' :: (pre ++ q)) lineCount
      = some (⟨TokenType_Number, '0' :: pre, lineCount⟩, q) := by
  have hneg : decide (peek ('0' :: (pre ++ q)) = '-') = false := rfl
  have hnum : isnumber (peek ('0' :: (pre ++ q))) = true := rfl
  have htake : ('0' :: (pre ++ q)).take (('0' :: (pre ++ q)).length - q.length) = '0' :: pre := by
    have hlen : ('0' :: (pre ++ q)).length - q.length = ('0' :: pre).length := by
      simp only [List.length_cons, List.length_append]
      omega
    rw [hlen, show '0' :: (pre ++ q) = ('0' :: pre) ++ q from rfl, List.take_left]
  unfold getNumberToken
  simp only [hneg, Bool.false_eq_true, if_false, hnum, Bool.not_true, hend, htake]

/-- C2: `getNumberToken` on `0xFF`, `0b1010` and `017` at the end of input
returns one Number token holding the whole literal, with the cursor at the
end, and the prefix switch chooses base 16, 2 and 8. Behind `0b` and any run
of binary digits a digit 2-9 ends the token: the lexeme is `0b` with the run
and the cursor is on that digit, whatever follows; behind `0`, an octal digit
and any run of octal digits a digit 8-9 ends the token in the same way; and
behind `0x` and any run of hexadecimal digits the token ends at the first byte
that is no hexadecimal digit and none of `u`, `U`, `l`, `L`, a dot among
them. -/
theorem getNumberToken_bases (h : Helper) (lineCount : Nat) :
    (getNumberToken h "0xFF".toList lineCount
        = some (⟨TokenType_Number, "0xFF".toList, lineCount⟩, [])
      ∧ (getNumberBase "0xFF".toList).1 = 16)
    ∧ (getNumberToken h "0b1010".toList lineCount
        = some (⟨TokenType_Number, "0b1010".toList, lineCount⟩, [])
      ∧ (getNumberBase "0b1010".toList).1 = 2)
    ∧ (getNumberToken h "017".toList lineCount
        = some (⟨TokenType_Number, "017".toList, lineCount⟩, [])
      ∧ (getNumberBase "017".toList).1 = 8)
    ∧ (∀ (bits : List Char) (c : Char) (rest : List Char),
        (∀ b ∈ bits, b = '0' ∨ b = '1') →
        c ∈ ['2', '3', '4', '5', '6', '7', '8', '9'] →
        getNumberToken h ('0' :: 'b' :: (bits ++ c :: rest)) lineCount
            = some (⟨TokenType_Number, '0' :: 'b' :: bits, lineCount⟩, c :: rest)
          ∧ (getNumberBase ('0' :: 'b' :: (bits ++ c :: rest))).1 = 2)
    ∧ (∀ (d : Char) (ds : List Char) (c : Char) (rest : List Char),
        (∀ b ∈ d :: ds, b ∈ ['0', '1', '2', '3', '4', '5', '6', '7']) →
        c ∈ ['8', '9'] →
        getNumberToken h ('0' :: d :: (ds ++ c :: rest)) lineCount
            = some (⟨TokenType_Number, '0' :: d :: ds, lineCount⟩, c :: rest)
          ∧ (getNumberBase ('0' :: d :: (ds ++ c :: rest))).1 = 8)
    ∧ (∀ (hs : List Char) (c : Char) (rest : List Char),
        (∀ b ∈ hs, isnumber b = true ∨ isHexLetter b = true) →
        isnumber c = false → isHexLetter c = false → c ≠ NUL → c ∉ ['u', 'U', 'l', 'L'] →
        getNumberToken h ('0' :: 'x' :: (hs ++ c :: rest)) lineCount
            = some (⟨TokenType_Number, '0' :: 'x' :: hs, lineCount⟩, c :: rest)
          ∧ (getNumberBase ('0' :: 'x' :: (hs ++ c :: rest))).1 = 16) := by
  refine ⟨⟨rfl, rfl⟩, ⟨rfl, rfl⟩, ⟨rfl, rfl⟩, ?_, ?_, ?_⟩
  · intro bits c rest hb hc
    have hrun : digitLoop 2 (bits ++ c :: rest) = c :: rest := by
      rw [digitLoop_binary_run bits (c :: rest) hb]
      simp only [List.mem_cons, List.mem_singleton, List.not_mem_nil, or_false] at hc
      rcases hc with rfl | rfl | rfl | rfl | rfl | rfl | rfl | rfl <;> rfl
    have hbase : getNumberBase (['0', 'b'] ++ (bits ++ c :: rest)) = (2, bits ++ c :: rest) := rfl
    have hend := numberEnd_run 2 ['0', 'b'] bits c rest (by decide) hbase hrun (by
      simp only [List.mem_cons, List.mem_singleton, List.not_mem_nil, or_false] at hc
      rcases hc with rfl | rfl | rfl | rfl | rfl | rfl | rfl | rfl <;> decide)
    refine ⟨?_, rfl⟩
    exact getNumberToken_zero h ('b' :: bits) (c :: rest) lineCount hend
  · intro d ds c rest hd hc
    have hrun : digitLoop 8 ((d :: ds) ++ c :: rest) = c :: rest := by
      rw [digitLoop_octal_run (d :: ds) (c :: rest) hd]
      simp only [List.mem_cons, List.mem_singleton, List.not_mem_nil, or_false] at hc
      rcases hc with rfl | rfl <;> rfl
    have hd0 := hd d (by simp)
    have hbase : getNumberBase (['0'] ++ ((d :: ds) ++ c :: rest))
        = (8, (d :: ds) ++ c :: rest) := by
      simp only [List.mem_cons, List.mem_singleton, List.not_mem_nil, or_false] at hd0
      rcases hd0 with rfl | rfl | rfl | rfl | rfl | rfl | rfl | rfl <;> rfl
    have hend := numberEnd_run 8 ['0'] (d :: ds) c rest (by decide) hbase hrun (by
      simp only [List.mem_cons, List.mem_singleton, List.not_mem_nil, or_false] at hc
      rcases hc with rfl | rfl <;> decide)
    refine ⟨?_, by rw [show '0' :: d :: (ds ++ c :: rest) = ['0'] ++ ((d :: ds) ++ c :: rest)
      from rfl, hbase]⟩
    exact getNumberToken_zero h (d :: ds) (c :: rest) lineCount hend
  · intro hs c rest hh hn hl h0 hc
    have hrun : digitLoop 16 (hs ++ c :: rest) = c :: rest := by
      rw [digitLoop_hex_run hs (c :: rest) hh]
      simp only [isnumber, Bool.or_eq_false_iff, decide_eq_false_iff_not] at hn
      simp [digitLoop, h0, hn, hl]
    have hbase : getNumberBase (['0', 'x'] ++ (hs ++ c :: rest)) = (16, hs ++ c :: rest) := rfl
    have hend := numberEnd_run 16 ['0', 'x'] hs c rest (by decide) hbase hrun (by
      simp only [isHexLetter, Bool.or_eq_false_iff, decide_eq_false_iff_not] at hl
      simp only [List.mem_cons, List.mem_singleton, List.not_mem_nil, or_false, not_or] at hc ⊢
      exact ⟨hc.1, hc.2.1, hc.2.2.1, hc.2.2.2, hl.1.2, hl.2⟩)
    refine ⟨?_, rfl⟩
    exact getNumberToken_zero h ('x' :: hs) (c :: rest) lineCount hend

/-- C2 on `0b1012`, `01789` and `0xFF.5`: the tokens are `0b101`, `017` and
`0xFF`, with the cursor on `2`, on `89` and on `.5`. -/
theorem getNumberToken_bases_witness :
    getNumberToken specHelper "0b1012".toList 1
        = some (⟨TokenType_Number, "0b101".toList, 1⟩, "2".toList)
    ∧ getNumberToken specHelper "01789".toList 1
        = some (⟨TokenType_Number, "017".toList, 1⟩, "89".toList)
    ∧ getNumberToken specHelper "0xFF.5".toList 1
        = some (⟨TokenType_Number, "0xFF".toList, 1⟩, ".5".toList) :=
  ⟨((getNumberToken_bases specHelper 1).2.2.2.1 "101".toList '2' [] (by decide) (by decide)).1,
   ((getNumberToken_bases specHelper 1).2.2.2.2.1 '1' "7".toList '8' ['9'] (by decide)
      (by decide)).1,
   ((getNumberToken_bases specHelper 1).2.2.2.2.2 "FF".toList '.' ['5'] (by decide) (by decide)
      (by decide) (by decide) (by decide)).1⟩

/-! ## Number literals: the letters `a`-`f` in base 10 -/

/-- C3: on the input `1e` the digit loop takes the `e` as a digit (its test
for the letters is `base >= 10`), so `getNumberToken` returns the lexeme `1e`
with the cursor at the end, and `tokenize` yields that single Number token
instead of Number `1`, Identifier `e`. -/
theorem tokenize_1e (h : Helper) (lineCount fuel n : Nat) :
    getNumberToken h "1e".toList lineCount
      = some (⟨TokenType_Number, "1e".toList, lineCount⟩, [])
    ∧ tokenize specHelper (fuel + 1) (n + 2) "1e".toList 1
      = some [⟨TokenType_Number, "1e".toList, 1⟩] :=
  ⟨rfl, rfl⟩

/-- C4: on the input `12ab` the digit loop in base 10 takes the letters `a`
and `b` as digits, so `getNumberToken` returns the lexeme `12ab` and
`tokenize` yields that single Number token instead of Number `12`,
Identifier `ab`. -/
theorem tokenize_12ab (h : Helper) (lineCount fuel n : Nat) :
    digitLoop 10 "12ab".toList = []
    ∧ getNumberToken h "12ab".toList lineCount
      = some (⟨TokenType_Number, "12ab".toList, lineCount⟩, [])
    ∧ tokenize specHelper (fuel + 1) (n + 2) "12ab".toList 1
      = some [⟨TokenType_Number, "12ab".toList, 1⟩] :=
  ⟨rfl, rfl, rfl⟩

/-! ## Documentation and directive comments -/

/-- C6: on `///a` and `//!a`, each followed by a newline, the lexeme is the one
byte read at the end of the line, the newline itself, not the text `a`: the
string is built from the cursor after `skipToEOL`, not from `start`. -/
theorem getCPPDocToken_lexeme (ioLineCount : Nat) :
    getCPPDocToken specHelper "///a\n".toList ioLineCount
      = some (⟨TokenType_Documentation, ['\n'], ioLineCount⟩, ioLineCount + 1)
    ∧ getCPPDirectiveToken specHelper "//!a\n".toList ioLineCount
      = some (⟨TokenType_Directive, ['\n'], ioLineCount⟩, ioLineCount + 1) :=
  ⟨rfl, rfl⟩

/-! ## Line numbers and token kinds of the main loop -/

theorem skipPreprocessor_line (h : Helper) (hm : LineMonotone h) (startPos : List Char) :
    ∀ (fuel : Nat) (p : List Char) (l : Nat) (r : List Char × Nat),
      skipPreprocessor h startPos fuel p l = some r → l ≤ r.2 := by
  intro fuel
  induction fuel with
  | zero => intro p l r hr; simp [skipPreprocessor] at hr
  | succ fuel ih =>
    intro p l r hr
    rw [skipPreprocessor] at hr
    simp only at hr
    split at hr
    · exact ih _ _ _ hr
    · exact ih _ _ _ hr
    · split at hr
      · split at hr
        · exact le_trans (hm.1 _ _) (ih _ _ _ hr)
        · injection hr with hr
          subst hr
          exact le_trans (hm.1 _ _) (hm.1 _ _)
      · injection hr with hr
        subst hr
        exact hm.1 _ _

theorem emittable_ite (c : Prop) [Decidable c] (a b : TokenTypes)
    (ha : Emittable a) (hb : Emittable b) : Emittable (if c then a else b) := by
  split <;> assumption

theorem operatorKind_emittable (v : List Char) : Emittable (operatorKind v) := by
  unfold operatorKind
  repeat (refine emittable_ite _ _ _ ⟨by decide, by decide⟩ ?_)
  exact ⟨by decide, by decide⟩

theorem getCPPDirectiveToken_some (h : Helper) (p : List Char) (l : Nat) (r : Token × Nat)
    (hr : getCPPDirectiveToken h p l = some r) :
    r.1.mTokenType = TokenType_Directive ∧ r.1.mLineCount = l ∧
      r.2 = (h.skipEOL (h.skipToEOL (p.drop 3)) l).2.2 := by
  unfold getCPPDirectiveToken at hr
  simp only at hr
  split_ifs at hr
  cases hr
  exact ⟨rfl, rfl, rfl⟩

theorem getCPPDocToken_some (h : Helper) (p : List Char) (l : Nat) (r : Token × Nat)
    (hr : getCPPDocToken h p l = some r) :
    r.1.mTokenType = TokenType_Documentation ∧ r.1.mLineCount = l ∧
      r.2 = (h.skipEOL (h.skipToEOL (p.drop 3)) l).2.2 := by
  unfold getCPPDocToken at hr
  simp only at hr
  split_ifs at hr
  cases hr
  exact ⟨rfl, rfl, rfl⟩

theorem getQuoteToken_line (h : Helper) (p : List Char) (l : Nat) :
    (getQuoteToken h p l).2.2 = (h.skipQuote p l).2.2 ∧
    ∀ t, (getQuoteToken h p l).1 = some t →
      t.mTokenType = TokenType_Quote ∧ t.mLineCount = l := by
  unfold getQuoteToken
  simp only
  split_ifs
  · exact ⟨rfl, fun t ht => by cases ht⟩
  · exact ⟨rfl, fun t ht => by cases ht; exact ⟨rfl, rfl⟩⟩

theorem getNumberToken_some (h : Helper) (p : List Char) (l : Nat) (r : Token × List Char)
    (hr : getNumberToken h p l = some r) :
    r.1.mTokenType = TokenType_Number ∧ r.1.mLineCount = l := by
  unfold getNumberToken at hr
  simp only at hr
  split_ifs at hr <;> cases hr <;> exact ⟨rfl, rfl⟩

theorem getIdentifierToken_some (p : List Char) (l : Nat) (r : Token × List Char)
    (hr : getIdentifierToken p l = some r) :
    r.1.mTokenType = TokenType_Identifier ∧ r.1.mLineCount = l := by
  unfold getIdentifierToken at hr
  simp only at hr
  split_ifs at hr
  cases hr
  exact ⟨rfl, rfl⟩

theorem getOperatorToken_some (p : List Char) (l : Nat) :
    ∃ r, getOperatorToken p l = some r ∧ Emittable r.1.mTokenType ∧ r.1.mLineCount = l :=
  ⟨_, rfl, operatorKind_emittable _, rfl⟩

theorem turnOK_token (h : Helper) (st : LexState) (t : Token) (st' : LexState)
    (hk : Emittable t.mTokenType)
    (hl : LineMonotone h → st.ioLineCount ≤ t.mLineCount ∧ t.mLineCount ≤ st'.ioLineCount) :
    TurnOK h st (Turn.returnToken (some t) st') := by
  refine ⟨fun hm => ⟨le_trans (hl hm).1 (hl hm).2, ?_⟩, ?_⟩
  · intro t' ht
    cases ht
    exact hl hm
  · intro t' ht
    cases ht
    exact hk

theorem turnOK_mono (h : Helper) (st st2 : LexState) (t : Turn)
    (hle : LineMonotone h → st.ioLineCount ≤ st2.ioLineCount) (ht : TurnOK h st2 t) :
    TurnOK h st t := by
  cases t with
  | continueLoop st' => exact fun hm => le_trans (hle hm) (ht hm)
  | returnToken r st' =>
    exact ⟨fun hm => ⟨le_trans (hle hm) (ht.1 hm).1,
      fun t' ht' => ⟨le_trans (hle hm) ((ht.1 hm).2 t' ht').1, ((ht.1 hm).2 t' ht').2⟩⟩, ht.2⟩
  | outOfFuel => trivial

theorem getNextTokenAttempts_ok (h : Helper) (st : LexState) :
    TurnOK h st (getNextTokenAttempts h st) := by
  have hq := getQuoteToken_line h st.p st.ioLineCount
  unfold getNextTokenAttempts
  split
  · rename_i t q line he
    rw [he] at hq
    obtain ⟨h1, h2⟩ := hq
    obtain ⟨hk, hl⟩ := h2 t rfl
    simp only at h1
    apply turnOK_token
    · rw [hk]; exact ⟨by decide, by decide⟩
    · intro hm
      rw [hl, h1]
      exact ⟨le_refl _, hm.2.2 _ _⟩
  · rename_i q line he
    rw [he] at hq
    have hline : LineMonotone h → st.ioLineCount ≤ line := fun hm => by
      have := hq.1
      simp only at this
      rw [this]
      exact hm.2.2 _ _
    split
    · rename_i r hr
      obtain ⟨hk, hl⟩ := getNumberToken_some h q line r hr
      apply turnOK_token
      · rw [hk]; exact ⟨by decide, by decide⟩
      · intro hm; rw [hl]; exact ⟨hline hm, le_refl _⟩
    · split
      · rename_i r hr
        obtain ⟨hk, hl⟩ := getIdentifierToken_some q line r hr
        apply turnOK_token
        · rw [hk]; exact ⟨by decide, by decide⟩
        · intro hm; rw [hl]; exact ⟨hline hm, le_refl _⟩
      · split
        · rename_i r hr
          obtain ⟨r', hr', hk, hl⟩ := getOperatorToken_some q line
          rw [hr] at hr'
          cases hr'
          apply turnOK_token _ _ _ _ hk
          intro hm; rw [hl]; exact ⟨hline hm, le_refl _⟩
        · rename_i hr
          obtain ⟨r', hr', -⟩ := getOperatorToken_some q line
          rw [hr] at hr'
          cases hr'

theorem getNextTokenTurn_ok (h : Helper) (fuel : Nat) (st : LexState) :
    TurnOK h st (getNextTokenTurn h fuel st) := by
  unfold getNextTokenTurn
  simp only
  split
  · intro _; exact le_refl _
  split
  · intro hm; exact hm.1 _ _
  split
  · split
    · trivial
    · rename_i r hr
      intro hm
      exact le_trans (hm.1 _ _) (skipPreprocessor_line h hm _ _ _ _ _ hr)
  split
  · intro hm
    exact le_trans (hm.1 _ _) (hm.2.1 _ _)
  split
  · rename_i r hr
    obtain ⟨hk, hl, h2⟩ := getCPPDirectiveToken_some h _ _ r hr
    apply turnOK_token
    · rw [hk]; exact ⟨by decide, by decide⟩
    · intro hm
      rw [hl, h2]
      exact ⟨le_trans (hm.1 _ _) (hm.2.1 _ _), hm.1 _ _⟩
  split
  · rename_i r hr
    obtain ⟨hk, hl, h2⟩ := getCPPDocToken_some h _ _ r hr
    apply turnOK_token
    · rw [hk]; exact ⟨by decide, by decide⟩
    · intro hm
      rw [hl, h2]
      exact ⟨le_trans (hm.1 _ _) (hm.2.1 _ _), hm.1 _ _⟩
  split
  · intro hm
    exact le_trans (le_trans (hm.1 _ _) (hm.2.1 _ _)) (hm.1 _ _)
  · refine turnOK_mono h _ _ _ ?_ (getNextTokenAttempts_ok h _)
    intro hm
    exact le_trans (hm.1 _ _) (hm.2.1 _ _)

/-- What one call of `getNextToken` guarantees: over a line-monotone `Helper`
the counter does not go down and the token's line lies between the counter
before and after; and the token is never of kind Char or Unknown. -/
theorem getNextToken_step (h : Helper) :
    ∀ (fuel : Nat) (st : LexState) (r : Option Token) (st' : LexState),
      getNextToken h fuel st = some (r, st') →
      (LineMonotone h → st.ioLineCount ≤ st'.ioLineCount ∧
        ∀ t, r = some t → st.ioLineCount ≤ t.mLineCount ∧ t.mLineCount ≤ st'.ioLineCount) ∧
      (∀ t, r = some t → Emittable t.mTokenType) := by
  intro fuel
  induction fuel with
  | zero => intro st r st' hq; cases hq
  | succ fuel ih =>
    intro st r st' hq
    rw [getNextToken] at hq
    split at hq
    · cases hq
      exact ⟨fun _ => ⟨le_refl _, fun t ht => by cases ht⟩, fun t ht => by cases ht⟩
    · have hturn := getNextTokenTurn_ok h fuel st
      split at hq
      · rename_i st2 he
        rw [he] at hturn
        have := ih _ _ _ hq
        exact ⟨fun hm => ⟨le_trans (hturn hm) (this.1 hm).1,
          fun t ht => ⟨le_trans (hturn hm) ((this.1 hm).2 t ht).1, ((this.1 hm).2 t ht).2⟩⟩,
          this.2⟩
      · rename_i r2 st2 he
        rw [he] at hturn
        cases hq
        exact hturn
      · cases hq

/-- The lines of the tokens of `tokenizeLoop` start at the counter it is
entered with and never go down; no token is of kind Char or Unknown. -/
theorem tokenizeLoop_tokens (h : Helper) (fuel : Nat) :
    ∀ (n : Nat) (st : LexState),
      (LineMonotone h →
        List.Chain (fun a b => a ≤ b) st.ioLineCount
          ((tokenizeLoop h fuel n st).1.map Token.mLineCount)) ∧
      (∀ t ∈ (tokenizeLoop h fuel n st).1, Emittable t.mTokenType) := by
  intro n
  induction n with
  | zero => intro st; exact ⟨fun _ => List.Chain.nil, fun t ht => by cases ht⟩
  | succ n ih =>
    intro st
    rw [tokenizeLoop]
    split
    · exact ⟨fun _ => List.Chain.nil, fun t ht => by cases ht⟩
    · exact ⟨fun _ => List.Chain.nil, fun t ht => by cases ht⟩
    · rename_i t st2 he
      have hs := getNextToken_step h fuel st (some t) st2 he
      have hi := ih st2
      refine ⟨fun hm => ?_, ?_⟩
      · have h1 := (hs.1 hm).2 t rfl
        simp only [List.map_cons]
        refine List.Chain.cons h1.1 ?_
        have h2 := hi.1 hm
        cases hc : (tokenizeLoop h fuel n st2).1.map Token.mLineCount with
        | nil => exact List.Chain.nil
        | cons a l =>
          rw [hc] at h2
          cases h2 with
          | cons hab hl => exact List.Chain.cons (le_trans h1.2 hab) hl
      · intro t' ht'
        simp only [List.mem_cons] at ht'
        rcases ht' with rfl | ht'
        · exact hs.2 _ rfl
        · exact hi.2 _ ht'

theorem specCCommentBody_line : ∀ (p : List Char) (l : Nat), l ≤ (specCCommentBody p l).2 := by
  intro p
  induction p with
  | nil => intro l; exact le_refl _
  | cons c cs ih =>
    intro l
    rw [specCCommentBody]
    split_ifs
    · exact le_refl _
    · exact le_refl _
    · exact le_trans (Nat.le_succ l) (ih _)
    · exact ih _

theorem specQuoteBody_line : ∀ (p : List Char) (e : Bool) (l : Nat) (r : List Char × Nat),
    specQuoteBody e p l = some r → l ≤ r.2 := by
  intro p
  induction p with
  | nil => intro e l r hr; cases hr
  | cons c cs ih =>
    intro e l r hr
    rw [specQuoteBody] at hr
    split_ifs at hr
    · exact le_trans (Nat.le_succ l) (ih _ _ _ hr)
    · exact ih _ _ _ hr
    · cases hr; exact le_refl _
    · exact ih _ _ _ hr
    · exact le_trans (Nat.le_succ l) (ih _ _ _ hr)
    · exact ih _ _ _ hr

theorem specHelper_lineMonotone : LineMonotone specHelper := by
  refine ⟨?_, ?_, ?_⟩
  · intro p l
    show l ≤ (specSkipEOL p l).2.2
    unfold specSkipEOL
    split_ifs <;> simp
  · intro p l
    show l ≤ (specSkipCComments p l).2.2
    unfold specSkipCComments
    split_ifs
    · exact specCCommentBody_line _ _
    · exact le_refl _
  · intro p l
    show l ≤ (specSkipQuote p l).2.2
    unfold specSkipQuote
    split_ifs
    · split
      · rename_i r hr
        exact specQuoteBody_line _ _ _ _ hr
      · exact le_refl _
    · exact le_refl _

/-- C1: over `Helper` routines that never decrease the line counter, for every
buffer and every start line at least 1, each token that `tokenize` has pushed
after any number `n` of calls of `getNextToken` (with any fuel) has a line at
least 1, and the lines are non-decreasing in emission order. -/
theorem tokenize_lines_monotone (h : Helper) (hm : LineMonotone h) (p : List Char)
    (startLineNumber : Nat) (hs : 1 ≤ startLineNumber) (fuel n : Nat) :
    (∀ t ∈ (tokenizeLoop h fuel n ⟨p, true, startLineNumber⟩).1, 1 ≤ t.mLineCount) ∧
    List.Pairwise (fun a b => a ≤ b)
      ((tokenizeLoop h fuel n ⟨p, true, startLineNumber⟩).1.map Token.mLineCount) := by
  have hc := (tokenizeLoop_tokens h fuel n ⟨p, true, startLineNumber⟩).1 hm
  have hp := (List.chain_iff_pairwise.mp hc)
  simp only [List.pairwise_cons] at hp
  refine ⟨fun t ht => ?_, hp.2⟩
  exact le_trans hs (hp.1 _ (List.mem_map_of_mem _ ht))

/-- C1 over `specHelper` at the buffer `a`, newline, `"b"`, newline, `c`, whose
three tokens are on lines 1, 2 and 3. -/
theorem tokenize_lines_monotone_witness :
    LineMonotone specHelper ∧ 1 ≤ 1 ∧
    (tokenizeLoop specHelper 4 4 ⟨"a\n\"b\"\nc".toList, true, 1⟩).1.map Token.mLineCount
      = [1, 2, 3] ∧
    (∀ t ∈ (tokenizeLoop specHelper 4 4 ⟨"a\n\"b\"\nc".toList, true, 1⟩).1,
      1 ≤ t.mLineCount) ∧
    List.Pairwise (fun a b => a ≤ b)
      ((tokenizeLoop specHelper 4 4 ⟨"a\n\"b\"\nc".toList, true, 1⟩).1.map
        Token.mLineCount) :=
  ⟨specHelper_lineMonotone, le_refl 1, rfl,
   (tokenize_lines_monotone specHelper specHelper_lineMonotone "a\n\"b\"\nc".toList 1
      (le_refl 1) 4 4).1,
   (tokenize_lines_monotone specHelper specHelper_lineMonotone "a\n\"b\"\nc".toList 1
      (le_refl 1) 4 4).2⟩

/-! ## Number literals: suffixes -/

theorem digitLoop_decimal_run (d rest : List Char) (hd : ∀ c ∈ d, isnumber c = true) :
    digitLoop 10 (d ++ rest) = digitLoop 10 rest := by
  induction d with
  | nil => rfl
  | cons b bs ih =>
    have hb0 := hd b (by simp)
    have ih2 := ih (fun x hx => hd x (by simp [hx]))
    simp only [isnumber, Bool.or_eq_true, decide_eq_true_eq] at hb0
    rcases hb0 with ((((((((rfl | rfl) | rfl) | rfl) | rfl) | rfl) | rfl) | rfl) | rfl) | rfl <;>
      simpa [digitLoop, NUL] using ih2

theorem digitLoop_stop (rest : List Char) (hc : continuesDigits (peek rest) = false) :
    digitLoop 10 rest = rest := by
  cases rest with
  | nil => rfl
  | cons c cs =>
    simp only [peek, List.headD_cons, continuesDigits, isnumber, Bool.or_eq_false_iff,
      decide_eq_false_iff_not] at hc
    simp [digitLoop, hc]

theorem postfixLoop_stop (base : Nat) (u f : Bool) (l : Nat) (a : Bool) (rest : List Char)
    (hc : isSuffixByte (peek rest) = false) : postfixLoop base u f l a rest = some rest := by
  cases rest with
  | nil => rfl
  | cons c cs =>
    simp only [peek, List.headD_cons, isSuffixByte, isSuffixU, isSuffixL, Bool.or_eq_false_iff,
      decide_eq_false_iff_not] at hc
    simp [postfixLoop, hc]

theorem postfixLoop_suffix (rest : List Char) (hc : isSuffixByte (peek rest) = false) :
    ∀ (s : List Char), (∀ c ∈ s, isSuffixU c = true ∨ isSuffixL c = true) →
    ∀ (u : Bool) (l : Nat) (a : Bool), l ≤ 2 → (a = true → 0 < l) →
      postfixLoop 10 u false l a (s ++ rest) = if suffixOK u l a s then some rest else none := by
  intro s
  induction s with
  | nil =>
    intro _ u l a hl _
    rw [List.nil_append, postfixLoop_stop _ _ _ _ _ _ hc]
    have : suffixOK u l a [] = true := by
      cases u <;> simp [suffixOK, longsAdjacent, hl]
    rw [this]; rfl
  | cons c t ih =>
    intro hs u l a hl ha
    have hc0 := hs c (by simp)
    have ih2 := ih (fun x hx => hs x (by simp [hx]))
    simp only [isSuffixU, isSuffixL, Bool.or_eq_true, decide_eq_true_eq] at hc0
    have hl3 : l = 0 ∨ l = 1 ∨ l = 2 := by omega
    rcases hc0 with (rfl | rfl) | (rfl | rfl) <;> rcases hl3 with rfl | rfl | rfl <;>
      cases u <;> cases a <;>
      simp [postfixLoop, ih2, suffixOK, longsAdjacent, isSuffixU, isSuffixL, List.countP_cons,
        -List.countP_eq_zero] at ha ⊢ <;>
      (split_ifs with h1 h2 h2 <;>
        first
        | rfl
        | (obtain ⟨⟨a, b⟩, c⟩ := h1; exact absurd ⟨⟨a, by omega⟩, c⟩ h2)
        | (obtain ⟨⟨a, b⟩, c⟩ := h2; exact absurd ⟨⟨a, by omega⟩, c⟩ h1))

theorem suffixOK_start (s : List Char) : suffixOK false 0 false s = wellFormedSuffix s := by
  simp [suffixOK, wellFormedSuffix]

theorem take_length_sub (a b : List Char) : (a ++ b).take ((a ++ b).length - b.length) = a := by
  simp

/-- The cursor at `done` for a base-10 digit string with a suffix over
`u`, `U`, `l`, `L`. -/
theorem numberEnd_suffix (d s rest : List Char) (hd : d ≠ [])
    (hdig : ∀ c ∈ d, isnumber c = true) (h0 : peek d ≠ '0')
    (hs : ∀ c ∈ s, isSuffixU c = true ∨ isSuffixL c = true)
    (hrest : isSuffixByte (peek rest) = false)
    (hrun : s = [] → continuesDigits (peek rest) = false) :
    numberEnd (d ++ (s ++ rest)) = if wellFormedSuffix s then rest else s ++ rest := by
  have hpeek : peek (d ++ (s ++ rest)) = peek d := by
    cases d with
    | nil => exact absurd rfl hd
    | cons c cs => rfl
  have hbase : getNumberBase (d ++ (s ++ rest)) = (10, d ++ (s ++ rest)) := by
    unfold getNumberBase
    rw [hpeek, if_neg h0]
  have hstop : continuesDigits (peek (s ++ rest)) = false := by
    cases s with
    | nil => exact hrun rfl
    | cons c t =>
      have hc := hs c (by simp)
      simp only [isSuffixU, isSuffixL, Bool.or_eq_true, decide_eq_true_eq] at hc
      rcases hc with (rfl | rfl) | (rfl | rfl) <;> rfl
  have hloop : digitLoop 10 (d ++ (s ++ rest)) = s ++ rest := by
    rw [digitLoop_decimal_run d _ hdig, digitLoop_stop _ hstop]
  have hexp : checkExponent 10 (s ++ rest) = some (s ++ rest) := by
    have he : peek (s ++ rest) ≠ 'e' ∧ peek (s ++ rest) ≠ 'E' := by
      simp only [continuesDigits, isHexLetter, Bool.or_eq_false_iff,
        decide_eq_false_iff_not] at hstop
      exact ⟨hstop.2.1.1.1.2, hstop.2.1.1.2⟩
    unfold checkExponent
    rw [if_pos he]
  have hpost : checkPostfix 10 (s ++ rest) = if wellFormedSuffix s then rest else s ++ rest := by
    unfold checkPostfix
    rw [postfixLoop_suffix rest hrest s hs false 0 false (by omega) (by simp), suffixOK_start]
    cases wellFormedSuffix s <;> rfl
  unfold numberEnd
  simp only [hbase, hloop, hexp, hpost]

/-- C5, as the code has it: a non-empty decimal digit string `d` not starting
with `0`, a suffix `s` over `u`, `U`, `l`, `L`, then a byte (or the end of
input) that is none of `u`, `U`, `l`, `L`, `f`, `F` and, when `s` is empty, none
of the bytes the digit loop consumes (a digit, `.`, `a`-`f`, `A`-`F`). If `s`
has at most one `u` and at most two `l`s which are adjacent, `getNumberToken`
returns the lexeme `d ++ s` with the cursor behind it; otherwise it returns the
lexeme `d` with the cursor on the first byte of `s`. -/
theorem getNumberToken_suffix (h : Helper) (lineCount : Nat) (d s rest : List Char)
    (hd : d ≠ []) (hdig : ∀ c ∈ d, isnumber c = true) (h0 : peek d ≠ '0')
    (hs : ∀ c ∈ s, isSuffixU c = true ∨ isSuffixL c = true)
    (hrest : isSuffixByte (peek rest) = false)
    (hrun : s = [] → continuesDigits (peek rest) = false) :
    getNumberToken h (d ++ (s ++ rest)) lineCount =
      if wellFormedSuffix s then some (⟨TokenType_Number, d ++ s, lineCount⟩, rest)
      else some (⟨TokenType_Number, d, lineCount⟩, s ++ rest) := by
  have hpeek : peek (d ++ (s ++ rest)) = peek d := by
    cases d with
    | nil => exact absurd rfl hd
    | cons c cs => rfl
  have hnum : isnumber (peek d) = true := by
    cases d with
    | nil => exact absurd rfl hd
    | cons c cs => exact hdig c (by simp)
  have hneg : peek d ≠ '-' := by
    intro hc
    rw [hc] at hnum
    exact absurd hnum (by decide)
  have hend := numberEnd_suffix d s rest hd hdig h0 hs hrest hrun
  unfold getNumberToken
  simp only [hpeek, hneg, decide_False, Bool.false_eq_true, if_false, hnum, Bool.not_true, hend]
  split
  · have := take_length_sub (d ++ s) rest
    rw [List.append_assoc] at this
    rw [this]
  · rw [take_length_sub d (s ++ rest)]

/-- C5 on `12ull;` (a valid suffix) and on `7lul` at the end of input (an `l`
separated from an earlier `l`). -/
theorem getNumberToken_suffix_witness :
    getNumberToken specHelper ("12".toList ++ ("ull".toList ++ [';'])) 1
      = some (⟨TokenType_Number, "12ull".toList, 1⟩, [';'])
    ∧ getNumberToken specHelper (['7'] ++ ("lul".toList ++ [])) 1
      = some (⟨TokenType_Number, ['7'], 1⟩, "lul".toList) :=
  ⟨getNumberToken_suffix specHelper 1 "12".toList "ull".toList [';'] (by decide) (by decide)
      (by decide) (by decide) (by decide) (by decide),
   getNumberToken_suffix specHelper 1 ['7'] "lul".toList [] (by decide) (by decide)
      (by decide) (by decide) (by decide) (by decide)⟩

/-- C5 as worded fails at `d = 1`, empty suffix, following byte `.`: the digit
loop takes the `.` in base 10, so the lexeme is `1.`, not `d ++ s = 1`. -/
theorem getNumberToken_suffix_counterexample :
    (∀ c ∈ ['1'], isnumber c = true) ∧ peek ['1'] ≠ '0'
    ∧ wellFormedSuffix [] = true ∧ isSuffixByte '.' = false
    ∧ getNumberToken specHelper (['1'] ++ ([] ++ ['.'])) 1
        = some (⟨TokenType_Number, ['1', '.'], 1⟩, [])
    ∧ getNumberToken specHelper (['1'] ++ ([] ++ ['.'])) 1
        ≠ some (⟨TokenType_Number, ['1'] ++ [], 1⟩, ['.']) := by
  refine ⟨by decide, by decide, by decide, by decide, rfl, by decide⟩

/-! ## Operators -/

theorem operatorLoop_stop (valid rest : List Char)
    (hv : ∀ c, valid ++ [c] ∉ operators) : operatorLoop valid rest = (valid, rest) := by
  cases rest with
  | nil => rfl
  | cons c cs =>
    by_cases h1 : c = NUL
    · simp [operatorLoop, h1]
    · simp [operatorLoop, h1, hv c]

theorem operatorLoop_single (a : Char) (rest : List Char) (ha : [a] ∈ operators)
    (hn : a ≠ NUL) (hc : a ≠ ':') : operatorLoop [] (a :: rest) = ([a], rest) := by
  rw [operatorLoop]
  simp only [List.nil_append, if_neg hn, if_pos ha]
  apply operatorLoop_stop
  intro c
  simp [operators, hc]

theorem operatorLoop_scope (rest : List Char) :
    operatorLoop [] (':' :: ':' :: rest) = ([':', ':'], rest) := by
  have h1 : operatorLoop [] (':' :: ':' :: rest) = operatorLoop [':', ':'] rest := by
    simp [operatorLoop, operators, NUL]
  rw [h1]
  apply operatorLoop_stop
  intro c
  simp [operators]

theorem operatorLoop_colon (rest : List Char) (hr : peek rest ≠ ':') :
    operatorLoop [] (':' :: rest) = ([':'], rest) := by
  have h1 : operatorLoop [] (':' :: rest) = operatorLoop [':'] rest := by
    simp [operatorLoop, operators, NUL]
  rw [h1]
  cases rest with
  | nil => rfl
  | cons c cs =>
    have hc : c ≠ ':' := hr
    simp [operatorLoop, operators, hc]

/-- C9: `getOperatorToken` takes the longest operator at the cursor and sets
the kind from the lexeme: `::` gives ScopeOperator, a `:` not followed by `:`
ColonOperator, `;` SemiColon, `,` CommaOperator, `=` EqualsOperator, `(` `)`
Brace, `{` `}` CurlyBrace, `[` `]` SquareBrace, `<` `>` AngleBrace and `?`
Operator; the cursor is left right behind the lexeme; and `:::` is tokenized
as `::` then `:`. -/
theorem getOperatorToken_munch (rest : List Char) (lineCount fuel n : Nat) :
    getOperatorToken (':' :: ':' :: rest) lineCount
      = some (⟨TokenType_ScopeOperator, [':', ':'], lineCount⟩, rest)
    ∧ (peek rest ≠ ':' → getOperatorToken (':' :: rest) lineCount
      = some (⟨TokenType_ColonOperator, [':'], lineCount⟩, rest))
    ∧ getOperatorToken (';' :: rest) lineCount
      = some (⟨TokenType_SemiColon, [';'], lineCount⟩, rest)
    ∧ getOperatorToken (',' :: rest) lineCount
      = some (⟨TokenType_CommaOperator, [','], lineCount⟩, rest)
    ∧ getOperatorToken ('=' :: rest) lineCount
      = some (⟨TokenType_EqualsOperator, ['='], lineCount⟩, rest)
    ∧ getOperatorToken ('(' :: rest) lineCount
      = some (⟨TokenType_Brace, ['('], lineCount⟩, rest)
    ∧ getOperatorToken (')' :: rest) lineCount
      = some (⟨TokenType_Brace, [')'], lineCount⟩, rest)
    ∧ getOperatorToken ('{' :: rest) lineCount
      = some (⟨TokenType_CurlyBrace, ['{'], lineCount⟩, rest)
    ∧ getOperatorToken ('}' :: rest) lineCount
      = some (⟨TokenType_CurlyBrace, ['}'], lineCount⟩, rest)
    ∧ getOperatorToken ('[' :: rest) lineCount
      = some (⟨TokenType_SquareBrace, ['['], lineCount⟩, rest)
    ∧ getOperatorToken (']' :: rest) lineCount
      = some (⟨TokenType_SquareBrace, [']'], lineCount⟩, rest)
    ∧ getOperatorToken ('<' :: rest) lineCount
      = some (⟨TokenType_AngleBrace, ['<'], lineCount⟩, rest)
    ∧ getOperatorToken ('>' :: rest) lineCount
      = some (⟨TokenType_AngleBrace, ['>'], lineCount⟩, rest)
    ∧ getOperatorToken ('?' :: rest) lineCount
      = some (⟨TokenType_Operator, ['?'], lineCount⟩, rest)
    ∧ tokenize specHelper (fuel + 1) (n + 3) [':', ':', ':'] 1
      = some [⟨TokenType_ScopeOperator, [':', ':'], 1⟩, ⟨TokenType_ColonOperator, [':'], 1⟩] := by
  have single : ∀ a : Char, [a] ∈ operators → a ≠ NUL → a ≠ ':' →
      getOperatorToken (a :: rest) lineCount
        = some (⟨operatorKind [a], [a], lineCount⟩, rest) := by
    intro a h1 h2 h3
    unfold getOperatorToken
    rw [operatorLoop_single a rest h1 h2 h3]
  refine ⟨?_, ?_, single _ (by decide) (by decide) (by decide),
    single _ (by decide) (by decide) (by decide), single _ (by decide) (by decide) (by decide),
    single _ (by decide) (by decide) (by decide), single _ (by decide) (by decide) (by decide),
    single _ (by decide) (by decide) (by decide), single _ (by decide) (by decide) (by decide),
    single _ (by decide) (by decide) (by decide), single _ (by decide) (by decide) (by decide),
    single _ (by decide) (by decide) (by decide), single _ (by decide) (by decide) (by decide),
    single _ (by decide) (by decide) (by decide), rfl⟩
  · unfold getOperatorToken
    rw [operatorLoop_scope]
    rfl
  · intro hr
    unfold getOperatorToken
    rw [operatorLoop_colon rest hr]
    rfl

/-- C9 on `:=` and on `;;`. -/
theorem getOperatorToken_munch_witness :
    getOperatorToken (':' :: ['=']) 1 = some (⟨TokenType_ColonOperator, [':'], 1⟩, ['='])
    ∧ getOperatorToken (';' :: [';']) 1 = some (⟨TokenType_SemiColon, [';'], 1⟩, [';']) :=
  ⟨(getOperatorToken_munch ['='] 1 0 0).2.1 (by decide),
   (getOperatorToken_munch [';'] 1 0 0).2.2.1⟩

/-! ## Unknown bytes -/

/-- Whatever the `Helper` routines do, no token `tokenize` pushes is of kind
Unknown: `getUnknownToken` is only reached when `getOperatorToken` returns a
null pointer, which it never does. -/
theorem tokenizeLoop_never_unknown (h : Helper) (fuel n : Nat) (st : LexState) :
    ∀ t ∈ (tokenizeLoop h fuel n st).1, t.mTokenType ≠ TokenType_Unknown :=
  fun t ht => ((tokenizeLoop_tokens h fuel n st).2 t ht).2

/-- C7: on the input `@` the operator scanner returns a token of kind
Operator with the empty lexeme and leaves the cursor where it was;
`getNextToken` returns that token, not an Unknown token holding `@`. -/
theorem getNextToken_at_sign (fuel ioLineCount : Nat) (ioStartOfLine : Bool) :
    getOperatorToken ['@'] ioLineCount
      = some (⟨TokenType_Operator, [], ioLineCount⟩, ['@'])
    ∧ getNextToken specHelper (fuel + 1) ⟨['@'], ioStartOfLine, ioLineCount⟩
      = some (some ⟨TokenType_Operator, [], ioLineCount⟩, ⟨['@'], false, ioLineCount⟩) := by
  refine ⟨rfl, ?_⟩
  cases ioStartOfLine <;> rfl

/-! ## Character literals -/

/-- C8: whatever the `Helper` routines do, no token `tokenize` pushes is of
kind Char (`getNextToken` never calls `getCharToken`); over `specHelper` each
of the literals `'\n'`, `'\\'`, `'\''`, `'\x41'` makes `getNextToken` return
an Operator token with the empty lexeme, the cursor still on the quote. -/
theorem tokenize_char_literal :
    (∀ (h : Helper) (fuel n : Nat) (st : LexState),
      ∀ t ∈ (tokenizeLoop h fuel n st).1, t.mTokenType ≠ TokenType_Char)
    ∧ (∀ lit ∈ [['\'', '\\', 'n', '\''], ['\'', '\\', '\\', '\''], ['\'', '\\', '\'', '\''],
                ['\'', '\\', 'x', '4', '1', '\'']],
        getNextToken specHelper 1 ⟨lit, true, 1⟩
          = some (some ⟨TokenType_Operator, [], 1⟩, ⟨lit, false, 1⟩)) := by
  refine ⟨fun h fuel n st t ht => ((tokenizeLoop_tokens h fuel n st).2 t ht).1, ?_⟩
  decide

/-- C8 on the first two calls of `getNextToken` for the literal `'\n'`. -/
theorem tokenize_char_literal_witness :
    (tokenizeLoop specHelper 1 2 ⟨['\'', '\\', 'n', '\''], true, 1⟩).1
      = [⟨TokenType_Operator, [], 1⟩, ⟨TokenType_Operator, [], 1⟩]
    ∧ ∀ t ∈ (tokenizeLoop specHelper 1 2 ⟨['\'', '\\', 'n', '\''], true, 1⟩).1,
        t.mTokenType ≠ TokenType_Char :=
  ⟨rfl, tokenize_char_literal.1 specHelper 1 2 ⟨['\'', '\\', 'n', '\''], true, 1⟩⟩

/-! ## Preprocessor lines -/

theorem specSkipToEOL_line (l rest : List Char) (e : Char)
    (hl : ∀ c ∈ l, c ≠ NUL ∧ isEOL c = false) (he : isEOL e = true) :
    specSkipToEOL (l ++ e :: rest) = e :: rest := by
  induction l with
  | nil => simp [specSkipToEOL, he]
  | cons c cs ih =>
    have hc := hl c (by simp)
    have ih2 := ih (fun x hx => hl x (by simp [hx]))
    simp [specSkipToEOL, hc.1, hc.2, ih2]

theorem peekAt_append (a b : List Char) (x : Char) : peekAt (a ++ x :: b) a.length = x := by
  induction a with
  | nil => rfl
  | cons c cs ih => simpa [peekAt] using ih

theorem lookBack_found (pre : List Char) (c : Char) (hc1 : isEOL c = false)
    (hc2 : isspace c = false) :
    ∀ (ws post : List Char), (∀ x ∈ ws, isspace x = true ∧ isEOL x = false) →
      lookBack (pre ++ c :: (ws ++ post)) (pre.length + 1 + ws.length)
        = LookBack.found pre.length := by
  intro ws
  induction ws using List.reverseRecOn with
  | nil =>
    intro post _
    simp only [List.nil_append, List.length_nil, Nat.add_zero]
    rw [lookBack]
    simp only [peekAt_append]
    simp only [isEOL, Bool.or_eq_false_iff, decide_eq_false_iff_not] at hc1
    simp [hc1.1, hc1.2, hc2]
  | append_singleton ws w ih =>
    intro post hws
    have hw := hws w (by simp)
    have ih2 := ih (w :: post) (fun x hx => hws x (by simp [hx]))
    have hbuf : pre ++ c :: (ws ++ [w] ++ post) = pre ++ c :: (ws ++ w :: post) := by simp
    have hidx : pre.length + 1 + (ws ++ [w]).length = (pre.length + 1 + ws.length) + 1 := by
      simp; omega
    rw [hbuf, hidx, lookBack]
    have hpk : peekAt (pre ++ c :: (ws ++ w :: post)) (pre.length + 1 + ws.length) = w := by
      have hlen : pre.length + 1 + ws.length = (pre ++ c :: ws).length := by
        simp only [List.length_append, List.length_cons]; omega
      have := peekAt_append (pre ++ c :: ws) post w
      rw [hlen]
      simpa using this
    simp only [hpk]
    have hw2 := hw.2
    simp only [isEOL, Bool.or_eq_false_iff, decide_eq_false_iff_not] at hw2
    simp [hw2.1, hw2.2, hw.1, ih2]

theorem drop_prefix (pre post : List Char) : (pre ++ post).drop pre.length = post := by
  simp

theorem isspace_ne_NUL (x : Char) (hx : isspace x = true) : x ≠ NUL := by
  intro h
  rw [h] at hx
  exact absurd hx (by decide)

theorem not_isspace_not_EOL (c : Char) (hc : isspace c = false) : isEOL c = false := by
  simp only [isspace, Bool.or_eq_false_iff, decide_eq_false_iff_not] at hc
  simp [isEOL, hc.1.1.1.2, hc.2]

theorem specSkipEOL_at (e : Char) (rest : List Char) (line : Nat) (he : isEOL e = true) :
    specSkipEOL (e :: rest) line = (true, rest, line + 1) := by
  simp [specSkipEOL, peek, he]

/-- One turn of `skipPreprocessor` over `specHelper`, entered anywhere on a
line of the buffer whose last non-whitespace byte is `c`: behind the line's
terminator the counter is one more, and the loop goes on exactly when `c` is a
backslash. -/
theorem skipPreprocessor_turn (pre a ws rest : List Char) (c e : Char) (fuel line : Nat)
    (ha : ∀ x ∈ a, x ≠ NUL ∧ isEOL x = false)
    (hc : c ≠ NUL ∧ isspace c = false)
    (hws : ∀ x ∈ ws, isspace x = true ∧ isEOL x = false) (he : isEOL e = true) :
    skipPreprocessor specHelper (pre ++ a ++ c :: (ws ++ e :: rest)) (fuel + 1)
        (a ++ c :: (ws ++ e :: rest)) line
      = if c = '\\' then
          skipPreprocessor specHelper (pre ++ a ++ c :: (ws ++ e :: rest)) fuel rest (line + 1)
        else some (rest, line + 1) := by
  have hcE := not_isspace_not_EOL c hc.2
  have hcws : ∀ x ∈ c :: ws, x ≠ NUL ∧ isEOL x = false := by
    intro x hx
    simp only [List.mem_cons] at hx
    rcases hx with rfl | hx
    · exact ⟨hc.1, hcE⟩
    · exact ⟨isspace_ne_NUL x (hws x hx).1, (hws x hx).2⟩
  have h1 : specSkipToEOL (a ++ c :: (ws ++ e :: rest)) = e :: rest := by
    have := specSkipToEOL_line (a ++ c :: ws) rest e (by
      intro x hx
      simp only [List.mem_append] at hx
      rcases hx with hx | hx
      · exact ha x hx
      · exact hcws x hx) he
    simpa using this
  have h2 : specSkipToEOL (c :: (ws ++ e :: rest)) = e :: rest := by
    have := specSkipToEOL_line (c :: ws) rest e hcws he
    simpa using this
  have hoff : (pre ++ a ++ c :: (ws ++ e :: rest)).length - (e :: rest).length
      = (pre ++ a).length + 1 + ws.length := by
    simp only [List.length_append, List.length_cons]; omega
  have hlook := lookBack_found (pre ++ a) c hcE hc.2 ws (e :: rest) hws
  have hdrop := drop_prefix (pre ++ a) (c :: (ws ++ e :: rest))
  rw [skipPreprocessor]
  simp only [specHelper, h1, hoff, hlook, hdrop, peek, List.headD_cons, h2,
    specSkipEOL_at e rest line he]
  split_ifs <;> rfl

/-- C10: a `#` line whose last non-whitespace byte is a backslash, a second
line with a non-whitespace byte that does not end in a backslash (its last
non-whitespace byte `c` is not one, as for the first line), and further text
`rest`; lines end in one terminator byte and hold no NUL. With fuel for two
turns or more, `skipPreprocessor` started at the `#` returns the cursor on the
first byte of `rest`, the third line, and the line counter plus 2. -/
theorem skipPreprocessor_continuation (l1 ws1 a ws2 rest : List Char) (e1 e2 c : Char)
    (fuel line : Nat)
    (hl1 : ∀ x ∈ l1, x ≠ NUL ∧ isEOL x = false)
    (hws1 : ∀ x ∈ ws1, isspace x = true ∧ isEOL x = false) (he1 : isEOL e1 = true)
    (ha : ∀ x ∈ a, x ≠ NUL ∧ isEOL x = false)
    (hc : c ≠ NUL ∧ isspace c = false ∧ c ≠ '\\')
    (hws2 : ∀ x ∈ ws2, isspace x = true ∧ isEOL x = false) (he2 : isEOL e2 = true) :
    skipPreprocessor specHelper
        ('#' :: l1 ++ '\\' :: (ws1 ++ e1 :: (a ++ c :: (ws2 ++ e2 :: rest)))) (fuel + 2)
        ('#' :: l1 ++ '\\' :: (ws1 ++ e1 :: (a ++ c :: (ws2 ++ e2 :: rest)))) line
      = some (rest, line + 2) := by
  have hl1' : ∀ x ∈ '#' :: l1, x ≠ NUL ∧ isEOL x = false := by
    intro x hx
    simp only [List.mem_cons] at hx
    rcases hx with rfl | hx
    · exact ⟨by decide, by decide⟩
    · exact hl1 x hx
  have t1 := skipPreprocessor_turn [] ('#' :: l1) ws1 (a ++ c :: (ws2 ++ e2 :: rest)) '\\' e1
    (fuel + 1) line hl1' ⟨by decide, by decide⟩ hws1 he1
  have t2 := skipPreprocessor_turn ('#' :: l1 ++ '\\' :: (ws1 ++ [e1])) a ws2 rest c e2
    fuel (line + 1) ha ⟨hc.1, hc.2.1⟩ hws2 he2
  have hbuf : '#' :: l1 ++ '\\' :: (ws1 ++ [e1]) ++ a ++ c :: (ws2 ++ e2 :: rest)
      = '#' :: l1 ++ '\\' :: (ws1 ++ e1 :: (a ++ c :: (ws2 ++ e2 :: rest))) := by simp
  rw [hbuf, if_neg hc.2.2] at t2
  simp only [List.nil_append, if_true] at t1
  rw [t1, t2]

/-- C10 on `#define A \`, `  1 ` and `int`, each line ended by a newline. -/
theorem skipPreprocessor_continuation_witness :
    skipPreprocessor specHelper "#define A \\ \n  1 \nint\n".toList 2
        "#define A \\ \n  1 \nint\n".toList 7
      = some ("int\n".toList, 9) :=
  skipPreprocessor_continuation "define A ".toList [' '] [' ', ' '] [' '] "int\n".toList
    '\n' '\n' '1' 0 7 (by decide) (by decide) (by decide) (by decide) (by decide) (by decide)
    (by decide)

/-! ## The token-stack machine -/

theorem M.bind_apply {G α β : Type} (m : M G α) (f : α → M G β) (s : IDLCompilerState G) :
    (m >>= f) s =
      match m s with
      | Result.ok a s' => f a s'
      | Result.error e s' => Result.error e s'
      | Result.timeout => Result.timeout := rfl

theorem M.pure_apply {G α : Type} (a : α) (s : IDLCompilerState G) :
    (Pure.pure a : M G α) s = Result.ok a s := rfl

/-- C11: after the token of line 7 has been extracted from a one-token stream,
`peekNextToken` and `extractNextToken` on the now empty stream throw the
end-of-input error with the message `what` followed by
` unexpectedly reached EOF`, but with line 0, not line 7: the result of
`mLastTokenStack.top()` is dropped. -/
theorem nextToken_eof_line (G : Type) (g : G) (what : List Char) (k : TokenTypes)
    (lexeme : List Char) :
    extractNextToken what (⟨[[⟨k, lexeme, 7⟩]], [some ⟨k, lexeme, 7⟩], none, [], [], g⟩ :
        IDLCompilerState G)
      = Result.ok ⟨k, lexeme, 7⟩
          ⟨[[]], [some ⟨k, lexeme, 7⟩], some ⟨k, lexeme, 7⟩, [], [], g⟩
    ∧ peekNextToken what (⟨[[]], [some ⟨k, lexeme, 7⟩], some ⟨k, lexeme, 7⟩, [], [], g⟩ :
        IDLCompilerState G)
      = Result.error (Failure.FailureWithLine ErrorCode.ZS_EVENTING_TOOL_UNEXPECTED_EOF 0
          (what ++ " unexpectedly reached EOF".toList))
          ⟨[[]], [some ⟨k, lexeme, 7⟩], some ⟨k, lexeme, 7⟩, [], [], g⟩
    ∧ extractNextToken what (⟨[[]], [some ⟨k, lexeme, 7⟩], some ⟨k, lexeme, 7⟩, [], [], g⟩ :
        IDLCompilerState G)
      = Result.error (Failure.FailureWithLine ErrorCode.ZS_EVENTING_TOOL_UNEXPECTED_EOF 0
          (what ++ " unexpectedly reached EOF".toList))
          ⟨[[]], [some ⟨k, lexeme, 7⟩], some ⟨k, lexeme, 7⟩, [], [], g⟩ :=
  ⟨rfl, rfl, rfl⟩

/-- On an empty active stream both `peekNextToken` and `extractNextToken` end
in the shared end-of-input throw, whose line is 0 whenever the last-token
stack holds a frame. -/
theorem nextToken_eof {G : Type} (what : List Char) (s : IDLCompilerState G)
    (hs : hasMoreTokens s = false) :
    peekNextToken what s = unexpectedEOF what s ∧
    extractNextToken what s = unexpectedEOF what s := by
  unfold hasMoreTokens getTokens at hs
  unfold peekNextToken extractNextToken
  cases hst : s.mTokenListStack with
  | nil => exact ⟨rfl, rfl⟩
  | cons a l =>
    cases a with
    | nil => exact ⟨rfl, rfl⟩
    | cons t ts => simp [hst] at hs

theorem insertBefore_eq (tokens l : List Token) : insertBefore tokens l = l ++ tokens := by
  have key : ∀ (r acc : List Token), r.foldl (fun acc t => t :: acc) acc = r.reverse ++ acc := by
    intro r
    induction r with
    | nil => intro acc; rfl
    | cons x xs ih => intro acc; simp [List.foldl, ih]
  unfold insertBefore
  split_ifs with h
  · have : tokens = [] := by
      cases tokens with
      | nil => rfl
      | cons a b => simp at h
    simp [this]
  · simp [key]

/-- C15: with a non-empty stack, `putBackToken t` then `extractNextToken`
returns `t` and leaves the stack of streams as it was; `extractNextToken`
returning `t` then `putBackToken t` leaves it as it was; and `putBackTokens l`
makes the active stream `l ++ active` and leaves the lower frames alone. -/
theorem putBack_extract {G : Type} (s : IDLCompilerState G) (active : List Token)
    (lower : List (List Token)) (hs : s.mTokenListStack = active :: lower)
    (t : Token) (what : List Char) (l : List Token) :
    (∃ s1 s2, putBackToken t s = Result.ok () s1 ∧ extractNextToken what s1 = Result.ok t s2
      ∧ s1.mTokenListStack = (t :: active) :: lower ∧ s2.mTokenListStack = active :: lower)
    ∧ (∀ t' rest, active = t' :: rest →
        ∃ s1 s2, extractNextToken what s = Result.ok t' s1 ∧ putBackToken t' s1 = Result.ok () s2
          ∧ s1.mTokenListStack = rest :: lower ∧ s2.mTokenListStack = active :: lower)
    ∧ (∃ s1, putBackTokens l s = Result.ok () s1 ∧ s1.mTokenListStack = (l ++ active) :: lower) := by
  obtain ⟨stack, lastStack, last, docs, mods, g⟩ := s
  simp only at hs
  subst hs
  refine ⟨⟨_, _, rfl, rfl, rfl, rfl⟩, ?_, ⟨_, rfl, ?_⟩⟩
  · intro t' rest hact
    subst hact
    exact ⟨_, _, rfl, rfl, rfl, rfl⟩
  · simp [insertBefore_eq]

/-- C15 on the stream `b` above a lower frame `z`, putting back `a`. -/
theorem putBack_extract_witness :
    (∃ s1 s2, putBackToken (⟨TokenType_Identifier, ['a'], 1⟩ : Token)
        (⟨[[⟨TokenType_Identifier, ['b'], 1⟩], [⟨TokenType_Identifier, ['z'], 2⟩]],
          [none, none], none, [], [], ()⟩ : IDLCompilerState Unit) = Result.ok () s1
      ∧ extractNextToken ['w'] s1 = Result.ok ⟨TokenType_Identifier, ['a'], 1⟩ s2
      ∧ s1.mTokenListStack = [[⟨TokenType_Identifier, ['a'], 1⟩,
          ⟨TokenType_Identifier, ['b'], 1⟩], [⟨TokenType_Identifier, ['z'], 2⟩]]
      ∧ s2.mTokenListStack = [[⟨TokenType_Identifier, ['b'], 1⟩],
          [⟨TokenType_Identifier, ['z'], 2⟩]]) :=
  (putBack_extract
    (⟨[[⟨TokenType_Identifier, ['b'], 1⟩], [⟨TokenType_Identifier, ['z'], 2⟩]],
      [none, none], none, [], [], ()⟩ : IDLCompilerState Unit)
    [⟨TokenType_Identifier, ['b'], 1⟩] [[⟨TokenType_Identifier, ['z'], 2⟩]] rfl
    ⟨TokenType_Identifier, ['a'], 1⟩ ['w'] []).1

/-! ## Brace-balanced extraction -/

theorem openCount_cons (k : TokenTypes) (t : Token) (ts : List Token) :
    openCount k (t :: ts)
      = openCount k ts + (if (decide (t.mTokenType = k) && t.isOpenBrace) = true then 1 else 0) := by
  simp [openCount, List.countP_cons]

theorem closeCount_cons (k : TokenTypes) (t : Token) (ts : List Token) :
    closeCount k (t :: ts)
      = closeCount k ts + (if (decide (t.mTokenType = k) && t.isCloseBrace) = true then 1 else 0) := by
  simp [closeCount, List.countP_cons]

theorem openCount_nil (k : TokenTypes) : openCount k [] = 0 := rfl

theorem closeCount_nil (k : TokenTypes) : closeCount k [] = 0 := rfl

/-- The counter update in terms of the open and close braces of each kind. -/
theorem update_some (c c' : BraceCounts) (t : Token)
    (ht : t.isBrace = true → t.isOpenBrace = true ∨ t.isCloseBrace = true)
    (hu : c.update t = some c') :
    ∀ k ∈ braceKinds, c'.get k + closeCount k [t] = c.get k + openCount k [t] := by
  obtain ⟨ty, lexeme, line⟩ := t
  intro k hk
  simp only [braceKinds, List.mem_cons, List.mem_singleton, List.not_mem_nil, or_false] at hk
  cases ty <;>
    simp [BraceCounts.update, Token.isBrace, Token.isOpenBrace, Token.isCloseBrace] at hu ht <;>
    rcases hk with rfl | rfl | rfl | rfl <;>
    simp [openCount, closeCount, Token.isOpenBrace, Token.isCloseBrace, BraceCounts.get,
      List.countP_cons] <;>
    first
    | (subst hu; rfl)
    | (split_ifs at hu <;> rcases ht with ht | ht <;> simp_all <;>
        first | (subst hu; simp; done) | (subst hu; simp; omega))
  
theorem anyOpen_iff (c : BraceCounts) :
    c.anyOpen = true ↔ ∃ k ∈ braceKinds, 0 < c.get k := by
  simp [BraceCounts.anyOpen, braceKinds, BraceCounts.get]
  tauto

/-- A close brace that meets a zero counter of its kind is a mismatch. -/
theorem update_none_of_close (c : BraceCounts) (t : Token) (hc : t.isCloseBrace = true)
    (h0 : c.get t.mTokenType = 0) : c.update t = none := by
  obtain ⟨ty, lexeme, line⟩ := t
  cases ty <;>
    simp [Token.isCloseBrace] at hc <;>
    simp [BraceCounts.update, Token.isBrace, Token.isOpenBrace, BraceCounts.get, hc] at h0 ⊢ <;>
    omega

/-- Without underflow of any counter the update goes through. -/
theorem update_isSome (c : BraceCounts) (t : Token)
    (ht : t.isBrace = true → t.isOpenBrace = true ∨ t.isCloseBrace = true)
    (hle : ∀ k ∈ braceKinds, closeCount k [t] ≤ c.get k + openCount k [t]) :
    ∃ c', c.update t = some c' := by
  obtain ⟨ty, lexeme, line⟩ := t
  simp only [braceKinds, List.mem_cons, List.mem_singleton, List.not_mem_nil, or_false,
    forall_eq_or_imp, forall_eq] at hle
  obtain ⟨h1, h2, h3, h4⟩ := hle
  cases ty <;>
    simp [BraceCounts.update, Token.isBrace, Token.isOpenBrace, Token.isCloseBrace, openCount,
      closeCount, BraceCounts.get, List.countP_cons] at h1 h2 h3 h4 ht ⊢ <;>
    split_ifs <;> simp_all

theorem consumed_consumed {G : Type} (s : IDLCompilerState G) (t t' : Token)
    (rest rest' : List Token) : consumed (consumed s t rest) t' rest' = consumed s t' rest' := by
  simp [consumed]

theorem withActive_extract {G : Type} (what : List Char) (s : IDLCompilerState G)
    (last : Option Token) (t : Token) (ts : List Token) :
    extractNextToken what (withActive s last (t :: ts))
      = Result.ok t (withActive s (some t) ts) := by
  cases last with
  | none => simp [withActive, extractNextToken, consumed]
  | some t0 => simp [withActive, extractNextToken, consumed]

theorem withActive_nil_extract {G : Type} (what : List Char) (s : IDLCompilerState G)
    (last : Option Token) :
    extractNextToken what (withActive s last []) = unexpectedEOF what (withActive s last []) := by
  cases last with
  | none => simp [withActive, extractNextToken]
  | some t0 => simp [withActive, extractNextToken, consumed]

/-- The loop of `extractToClosingBraceToken` with fuel for the whole active
stream does what the scan of that stream says. -/
theorem extractToClosingBraceLoop_eq_scan {G : Type} (what : List Char)
    (s : IDLCompilerState G) (out : List Token) :
    ∀ (active : List Token) (fuel : Nat) (c : BraceCounts) (taken : List Token),
      active.length < fuel →
      extractToClosingBraceLoop what fuel c (out ++ taken) (withActive s taken.getLast? active)
        = scanResult what s out (scanBraces c taken active) := by
  intro active
  induction active with
  | nil =>
    intro fuel c taken hf
    cases fuel with
    | zero => simp at hf
    | succ fuel =>
      rw [extractToClosingBraceLoop, M.bind_apply, withActive_nil_extract]
      rfl
  | cons t ts ih =>
    intro fuel c taken hf
    cases fuel with
    | zero => simp at hf
    | succ fuel =>
      simp only [List.length_cons, Nat.add_lt_add_iff_right] at hf
      rw [extractToClosingBraceLoop, M.bind_apply, withActive_extract what s]
      rw [scanBraces]
      have hlast : (taken ++ [t]).getLast? = some t := by simp
      cases hu : c.update t with
      | none =>
        simp only [scanResult, hu, hlast]
        rfl
      | some c' =>
        simp only [hu]
        by_cases ha : c'.anyOpen = true
        · simp only [ha, if_true]
          have := ih fuel c' (taken ++ [t]) hf
          rw [hlast, ← List.append_assoc] at this
          exact this
        · simp only [ha, Bool.false_eq_true, if_false, scanResult, hlast, List.append_assoc]
          rfl

/-! ## The braces of the lexer -/

theorem lexedBrace_of_not_brace (t : Token) (hb : t.isBrace = false) : LexedBrace t := by
  intro h
  rw [hb] at h
  cases h

theorem operatorKind_lexedBrace (v : List Char) (l : Nat) :
    LexedBrace ⟨operatorKind v, v, l⟩ := by
  unfold LexedBrace operatorKind
  by_cases h1 : v = [';']
  · subst h1; intro h; simp [Token.isBrace] at h
  rw [if_neg h1]
  by_cases h2 : v = ['(']
  · subst h2; intro _; exact Or.inl rfl
  rw [if_neg h2]
  by_cases h3 : v = [')']
  · subst h3; intro _; exact Or.inr rfl
  rw [if_neg h3]
  by_cases h4 : v = ['\x7b']
  · subst h4; intro _; exact Or.inl rfl
  rw [if_neg h4]
  by_cases h5 : v = ['\x7d']
  · subst h5; intro _; exact Or.inr rfl
  rw [if_neg h5]
  by_cases h6 : v = ['[']
  · subst h6; intro _; exact Or.inl rfl
  rw [if_neg h6]
  by_cases h7 : v = [']']
  · subst h7; intro _; exact Or.inr rfl
  rw [if_neg h7]
  by_cases h8 : v = ['<']
  · subst h8; intro _; exact Or.inl rfl
  rw [if_neg h8]
  by_cases h9 : v = ['>']
  · subst h9; intro _; exact Or.inr rfl
  rw [if_neg h9]
  by_cases h10 : v = [':', ':']
  · subst h10; intro h; simp [Token.isBrace] at h
  rw [if_neg h10]
  by_cases h11 : v = [',']
  · subst h11; intro h; simp [Token.isBrace] at h
  rw [if_neg h11]
  by_cases h12 : v = [':']
  · subst h12; intro h; simp [Token.isBrace] at h
  rw [if_neg h12]
  by_cases h13 : v = ['=']
  · subst h13; intro h; simp [Token.isBrace] at h
  rw [if_neg h13]
  intro h
  simp [Token.isBrace] at h

theorem getNextTokenAttempts_braces (h : Helper) (st : LexState) :
    TurnBraces (getNextTokenAttempts h st) := by
  have hq := getQuoteToken_line h st.p st.ioLineCount
  unfold getNextTokenAttempts
  split
  · rename_i t q line he
    rw [he] at hq
    obtain ⟨hk, -⟩ := hq.2 t rfl
    exact lexedBrace_of_not_brace t (by unfold Token.isBrace; rw [hk])
  · rename_i q line he
    split
    · rename_i r hr
      obtain ⟨hk, -⟩ := getNumberToken_some h q line r hr
      exact lexedBrace_of_not_brace r.1 (by unfold Token.isBrace; rw [hk])
    · split
      · rename_i r hr
        obtain ⟨hk, -⟩ := getIdentifierToken_some q line r hr
        exact lexedBrace_of_not_brace r.1 (by unfold Token.isBrace; rw [hk])
      · split
        · rename_i r hr
          unfold getOperatorToken at hr
          cases hr
          exact operatorKind_lexedBrace _ _
        · rename_i hr
          cases hr

theorem getNextTokenTurn_braces (h : Helper) (fuel : Nat) (st : LexState) :
    TurnBraces (getNextTokenTurn h fuel st) := by
  unfold getNextTokenTurn
  simp only
  split
  · trivial
  split
  · trivial
  split
  · split <;> trivial
  split
  · trivial
  split
  · rename_i r hr
    obtain ⟨hk, -⟩ := getCPPDirectiveToken_some h _ _ r hr
    exact lexedBrace_of_not_brace r.1 (by unfold Token.isBrace; rw [hk])
  split
  · rename_i r hr
    obtain ⟨hk, -⟩ := getCPPDocToken_some h _ _ r hr
    exact lexedBrace_of_not_brace r.1 (by unfold Token.isBrace; rw [hk])
  split
  · trivial
  · exact getNextTokenAttempts_braces h _

theorem getNextToken_braces (h : Helper) :
    ∀ (fuel : Nat) (st : LexState) (t : Token) (st' : LexState),
      getNextToken h fuel st = some (some t, st') → LexedBrace t := by
  intro fuel
  induction fuel with
  | zero => intro st t st' hq; cases hq
  | succ fuel ih =>
    intro st t st' hq
    rw [getNextToken] at hq
    split at hq
    · cases hq
    · have hturn := getNextTokenTurn_braces h fuel st
      split at hq
      · exact ih _ _ _ hq
      · rename_i r2 st2 he
        rw [he] at hturn
        cases hq
        exact hturn
      · cases hq

/-- Every token of `tokenize` that is of a brace kind is an open or a close
brace, whatever the `Helper` routines do. -/
theorem tokenize_lexedBraces (h : Helper) (fuel : Nat) (p : List Char) (line : Nat) :
    ∀ (n : Nat) (tokens : List Token),
      tokenize h fuel n p line = some tokens → LexedBraces tokens := by
  have hloop : ∀ (n : Nat) (st : LexState), ∀ t ∈ (tokenizeLoop h fuel n st).1, LexedBrace t := by
    intro n
    induction n with
    | zero => intro st t ht; cases ht
    | succ n ih =>
      intro st
      rw [tokenizeLoop]
      split
      · intro t ht; cases ht
      · intro t ht; cases ht
      · rename_i t0 st2 he
        intro t ht
        simp only [List.mem_cons] at ht
        rcases ht with rfl | ht
        · exact getNextToken_braces h fuel st t st2 he
        · exact ih st2 t ht
  intro n tokens ht
  unfold tokenize at ht
  simp only at ht
  split at ht
  · cases ht
    exact hloop n _
  · cases ht

theorem openCount_cons_add (k : TokenTypes) (t : Token) (ts : List Token) :
    openCount k (t :: ts) = openCount k [t] + openCount k ts := by
  simp [openCount, List.countP_cons]; omega

theorem closeCount_cons_add (k : TokenTypes) (t : Token) (ts : List Token) :
    closeCount k (t :: ts) = closeCount k [t] + closeCount k ts := by
  simp [closeCount, List.countP_cons]; omega

theorem lexedBraces_cons (t : Token) (ts : List Token) (h : LexedBraces (t :: ts)) :
    (t.isBrace = true → t.isOpenBrace = true ∨ t.isCloseBrace = true) ∧ LexedBraces ts :=
  ⟨h t (by simp), fun x hx => h x (by simp [hx])⟩

theorem not_anyOpen (c : BraceCounts) (h : ¬ c.anyOpen = true) :
    ∀ k ∈ braceKinds, c.get k = 0 := by
  intro k hk
  by_contra hne
  exact h ((anyOpen_iff c).mpr ⟨k, hk, Nat.pos_of_ne_zero hne⟩)

/-- The region that starts a token list is what the scan takes. -/
theorem scanBraces_region : ∀ (q : List Token) (c : BraceCounts) (taken rest : List Token),
    LexedBraces q → RegionFrom c q →
    scanBraces c taken (q ++ rest) = BraceScan.balanced (taken ++ q) rest := by
  intro q
  induction q with
  | nil => intro c taken rest _ hr; exact absurd rfl hr.1
  | cons t ps ih =>
    intro c taken rest hl hr
    obtain ⟨ht, hps⟩ := lexedBraces_cons t ps hl
    obtain ⟨-, hle, hlt, hbal⟩ := hr
    have h1 := hle 1 (by omega) (by simp)
    simp only [List.take_succ_cons, List.take_zero] at h1
    obtain ⟨c1, hu⟩ := update_isSome c t ht h1
    have hc1 := update_some c c1 t ht hu
    rw [List.cons_append, scanBraces, hu]
    simp only
    cases ps with
    | nil =>
      have hz : ¬ c1.anyOpen = true := by
        rw [anyOpen_iff]
        rintro ⟨k, hk, hpos⟩
        have a := hc1 k hk
        have b := hbal k hk
        omega
      simp [hz]
    | cons p ps' =>
      have hopen : c1.anyOpen = true := by
        rw [anyOpen_iff]
        obtain ⟨k, hk, hlt1⟩ := hlt 1 (by omega) (by simp)
        simp only [List.take_succ_cons, List.take_zero] at hlt1
        have a := hc1 k hk
        exact ⟨k, hk, by omega⟩
      simp only [hopen, if_true]
      have hreg : RegionFrom c1 (p :: ps') := by
        refine ⟨by simp, ?_, ?_, ?_⟩
        · intro n hn hn' k hk
          have a := hle (n + 1) (by omega) (by simp at hn' ⊢; omega) k hk
          rw [List.take_succ_cons, closeCount_cons_add, openCount_cons_add] at a
          have b := hc1 k hk
          omega
        · intro n hn hn'
          obtain ⟨k, hk, a⟩ := hlt (n + 1) (by omega) (by simp at hn' ⊢; omega)
          rw [List.take_succ_cons, closeCount_cons_add, openCount_cons_add] at a
          have b := hc1 k hk
          exact ⟨k, hk, by omega⟩
        · intro k hk
          have a := hbal k hk
          rw [closeCount_cons_add, openCount_cons_add] at a
          have b := hc1 k hk
          omega
      have := ih c1 (taken ++ [t]) rest hps hreg
      simpa using this

/-- What the scan takes when it ends balanced is a region that starts the
token list. -/
theorem scanBraces_balanced : ∀ (ts : List Token) (c : BraceCounts) (taken o rest : List Token),
    LexedBraces ts → scanBraces c taken ts = BraceScan.balanced o rest →
    ∃ q, o = taken ++ q ∧ ts = q ++ rest ∧ RegionFrom c q := by
  intro ts
  induction ts with
  | nil => intro c taken o rest _ h; simp [scanBraces] at h
  | cons t ts' ih =>
    intro c taken o rest hl h
    obtain ⟨ht, hts⟩ := lexedBraces_cons t ts' hl
    rw [scanBraces] at h
    cases hu : c.update t with
    | none => simp [hu] at h
    | some c1 =>
      have hc1 := update_some c c1 t ht hu
      simp only [hu] at h
      by_cases ha : c1.anyOpen = true
      · simp only [ha, if_true] at h
        obtain ⟨q', ho, hts', hne, hle, hlt, hbal⟩ := ih c1 (taken ++ [t]) o rest hts h
        refine ⟨t :: q', by simp [ho], by simp [hts'], by simp, ?_, ?_, ?_⟩
        · intro n hn hn' k hk
          have b := hc1 k hk
          obtain ⟨m, rfl⟩ : ∃ m, n = m + 1 := ⟨n - 1, by omega⟩
          rw [List.take_succ_cons, closeCount_cons_add, openCount_cons_add]
          by_cases hm : m = 0
          · subst hm
            simp only [List.take_zero, closeCount_nil, openCount_nil]
            omega
          · have a := hle m (by omega) (by simp at hn'; omega) k hk
            omega
        · intro n hn hn'
          obtain ⟨m, rfl⟩ : ∃ m, n = m + 1 := ⟨n - 1, by omega⟩
          by_cases hm : m = 0
          · subst hm
            obtain ⟨k, hk, hpos⟩ := (anyOpen_iff c1).mp ha
            have b := hc1 k hk
            refine ⟨k, hk, ?_⟩
            simp only [List.take_succ_cons, List.take_zero]
            omega
          · obtain ⟨k, hk, a⟩ := hlt m (by omega) (by simp at hn'; omega)
            have b := hc1 k hk
            refine ⟨k, hk, ?_⟩
            rw [List.take_succ_cons, closeCount_cons_add, openCount_cons_add]
            omega
        · intro k hk
          have a := hbal k hk
          have b := hc1 k hk
          rw [closeCount_cons_add, openCount_cons_add]
          omega
      · simp only [ha, Bool.false_eq_true, if_false, BraceScan.balanced.injEq] at h
        obtain ⟨rfl, rfl⟩ := h
        have hz := not_anyOpen c1 ha
        refine ⟨[t], rfl, rfl, by simp, ?_, ?_, ?_⟩
        · intro n hn hn' k hk
          simp only [List.length_singleton] at hn'
          have : n = 1 := by omega
          subst this
          have b := hc1 k hk
          simp only [List.take_succ_cons, List.take_zero]
          omega
        · intro n hn hn'
          simp only [List.length_singleton] at hn'
          omega
        · intro k hk
          have b := hc1 k hk
          have z := hz k hk
          omega

/-- Inside an open region the scan goes on, with the counters the tokens
read so far give. -/
theorem scanBraces_openRun : ∀ (pre : List Token) (c : BraceCounts),
    LexedBraces pre → OpenRunFrom c pre →
    ∃ c', (∀ k ∈ braceKinds, c'.get k + closeCount k pre = c.get k + openCount k pre) ∧
      ∀ taken tail, scanBraces c taken (pre ++ tail) = scanBraces c' (taken ++ pre) tail := by
  intro pre
  induction pre with
  | nil =>
    intro c _ _
    exact ⟨c, fun k _ => by simp [closeCount_nil, openCount_nil], fun taken tail => by simp⟩
  | cons t ps ih =>
    intro c hl hr
    obtain ⟨ht, hps⟩ := lexedBraces_cons t ps hl
    obtain ⟨h1, h1'⟩ := hr 1 (by omega) (by simp)
    simp only [List.take_succ_cons, List.take_zero] at h1 h1'
    obtain ⟨c1, hu⟩ := update_isSome c t ht h1
    have hc1 := update_some c c1 t ht hu
    have hopen : c1.anyOpen = true := by
      rw [anyOpen_iff]
      obtain ⟨k, hk, hlt1⟩ := h1'
      have a := hc1 k hk
      exact ⟨k, hk, by omega⟩
    have hrun : OpenRunFrom c1 ps := by
      intro n hn hn'
      obtain ⟨a, k, hk, a'⟩ := hr (n + 1) (by omega) (by simp; omega)
      refine ⟨fun k hk => ?_, k, hk, ?_⟩
      · have a := a k hk
        rw [List.take_succ_cons, closeCount_cons_add, openCount_cons_add] at a
        have b := hc1 k hk
        omega
      · rw [List.take_succ_cons, closeCount_cons_add, openCount_cons_add] at a'
        have b := hc1 k hk
        omega
    obtain ⟨c', hc', hscan⟩ := ih c1 hps hrun
    refine ⟨c', fun k hk => ?_, fun taken tail => ?_⟩
    · have a := hc' k hk
      have b := hc1 k hk
      rw [closeCount_cons_add, openCount_cons_add]
      omega
    · rw [List.cons_append, scanBraces, hu]
      simp only [hopen, if_true]
      rw [hscan]
      simp

theorem withActive_none_self {G : Type} (s : IDLCompilerState G) (active : List Token)
    (lower : List (List Token)) (hs : s.mTokenListStack = active :: lower) :
    withActive s none active = s := by
  obtain ⟨stack, lastStack, last, docs, mods, g⟩ := s
  simp only at hs
  subst hs
  rfl

/-- The method `extractToClosingBraceToken` on a stream that starts with an
open brace, with fuel for the whole stream, in terms of the scan. -/
theorem extractToClosingBraceToken_eq_scan {G : Type} (what : List Char)
    (s : IDLCompilerState G) (t : Token) (ts : List Token) (lower : List (List Token))
    (hs : s.mTokenListStack = (t :: ts) :: lower) (ho : t.isOpenBrace = true)
    (out : List Token) (b : Bool) (fuel : Nat) (hf : (t :: ts).length < fuel) :
    extractToClosingBraceToken what out b fuel s
      = match scanResult what s out (scanBraces ⟨0, 0, 0, 0⟩ [] (t :: ts)) with
        | Result.ok o s' =>
          Result.ok (true, if b = false ∧ o.length > 1 then (o.drop 1).dropLast else o) s'
        | Result.error e s' => Result.error e s'
        | Result.timeout => Result.timeout := by
  have hb : t.isBrace = true := by
    obtain ⟨ty, lexeme, line⟩ := t
    cases ty <;> simp [Token.isOpenBrace] at ho <;> rfl
  have hpeek : peekNextToken what s = Result.ok t s := by
    unfold peekNextToken; rw [hs]
  have hloop := extractToClosingBraceLoop_eq_scan what s out (t :: ts) fuel ⟨0, 0, 0, 0⟩ [] hf
  simp only [List.getLast?_nil, List.append_nil, withActive_none_self s _ _ hs] at hloop
  unfold extractToClosingBraceToken
  simp only [M.bind_apply, M.pure_apply, hpeek, hb, ho, Bool.not_true, Bool.false_eq_true,
    if_false, hloop]
  cases scanResult what s out (scanBraces ⟨0, 0, 0, 0⟩ [] (t :: ts)) with
  | ok o s' =>
    cases b
    · by_cases hlen : o.length > 1
      · simp [hlen, M.pure_apply]
      · simp [hlen, M.pure_apply, M.bind_apply]
    · simp [M.pure_apply, M.bind_apply]
  | error e s' => rfl
  | timeout => rfl

theorem extractToClosingBraceToken_not_open {G : Type} (what : List Char)
    (s : IDLCompilerState G) (t : Token) (ts : List Token) (lower : List (List Token))
    (hs : s.mTokenListStack = (t :: ts) :: lower) (ho : t.isOpenBrace = false)
    (out : List Token) (b : Bool) (fuel : Nat) :
    extractToClosingBraceToken what out b fuel s = Result.ok (false, out) s := by
  have hpeek : peekNextToken what s = Result.ok t s := by
    unfold peekNextToken; rw [hs]
  unfold extractToClosingBraceToken
  simp only [M.bind_apply, M.pure_apply, hpeek, ho]
  cases t.isBrace <;> rfl

theorem withActive_stack {G : Type} (s : IDLCompilerState G) (last : Option Token)
    (rest : List Token) :
    (withActive s last rest).mTokenListStack = rest :: s.mTokenListStack.drop 1 := by
  cases last <;> rfl

/-- C12: on an active stream of lexer tokens, with fuel for the whole stream,
when `extractToClosingBraceToken(what, out, true)` is called with `out` empty
and returns true, `out` is a non-empty prefix of the stream, the rest of the
stream is what stays active above the same lower frames, `out` starts with an
open brace, each brace kind has as many open as close tokens in `out`, and no
proper non-empty prefix of `out` is balanced in all four kinds. When the first
token is not an open brace the call returns false and leaves the state as it
was. The call never runs out of this fuel. -/
theorem extractToClosingBraceToken_region {G : Type} (what : List Char)
    (s s' : IDLCompilerState G) (active : List Token) (lower : List (List Token))
    (hs : s.mTokenListStack = active :: lower) (hl : LexedBraces active)
    (fuel : Nat) (hf : active.length < fuel) (outTokens : List Token) :
    (extractToClosingBraceToken what [] true fuel s = Result.ok (true, outTokens) s' →
      ∃ rest, active = outTokens ++ rest ∧ s'.mTokenListStack = rest :: lower ∧
        outTokens ≠ [] ∧ (∃ t, outTokens.head? = some t ∧ t.isOpenBrace = true) ∧
        Balanced outTokens ∧
        ∀ n, 0 < n → n < outTokens.length → ¬ Balanced (outTokens.take n))
    ∧ (∀ t ts, active = t :: ts → t.isOpenBrace = false →
        extractToClosingBraceToken what [] true fuel s = Result.ok (false, []) s)
    ∧ extractToClosingBraceToken what [] true fuel s ≠ Result.timeout := by
  refine ⟨?_, ?_, ?_⟩
  · intro hres
    cases active with
    | nil =>
      have hpeek : peekNextToken what s = unexpectedEOF what s := by
        unfold peekNextToken; rw [hs]
      unfold extractToClosingBraceToken at hres
      simp [M.bind_apply, hpeek, unexpectedEOF] at hres
    | cons t ts =>
      by_cases ho : t.isOpenBrace = true
      · rw [extractToClosingBraceToken_eq_scan what s t ts lower hs ho [] true fuel hf] at hres
        cases hscan : scanBraces ⟨0, 0, 0, 0⟩ [] (t :: ts) with
        | balanced taken rest =>
          simp only [hscan, scanResult, List.nil_append, Result.ok.injEq, Prod.mk.injEq,
            true_and, Bool.true_eq_false, false_and, if_false] at hres
          obtain ⟨rfl, rfl⟩ := hres
          obtain ⟨q, hq, hact, hne, hle, hlt, hbal⟩ :=
            scanBraces_balanced (t :: ts) ⟨0, 0, 0, 0⟩ [] taken rest hl hscan
          simp only [List.nil_append] at hq
          subst hq
          refine ⟨rest, hact, ?_, hne, ?_, ?_, ?_⟩
          · rw [withActive_stack, hs]; rfl
          · cases taken with
            | nil => exact absurd rfl hne
            | cons x xs =>
              simp only [List.cons_append, List.cons.injEq] at hact
              exact ⟨x, rfl, hact.1 ▸ ho⟩
          · intro k hk
            have := hbal k hk
            have z : (⟨0, 0, 0, 0⟩ : BraceCounts).get k = 0 := by
              cases k <;> rfl
            omega
          · intro n hn hn' hb
            obtain ⟨k, hk, hlt1⟩ := hlt n hn hn'
            have := hb k hk
            have z : (⟨0, 0, 0, 0⟩ : BraceCounts).get k = 0 := by
              cases k <;> rfl
            omega
        | mismatch taken rest => simp [hscan, scanResult] at hres
        | eof taken => simp [hscan, scanResult, unexpectedEOF] at hres
      · simp only [Bool.not_eq_true] at ho
        rw [extractToClosingBraceToken_not_open what s t ts lower hs ho] at hres
        simp at hres
  · intro t ts hact ho
    subst hact
    exact extractToClosingBraceToken_not_open what s t ts lower hs ho [] true fuel
  · cases active with
    | nil =>
      have hpeek : peekNextToken what s = unexpectedEOF what s := by
        unfold peekNextToken; rw [hs]
      unfold extractToClosingBraceToken
      simp [M.bind_apply, hpeek, unexpectedEOF]
    | cons t ts =>
      by_cases ho : t.isOpenBrace = true
      · rw [extractToClosingBraceToken_eq_scan what s t ts lower hs ho [] true fuel hf]
        cases hscan : scanBraces ⟨0, 0, 0, 0⟩ [] (t :: ts) <;>
          simp [scanResult, unexpectedEOF]
      · simp only [Bool.not_eq_true] at ho
        rw [extractToClosingBraceToken_not_open what s t ts lower hs ho]
        simp

/-- C12 on the stream `( [ ] ) x`. -/
theorem extractToClosingBraceToken_region_witness :
    ∃ rest,
      ([⟨TokenType_Brace, ['('], 1⟩, ⟨TokenType_SquareBrace, ['['], 1⟩,
        ⟨TokenType_SquareBrace, [']'], 1⟩, ⟨TokenType_Brace, [')'], 1⟩,
        ⟨TokenType_Identifier, ['x'], 1⟩] : List Token)
        = [⟨TokenType_Brace, ['('], 1⟩, ⟨TokenType_SquareBrace, ['['], 1⟩,
            ⟨TokenType_SquareBrace, [']'], 1⟩, ⟨TokenType_Brace, [')'], 1⟩] ++ rest
      ∧ (consumed (⟨[[⟨TokenType_Brace, ['('], 1⟩, ⟨TokenType_SquareBrace, ['['], 1⟩,
            ⟨TokenType_SquareBrace, [']'], 1⟩, ⟨TokenType_Brace, [')'], 1⟩,
            ⟨TokenType_Identifier, ['x'], 1⟩]], [none], none, [], [], ()⟩ :
            IDLCompilerState Unit) ⟨TokenType_Brace, [')'], 1⟩
          [⟨TokenType_Identifier, ['x'], 1⟩]).mTokenListStack = rest :: []
      ∧ ([⟨TokenType_Brace, ['('], 1⟩, ⟨TokenType_SquareBrace, ['['], 1⟩,
            ⟨TokenType_SquareBrace, [']'], 1⟩, ⟨TokenType_Brace, [')'], 1⟩] : List Token) ≠ []
      ∧ (∃ t, ([⟨TokenType_Brace, ['('], 1⟩, ⟨TokenType_SquareBrace, ['['], 1⟩,
            ⟨TokenType_SquareBrace, [']'], 1⟩, ⟨TokenType_Brace, [')'], 1⟩] :
            List Token).head? = some t ∧ t.isOpenBrace = true)
      ∧ Balanced [⟨TokenType_Brace, ['('], 1⟩, ⟨TokenType_SquareBrace, ['['], 1⟩,
            ⟨TokenType_SquareBrace, [']'], 1⟩, ⟨TokenType_Brace, [')'], 1⟩]
      ∧ ∀ n, 0 < n → n < ([⟨TokenType_Brace, ['('], 1⟩, ⟨TokenType_SquareBrace, ['['], 1⟩,
            ⟨TokenType_SquareBrace, [']'], 1⟩, ⟨TokenType_Brace, [')'], 1⟩] :
            List Token).length →
          ¬ Balanced (([⟨TokenType_Brace, ['('], 1⟩, ⟨TokenType_SquareBrace, ['['], 1⟩,
            ⟨TokenType_SquareBrace, [']'], 1⟩, ⟨TokenType_Brace, [')'], 1⟩] :
            List Token).take n) :=
  (extractToClosingBraceToken_region ['w']
    (⟨[[⟨TokenType_Brace, ['('], 1⟩, ⟨TokenType_SquareBrace, ['['], 1⟩,
        ⟨TokenType_SquareBrace, [']'], 1⟩, ⟨TokenType_Brace, [')'], 1⟩,
        ⟨TokenType_Identifier, ['x'], 1⟩]], [none], none, [], [], ()⟩ : IDLCompilerState Unit)
    _ _ [] rfl (by decide) 6 (by decide) _).1 rfl


theorem isCloseBrace_kind (t : Token) (hc : t.isCloseBrace = true) :
    t.mTokenType ∈ braceKinds := by
  obtain ⟨ty, lexeme, line⟩ := t
  cases ty <;> simp [Token.isCloseBrace] at hc <;> simp [braceKinds]

theorem zero_get (k : TokenTypes) : (⟨0, 0, 0, 0⟩ : BraceCounts).get k = 0 := by
  cases k <;> rfl

theorem openRun_head (p : Token) (ps : List Token) (hr : OpenRun (p :: ps)) :
    p.isOpenBrace = true := by
  obtain ⟨-, k, hk, hlt⟩ := hr 1 (by omega) (by simp)
  simp only [List.take_succ_cons, List.take_zero, zero_get, Nat.zero_add] at hlt
  have : 0 < openCount k [p] := by omega
  simp only [openCount, List.countP_cons, List.countP_nil, Nat.zero_add] at this
  by_cases h : (decide (p.mTokenType = k) && p.isOpenBrace) = true
  · simp only [Bool.and_eq_true] at h
    exact h.2
  · simp [h] at this

/-- C13: with fuel for the whole stream, `extractToClosingBraceToken` throws
the error with the message `what` followed by ` brace mismatch`, at the line
of the offending token, when after tokens `pre` that leave a region open it
reads a close brace `t` of a kind whose counter is zero; and it throws the
end-of-input error with the message `what` followed by
` unexpectedly reached EOF` when the whole stream leaves a region open. -/
theorem extractToClosingBraceToken_errors {G : Type} (what : List Char)
    (s : IDLCompilerState G) (lower : List (List Token)) (out : List Token) (b : Bool)
    (fuel : Nat) :
    (∀ pre t rest, s.mTokenListStack = (pre ++ t :: rest) :: lower →
      LexedBraces pre → pre ≠ [] → OpenRun pre → t.isCloseBrace = true →
      openCount t.mTokenType pre = closeCount t.mTokenType pre →
      (pre ++ t :: rest).length < fuel →
      extractToClosingBraceToken what out b fuel s
        = Result.error (Failure.FailureWithLine ZS_EVENTING_TOOL_INVALID_CONTENT
            t.mLineCount (what ++ " brace mismatch".toList)) (consumed s t rest))
    ∧ (∀ active last, s.mTokenListStack = active :: lower →
      LexedBraces active → active.getLast? = some last → OpenRun active →
      active.length < fuel →
      extractToClosingBraceToken what out b fuel s
        = Result.error (Failure.FailureWithLine ZS_EVENTING_TOOL_UNEXPECTED_EOF 0
            (what ++ " unexpectedly reached EOF".toList)) (consumed s last [])) := by
  refine ⟨?_, ?_⟩
  · intro pre t rest hs hl hne hr hc hcount hf
    cases pre with
    | nil => exact absurd rfl hne
    | cons p ps =>
      have ho := openRun_head p ps hr
      rw [extractToClosingBraceToken_eq_scan what s p (ps ++ t :: rest) lower hs ho out b fuel hf]
      obtain ⟨c', hc', hscan⟩ := scanBraces_openRun (p :: ps) ⟨0, 0, 0, 0⟩ hl hr
      have hk := isCloseBrace_kind t hc
      have hz : c'.get t.mTokenType = 0 := by
        have := hc' _ hk
        rw [zero_get] at this
        omega
      have := hscan [] (t :: rest)
      simp only [List.cons_append, List.nil_append] at this
      rw [this, scanBraces, update_none_of_close c' t hc hz]
      have hlast : (p :: (ps ++ [t])).getLast? = some t := by
        have := List.getLast?_append_of_ne_nil (p :: ps) (List.cons_ne_nil t [])
        simpa using this
      simp only [scanResult, List.cons_append, hlast, withActive, getLastLineNumber, consumed]
  · intro active last hs hl hlast hr hf
    cases active with
    | nil => simp at hlast
    | cons p ps =>
      have ho := openRun_head p ps hr
      rw [extractToClosingBraceToken_eq_scan what s p ps lower hs ho out b fuel hf]
      obtain ⟨c', -, hscan⟩ := scanBraces_openRun (p :: ps) ⟨0, 0, 0, 0⟩ hl hr
      have := hscan [] []
      simp only [List.append_nil, List.nil_append] at this
      rw [this, scanBraces]
      simp [scanResult, withActive, hlast, unexpectedEOF, consumed]

/-- C13 on the stream `( ]`, with the `]` on line 3, and on the stream
`( ( )`. -/
theorem extractToClosingBraceToken_errors_witness :
    extractToClosingBraceToken ['w'] [] true 3
        (⟨[[⟨TokenType_Brace, ['('], 1⟩, ⟨TokenType_SquareBrace, [']'], 3⟩]], [none], none,
          [], [], ()⟩ : IDLCompilerState Unit)
      = Result.error (Failure.FailureWithLine ZS_EVENTING_TOOL_INVALID_CONTENT 3
          (['w'] ++ " brace mismatch".toList))
          ⟨[[]], [some ⟨TokenType_SquareBrace, [']'], 3⟩],
            some ⟨TokenType_SquareBrace, [']'], 3⟩, [], [], ()⟩
    ∧ extractToClosingBraceToken ['w'] [] true 4
        (⟨[[⟨TokenType_Brace, ['('], 1⟩, ⟨TokenType_Brace, ['('], 1⟩,
            ⟨TokenType_Brace, [')'], 2⟩]], [none], none, [], [], ()⟩ : IDLCompilerState Unit)
      = Result.error (Failure.FailureWithLine ZS_EVENTING_TOOL_UNEXPECTED_EOF 0
          (['w'] ++ " unexpectedly reached EOF".toList))
          ⟨[[]], [some ⟨TokenType_Brace, [')'], 2⟩], some ⟨TokenType_Brace, [')'], 2⟩,
            [], [], ()⟩ :=
  ⟨(extractToClosingBraceToken_errors ['w']
      (⟨[[⟨TokenType_Brace, ['('], 1⟩, ⟨TokenType_SquareBrace, [']'], 3⟩]], [none], none,
        [], [], ()⟩ : IDLCompilerState Unit) [] [] true 3).1
      [⟨TokenType_Brace, ['('], 1⟩] ⟨TokenType_SquareBrace, [']'], 3⟩ [] rfl (by decide)
      (by decide)
      (by intro n hn hn'
          have h1 : n = 1 := by simp at hn'; omega
          subst h1
          decide)
      rfl (by decide) (by decide),
   (extractToClosingBraceToken_errors ['w']
      (⟨[[⟨TokenType_Brace, ['('], 1⟩, ⟨TokenType_Brace, ['('], 1⟩,
          ⟨TokenType_Brace, [')'], 2⟩]], [none], none, [], [], ()⟩ : IDLCompilerState Unit)
      [] [] true 4).2
      [⟨TokenType_Brace, ['('], 1⟩, ⟨TokenType_Brace, ['('], 1⟩, ⟨TokenType_Brace, [')'], 2⟩]
      ⟨TokenType_Brace, [')'], 2⟩ rfl (by decide) rfl
      (by intro n hn hn'
          have h1 : n = 1 ∨ n = 2 ∨ n = 3 := by simp at hn'; omega
          rcases h1 with rfl | rfl | rfl <;> decide)
      (by decide)⟩

/-! ## Extraction up to a token kind -/

theorem withActive_hasMoreTokens {G : Type} (s : IDLCompilerState G) (last : Option Token)
    (t : Token) (ts : List Token) : hasMoreTokens (withActive s last (t :: ts)) = true := by
  cases last <;> rfl

theorem withActive_putBack {G : Type} (s : IDLCompilerState G) (last : Option Token)
    (t : Token) (ts : List Token) :
    putBackToken t (withActive s last ts) = Result.ok () (withActive s (some t) (t :: ts)) := by
  cases last <;> rfl

theorem withActive_withActive {G : Type} (s : IDLCompilerState G) (last : Option Token)
    (t : Token) (xs ys : List Token) :
    withActive (withActive s last xs) (some t) ys = withActive s (some t) ys := by
  cases last <;> rfl

theorem open_not_close (t : Token) (ho : t.isOpenBrace = true) : t.isCloseBrace = false := by
  obtain ⟨ty, lexeme, line⟩ := t
  cases ty <;> simp [Token.isOpenBrace] at ho <;> simp [Token.isCloseBrace, ho]

theorem open_isBrace (t : Token) (ho : t.isOpenBrace = true) : t.isBrace = true := by
  obtain ⟨ty, lexeme, line⟩ := t
  cases ty <;> simp [Token.isOpenBrace] at ho <;> rfl

theorem getLast?_of_ne_nil (r : List Token) (hr : r ≠ []) : ∃ t, r.getLast? = some t := by
  cases h : r.getLast? with
  | none => exact absurd (List.getLast?_eq_none_iff.mp h) hr
  | some t => exact ⟨t, rfl⟩

/-- The loop of `extractToTokenType` over a run of top-level tokens and whole
brace regions that ends at a token of the kind searched for: the run is
appended to `outTokens` and that token is put back. -/
theorem extractToTokenType_run {G : Type} (what : List Char) (kind : TokenTypes)
    (s : IDLCompilerState G) (found : Token) (rest : List Token)
    (hfound : found.mTokenType = kind) :
    ∀ (pre : List Token), TopLevelRun kind pre →
    ∀ (out : List Token) (last : Option Token) (fuel : Nat),
      (pre ++ found :: rest).length + 1 < fuel →
      extractToTokenType what kind false true fuel out (withActive s last (pre ++ found :: rest))
        = Result.ok (true, out ++ pre) (withActive s (some found) (found :: rest)) := by
  intro pre hpre
  induction hpre with
  | nil =>
    intro out last fuel hf
    obtain ⟨f, rfl⟩ : ∃ f, fuel = f + 1 := ⟨fuel - 1, by omega⟩
    rw [List.nil_append, extractToTokenType]
    simp only [M.bind_apply, M.pure_apply, getState, withActive_hasMoreTokens, Bool.not_true,
      Bool.false_eq_true, if_false, withActive_extract, hfound, if_true, Bool.not_false,
      List.append_nil]
    simp only [M.bind_apply, M.pure_apply, withActive_putBack]
  | token t ts hk hb _ ih =>
    intro out last fuel hf
    obtain ⟨f, rfl⟩ : ∃ f, fuel = f + 1 := ⟨fuel - 1, by omega⟩
    have hk' : ¬ kind = t.mTokenType := fun h => hk h.symm
    rw [List.cons_append, extractToTokenType]
    simp only [M.bind_apply, M.pure_apply, getState, withActive_hasMoreTokens, Bool.not_true,
      Bool.false_eq_true, if_false, withActive_extract, hk', hb, Bool.and_false]
    rw [ih (out ++ [t]) (some t) f (by simp at hf ⊢; omega)]
    simp
  | region r ts hreg hl hhead _ ih =>
    intro out last fuel hf
    obtain ⟨f, rfl⟩ : ∃ f, fuel = f + 1 := ⟨fuel - 1, by omega⟩
    obtain ⟨⟨r0, hr0, ho⟩, hfrom⟩ := hreg
    cases r with
    | nil => simp at hr0
    | cons x r' =>
      simp only [List.head?_cons, Option.some.injEq] at hr0
      subst hr0
      have hk' : ¬ kind = x.mTokenType := fun h => hhead x rfl h.symm
      have hbr := open_isBrace x ho
      have hcl := open_not_close x ho
      obtain ⟨tl, htl⟩ := getLast?_of_ne_nil (x :: r') (by simp)
      have hextract :
          extractToClosingBraceToken what [] true f
              (withActive s (some x) (x :: (r' ++ (ts ++ found :: rest))))
            = Result.ok (true, x :: r') (withActive s (some tl) (ts ++ found :: rest)) := by
        rw [extractToClosingBraceToken_eq_scan what _ x (r' ++ (ts ++ found :: rest))
          ((withActive s (some x) (x :: (r' ++ (ts ++ found :: rest)))).mTokenListStack.drop 1)
          rfl ho [] true f (by simp at hf ⊢; omega)]
        have := scanBraces_region (x :: r') ⟨0, 0, 0, 0⟩ [] (ts ++ found :: rest) hl hfrom
        simp only [List.cons_append, List.nil_append] at this
        rw [this]
        simp only [scanResult, htl, withActive_withActive, List.nil_append]
        simp
      rw [List.append_assoc, List.cons_append, extractToTokenType]
      simp only [M.bind_apply, M.pure_apply, getState, withActive_hasMoreTokens, Bool.not_true,
        Bool.false_eq_true, if_false, withActive_extract, hk', hbr, Bool.and_true,
        Bool.true_and, if_true, withActive_putBack, hcl, hextract]
      rw [ih (out ++ (x :: r')) (some tl) f (by simp at hf ⊢; omega)]
      simp

/-- C14: `extractToComma` on a stream that starts with a run of tokens and
whole brace regions, none of them a top-level comma, followed by a comma:
the run is appended to `outTokens`, the call returns true, and the comma is
put back, so the active stream starts at the comma above the same lower
frames (commas inside a brace region do not stop the scan). On
`a ( b , c ) , d` the result is `a ( b , c )` and `, d` stays. -/
theorem extractToComma_topLevel {G : Type} (what : List Char) (s : IDLCompilerState G)
    (pre rest : List Token) (comma : Token) (lower : List (List Token))
    (outTokens : List Token) (fuel : Nat)
    (hs : s.mTokenListStack = (pre ++ comma :: rest) :: lower)
    (hpre : TopLevelRun TokenType_CommaOperator pre)
    (hcomma : comma.mTokenType = TokenType_CommaOperator)
    (hf : (pre ++ comma :: rest).length + 1 < fuel) :
    (∃ s', extractToComma what outTokens fuel s = Result.ok (true, outTokens ++ pre) s' ∧
      s'.mTokenListStack = (comma :: rest) :: lower) ∧
    ∀ (g : G),
      extractToComma what [] 8
          (⟨[[⟨TokenType_Identifier, ['a'], 1⟩, ⟨TokenType_Brace, ['('], 1⟩,
              ⟨TokenType_Identifier, ['b'], 1⟩, ⟨TokenType_CommaOperator, [','], 1⟩,
              ⟨TokenType_Identifier, ['c'], 1⟩, ⟨TokenType_Brace, [')'], 1⟩,
              ⟨TokenType_CommaOperator, [','], 1⟩, ⟨TokenType_Identifier, ['d'], 1⟩]],
            [none], none, [], [], g⟩ : IDLCompilerState G)
        = Result.ok
            (true, [⟨TokenType_Identifier, ['a'], 1⟩, ⟨TokenType_Brace, ['('], 1⟩,
              ⟨TokenType_Identifier, ['b'], 1⟩, ⟨TokenType_CommaOperator, [','], 1⟩,
              ⟨TokenType_Identifier, ['c'], 1⟩, ⟨TokenType_Brace, [')'], 1⟩])
            ⟨[[⟨TokenType_CommaOperator, [','], 1⟩, ⟨TokenType_Identifier, ['d'], 1⟩]],
              [some ⟨TokenType_CommaOperator, [','], 1⟩],
              some ⟨TokenType_CommaOperator, [','], 1⟩, [], [], g⟩ := by
  refine ⟨⟨withActive s (some comma) (comma :: rest), ?_, ?_⟩, ?_⟩
  rotate_left 2
  · intro g
    rfl
  · have hstate : s = withActive s none (pre ++ comma :: rest) := by
      obtain ⟨stack, lastStack, last, docs, mods, g⟩ := s
      simp only at hs
      subst hs
      rfl
    unfold extractToComma
    conv_lhs => rw [hstate]
    exact extractToTokenType_run what TokenType_CommaOperator s comma rest hcomma pre hpre
      outTokens none fuel hf
  · rw [withActive_stack, hs]; rfl

/-- C14 on the stream `a ( , ) , d`, above an empty lower frame. -/
theorem extractToComma_topLevel_witness :
    (∃ s', extractToComma (G := Unit) ['x'] []  9
        ⟨[[⟨TokenType_Identifier, ['a'], 1⟩, ⟨TokenType_Brace, ['('], 1⟩,
            ⟨TokenType_CommaOperator, [','], 1⟩, ⟨TokenType_Brace, [')'], 2⟩,
            ⟨TokenType_CommaOperator, [','], 2⟩, ⟨TokenType_Identifier, ['d'], 3⟩], []],
          [none, none], none, [], [], ()⟩
        = Result.ok (true, [] ++ [⟨TokenType_Identifier, ['a'], 1⟩, ⟨TokenType_Brace, ['('], 1⟩,
            ⟨TokenType_CommaOperator, [','], 1⟩, ⟨TokenType_Brace, [')'], 2⟩]) s' ∧
      s'.mTokenListStack
        = [[⟨TokenType_CommaOperator, [','], 2⟩, ⟨TokenType_Identifier, ['d'], 3⟩], []]) :=
  (extractToComma_topLevel (G := Unit) ['x']
    ⟨[[⟨TokenType_Identifier, ['a'], 1⟩, ⟨TokenType_Brace, ['('], 1⟩,
        ⟨TokenType_CommaOperator, [','], 1⟩, ⟨TokenType_Brace, [')'], 2⟩,
        ⟨TokenType_CommaOperator, [','], 2⟩, ⟨TokenType_Identifier, ['d'], 3⟩], []],
      [none, none], none, [], [], ()⟩
    [⟨TokenType_Identifier, ['a'], 1⟩, ⟨TokenType_Brace, ['('], 1⟩,
      ⟨TokenType_CommaOperator, [','], 1⟩, ⟨TokenType_Brace, [')'], 2⟩]
    [⟨TokenType_Identifier, ['d'], 3⟩] ⟨TokenType_CommaOperator, [','], 2⟩ [[]] [] 9 rfl
    (TopLevelRun.token _ _ (by decide) rfl
      (TopLevelRun.region
        [⟨TokenType_Brace, ['('], 1⟩, ⟨TokenType_CommaOperator, [','], 1⟩,
          ⟨TokenType_Brace, [')'], 2⟩] []
        ⟨⟨_, rfl, rfl⟩, by
          refine ⟨by decide, ?_, ?_, ?_⟩
          · intro n h0 hn
            have hn3 : n ≤ 3 := hn
            interval_cases n <;> decide
          · intro n h0 hn
            have hn3 : n < 3 := hn
            interval_cases n <;> decide
          · decide⟩
        (by decide) (by intro t ht; cases ht; decide) TopLevelRun.nil))
    rfl (by decide)).1

/-! ## Alias replacement -/

theorem foldl_snoc (before xs : List Token) :
    xs.foldl (fun l replaceToken => l ++ [replaceToken]) before = before ++ xs := by
  induction xs generalizing before with
  | nil => simp
  | cons x xs ih => simp [ih]

/-- One turn of the loop of `replaceAliases` in closed form: a replacement
is put in with its tokens in reverse order, and is not looked at again. -/
theorem replaceAliasesLoop_cons (h : Helper) (fuel n : Nat) (aliases : AliasMap)
    (token : Token) (after before : List Token) :
    replaceAliasesLoop h fuel n aliases before (token :: after)
      = (match aliases.lookup token.mToken with
         | none => replaceAliasesLoop h fuel n aliases (before ++ [token]) after
         | some found =>
           (tokenize h fuel n found token.mLineCount).bind fun replacementTokens =>
             replaceAliasesLoop h fuel n aliases (before ++ replacementTokens.reverse)
               after) := by
  rw [replaceAliasesLoop]
  cases aliases.lookup token.mToken with
  | none => rfl
  | some found =>
    simp only
    cases tokenize h fuel n found token.mLineCount with
    | none => rfl
    | some r => simp only [foldl_snoc, Option.bind]

/-- A replacement of several tokens comes out in reverse order: with the
alias `A` for `b c`, the stream `A` becomes `c b`. -/
theorem replaceAliases_reversed :
    replaceAliases specHelper 4 4 [(['A'], "b c".toList)] [⟨TokenType_Identifier, ['A'], 1⟩]
      = some [⟨TokenType_Identifier, ['c'], 1⟩, ⟨TokenType_Identifier, ['b'], 1⟩] := by
  rfl

theorem reverse_short (r : List Token) (hr : r.length ≤ 1) : r.reverse = r := by
  match r, hr with
  | [], _ => rfl
  | [_], _ => rfl

theorem replaceAliasesLoop_expand (h : Helper) (fuel n : Nat) (aliases : AliasMap)
    (tokens : List Token) :
    (∀ t ∈ tokens, ∀ found, aliases.lookup t.mToken = some found →
      ∀ r, tokenize h fuel n found t.mLineCount = some r → r.length ≤ 1) →
    ∀ (before : List Token),
    replaceAliasesLoop h fuel n aliases before tokens
      = (expandAliases h fuel n aliases false tokens).map (fun l => before ++ l) := by
  induction tokens with
  | nil => intro _ before; simp [replaceAliasesLoop, expandAliases]
  | cons token after ih =>
    intro hshort before
    have ih' := ih (fun t ht => hshort t (List.mem_cons_of_mem _ ht))
    rw [replaceAliasesLoop_cons, expandAliases]
    simp only [Bool.false_and, Bool.false_eq_true, if_false]
    cases hl : aliases.lookup token.mToken with
    | none =>
      simp only [ih', Option.map_map]
      congr 1
      funext l
      simp
    | some found =>
      simp only
      cases ht : tokenize h fuel n found token.mLineCount with
      | none => rfl
      | some r =>
        have hr := hshort token (List.mem_cons_self _ _) found hl r ht
        simp only [Option.bind, ih', Option.map_map, reverse_short r hr]
        congr 1
        funext l
        simp

/-- C16: whenever every alias text that is used lexes to at most one token,
`replaceAliases` returns the concatenation, over the tokens in order, of the
tokens of the alias text, lexed at the line of the token, if the lexeme of
the token is a key of the alias map, whatever the kind of the token, and of
the unchanged token otherwise. -/
theorem replaceAliases_concat (h : Helper) (fuel n : Nat) (aliases : AliasMap)
    (tokens : List Token)
    (hshort : ∀ t ∈ tokens, ∀ found, aliases.lookup t.mToken = some found →
      ∀ r, tokenize h fuel n found t.mLineCount = some r → r.length ≤ 1) :
    replaceAliases h fuel n aliases tokens = expandAliases h fuel n aliases false tokens := by
  rw [replaceAliases, replaceAliasesLoop_expand h fuel n aliases tokens hshort []]
  cases expandAliases h fuel n aliases false tokens <;> simp

/-- C16 on the stream `A 1 y` with the aliases `A` for `B` and `1` for `x`. -/
theorem replaceAliases_concat_witness :
    replaceAliases specHelper 4 4 [(['A'], ['B']), (['1'], ['x'])]
        [⟨TokenType_Identifier, ['A'], 3⟩, ⟨TokenType_Number, ['1'], 4⟩,
          ⟨TokenType_Identifier, ['y'], 5⟩]
      = expandAliases specHelper 4 4 [(['A'], ['B']), (['1'], ['x'])] false
        [⟨TokenType_Identifier, ['A'], 3⟩, ⟨TokenType_Number, ['1'], 4⟩,
          ⟨TokenType_Identifier, ['y'], 5⟩]
    ∧ expandAliases specHelper 4 4 [(['A'], ['B']), (['1'], ['x'])] false
        [⟨TokenType_Identifier, ['A'], 3⟩, ⟨TokenType_Number, ['1'], 4⟩,
          ⟨TokenType_Identifier, ['y'], 5⟩]
      = some [⟨TokenType_Identifier, ['B'], 3⟩, ⟨TokenType_Identifier, ['x'], 4⟩,
          ⟨TokenType_Identifier, ['y'], 5⟩] :=
  ⟨replaceAliases_concat specHelper 4 4 [(['A'], ['B']), (['1'], ['x'])]
    [⟨TokenType_Identifier, ['A'], 3⟩, ⟨TokenType_Number, ['1'], 4⟩,
      ⟨TokenType_Identifier, ['y'], 5⟩]
    (by
      intro t ht found hfound r hr
      simp only [List.mem_cons, List.mem_singleton, List.not_mem_nil, or_false] at ht
      rcases ht with rfl | rfl | rfl
      · cases hfound
        have : tokenize specHelper 4 4 ['B'] 3 = some [⟨TokenType_Identifier, ['B'], 3⟩] := rfl
        rw [this] at hr; cases hr; decide
      · cases hfound
        have : tokenize specHelper 4 4 ['x'] 4 = some [⟨TokenType_Identifier, ['x'], 4⟩] := rfl
        rw [this] at hr; cases hr; decide
      · cases hfound),
   rfl⟩

/-- The counterexample of C16: a Number token whose lexeme is a key of the
alias map is replaced, where the claim leaves it unchanged. -/
theorem replaceAliases_concat_counterexample :
    replaceAliases specHelper 4 4 [(['1'], ['x'])] [⟨TokenType_Number, ['1'], 7⟩]
      = some [⟨TokenType_Identifier, ['x'], 7⟩]
    ∧ expandAliases specHelper 4 4 [(['1'], ['x'])] true [⟨TokenType_Number, ['1'], 7⟩]
      = some [⟨TokenType_Number, ['1'], 7⟩]
    ∧ replaceAliases specHelper 4 4 [(['1'], ['x'])] [⟨TokenType_Number, ['1'], 7⟩]
      ≠ expandAliases specHelper 4 4 [(['1'], ['x'])] true [⟨TokenType_Number, ['1'], 7⟩] :=
  ⟨rfl, rfl, fun h => by
    have h' : (some [⟨TokenType_Identifier, ['x'], 7⟩] : Option (List Token))
        = some [⟨TokenType_Number, ['1'], 7⟩] := h
    simp at h'⟩

/-- C17: alias replacement is one pass. With the aliases `A` for `B` and `B`
for `C`, the stream `A` becomes `B` and the stream `A B` becomes `B C`, each
token on the line of the token it replaces; with an empty alias map every
token list is returned as it is. -/
theorem replaceAliases_one_pass (h : Helper) (fuel n : Nat) (tokens : List Token)
    (line line2 : Nat) :
    replaceAliases specHelper (fuel + 2) (n + 2) [(['A'], ['B']), (['B'], ['C'])]
        [⟨TokenType_Identifier, ['A'], line⟩]
      = some [⟨TokenType_Identifier, ['B'], line⟩]
    ∧ replaceAliases specHelper (fuel + 2) (n + 2) [(['A'], ['B']), (['B'], ['C'])]
        [⟨TokenType_Identifier, ['A'], line⟩, ⟨TokenType_Identifier, ['B'], line2⟩]
      = some [⟨TokenType_Identifier, ['B'], line⟩, ⟨TokenType_Identifier, ['C'], line2⟩]
    ∧ replaceAliases h fuel n [] tokens = some tokens := by
  refine ⟨rfl, rfl, ?_⟩
  have key : ∀ before, replaceAliasesLoop h fuel n [] before tokens = some (before ++ tokens) := by
    induction tokens with
    | nil => intro before; simp [replaceAliasesLoop]
    | cons t ts ih =>
      intro before
      rw [replaceAliasesLoop_cons]
      simp only [List.lookup]
      rw [ih]
      simp
  simpa [replaceAliases] using key []

/-! ## The parser -/

theorem peekNextToken_cons {G : Type} (what : List Char) (s : IDLCompilerState G) (t : Token)
    (ts : List Token) (lower : List (List Token))
    (hs : s.mTokenListStack = (t :: ts) :: lower) : peekNextToken what s = Result.ok t s := by
  unfold peekNextToken; rw [hs]

theorem hasMoreTokens_cons {G : Type} (s : IDLCompilerState G) (t : Token)
    (ts : List Token) (lower : List (List Token))
    (hs : s.mTokenListStack = (t :: ts) :: lower) : hasMoreTokens s = true := by
  unfold hasMoreTokens getTokens; rw [hs]; rfl

theorem parseDocumentation_false {G : Type} (s : IDLCompilerState G) (t : Token)
    (ts : List Token) (lower : List (List Token))
    (hs : s.mTokenListStack = (t :: ts) :: lower)
    (ht : t.mTokenType ≠ TokenType_Documentation) (fuel : Nat) :
    parseDocumentation (fuel + 1) s = Result.ok false s := by
  have ht' : TokenType_Documentation ≠ t.mTokenType := fun h => ht h.symm
  unfold parseDocumentation parseDocumentationLoop
  simp only [M.bind_apply, M.pure_apply, getState, hasMoreTokens_cons s t ts lower hs,
    peekNextToken_cons _ s t ts lower hs, Bool.not_true, Bool.false_eq_true, if_false]
  simp [ht', M.pure_apply]

theorem parseSemiColon_false {G : Type} (s : IDLCompilerState G) (t : Token)
    (ts : List Token) (lower : List (List Token))
    (hs : s.mTokenListStack = (t :: ts) :: lower)
    (ht : t.mTokenType ≠ TokenType_SemiColon) :
    parseSemiColon s = Result.ok false s := by
  have ht' : TokenType_SemiColon ≠ t.mTokenType := fun h => ht h.symm
  unfold parseSemiColon
  simp only [M.bind_apply, peekNextToken_cons _ s t ts lower hs]
  simp [ht', M.pure_apply]

theorem parseDirective_false {G Node Modifier : Type} (om : ObjectModel G Node Modifier)
    (h : Helper) (s : IDLCompilerState G) (t : Token)
    (ts : List Token) (lower : List (List Token))
    (hs : s.mTokenListStack = (t :: ts) :: lower)
    (ht : t.mTokenType ≠ TokenType_Directive) (fuel : Nat) :
    parseDirective om h fuel s = Result.ok false s := by
  have ht' : TokenType_Directive ≠ t.mTokenType := fun h => ht h.symm
  unfold parseDirective
  simp only [M.bind_apply, peekNextToken_cons _ s t ts lower hs]
  simp [ht', M.pure_apply]

theorem parseModifiers_false {G Node Modifier : Type} (om : ObjectModel G Node Modifier)
    (s : IDLCompilerState G) (t : Token)
    (ts : List Token) (lower : List (List Token))
    (hs : s.mTokenListStack = (t :: ts) :: lower)
    (ht : t.mTokenType ≠ TokenType_SquareBrace) (fuel : Nat) :
    parseModifiers om fuel s = Result.ok false s := by
  have ht' : TokenType_SquareBrace ≠ t.mTokenType := fun h => ht h.symm
  unfold parseModifiers
  simp only [M.bind_apply, peekNextToken_cons _ s t ts lower hs]
  simp [ht', M.pure_apply]

theorem parseNamespace_false {G Node Modifier : Type} (om : ObjectModel G Node Modifier)
    (parseNamespaceContents : Node → M G Unit) (parent : Node)
    (s : IDLCompilerState G) (t : Token)
    (ts : List Token) (lower : List (List Token))
    (hs : s.mTokenListStack = (t :: ts) :: lower)
    (ht : t.mTokenType = TokenType_Identifier → t.mToken ≠ "namespace".toList) :
    parseNamespace om parseNamespaceContents parent s = Result.ok false s := by
  unfold parseNamespace
  simp only [M.bind_apply, peekNextToken_cons _ s t ts lower hs]
  by_cases hk : TokenType_Identifier = t.mTokenType
  · have hl : ("namespace".toList = t.mToken) = False :=
      eq_false fun h => ht hk.symm h.symm
    have hk' : (TokenType_Identifier = t.mTokenType) = True := eq_true hk
    simp only [hk', hl, ne_eq, not_true_eq_false, not_false_eq_true, if_true, if_false,
      M.bind_apply, M.pure_apply]
  · simp [hk, M.pure_apply]

theorem parseUsing_false {G Node Modifier : Type} (om : ObjectModel G Node Modifier)
    (namespaceObj : Node) (s : IDLCompilerState G) (t : Token)
    (ts : List Token) (lower : List (List Token))
    (hs : s.mTokenListStack = (t :: ts) :: lower)
    (ht : t.mTokenType = TokenType_Identifier → t.mToken ≠ "using".toList) (fuel : Nat) :
    parseUsing om fuel namespaceObj s = Result.ok false s := by
  unfold parseUsing
  simp only [M.bind_apply, peekNextToken_cons _ s t ts lower hs]
  by_cases hk : TokenType_Identifier = t.mTokenType
  · have hl : ("using".toList = t.mToken) = False :=
      eq_false fun h => ht hk.symm h.symm
    have hk' : (TokenType_Identifier = t.mTokenType) = True := eq_true hk
    simp only [hk', hl, ne_eq, not_true_eq_false, not_false_eq_true, if_true, if_false,
      M.bind_apply, M.pure_apply]
  · simp [hk, M.pure_apply]

theorem parseTypedef_false {G Node Modifier : Type} (om : ObjectModel G Node Modifier)
    (context : Node) (s : IDLCompilerState G) (t : Token)
    (ts : List Token) (lower : List (List Token))
    (hs : s.mTokenListStack = (t :: ts) :: lower)
    (ht : t.mTokenType = TokenType_Identifier → t.mToken ≠ "typedef".toList) (fuel : Nat) :
    parseTypedef om fuel context s = Result.ok false s := by
  unfold parseTypedef
  simp only [M.bind_apply, peekNextToken_cons _ s t ts lower hs]
  by_cases hk : TokenType_Identifier = t.mTokenType
  · have hl : ("typedef".toList = t.mToken) = False :=
      eq_false fun h => ht hk.symm h.symm
    have hk' : (TokenType_Identifier = t.mTokenType) = True := eq_true hk
    simp only [hk', hl, ne_eq, not_true_eq_false, not_false_eq_true, if_true, if_false,
      M.bind_apply, M.pure_apply]
  · simp [hk, M.pure_apply]

theorem parseStruct_false {G Node Modifier : Type} (om : ObjectModel G Node Modifier)
    (h : Helper) (context : Node) (s : IDLCompilerState G) (t : Token)
    (ts : List Token) (lower : List (List Token))
    (hs : s.mTokenListStack = (t :: ts) :: lower)
    (ht : t.mTokenType = TokenType_Identifier →
      t.mToken ≠ "template".toList ∧ t.mToken ≠ "class".toList ∧
      t.mToken ≠ "interface".toList ∧ t.mToken ≠ "interaction".toList ∧
      t.mToken ≠ "struct".toList) (fuel : Nat) :
    parseStruct om h (fuel + 1) context s = Result.ok false s := by
  unfold parseStruct
  simp only [M.bind_apply, peekNextToken_cons _ s t ts lower hs]
  by_cases hk : TokenType_Identifier = t.mTokenType
  · obtain ⟨h1, h2, h3, h4, h5⟩ := ht hk.symm
    have h1' : ("template".toList = t.mToken) = False := eq_false fun h => h1 h.symm
    have h2' : ("class".toList = t.mToken) = False := eq_false fun h => h2 h.symm
    have h3' : ("interface".toList = t.mToken) = False := eq_false fun h => h3 h.symm
    have h4' : ("interaction".toList = t.mToken) = False := eq_false fun h => h4 h.symm
    have h5' : ("struct".toList = t.mToken) = False := eq_false fun h => h5 h.symm
    have hk' : (TokenType_Identifier = t.mTokenType) = True := eq_true hk
    simp only [hk', h1', h2', h3', h4', h5', ne_eq, not_true_eq_false, not_false_eq_true,
      if_true, if_false, and_self, M.bind_apply, M.pure_apply,
      peekNextToken_cons _ s t ts lower hs, Bool.false_eq_true]
  · simp [hk, M.pure_apply]

theorem parseNamespaceContentsTurn_no_match {G Node Modifier : Type}
    (om : ObjectModel G Node Modifier) (h : Helper)
    (parseNamespaceContents : Node → M G Unit) (namespaceObj : Node)
    (s : IDLCompilerState G) (t : Token) (ts : List Token) (lower : List (List Token))
    (hs : s.mTokenListStack = (t :: ts) :: lower) (ht : StartsNoProduction t) (fuel : Nat) :
    parseNamespaceContentsTurn om h (fuel + 1) parseNamespaceContents namespaceObj s
      = Result.ok () s := by
  obtain ⟨h1, h2, h3, h4, h5⟩ := ht
  have hkw : ∀ kw ∈ namespaceKeywords, t.mTokenType = TokenType_Identifier → t.mToken ≠ kw :=
    fun kw hkw hk heq => h5 hk (heq ▸ hkw)
  unfold parseNamespaceContentsTurn
  simp only [M.bind_apply, M.pure_apply,
    parseDocumentation_false s t ts lower hs h1 fuel,
    parseSemiColon_false s t ts lower hs h2,
    parseDirective_false om h s t ts lower hs h3 (fuel + 1),
    parseModifiers_false om s t ts lower hs h4 (fuel + 1),
    parseNamespace_false om parseNamespaceContents namespaceObj s t ts lower hs
      (hkw _ (by simp [namespaceKeywords])),
    parseUsing_false om namespaceObj s t ts lower hs (hkw _ (by simp [namespaceKeywords]))
      (fuel + 1),
    parseTypedef_false om namespaceObj s t ts lower hs (hkw _ (by simp [namespaceKeywords]))
      (fuel + 1),
    parseStruct_false om h namespaceObj s t ts lower hs
      (fun hk => ⟨hkw _ (by simp [namespaceKeywords]) hk, hkw _ (by simp [namespaceKeywords]) hk,
        hkw _ (by simp [namespaceKeywords]) hk, hkw _ (by simp [namespaceKeywords]) hk,
        hkw _ (by simp [namespaceKeywords]) hk⟩) fuel,
    Bool.false_eq_true, if_false]

/-- C18: when the front token of the active stream starts none of the
productions, `parseNamespaceContents` does not stop: every production returns
false and leaves the stream as it is, and the loop, which has no exit but
`hasMoreTokens()`, tries the same token again. Whatever the fuel, the loop
has not returned when the fuel is used up; the stream of the single
identifier `foo` and the stream of a single closing curly brace are such
streams. -/
theorem parseNamespaceContents_no_match {G Node Modifier : Type}
    (om : ObjectModel G Node Modifier) (h : Helper) (namespaceObj : Node)
    (s : IDLCompilerState G) (t : Token) (ts : List Token) (lower : List (List Token))
    (hs : s.mTokenListStack = (t :: ts) :: lower) (ht : StartsNoProduction t) (fuel : Nat) :
    parseNamespaceContents om h fuel namespaceObj s = Result.timeout := by
  induction fuel with
  | zero => rfl
  | succ f ih =>
    unfold parseNamespaceContents
    simp only [M.bind_apply, M.pure_apply, getState, hasMoreTokens_cons s t ts lower hs,
      Bool.not_true, Bool.false_eq_true, if_false]
    cases f with
    | zero => rfl
    | succ f =>
      rw [parseNamespaceContentsTurn_no_match om h _ namespaceObj s t ts lower hs ht f]
      exact ih

/-- C18 on the stream `foo` and on the stream of one closing curly brace. -/
theorem parseNamespaceContents_no_match_witness :
    parseNamespaceContents
        (⟨fun _ _ _ => none, fun g n _ => (g, n), fun _ _ _ => none, fun _ _ _ => none,
          fun _ => [], fun _ => none, fun _ => none, fun g _ _ _ => g, fun _ => pure (),
          fun _ _ => pure (), fun _ _ => pure (), fun _ _ _ => pure (),
          fun n _ => pure (n, true), fun _ _ => pure (), fun _ _ => pure none⟩ :
          ObjectModel Unit Unit Unit) specHelper 1000 ()
        ⟨[[⟨TokenType_Identifier, "foo".toList, 1⟩]], [none], none, [], [], ()⟩
      = Result.timeout
    ∧ parseNamespaceContents
        (⟨fun _ _ _ => none, fun g n _ => (g, n), fun _ _ _ => none, fun _ _ _ => none,
          fun _ => [], fun _ => none, fun _ => none, fun g _ _ _ => g, fun _ => pure (),
          fun _ _ => pure (), fun _ _ => pure (), fun _ _ _ => pure (),
          fun n _ => pure (n, true), fun _ _ => pure (), fun _ _ => pure none⟩ :
          ObjectModel Unit Unit Unit) specHelper 1000 ()
        ⟨[[⟨TokenType_CurlyBrace, ['}'], 1⟩]], [none], none, [], [], ()⟩
      = Result.timeout :=
  ⟨parseNamespaceContents_no_match _ specHelper () _
      ⟨TokenType_Identifier, "foo".toList, 1⟩ [] [] rfl (by decide) 1000,
   parseNamespaceContents_no_match _ specHelper () _
      ⟨TokenType_CurlyBrace, ['}'], 1⟩ [] [] rfl (by decide) 1000⟩

/-- C19: on a stream that starts with `namespace`, a name and the token of an
opening curly brace, `parseNamespaceContents` throws at the brace: the test
in `parseNamespace` is `isOpenBrace()` where it means its negation, so the
brace that is wanted raises `namespace expecting "{"` on the line of the
brace, before any namespace is looked up or created. The lexer gives such a
stream for `namespace a { namespace b { } }`. -/
theorem parseNamespaceContents_namespace {G Node Modifier : Type}
    (om : ObjectModel G Node Modifier) (h : Helper) (namespaceObj : Node) (g : G)
    (name : List Char) (line1 line2 line3 : Nat) (rest : List Token) (fuel n : Nat) :
    parseNamespaceContents om h (fuel + 2) namespaceObj
        ⟨[⟨TokenType_Identifier, "namespace".toList, line1⟩ ::
            ⟨TokenType_Identifier, name, line2⟩ :: ⟨TokenType_CurlyBrace, ['\x7b'], line3⟩ :: rest],
          [none], none, [], [], g⟩
      = Result.error
          (Failure.FailureWithLine ZS_EVENTING_TOOL_INVALID_CONTENT line3
            "namespace expecting \"\x7b\"".toList)
          ⟨[rest], [some ⟨TokenType_CurlyBrace, ['\x7b'], line3⟩],
            some ⟨TokenType_CurlyBrace, ['\x7b'], line3⟩, [], [], g⟩
    ∧ tokenize specHelper (fuel + 2) (n + 9) "namespace a \x7b namespace b \x7b \x7d \x7d".toList 1
      = some [⟨TokenType_Identifier, "namespace".toList, 1⟩, ⟨TokenType_Identifier, ['a'], 1⟩,
          ⟨TokenType_CurlyBrace, ['\x7b'], 1⟩, ⟨TokenType_Identifier, "namespace".toList, 1⟩,
          ⟨TokenType_Identifier, ['b'], 1⟩, ⟨TokenType_CurlyBrace, ['\x7b'], 1⟩,
          ⟨TokenType_CurlyBrace, ['\x7d'], 1⟩, ⟨TokenType_CurlyBrace, ['\x7d'], 1⟩] := by
  exact ⟨rfl, rfl⟩

theorem parseTypedefLoop_ok {G : Type} (what : List Char) (token : Token) (fuel : Nat) :
    ∀ (typeTokens r : List Token) (s s' : IDLCompilerState G),
      parseTypedefLoop what token fuel typeTokens s = Result.ok r s' → r = typeTokens := by
  induction fuel with
  | zero => intro _ _ _ _ hr; cases hr
  | succ f ih =>
    intro typeTokens r s s' hr
    unfold parseTypedefLoop at hr
    by_cases ht : TokenType_SemiColon ≠ token.mTokenType
    · exfalso
      simp only [ht, ne_eq, not_false_eq_true, if_true, M.bind_apply] at hr
      have hnot : ∀ (n : Nat) (acc : List Token) (s1 : IDLCompilerState G),
          parseTypedefLoop what token n acc s1 ≠ Result.ok r s' := by
        intro n
        induction n with
        | zero => intro _ _ hn; cases hn
        | succ n ihn =>
          intro acc s1 hn
          unfold parseTypedefLoop at hn
          simp only [ht, ne_eq, not_false_eq_true, if_true, M.bind_apply] at hn
          cases hx : extractNextToken what s1 with
          | ok a s2 => rw [hx] at hn; exact ihn _ s2 hn
          | error e s2 => rw [hx] at hn; cases hn
          | timeout => rw [hx] at hn; cases hn
      cases hx : extractNextToken what s with
      | ok a s2 => rw [hx] at hr; exact hnot _ _ s2 hr
      | error e s2 => rw [hx] at hr; cases hr
      | timeout => rw [hx] at hr; cases hr
    · rw [if_neg ht] at hr
      simp only [M.pure_apply, Result.ok.injEq] at hr
      exact hr.1.symm

/-- C20: on the stream `typedef unsigned long long U64 ;` the method
`parseTypedef` does not return: its loop tests the token read before the
loop, extracts the whole stream, the semicolon included, and the next
extraction throws the end-of-input error; `processTypedef` is not reached.
On every stream and for every fuel `parseTypedef` does not return true. -/
theorem parseTypedef_U64 {G Node Modifier : Type} (om : ObjectModel G Node Modifier)
    (context : Node) (g : G) (fuel : Nat) (s s' : IDLCompilerState G) :
    parseTypedef om (fuel + 6) context
        ⟨[[⟨TokenType_Identifier, "typedef".toList, 1⟩,
            ⟨TokenType_Identifier, "unsigned".toList, 1⟩,
            ⟨TokenType_Identifier, "long".toList, 1⟩, ⟨TokenType_Identifier, "long".toList, 1⟩,
            ⟨TokenType_Identifier, "U64".toList, 1⟩, ⟨TokenType_SemiColon, [';'], 1⟩]],
          [none], none, [], [], g⟩
      = Result.error
          (Failure.FailureWithLine ZS_EVENTING_TOOL_UNEXPECTED_EOF 0
            "typedef unexpectedly reached EOF".toList)
          ⟨[[]], [some ⟨TokenType_SemiColon, [';'], 1⟩], some ⟨TokenType_SemiColon, [';'], 1⟩,
            [], [], g⟩
    ∧ parseTypedef om fuel context s ≠ Result.ok true s' := by
  refine ⟨rfl, ?_⟩
  intro hres
  unfold parseTypedef at hres
  simp only [M.bind_apply, M.pure_apply] at hres
  cases h1 : peekNextToken "typedef".toList s with
  | error e s1 => rw [h1] at hres; cases hres
  | timeout => rw [h1] at hres; cases hres
  | ok token s1 =>
    rw [h1] at hres
    simp only at hres
    by_cases hk : TokenType_Identifier ≠ token.mTokenType
    · rw [if_pos hk] at hres
      simp only [M.pure_apply, Result.ok.injEq, Bool.false_eq_true, false_and] at hres
    · rw [if_neg hk] at hres
      simp only [M.pure_apply, M.bind_apply] at hres
      by_cases hl : "typedef".toList ≠ token.mToken
      · rw [if_pos hl] at hres
        simp only [M.pure_apply, Result.ok.injEq, Bool.false_eq_true, false_and] at hres
      · rw [if_neg hl] at hres
        simp only [M.pure_apply, M.bind_apply] at hres
        cases h2 : extractNextToken "typedef".toList s1 with
        | error e s2 => rw [h2] at hres; cases hres
        | timeout => rw [h2] at hres; cases hres
        | ok t2 s2 =>
          rw [h2] at hres
          simp only at hres
          cases h3 : peekNextToken "typedef".toList s2 with
          | error e s3 => rw [h3] at hres; cases hres
          | timeout => rw [h3] at hres; cases hres
          | ok token3 s3 =>
            rw [h3] at hres
            simp only at hres
            cases h4 : parseTypedefLoop "typedef".toList token3 fuel [] s3 with
            | error e s4 => rw [h4] at hres; cases hres
            | timeout => rw [h4] at hres; cases hres
            | ok r s4 =>
              rw [h4] at hres
              have hr := parseTypedefLoop_ok "typedef".toList token3 fuel [] r s3 s4 h4
              subst hr
              cases hres

/-! ## The type resolver: modifier folding -/

theorem insertAll_append_fail (pre : List (List Char)) (last : List Char) (e : InvalidContent) :
    ∀ (m0 m : FoundBasicTypeModifiers), insertAll m0 pre = Except.ok m →
      m.insert last = Except.error e →
      ∀ rest, insertAll m0 (pre ++ last :: rest) = Except.error e := by
  induction pre with
  | nil =>
    intro m0 m hpre hlast rest
    cases hpre
    simp only [List.nil_append, insertAll, hlast]
  | cons x xs ih =>
    intro m0 m hpre hlast rest
    simp only [List.cons_append, insertAll] at hpre ⊢
    cases hx : m0.insert x with
    | error e' => rw [hx] at hpre; cases hpre
    | ok m1 =>
      rw [hx] at hpre
      simp only at hpre ⊢
      exact ih m1 m hpre hlast rest

theorem failsAtInsert_of (pre : List (List Char)) (last message : List Char)
    (m : FoundBasicTypeModifiers) (hpre : insertAll {} pre = Except.ok m)
    (hlast : m.insert last = Except.error ⟨message⟩) : FailsAtInsert pre last message :=
  ⟨m, hpre, hlast, insertAll_append_fail pre last ⟨message⟩ {} m hpre hlast⟩

theorem insert_typename (m : FoundBasicTypeModifiers) (a : List Char)
    (ha : a ∉ modifierKeywords) :
    m.insert a =
      if m.mTypeName ≠ [] then Except.error ⟨"has type name redeclared".toList⟩
      else if m.mLastWasTypename then FoundBasicTypeModifiers.throwInvalidModifier
      else pure { m with mLastWasTypename := true, mLastWasScope := false,
                          mTypeName := m.mTypeName ++ a } := by
  have hk : ∀ k ∈ modifierKeywords, ¬ k = a := fun k hk h => ha (h ▸ hk)
  unfold FoundBasicTypeModifiers.insert
  rw [if_neg (hk _ (by simp [modifierKeywords])), if_neg (hk _ (by simp [modifierKeywords])),
    if_neg (hk _ (by simp [modifierKeywords])), if_neg (hk _ (by simp [modifierKeywords])),
    if_neg (hk _ (by simp [modifierKeywords])), if_neg (hk _ (by simp [modifierKeywords])),
    if_neg (hk _ (by simp [modifierKeywords])), if_neg (hk _ (by simp [modifierKeywords])),
    if_neg (hk _ (by simp [modifierKeywords])), if_neg (hk _ (by simp [modifierKeywords]))]

/-- C27: the fold of `insert` over `signed unsigned`, `unsigned signed`,
`long long long`, `float double`, `double float` and `const const` throws
`InvalidContent` (has invalid type modifier), and over two identifiers in a
row that are no keywords it throws `InvalidContent` (has type name
redeclared). Each time the fold of the tokens before the last one succeeds,
the insert of the last one throws, and the fold throws the same whatever
tokens follow. -/
theorem insertAll_illegal (a b : List Char) (ha : a ∉ modifierKeywords)
    (hb : b ∉ modifierKeywords) (hne : a ≠ []) :
    FailsAtInsert ["signed".toList] "unsigned".toList "has invalid type modifier".toList
    ∧ FailsAtInsert ["unsigned".toList] "signed".toList "has invalid type modifier".toList
    ∧ FailsAtInsert ["long".toList, "long".toList] "long".toList
        "has invalid type modifier".toList
    ∧ FailsAtInsert ["float".toList] "double".toList "has invalid type modifier".toList
    ∧ FailsAtInsert ["double".toList] "float".toList "has invalid type modifier".toList
    ∧ FailsAtInsert ["const".toList] "const".toList "has invalid type modifier".toList
    ∧ FailsAtInsert [a] b "has type name redeclared".toList := by
  refine ⟨failsAtInsert_of _ _ _ _ rfl rfl, failsAtInsert_of _ _ _ _ rfl rfl,
    failsAtInsert_of _ _ _ _ rfl rfl, failsAtInsert_of _ _ _ _ rfl rfl,
    failsAtInsert_of _ _ _ _ rfl rfl, failsAtInsert_of _ _ _ _ rfl rfl, ?_⟩
  refine failsAtInsert_of [a] b _
    { mLastWasTypename := true, mLastWasScope := false, mTypeName := a } ?_ ?_
  · simp only [insertAll, insert_typename _ a ha]
    rfl
  · rw [insert_typename _ b hb]
    simp [hne]

/-- C27 on the identifiers `foo` and `bar`. -/
theorem insertAll_illegal_witness :
    FailsAtInsert ["signed".toList] "unsigned".toList "has invalid type modifier".toList
    ∧ FailsAtInsert ["unsigned".toList] "signed".toList "has invalid type modifier".toList
    ∧ FailsAtInsert ["long".toList, "long".toList] "long".toList
        "has invalid type modifier".toList
    ∧ FailsAtInsert ["float".toList] "double".toList "has invalid type modifier".toList
    ∧ FailsAtInsert ["double".toList] "float".toList "has invalid type modifier".toList
    ∧ FailsAtInsert ["const".toList] "const".toList "has invalid type modifier".toList
    ∧ FailsAtInsert ["foo".toList] "bar".toList "has type name redeclared".toList :=
  insertAll_illegal "foo".toList "bar".toList (by decide) (by decide) (by decide)

/-- C28: for every bag of modifiers `getBasicType` returns the entry of the
reference table with the priority char, short, float, double, longs, int,
and throws where the table has none; the folds of `unsigned long long`,
`signed char`, `long double`, `short int` and `int short` give ulonglong,
schar, ldouble, short and short. -/
theorem getBasicType_table (m : FoundBasicTypeModifiers) :
    m.getBasicType =
      (match basicTypeTable m with
       | some t => Except.ok t
       | none => Except.error ⟨"is not a basic type".toList⟩)
    ∧ (insertAll {} ["unsigned".toList, "long".toList, "long".toList]).bind
        FoundBasicTypeModifiers.getBasicType = Except.ok PredefinedTypedef_ulonglong
    ∧ (insertAll {} ["signed".toList, "char".toList]).bind
        FoundBasicTypeModifiers.getBasicType = Except.ok PredefinedTypedef_schar
    ∧ (insertAll {} ["long".toList, "double".toList]).bind
        FoundBasicTypeModifiers.getBasicType = Except.ok PredefinedTypedef_ldouble
    ∧ (insertAll {} ["short".toList, "int".toList]).bind
        FoundBasicTypeModifiers.getBasicType = Except.ok PredefinedTypedef_short
    ∧ (insertAll {} ["int".toList, "short".toList]).bind
        FoundBasicTypeModifiers.getBasicType = Except.ok PredefinedTypedef_short := by
  refine ⟨?_, rfl, rfl, rfl, rfl, rfl⟩
  obtain ⟨anyBasic, anyOther, sgn, unsgn, chr, shrt, int, longs, flt, dbl, cnst, lastT, lastS,
    name⟩ := m
  unfold FoundBasicTypeModifiers.getBasicType basicTypeTable basicTypeRows signVariant
  rcases Nat.lt_or_ge longs 1 with h0 | h1
  · have : longs = 0 := by omega
    subst this
    cases chr <;> cases shrt <;> cases flt <;> cases dbl <;> cases int <;> cases sgn <;>
      cases unsgn <;> rfl
  · rcases Nat.lt_or_ge longs 2 with h2 | h2
    · have : longs = 1 := by omega
      subst this
      cases chr <;> cases shrt <;> cases flt <;> cases dbl <;> cases int <;> cases sgn <;>
        cases unsgn <;> rfl
    · obtain ⟨k, rfl⟩ : ∃ k, longs = k + 2 := ⟨longs - 2, by omega⟩
      cases chr <;> cases shrt <;> cases flt <;> cases dbl <;> cases int <;> cases sgn <;>
        cases unsgn <;> simp <;> rfl

/-- C30: the bag that holds `signed` alone, the fold of `insert` over
`signed`, turns each of char, short, int, long, longlong, int8, int16, int32
and int64 into its signed variant, and the bag that holds `unsigned` alone
turns it into its unsigned variant; `mergePredefined` throws
`InvalidContent` for the signed bag on each unsigned variant and for the
unsigned bag on each signed variant. -/
theorem mergePredefined_sign :
    insertAll {} ["signed".toList]
      = Except.ok { mSigned := true, mAnyBasicTypeModifiers := true }
    ∧ insertAll {} ["unsigned".toList]
      = Except.ok { mUnsigned := true, mAnyBasicTypeModifiers := true }
    ∧ ∀ row ∈ signedVariants,
      (({ mSigned := true, mAnyBasicTypeModifiers := true } :
          FoundBasicTypeModifiers).mergePredefined row.1).map Prod.fst = Except.ok row.2.1
      ∧ (({ mUnsigned := true, mAnyBasicTypeModifiers := true } :
          FoundBasicTypeModifiers).mergePredefined row.1).map Prod.fst = Except.ok row.2.2
      ∧ ({ mSigned := true, mAnyBasicTypeModifiers := true } :
          FoundBasicTypeModifiers).mergePredefined row.2.2
        = Except.error ⟨"has invalid type modifier".toList⟩
      ∧ ({ mUnsigned := true, mAnyBasicTypeModifiers := true } :
          FoundBasicTypeModifiers).mergePredefined row.2.1
        = Except.error ⟨"has invalid type modifier".toList⟩ := by
  refine ⟨rfl, rfl, ?_⟩
  intro row hrow
  simp only [signedVariants, List.mem_cons, List.mem_singleton, List.not_mem_nil, or_false]
    at hrow
  rcases hrow with rfl | rfl | rfl | rfl | rfl | rfl | rfl | rfl | rfl <;>
    exact ⟨rfl, rfl, rfl, rfl⟩

/-- C30 on the base `long`: signed gives slong, unsigned gives ulong, signed
on ulong and unsigned on slong throw. -/
theorem mergePredefined_sign_witness :
    (({ mSigned := true, mAnyBasicTypeModifiers := true } :
        FoundBasicTypeModifiers).mergePredefined PredefinedTypedef_long).map Prod.fst
      = Except.ok PredefinedTypedef_slong
    ∧ (({ mUnsigned := true, mAnyBasicTypeModifiers := true } :
        FoundBasicTypeModifiers).mergePredefined PredefinedTypedef_long).map Prod.fst
      = Except.ok PredefinedTypedef_ulong
    ∧ ({ mSigned := true, mAnyBasicTypeModifiers := true } :
        FoundBasicTypeModifiers).mergePredefined PredefinedTypedef_ulong
      = Except.error ⟨"has invalid type modifier".toList⟩
    ∧ ({ mUnsigned := true, mAnyBasicTypeModifiers := true } :
        FoundBasicTypeModifiers).mergePredefined PredefinedTypedef_slong
      = Except.error ⟨"has invalid type modifier".toList⟩ :=
  mergePredefined_sign.2.2
    (PredefinedTypedef_long, PredefinedTypedef_slong, PredefinedTypedef_ulong) (by decide)

theorem insert_signed (m : FoundBasicTypeModifiers) :
    m.insert "signed".toList =
      if m.mUnsigned || m.mSigned || m.mFloat || m.mDouble then FoundBasicTypeModifiers.throwInvalidModifier
      else pure { m with mSigned := true, mAnyBasicTypeModifiers := true } :=
  rfl

theorem insert_unsigned (m : FoundBasicTypeModifiers) :
    m.insert "unsigned".toList =
      if m.mUnsigned || m.mSigned || m.mFloat || m.mDouble then FoundBasicTypeModifiers.throwInvalidModifier
      else pure { m with mUnsigned := true, mAnyBasicTypeModifiers := true } :=
  rfl

theorem insert_long (m : FoundBasicTypeModifiers) :
    m.insert "long".toList =
      if decide (m.mTotalLongs > 1) || m.mChar || m.mShort || m.mFloat then
        FoundBasicTypeModifiers.throwInvalidModifier
      else if decide (m.mTotalLongs > 1) && m.mDouble then
        FoundBasicTypeModifiers.throwInvalidModifier
      else pure { m with mTotalLongs := m.mTotalLongs + 1, mAnyBasicTypeModifiers := true } :=
  rfl

theorem insert_char (m : FoundBasicTypeModifiers) :
    m.insert "char".toList =
      if decide (m.mTotalLongs > 0) || m.mChar || m.mShort || m.mInt || m.mFloat || m.mDouble then
        FoundBasicTypeModifiers.throwInvalidModifier
      else pure { m with mChar := true, mAnyBasicTypeModifiers := true } :=
  rfl

theorem insert_short (m : FoundBasicTypeModifiers) :
    m.insert "short".toList =
      if decide (m.mTotalLongs > 0) || m.mChar || m.mShort || m.mFloat || m.mDouble then
        FoundBasicTypeModifiers.throwInvalidModifier
      else pure { m with mShort := true, mAnyBasicTypeModifiers := true } :=
  rfl

theorem insert_int (m : FoundBasicTypeModifiers) :
    m.insert "int".toList =
      if m.mChar || m.mInt || m.mFloat || m.mDouble then FoundBasicTypeModifiers.throwInvalidModifier
      else pure { m with mInt := true, mAnyBasicTypeModifiers := true } :=
  rfl

theorem insert_float (m : FoundBasicTypeModifiers) :
    m.insert "float".toList =
      if m.mSigned || m.mUnsigned || decide (m.mTotalLongs > 0) || m.mChar || m.mInt || m.mFloat
          || m.mDouble then FoundBasicTypeModifiers.throwInvalidModifier
      else pure { m with mFloat := true, mAnyBasicTypeModifiers := true } :=
  rfl

theorem insert_double (m : FoundBasicTypeModifiers) :
    m.insert "double".toList =
      if m.mSigned || m.mUnsigned || decide (m.mTotalLongs > 1) || m.mChar || m.mInt || m.mFloat
          || m.mDouble then FoundBasicTypeModifiers.throwInvalidModifier
      else pure { m with mDouble := true, mAnyBasicTypeModifiers := true } :=
  rfl

theorem insert_const (m : FoundBasicTypeModifiers) :
    m.insert "const".toList =
      if m.mConst then FoundBasicTypeModifiers.throwInvalidModifier
      else pure { m with mConst := true, mAnyOtherModifier := true } :=
  rfl

theorem insert_flags (m m' : FoundBasicTypeModifiers) (str : List Char)
    (h : m.insert str = Except.ok m') :
    m'.mAnyBasicTypeModifiers
      = (m.mAnyBasicTypeModifiers || decide (str ∈ basicModifierKeywords))
    ∧ m'.hasBaseModifier = (m.hasBaseModifier || decide (str ∈ baseModifierKeywords))
    ∧ m'.mAnyOtherModifier = (m.mAnyOtherModifier || decide (str = "const".toList))
    ∧ (m'.mTypeName = [] → str ∈ modifierKeywords ∨ str = []) := by
  by_cases hkw : str ∈ modifierKeywords
  · simp only [modifierKeywords, List.mem_cons, List.mem_singleton, List.not_mem_nil,
      or_false] at hkw
    rcases hkw with rfl | rfl | rfl | rfl | rfl | rfl | rfl | rfl | rfl

    · rw [insert_signed] at h
      split_ifs at h <;> cases h
      all_goals
        refine ⟨?_, ?_, ?_, ?_⟩
        · simp [basicModifierKeywords]
        · simp [FoundBasicTypeModifiers.hasBaseModifier, baseModifierKeywords]
        · simp
        · intro _; exact Or.inl (by simp [modifierKeywords])

    · rw [insert_unsigned] at h
      split_ifs at h <;> cases h
      all_goals
        refine ⟨?_, ?_, ?_, ?_⟩
        · simp [basicModifierKeywords]
        · simp [FoundBasicTypeModifiers.hasBaseModifier, baseModifierKeywords]
        · simp
        · intro _; exact Or.inl (by simp [modifierKeywords])

    · rw [insert_long] at h
      split_ifs at h <;> cases h
      all_goals
        refine ⟨?_, ?_, ?_, ?_⟩
        · simp [basicModifierKeywords]
        · simp [FoundBasicTypeModifiers.hasBaseModifier, baseModifierKeywords]
        · simp
        · intro _; exact Or.inl (by simp [modifierKeywords])

    · rw [insert_char] at h
      split_ifs at h <;> cases h
      all_goals
        refine ⟨?_, ?_, ?_, ?_⟩
        · simp [basicModifierKeywords]
        · simp [FoundBasicTypeModifiers.hasBaseModifier, baseModifierKeywords]
        · simp
        · intro _; exact Or.inl (by simp [modifierKeywords])

    · rw [insert_short] at h
      split_ifs at h <;> cases h
      all_goals
        refine ⟨?_, ?_, ?_, ?_⟩
        · simp [basicModifierKeywords]
        · simp [FoundBasicTypeModifiers.hasBaseModifier, baseModifierKeywords]
        · simp
        · intro _; exact Or.inl (by simp [modifierKeywords])

    · rw [insert_int] at h
      split_ifs at h <;> cases h
      all_goals
        refine ⟨?_, ?_, ?_, ?_⟩
        · simp [basicModifierKeywords]
        · simp [FoundBasicTypeModifiers.hasBaseModifier, baseModifierKeywords]
        · simp
        · intro _; exact Or.inl (by simp [modifierKeywords])

    · rw [insert_float] at h
      split_ifs at h <;> cases h
      all_goals
        refine ⟨?_, ?_, ?_, ?_⟩
        · simp [basicModifierKeywords]
        · simp [FoundBasicTypeModifiers.hasBaseModifier, baseModifierKeywords]
        · simp
        · intro _; exact Or.inl (by simp [modifierKeywords])

    · rw [insert_double] at h
      split_ifs at h <;> cases h
      all_goals
        refine ⟨?_, ?_, ?_, ?_⟩
        · simp [basicModifierKeywords]
        · simp [FoundBasicTypeModifiers.hasBaseModifier, baseModifierKeywords]
        · simp
        · intro _; exact Or.inl (by simp [modifierKeywords])

    · rw [insert_const] at h
      split_ifs at h <;> cases h
      all_goals
        refine ⟨?_, ?_, ?_, ?_⟩
        · simp [basicModifierKeywords]
        · simp [FoundBasicTypeModifiers.hasBaseModifier, baseModifierKeywords]
        · simp
        · intro _; exact Or.inl (by simp [modifierKeywords])

  · rw [insert_typename m str hkw] at h
    have h1 : decide (str ∈ basicModifierKeywords) = false := by
      rw [decide_eq_false_iff_not]
      intro hmem
      apply hkw
      simp only [basicModifierKeywords, modifierKeywords, List.mem_cons, List.mem_singleton,
        List.not_mem_nil, or_false] at hmem ⊢
      tauto
    have h2 : decide (str ∈ baseModifierKeywords) = false := by
      rw [decide_eq_false_iff_not]
      intro hmem
      apply hkw
      simp only [baseModifierKeywords, modifierKeywords, List.mem_cons, List.mem_singleton,
        List.not_mem_nil, or_false] at hmem ⊢
      tauto
    have h3 : decide (str = "const".toList) = false := by
      rw [decide_eq_false_iff_not]
      intro hmem
      apply hkw
      simp [modifierKeywords, hmem]
    split_ifs at h <;> cases h
    refine ⟨?_, ?_, ?_, ?_⟩
    · simp [h1]
    · simp [FoundBasicTypeModifiers.hasBaseModifier, h2]
    · rw [h3]; simp
    · intro hn
      simp only [List.append_eq_nil] at hn
      exact Or.inr hn.2

theorem insertAll_flags (strs : List (List Char)) :
    ∀ (m0 m : FoundBasicTypeModifiers), insertAll m0 strs = Except.ok m →
      m.mAnyBasicTypeModifiers
        = (m0.mAnyBasicTypeModifiers || strs.any fun str => decide (str ∈ basicModifierKeywords))
      ∧ m.hasBaseModifier
        = (m0.hasBaseModifier || strs.any fun str => decide (str ∈ baseModifierKeywords))
      ∧ m.mAnyOtherModifier
        = (m0.mAnyOtherModifier || strs.any fun str => decide (str = "const".toList)) := by
  induction strs with
  | nil => intro m0 m h; cases h; simp
  | cons x xs ih =>
    intro m0 m h
    simp only [insertAll] at h
    cases hx : m0.insert x with
    | error e => rw [hx] at h; cases h
    | ok m1 =>
      rw [hx] at h
      obtain ⟨a1, a2, a3, -⟩ := insert_flags m0 m1 x hx
      obtain ⟨b1, b2, b3⟩ := ih m1 m h
      simp only [List.any_cons, b1, b2, b3, a1, a2, a3, Bool.or_assoc, and_self]

theorem getBasicType_hasBaseModifier (m : FoundBasicTypeModifiers) :
    (m.hasBaseModifier = true → ∃ t, m.getBasicType = Except.ok t)
    ∧ (m.hasBaseModifier = false →
        m.getBasicType = Except.error ⟨"is not a basic type".toList⟩) := by
  obtain ⟨anyBasic, anyOther, sgn, unsgn, chr, shrt, int, longs, flt, dbl, cnst, lastT, lastS,
    name⟩ := m
  unfold FoundBasicTypeModifiers.getBasicType FoundBasicTypeModifiers.hasBaseModifier
  rcases Nat.eq_zero_or_pos longs with h0 | h1
  · subst h0
    cases chr <;> cases shrt <;> cases flt <;> cases dbl <;> cases int <;> cases sgn <;>
      cases unsgn <;> simp <;> exact ⟨_, rfl⟩
  · have hd : decide (longs > 0) = true := by simpa using h1
    have hp : (longs > 0) = True := eq_true h1
    constructor
    · intro _
      simp only [hp, if_true]
      split_ifs <;> exact ⟨_, rfl⟩
    · intro h
      simp only [hd, Bool.or_true, Bool.true_or] at h
      cases chr <;> cases shrt <;> cases flt <;> cases dbl <;> cases int <;> simp at h

theorem getBasicType_strip (m : FoundBasicTypeModifiers) :
    (if m.mShort && m.mInt then { m with mInt := false } else m).getBasicType
      = m.getBasicType := by
  obtain ⟨anyBasic, anyOther, sgn, unsgn, chr, shrt, int, longs, flt, dbl, cnst, lastT, lastS,
    name⟩ := m
  cases shrt <;> cases int <;> cases chr <;> rfl

/-- The method `processType` on a bag with an empty type name. -/
theorem processType_empty {G Node : Type} (tm : TypeModel G Node) (fuel : Nat)
    (m : FoundBasicTypeModifiers) (context : Node) (out : Option Node)
    (s : IDLCompilerState G) (hname : m.mTypeName = []) :
    processType tm fuel m context out s =
      if m.mAnyBasicTypeModifiers = false then
        Result.error (Failure.InvalidContent "has invalid type modifier".toList) s
      else
        match m.getBasicType with
        | Except.error e => Result.error (Failure.InvalidContent e.message) s
        | Except.ok t =>
          match tm.findType s.mProject context (tm.toString t) with
          | none => Result.error (Failure.InvalidContent "did not find basic type".toList) s
          | some existingBasicType =>
            if m.mAnyOtherModifier = true then
              Result.ok ((tm.createTypedef s.mProject context).2,
                  some (tm.createTypedef s.mProject context).2)
                { s with
                  mProject :=
                    (tm.setOriginalType (tm.createTypedef s.mProject context).1
                      (tm.createTypedef s.mProject context).2 existingBasicType) }
            else Result.ok (existingBasicType, out) s := by
  have hstrip := getBasicType_strip m
  have hname' : (if m.mShort && m.mInt then { m with mInt := false } else m).mTypeName = [] := by
    split_ifs <;> exact hname
  have hany : (if m.mShort && m.mInt then { m with mInt := false } else m).mAnyBasicTypeModifiers
      = m.mAnyBasicTypeModifiers := by split_ifs <;> rfl
  have hother : (if m.mShort && m.mInt then { m with mInt := false } else m).mAnyOtherModifier
      = m.mAnyOtherModifier := by split_ifs <;> rfl
  unfold processType
  simp only [hname', hany, hother, hstrip, ne_eq, not_true_eq_false, if_false]
  cases hb : m.mAnyBasicTypeModifiers with
  | false => rfl
  | true =>
    simp only [Bool.not_true, Bool.false_eq_true, if_false, M.bind_apply, M.pure_apply]
    cases hg : m.getBasicType with
    | error e => rfl
    | ok t =>
      simp only [M.bind_apply, getState]
      cases hf : tm.findType s.mProject context (tm.toString t) with
      | none => rfl
      | some existingBasicType =>
        cases ho : m.mAnyOtherModifier <;> rfl

/-- C29: for a sequence of modifiers that `insert` accepts and that leaves the
type name empty, `processType` throws the invalid-modifier error exactly when
the sequence holds no basic modifier; `getBasicType` returns a predefined
typedef exactly when the sequence holds one of char, short, int, long, float,
double, and `processType` then returns once `findType` finds that typedef; a
sequence whose only basic modifiers are `signed` and `unsigned` makes
`processType` throw `is not a basic type`. -/
theorem processType_basicModifiers {G Node : Type} (tm : TypeModel G Node) (fuel : Nat)
    (context : Node) (out : Option Node) (s : IDLCompilerState G)
    (strs : List (List Char)) (m : FoundBasicTypeModifiers)
    (hfold : insertAll {} strs = Except.ok m) (hname : m.mTypeName = []) :
    ((∀ str ∈ strs, str ∉ basicModifierKeywords) ↔
      processType tm fuel m context out s
        = Result.error (Failure.InvalidContent "has invalid type modifier".toList) s)
    ∧ ((∃ str ∈ strs, str ∈ baseModifierKeywords) ↔ ∃ t, m.getBasicType = Except.ok t)
    ∧ (∀ t found, m.getBasicType = Except.ok t →
        tm.findType s.mProject context (tm.toString t) = some found →
        ∃ r s', processType tm fuel m context out s = Result.ok r s')
    ∧ ((∃ str ∈ strs, str ∈ basicModifierKeywords) →
        (∀ str ∈ strs, str ∉ baseModifierKeywords) →
        processType tm fuel m context out s
          = Result.error (Failure.InvalidContent "is not a basic type".toList) s) := by
  obtain ⟨h1, h2, -⟩ := insertAll_flags strs {} m hfold
  have hb0 : ({} : FoundBasicTypeModifiers).mAnyBasicTypeModifiers = false := rfl
  have hh0 : ({} : FoundBasicTypeModifiers).hasBaseModifier = false := rfl
  rw [hb0, Bool.false_or] at h1
  rw [hh0, Bool.false_or] at h2
  have hbasic : m.mAnyBasicTypeModifiers = true ↔ ∃ str ∈ strs, str ∈ basicModifierKeywords := by
    rw [h1, List.any_eq_true]
    simp only [decide_eq_true_eq]
  have hbase : m.hasBaseModifier = true ↔ ∃ str ∈ strs, str ∈ baseModifierKeywords := by
    rw [h2, List.any_eq_true]
    simp only [decide_eq_true_eq]
  have hget := getBasicType_hasBaseModifier m
  rw [processType_empty tm fuel m context out s hname]
  refine ⟨⟨?_, ?_⟩, ⟨?_, ?_⟩, ?_, ?_⟩
  · intro hno
    have : m.mAnyBasicTypeModifiers = false := by
      cases hm : m.mAnyBasicTypeModifiers with
      | false => rfl
      | true =>
        obtain ⟨str, hs1, hs2⟩ := hbasic.mp hm
        exact absurd hs2 (hno str hs1)
    rw [if_pos this]
  · intro hres str hstr hmem
    have hm : m.mAnyBasicTypeModifiers = true := hbasic.mpr ⟨str, hstr, hmem⟩
    have hm' : ¬ m.mAnyBasicTypeModifiers = false := by rw [hm]; simp
    rw [if_neg hm'] at hres
    cases hg : m.getBasicType with
    | error e =>
      have hb : m.hasBaseModifier = false := by
        cases hb : m.hasBaseModifier with
        | false => rfl
        | true =>
          obtain ⟨t, ht⟩ := hget.1 hb
          rw [ht] at hg
          cases hg
      rw [hget.2 hb] at hres
      simp only [Result.error.injEq, Failure.InvalidContent.injEq, and_true] at hres
      exact absurd hres (by decide)
    | ok t =>
      rw [hg] at hres
      simp only at hres
      cases hf : tm.findType s.mProject context (tm.toString t) with
      | none =>
        rw [hf] at hres
        simp only [Result.error.injEq, Failure.InvalidContent.injEq, and_true] at hres
        exact absurd hres (by decide)
      | some found =>
        rw [hf] at hres
        simp only at hres
        split_ifs at hres
  · intro hex
    exact hget.1 (hbase.mpr hex)
  · rintro ⟨t, ht⟩
    apply hbase.mp
    cases hb : m.hasBaseModifier with
    | true => rfl
    | false =>
      rw [hget.2 hb] at ht
      cases ht
  · intro t found ht hf
    have hb : m.hasBaseModifier = true := by
      cases hb : m.hasBaseModifier with
      | true => rfl
      | false =>
        rw [hget.2 hb] at ht
        cases ht
    have hm : m.mAnyBasicTypeModifiers = true := by
      obtain ⟨str, hs1, hs2⟩ := hbase.mp hb
      refine hbasic.mpr ⟨str, hs1, ?_⟩
      simp only [baseModifierKeywords, basicModifierKeywords, List.mem_cons, List.mem_singleton,
        List.not_mem_nil, or_false] at hs2 ⊢
      tauto
    have hm' : ¬ m.mAnyBasicTypeModifiers = false := by rw [hm]; simp
    rw [if_neg hm', ht]
    simp only [hf]
    split_ifs
    · exact ⟨_, _, rfl⟩
    · exact ⟨_, _, rfl⟩
  · intro hex hno
    have hm : m.mAnyBasicTypeModifiers = true := hbasic.mpr hex
    have hm' : ¬ m.mAnyBasicTypeModifiers = false := by rw [hm]; simp
    have hb : m.hasBaseModifier = false := by
      cases hb : m.hasBaseModifier with
      | false => rfl
      | true =>
        obtain ⟨str, hs1, hs2⟩ := hbase.mp hb
        exact absurd hs2 (hno str hs1)
    rw [if_neg hm', hget.2 hb]

/-- C29 on the sequence `unsigned int`, in a graph of one node where every
name is found. -/
theorem processType_basicModifiers_witness :
    ((∀ str ∈ ["unsigned".toList, "int".toList], str ∉ basicModifierKeywords) ↔
      processType
          (⟨fun _ _ _ => some (), fun _ _ => none, fun _ _ => none, fun _ _ => none,
            fun _ _ => PredefinedTypedef_void, fun g _ => g, fun g n => (g, n),
            fun g _ _ => g, fun g _ _ => g, fun _ => []⟩ : TypeModel Unit Unit)
          1 { mUnsigned := true, mInt := true, mAnyBasicTypeModifiers := true } () none
          ⟨[], [], none, [], [], ()⟩
        = Result.error (Failure.InvalidContent "has invalid type modifier".toList)
            ⟨[], [], none, [], [], ()⟩)
    ∧ ((∃ str ∈ ["unsigned".toList, "int".toList], str ∈ baseModifierKeywords) ↔
        ∃ t, ({ mUnsigned := true, mInt := true, mAnyBasicTypeModifiers := true } :
          FoundBasicTypeModifiers).getBasicType = Except.ok t) :=
  ⟨(processType_basicModifiers
      (⟨fun _ _ _ => some (), fun _ _ => none, fun _ _ => none, fun _ _ => none,
            fun _ _ => PredefinedTypedef_void, fun g _ => g, fun g n => (g, n),
            fun g _ _ => g, fun g _ _ => g, fun _ => []⟩ : TypeModel Unit Unit)
      1 () none ⟨[], [], none, [], [], ()⟩ ["unsigned".toList, "int".toList]
      { mUnsigned := true, mInt := true, mAnyBasicTypeModifiers := true } rfl rfl).1,
   (processType_basicModifiers
      (⟨fun _ _ _ => some (), fun _ _ => none, fun _ _ => none, fun _ _ => none,
            fun _ _ => PredefinedTypedef_void, fun g _ => g, fun g n => (g, n),
            fun g _ _ => g, fun g _ _ => g, fun _ => []⟩ : TypeModel Unit Unit)
      1 () none ⟨[], [], none, [], [], ()⟩ ["unsigned".toList, "int".toList]
      { mUnsigned := true, mInt := true, mAnyBasicTypeModifiers := true } rfl rfl).2.1⟩

/-- The counterexample of C29: `unsigned` alone is accepted by `insert`, holds
a basic modifier and leaves the type name empty, yet `getBasicType` throws and
so does `processType`, also in a graph where every name is found. -/
theorem processType_basicModifiers_counterexample :
    insertAll {} ["unsigned".toList]
      = Except.ok { mUnsigned := true, mAnyBasicTypeModifiers := true }
    ∧ "unsigned".toList ∈ basicModifierKeywords
    ∧ ({ mUnsigned := true, mAnyBasicTypeModifiers := true } :
        FoundBasicTypeModifiers).getBasicType
      = Except.error ⟨"is not a basic type".toList⟩
    ∧ processType
        (⟨fun _ _ _ => some (), fun _ _ => none, fun _ _ => none, fun _ _ => none,
            fun _ _ => PredefinedTypedef_void, fun g _ => g, fun g n => (g, n),
            fun g _ _ => g, fun g _ _ => g, fun _ => []⟩ : TypeModel Unit Unit)
        1 { mUnsigned := true, mAnyBasicTypeModifiers := true } () none
        ⟨[], [], none, [], [], ()⟩
      = Result.error (Failure.InvalidContent "is not a basic type".toList)
          ⟨[], [], none, [], [], ()⟩ :=
  ⟨rfl, by decide, rfl, rfl⟩

/-! ## Directives -/

theorem toLower_eq_x (c : Char) : c.toLower = 'x' ↔ c = 'x' ∨ c = 'X' := by
  constructor
  · intro h
    simp only [Char.toLower] at h
    by_cases hc : c.toNat ≥ 65 ∧ c.toNat ≤ 90
    · rw [if_pos hc] at h
      right
      obtain ⟨h1, h2⟩ := hc
      have hc' : Char.ofNat c.toNat = c := Char.ofNat_toNat c
      generalize c.toNat = n at h h1 h2 hc'
      subst hc'
      interval_cases n <;> first | rfl | exact absurd h (by decide)
    · rw [if_neg hc] at h
      exact Or.inl h
  · rintro (rfl | rfl) <;> rfl

theorem toLower_x (str : List Char) : toLower str = ['x'] ↔ str = ['x'] ∨ str = ['X'] := by
  unfold toLower
  constructor
  · intro h
    cases str with
    | nil => simp at h
    | cons c cs =>
      cases cs with
      | nil =>
        simp only [List.map_cons, List.map_nil, List.cons.injEq, and_true] at h
        rcases (toLower_eq_x c).mp h with rfl | rfl
        · exact Or.inl rfl
        · exact Or.inr rfl
      | cons d ds => simp at h
  · rintro (rfl | rfl) <;> rfl

/-- What `parseDirectiveExclusive` does on a stream, by its front token. -/
theorem parseDirectiveExclusive_front {G Node Modifier : Type}
    (om : ObjectModel G Node Modifier) (s : IDLCompilerState G) (outIgnoreMode : Bool)
    (front : Token) (rest : List Token) (lower : List (List Token))
    (hs : s.mTokenListStack = (front :: rest) :: lower) :
    (∀ (id : List Char) (line : Nat) (rest' : List Token),
      front.mTokenType = TokenType_Identifier → front.mToken = "EXCLUSIVE".toList →
      rest = ⟨TokenType_Identifier, id, line⟩ :: rest' →
      parseDirectiveExclusive om outIgnoreMode s
        = Result.ok
            (true, !decide (id = ['x'] ∨ id = ['X'] ∨ id ∈ om.definedExclusives s.mProject))
            (consumed s ⟨TokenType_Identifier, id, line⟩ rest'))
    ∧ (¬ (front.mTokenType = TokenType_Identifier ∧ front.mToken = "EXCLUSIVE".toList) →
      parseDirectiveExclusive om outIgnoreMode s = Result.ok (false, outIgnoreMode) s) := by
  obtain ⟨stack, lastStack, last, docs, mods, g⟩ := s
  simp only at hs
  subst hs
  obtain ⟨kind, lexeme, frontLine⟩ := front
  constructor
  · intro id line rest' hk hl hrest
    simp only at hk hl
    subst hk hl hrest
    by_cases hx : toLower id = ['x'] ∨ id ∈ om.definedExclusives g
    · have hx' : id = ['x'] ∨ id = ['X'] ∨ id ∈ om.definedExclusives g := by
        rcases hx with hx | hx
        · rcases (toLower_x id).mp hx with h | h
          · exact Or.inl h
          · exact Or.inr (Or.inl h)
        · exact Or.inr (Or.inr hx)
      simp only [parseDirectiveExclusive, ZS_WRAPPER_COMPILER_DIRECTIVE_EXCLUSIZE, M.bind_apply,
        M.pure_apply, peekNextToken, extractNextToken, getState, ne_eq, not_true_eq_false,
        if_false, hx, hx', if_true, decide_True, Bool.not_true, consumed, List.drop_succ_cons,
        List.drop_zero]
    · have hx' : ¬ (id = ['x'] ∨ id = ['X'] ∨ id ∈ om.definedExclusives g) := by
        intro h
        apply hx
        rcases h with h | h | h
        · exact Or.inl ((toLower_x id).mpr (Or.inl h))
        · exact Or.inl ((toLower_x id).mpr (Or.inr h))
        · exact Or.inr h
      simp only [parseDirectiveExclusive, ZS_WRAPPER_COMPILER_DIRECTIVE_EXCLUSIZE, M.bind_apply,
        M.pure_apply, peekNextToken, extractNextToken, getState, ne_eq, not_true_eq_false,
        if_false, hx, hx', decide_False, Bool.not_false, consumed, List.drop_succ_cons,
        List.drop_zero]
  · intro hno
    simp only at hno
    by_cases hk : TokenType_Identifier ≠ kind
    · simp only [parseDirectiveExclusive, M.bind_apply, M.pure_apply, peekNextToken]
      rw [if_pos hk]
      rfl
    · have hk' : kind = TokenType_Identifier := by
        simp only [ne_eq, not_not] at hk
        exact hk.symm
      have hl : ZS_WRAPPER_COMPILER_DIRECTIVE_EXCLUSIZE ≠ lexeme := by
        intro h
        exact hno ⟨hk', h.symm⟩
      simp only [parseDirectiveExclusive, M.bind_apply, M.pure_apply, peekNextToken]
      rw [if_neg hk]
      simp only [M.bind_apply, M.pure_apply]
      rw [if_pos hl]
      rfl

/-- C25: on a stream that starts with the identifier `EXCLUSIVE` and an
identifier `id`, `parseDirectiveExclusive` returns true, takes the two tokens
off the stream, and leaves ignore mode false when `id` is `x` or `X` or a
member of the defined exclusives of the project, and true otherwise. On a
stream whose front token is not the identifier `EXCLUSIVE` it returns false
and leaves the state and ignore mode as they were. -/
theorem parseDirectiveExclusive_id {G Node Modifier : Type}
    (om : ObjectModel G Node Modifier) (s : IDLCompilerState G) (outIgnoreMode : Bool)
    (front : Token) (rest : List Token) (lower : List (List Token))
    (hs : s.mTokenListStack = (front :: rest) :: lower) :
    (∀ (id : List Char) (line : Nat) (rest' : List Token),
      front.mTokenType = TokenType_Identifier → front.mToken = "EXCLUSIVE".toList →
      rest = ⟨TokenType_Identifier, id, line⟩ :: rest' →
      parseDirectiveExclusive om outIgnoreMode s
        = Result.ok
            (true, !decide (id = ['x'] ∨ id = ['X'] ∨ id ∈ om.definedExclusives s.mProject))
            (consumed s ⟨TokenType_Identifier, id, line⟩ rest')
      ∧ (consumed s ⟨TokenType_Identifier, id, line⟩ rest').mTokenListStack = rest' :: lower)
    ∧ (¬ (front.mTokenType = TokenType_Identifier ∧ front.mToken = "EXCLUSIVE".toList) →
      parseDirectiveExclusive om outIgnoreMode s = Result.ok (false, outIgnoreMode) s) := by
  obtain ⟨h1, h2⟩ := parseDirectiveExclusive_front om s outIgnoreMode front rest lower hs
  refine ⟨fun id line rest' hk hl hrest => ⟨h1 id line rest' hk hl hrest, ?_⟩, h2⟩
  simp only [consumed, hs, List.drop_succ_cons, List.drop_zero]

/-- C25 on the streams `EXCLUSIVE foo z`, with `foo` not defined, and `foo z`,
above a lower frame. -/
theorem parseDirectiveExclusive_id_witness :
    (parseDirectiveExclusive
        (graphObjectModel
          (⟨fun _ _ _ => none, fun g n _ => (g, n), fun _ _ _ => none, fun _ _ _ => none,
            fun _ => [], fun _ => none, fun _ => none, fun g _ _ _ => g, fun _ => pure (),
            fun _ _ => pure (), fun _ _ => pure (), fun _ _ _ => pure (),
            fun n _ => pure (n, true), fun _ _ => pure (), fun _ _ => pure none⟩ :
            ObjectModel (Project Unit) Nat Unit))
        false
        ⟨[[⟨TokenType_Identifier, "EXCLUSIVE".toList, 1⟩, ⟨TokenType_Identifier, "foo".toList, 1⟩,
            ⟨TokenType_Identifier, ['z'], 2⟩], []],
          [none, none], none, [], [], ⟨[], [['b', 'a', 'r']]⟩⟩
      = Result.ok (true, true)
          (consumed
            ⟨[[⟨TokenType_Identifier, "EXCLUSIVE".toList, 1⟩,
                ⟨TokenType_Identifier, "foo".toList, 1⟩, ⟨TokenType_Identifier, ['z'], 2⟩], []],
              [none, none], none, [], [], ⟨[], [['b', 'a', 'r']]⟩⟩
            ⟨TokenType_Identifier, "foo".toList, 1⟩ [⟨TokenType_Identifier, ['z'], 2⟩]))
    ∧ parseDirectiveExclusive
        (graphObjectModel
          (⟨fun _ _ _ => none, fun g n _ => (g, n), fun _ _ _ => none, fun _ _ _ => none,
            fun _ => [], fun _ => none, fun _ => none, fun g _ _ _ => g, fun _ => pure (),
            fun _ _ => pure (), fun _ _ => pure (), fun _ _ _ => pure (),
            fun n _ => pure (n, true), fun _ _ => pure (), fun _ _ => pure none⟩ :
            ObjectModel (Project Unit) Nat Unit))
        true
        ⟨[[⟨TokenType_Identifier, "foo".toList, 1⟩, ⟨TokenType_Identifier, ['z'], 2⟩], []],
          [none, none], none, [], [], ⟨[], [['b', 'a', 'r']]⟩⟩
      = Result.ok (false, true)
          ⟨[[⟨TokenType_Identifier, "foo".toList, 1⟩, ⟨TokenType_Identifier, ['z'], 2⟩], []],
            [none, none], none, [], [], ⟨[], [['b', 'a', 'r']]⟩⟩ :=
  ⟨((parseDirectiveExclusive_id _ _ false ⟨TokenType_Identifier, "EXCLUSIVE".toList, 1⟩
      [⟨TokenType_Identifier, "foo".toList, 1⟩, ⟨TokenType_Identifier, ['z'], 2⟩] [[]] rfl).1
      "foo".toList 1 [⟨TokenType_Identifier, ['z'], 2⟩] rfl rfl rfl).1,
   (parseDirectiveExclusive_id _ _ true ⟨TokenType_Identifier, "foo".toList, 1⟩
      [⟨TokenType_Identifier, ['z'], 2⟩] [[]] rfl).2 (by decide)⟩

/-! ## Modifiers -/

theorem parseModifiers_deprecated_aux {G Node Modifier : Type}
    (om : ObjectModel G Node Modifier) (g : G) (docs : List Token) (last : Option Token)
    (fuel : Nat) :
    parseModifiers om (fuel + 5)
        ⟨[[⟨TokenType_SquareBrace, ['['], 2⟩,
            ⟨TokenType_Identifier, "deprecated".toList, 2⟩, ⟨TokenType_SquareBrace, [']'], 2⟩,
            ⟨TokenType_Identifier, "struct".toList, 3⟩, ⟨TokenType_Identifier, ['S'], 3⟩,
            ⟨TokenType_SemiColon, [';'], 3⟩]],
          [last], last, docs, [], g⟩
      = Result.error
          (Failure.FailureWithLine ZS_EVENTING_TOOL_UNEXPECTED_EOF 0
            ", unexpectedly reached EOF".toList)
          ⟨[[], [⟨TokenType_Identifier, "struct".toList, 3⟩, ⟨TokenType_Identifier, ['S'], 3⟩,
              ⟨TokenType_SemiColon, [';'], 3⟩]],
            [some ⟨TokenType_SquareBrace, [']'], 2⟩, some ⟨TokenType_SquareBrace, [']'], 2⟩],
            some ⟨TokenType_SquareBrace, [']'], 2⟩, docs, [], g⟩ := by
  have h1 : extractToClosingBraceToken (G := G) "modifiers".toList [] includeOuterBraceDefault
      (fuel + 5)
        ⟨[[⟨TokenType_SquareBrace, ['['], 2⟩,
            ⟨TokenType_Identifier, "deprecated".toList, 2⟩, ⟨TokenType_SquareBrace, [']'], 2⟩,
            ⟨TokenType_Identifier, "struct".toList, 3⟩, ⟨TokenType_Identifier, ['S'], 3⟩,
            ⟨TokenType_SemiColon, [';'], 3⟩]],
          [last], last, docs, [], g⟩
      = Result.ok (true, [⟨TokenType_SquareBrace, ['['], 2⟩,
            ⟨TokenType_Identifier, "deprecated".toList, 2⟩, ⟨TokenType_SquareBrace, [']'], 2⟩])
        ⟨[[⟨TokenType_Identifier, "struct".toList, 3⟩, ⟨TokenType_Identifier, ['S'], 3⟩,
            ⟨TokenType_SemiColon, [';'], 3⟩]],
          [some ⟨TokenType_SquareBrace, [']'], 2⟩], some ⟨TokenType_SquareBrace, [']'], 2⟩,
          docs, [], g⟩ := rfl
  have h2 : extractToComma (G := G) "modifiers".toList [] (fuel + 4)
        ⟨[[⟨TokenType_SquareBrace, ['['], 2⟩,
            ⟨TokenType_Identifier, "deprecated".toList, 2⟩, ⟨TokenType_SquareBrace, [']'], 2⟩],
           [⟨TokenType_Identifier, "struct".toList, 3⟩, ⟨TokenType_Identifier, ['S'], 3⟩,
            ⟨TokenType_SemiColon, [';'], 3⟩]],
          [some ⟨TokenType_SquareBrace, ['['], 2⟩, some ⟨TokenType_SquareBrace, [']'], 2⟩],
          some ⟨TokenType_SquareBrace, [']'], 2⟩, docs, [], g⟩
      = Result.ok (true, [⟨TokenType_SquareBrace, ['['], 2⟩,
            ⟨TokenType_Identifier, "deprecated".toList, 2⟩, ⟨TokenType_SquareBrace, [']'], 2⟩])
        ⟨[[], [⟨TokenType_Identifier, "struct".toList, 3⟩, ⟨TokenType_Identifier, ['S'], 3⟩,
            ⟨TokenType_SemiColon, [';'], 3⟩]],
          [some ⟨TokenType_SquareBrace, [']'], 2⟩, some ⟨TokenType_SquareBrace, [']'], 2⟩],
          some ⟨TokenType_SquareBrace, [']'], 2⟩, docs, [], g⟩ := rfl
  unfold parseModifiers
  simp only [M.bind_apply, M.pure_apply, peekNextToken, ne_eq, not_true_eq_false, if_false, h1,
    pushTokens, List.head?_cons]
  unfold parseModifiersLoop
  simp only [M.bind_apply, M.pure_apply, getState, hasMoreTokens, getTokens, h2]
  rfl

/-- C21: on the stream of a documentation token, `[`, `deprecated`, `]`,
`struct`, `S`, `;` the loop of `parseNamespaceContents` takes the
documentation token and then throws inside `parseModifiers`: once the last
modifier has been taken off the stream of the bracket, the call of
`parseComma` that follows `extractToComma` peeks at the empty stream and
raises the end-of-input error. No modifier becomes pending, the modifier
table is not asked, and `struct S ;` is not reached. -/
theorem parseModifiers_deprecated {G Node Modifier : Type}
    (om : ObjectModel G Node Modifier) (h : Helper) (namespaceObj : Node) (g : G)
    (fuel : Nat) :
    parseNamespaceContents om h (fuel + 7) namespaceObj
        ⟨[[⟨TokenType_Documentation, "doc".toList, 1⟩, ⟨TokenType_SquareBrace, ['['], 2⟩,
            ⟨TokenType_Identifier, "deprecated".toList, 2⟩, ⟨TokenType_SquareBrace, [']'], 2⟩,
            ⟨TokenType_Identifier, "struct".toList, 3⟩, ⟨TokenType_Identifier, ['S'], 3⟩,
            ⟨TokenType_SemiColon, [';'], 3⟩]],
          [none], none, [], [], g⟩
      = Result.error
          (Failure.FailureWithLine ZS_EVENTING_TOOL_UNEXPECTED_EOF 0
            ", unexpectedly reached EOF".toList)
          ⟨[[], [⟨TokenType_Identifier, "struct".toList, 3⟩, ⟨TokenType_Identifier, ['S'], 3⟩,
              ⟨TokenType_SemiColon, [';'], 3⟩]],
            [some ⟨TokenType_SquareBrace, [']'], 2⟩, some ⟨TokenType_SquareBrace, [']'], 2⟩],
            some ⟨TokenType_SquareBrace, [']'], 2⟩,
            [⟨TokenType_Documentation, "doc".toList, 1⟩], [], g⟩
    ∧ parseModifiers om (fuel + 5)
        ⟨[[⟨TokenType_SquareBrace, ['['], 2⟩,
            ⟨TokenType_Identifier, "deprecated".toList, 2⟩, ⟨TokenType_SquareBrace, [']'], 2⟩,
            ⟨TokenType_Identifier, "struct".toList, 3⟩, ⟨TokenType_Identifier, ['S'], 3⟩,
            ⟨TokenType_SemiColon, [';'], 3⟩]],
          [none], none, [], [], g⟩
      = Result.error
          (Failure.FailureWithLine ZS_EVENTING_TOOL_UNEXPECTED_EOF 0
            ", unexpectedly reached EOF".toList)
          ⟨[[], [⟨TokenType_Identifier, "struct".toList, 3⟩, ⟨TokenType_Identifier, ['S'], 3⟩,
              ⟨TokenType_SemiColon, [';'], 3⟩]],
            [some ⟨TokenType_SquareBrace, [']'], 2⟩, some ⟨TokenType_SquareBrace, [']'], 2⟩],
            some ⟨TokenType_SquareBrace, [']'], 2⟩, [], [], g⟩ := by
  refine ⟨?_, parseModifiers_deprecated_aux om g [] none fuel⟩
  have hdoc : parseDocumentation (G := G) (fuel + 6)
        ⟨[[⟨TokenType_Documentation, "doc".toList, 1⟩, ⟨TokenType_SquareBrace, ['['], 2⟩,
            ⟨TokenType_Identifier, "deprecated".toList, 2⟩, ⟨TokenType_SquareBrace, [']'], 2⟩,
            ⟨TokenType_Identifier, "struct".toList, 3⟩, ⟨TokenType_Identifier, ['S'], 3⟩,
            ⟨TokenType_SemiColon, [';'], 3⟩]],
          [none], none, [], [], g⟩
      = Result.ok true
        ⟨[[⟨TokenType_SquareBrace, ['['], 2⟩,
            ⟨TokenType_Identifier, "deprecated".toList, 2⟩, ⟨TokenType_SquareBrace, [']'], 2⟩,
            ⟨TokenType_Identifier, "struct".toList, 3⟩, ⟨TokenType_Identifier, ['S'], 3⟩,
            ⟨TokenType_SemiColon, [';'], 3⟩]],
          [some ⟨TokenType_Documentation, "doc".toList, 1⟩],
          some ⟨TokenType_Documentation, "doc".toList, 1⟩,
          [⟨TokenType_Documentation, "doc".toList, 1⟩], [], g⟩ := rfl
  have hturn1 : parseNamespaceContentsTurn om h (fuel + 6)
        (parseNamespaceContents om h (fuel + 6)) namespaceObj
        ⟨[[⟨TokenType_Documentation, "doc".toList, 1⟩, ⟨TokenType_SquareBrace, ['['], 2⟩,
            ⟨TokenType_Identifier, "deprecated".toList, 2⟩, ⟨TokenType_SquareBrace, [']'], 2⟩,
            ⟨TokenType_Identifier, "struct".toList, 3⟩, ⟨TokenType_Identifier, ['S'], 3⟩,
            ⟨TokenType_SemiColon, [';'], 3⟩]],
          [none], none, [], [], g⟩
      = Result.ok ()
        ⟨[[⟨TokenType_SquareBrace, ['['], 2⟩,
            ⟨TokenType_Identifier, "deprecated".toList, 2⟩, ⟨TokenType_SquareBrace, [']'], 2⟩,
            ⟨TokenType_Identifier, "struct".toList, 3⟩, ⟨TokenType_Identifier, ['S'], 3⟩,
            ⟨TokenType_SemiColon, [';'], 3⟩]],
          [some ⟨TokenType_Documentation, "doc".toList, 1⟩],
          some ⟨TokenType_Documentation, "doc".toList, 1⟩,
          [⟨TokenType_Documentation, "doc".toList, 1⟩], [], g⟩ := by
    unfold parseNamespaceContentsTurn
    simp only [M.bind_apply, M.pure_apply, hdoc, if_true]
  have hturn2 : parseNamespaceContentsTurn om h (fuel + 5)
        (parseNamespaceContents om h (fuel + 5)) namespaceObj
        ⟨[[⟨TokenType_SquareBrace, ['['], 2⟩,
            ⟨TokenType_Identifier, "deprecated".toList, 2⟩, ⟨TokenType_SquareBrace, [']'], 2⟩,
            ⟨TokenType_Identifier, "struct".toList, 3⟩, ⟨TokenType_Identifier, ['S'], 3⟩,
            ⟨TokenType_SemiColon, [';'], 3⟩]],
          [some ⟨TokenType_Documentation, "doc".toList, 1⟩],
          some ⟨TokenType_Documentation, "doc".toList, 1⟩,
          [⟨TokenType_Documentation, "doc".toList, 1⟩], [], g⟩
      = Result.error
          (Failure.FailureWithLine ZS_EVENTING_TOOL_UNEXPECTED_EOF 0
            ", unexpectedly reached EOF".toList)
          ⟨[[], [⟨TokenType_Identifier, "struct".toList, 3⟩, ⟨TokenType_Identifier, ['S'], 3⟩,
              ⟨TokenType_SemiColon, [';'], 3⟩]],
            [some ⟨TokenType_SquareBrace, [']'], 2⟩, some ⟨TokenType_SquareBrace, [']'], 2⟩],
            some ⟨TokenType_SquareBrace, [']'], 2⟩,
            [⟨TokenType_Documentation, "doc".toList, 1⟩], [], g⟩ := by
    have hd := parseDocumentation_false
      (⟨[[⟨TokenType_SquareBrace, ['['], 2⟩,
            ⟨TokenType_Identifier, "deprecated".toList, 2⟩, ⟨TokenType_SquareBrace, [']'], 2⟩,
            ⟨TokenType_Identifier, "struct".toList, 3⟩, ⟨TokenType_Identifier, ['S'], 3⟩,
            ⟨TokenType_SemiColon, [';'], 3⟩]],
          [some ⟨TokenType_Documentation, "doc".toList, 1⟩],
          some ⟨TokenType_Documentation, "doc".toList, 1⟩,
          [⟨TokenType_Documentation, "doc".toList, 1⟩], [], g⟩ : IDLCompilerState G)
      _ _ _ rfl (by decide) (fuel + 4)
    have hs := parseSemiColon_false
      (⟨[[⟨TokenType_SquareBrace, ['['], 2⟩,
            ⟨TokenType_Identifier, "deprecated".toList, 2⟩, ⟨TokenType_SquareBrace, [']'], 2⟩,
            ⟨TokenType_Identifier, "struct".toList, 3⟩, ⟨TokenType_Identifier, ['S'], 3⟩,
            ⟨TokenType_SemiColon, [';'], 3⟩]],
          [some ⟨TokenType_Documentation, "doc".toList, 1⟩],
          some ⟨TokenType_Documentation, "doc".toList, 1⟩,
          [⟨TokenType_Documentation, "doc".toList, 1⟩], [], g⟩ : IDLCompilerState G)
      _ _ _ rfl (by decide)
    have hv := parseDirective_false om h
      (⟨[[⟨TokenType_SquareBrace, ['['], 2⟩,
            ⟨TokenType_Identifier, "deprecated".toList, 2⟩, ⟨TokenType_SquareBrace, [']'], 2⟩,
            ⟨TokenType_Identifier, "struct".toList, 3⟩, ⟨TokenType_Identifier, ['S'], 3⟩,
            ⟨TokenType_SemiColon, [';'], 3⟩]],
          [some ⟨TokenType_Documentation, "doc".toList, 1⟩],
          some ⟨TokenType_Documentation, "doc".toList, 1⟩,
          [⟨TokenType_Documentation, "doc".toList, 1⟩], [], g⟩ : IDLCompilerState G)
      _ _ _ rfl (by decide) (fuel + 5)
    unfold parseNamespaceContentsTurn
    simp only [M.bind_apply, M.pure_apply, hd, hs, hv,
      parseModifiers_deprecated_aux om g _ _ fuel, Bool.false_eq_true, if_false]
  have hm0 : hasMoreTokens
      (⟨[[⟨TokenType_Documentation, "doc".toList, 1⟩, ⟨TokenType_SquareBrace, ['['], 2⟩,
            ⟨TokenType_Identifier, "deprecated".toList, 2⟩, ⟨TokenType_SquareBrace, [']'], 2⟩,
            ⟨TokenType_Identifier, "struct".toList, 3⟩, ⟨TokenType_Identifier, ['S'], 3⟩,
            ⟨TokenType_SemiColon, [';'], 3⟩]],
          [none], none, [], [], g⟩ : IDLCompilerState G) = true := rfl
  have hm1 : hasMoreTokens
      (⟨[[⟨TokenType_SquareBrace, ['['], 2⟩,
            ⟨TokenType_Identifier, "deprecated".toList, 2⟩, ⟨TokenType_SquareBrace, [']'], 2⟩,
            ⟨TokenType_Identifier, "struct".toList, 3⟩, ⟨TokenType_Identifier, ['S'], 3⟩,
            ⟨TokenType_SemiColon, [';'], 3⟩]],
          [some ⟨TokenType_Documentation, "doc".toList, 1⟩],
          some ⟨TokenType_Documentation, "doc".toList, 1⟩,
          [⟨TokenType_Documentation, "doc".toList, 1⟩], [], g⟩ : IDLCompilerState G) = true := rfl
  rw [show fuel + 7 = (fuel + 6) + 1 from rfl, parseNamespaceContents]
  simp only [M.bind_apply, M.pure_apply, getState, hm0, Bool.not_true, Bool.false_eq_true,
    if_false, hturn1]
  rw [show fuel + 6 = (fuel + 5) + 1 from rfl, parseNamespaceContents]
  simp only [M.bind_apply, M.pure_apply, getState, hm1, Bool.not_true, Bool.false_eq_true,
    if_false, hturn2]

theorem pushDirectiveTokens_other {G : Type} (h : Helper) (fuel : Nat) (t : Token)
    (ht : t.mTokenType ≠ TokenType_Directive) (s : IDLCompilerState G) :
    pushDirectiveTokens h fuel (some t) s = Result.ok false s := by
  have ht' : TokenType_Directive ≠ t.mTokenType := fun e => ht e.symm
  simp only [pushDirectiveTokens]
  rw [if_pos ht']
  rfl

/-- The loop of `parseDirective` that skips tokens, over a run of tokens that
are no directives: they are taken off the stream, one unit of fuel each. -/
theorem parseDirectiveSkipLoop_run {G : Type} (h : Helper) (s : IDLCompilerState G)
    (rest : List Token) (k : Nat) :
    ∀ (run : List Token), (∀ t ∈ run, t.mTokenType ≠ TokenType_Directive) →
    ∀ (last : Option Token),
      parseDirectiveSkipLoop h (run.length + k) (withActive s last (run ++ rest))
        = parseDirectiveSkipLoop h k
            (withActive s (if run = [] then last else run.getLast?) rest) := by
  intro run
  induction run with
  | nil => intro _ last; simp
  | cons t ts ih =>
    intro hrun last
    have hlen : (t :: ts).length + k = (ts.length + k) + 1 := by
      simp only [List.length_cons]; omega
    rw [hlen, parseDirectiveSkipLoop]
    simp only [M.bind_apply, M.pure_apply, getState, List.cons_append,
      withActive_hasMoreTokens, Bool.not_true, Bool.false_eq_true, if_false,
      withActive_extract,
      pushDirectiveTokens_other h _ t (hrun t (List.mem_cons_self _ _))]
    rw [ih (fun x hx => hrun x (List.mem_cons_of_mem _ hx)) (some t)]
    congr 2
    cases ts with
    | nil => rfl
    | cons u us => simp [List.getLast?_cons_cons]

theorem parseDirectiveSkipLoop_end {G : Type} (h : Helper) (s : IDLCompilerState G)
    (last : Option Token) (fuel : Nat) :
    parseDirectiveSkipLoop h (fuel + 1) (withActive s last [])
      = Result.ok false (withActive s last []) := by
  rw [parseDirectiveSkipLoop]
  cases last <;> rfl

/-- The method `pushDirectiveTokens` on a directive token: it pushes the tokens
of the lexeme and returns false. -/
theorem pushDirectiveTokens_directive {G : Type} (h : Helper) (fuel : Nat) (t : Token)
    (ht : t.mTokenType = TokenType_Directive) (tokens : List Token)
    (htok : tokenize h fuel fuel t.mToken t.mLineCount = some tokens) (s : IDLCompilerState G) :
    pushDirectiveTokens h fuel (some t) s
      = Result.ok false
          { s with mTokenListStack := tokens :: s.mTokenListStack
                   mLastTokenStack := tokens.head? :: s.mLastTokenStack } := by
  have ht' : ¬ TokenType_Directive ≠ t.mTokenType := by rw [ht]; simp
  simp only [pushDirectiveTokens]
  rw [if_neg ht', htok]
  rfl

/-- C26: on a stream that starts with a directive whose lexeme lexes to
`EXCLUSIVE` and an identifier that is not defined, then holds a run of tokens
that are no directives and a second directive, `parseDirective` returns true
with what follows the second directive as the active stream, whatever the
second directive says: the loop that skips tokens takes the run and the
second directive off the stream, pushes the tokens of the second directive
and, `pushDirectiveTokens` returning false, takes them off again as well, so
`parseDirectiveExclusive` never looks at them. The tokens behind an
`EXCLUSIVE bar` with `bar` not defined are left for the enclosing loop. -/
theorem parseDirective_ignore {G Node Modifier : Type} (om : ObjectModel G Node Modifier)
    (h : Helper) (s : IDLCompilerState G) (first second : Token) (id : List Char)
    (line1 line2 : Nat) (run tokens after : List Token) (lower : List (List Token))
    (fuel : Nat)
    (hs : s.mTokenListStack = (first :: (run ++ second :: after)) :: lower)
    (hfirst : first.mTokenType = TokenType_Directive)
    (hsecond : second.mTokenType = TokenType_Directive)
    (hrun : ∀ t ∈ run, t.mTokenType ≠ TokenType_Directive)
    (htokens : ∀ t ∈ tokens, t.mTokenType ≠ TokenType_Directive)
    (hlex1 : tokenize h (run.length + (tokens.length + (fuel + 1)) + 2)
        (run.length + (tokens.length + (fuel + 1)) + 2) first.mToken first.mLineCount
      = some [⟨TokenType_Identifier, "EXCLUSIVE".toList, line1⟩,
          ⟨TokenType_Identifier, id, line2⟩])
    (hlex2 : tokenize h (tokens.length + (fuel + 1)) (tokens.length + (fuel + 1))
        second.mToken second.mLineCount = some tokens)
    (hid : ¬ (id = ['x'] ∨ id = ['X'] ∨ id ∈ om.definedExclusives s.mProject)) :
    parseDirective om h (run.length + (tokens.length + (fuel + 1)) + 2) s
      = Result.ok true (consumed s second after) := by
  obtain ⟨stack, lastStack, last, docs, mods, g⟩ := s
  simp only at hs hid
  subst hs
  have hfirst' : ¬ TokenType_Directive ≠ first.mTokenType := by rw [hfirst]; simp
  -- the state after the first directive has been taken
  have hx : extractNextToken "directive".toList
      (⟨(first :: (run ++ second :: after)) :: lower, lastStack, last, docs, mods, g⟩ :
        IDLCompilerState G)
      = Result.ok first
          ⟨(run ++ second :: after) :: lower, some first :: lastStack.drop 1, some first, docs,
            mods, g⟩ := rfl
  -- the first directive: `EXCLUSIVE id` puts the loop in ignore mode
  have hex := (parseDirectiveExclusive_front om
      (⟨[⟨TokenType_Identifier, "EXCLUSIVE".toList, line1⟩, ⟨TokenType_Identifier, id, line2⟩]
          :: (run ++ second :: after) :: lower,
        some ⟨TokenType_Identifier, "EXCLUSIVE".toList, line1⟩ :: some first
          :: lastStack.drop 1, some first, docs, mods, g⟩ : IDLCompilerState G)
      false _ _ _ rfl).1 id line2 [] rfl rfl rfl
  simp only [hid, decide_False, Bool.not_false] at hex
  have hpop : popTokens
      (consumed
        (⟨[⟨TokenType_Identifier, "EXCLUSIVE".toList, line1⟩,
            ⟨TokenType_Identifier, id, line2⟩] :: (run ++ second :: after) :: lower,
          some ⟨TokenType_Identifier, "EXCLUSIVE".toList, line1⟩ :: some first
            :: lastStack.drop 1, some first, docs, mods, g⟩ : IDLCompilerState G)
        ⟨TokenType_Identifier, id, line2⟩ [])
      = Result.ok []
          (withActive
            (⟨(run ++ second :: after) :: lower, some first :: lastStack.drop 1, some first,
              docs, mods, g⟩ : IDLCompilerState G) none (run ++ second :: after)) := rfl
  -- the loop that skips: the run, the second directive, and its own tokens
  have hskip1 := parseDirectiveSkipLoop_run h
      (⟨(run ++ second :: after) :: lower, some first :: lastStack.drop 1, some first,
        docs, mods, g⟩ : IDLCompilerState G) (second :: after)
      ((tokens.length + (fuel + 1)) + 1) run hrun none
  have hpush := fun (lastRun : Option Token) => pushDirectiveTokens_directive h
      (tokens.length + (fuel + 1)) second hsecond tokens hlex2
      (withActive
        (⟨(run ++ second :: after) :: lower, some first :: lastStack.drop 1, some first,
          docs, mods, g⟩ : IDLCompilerState G) (some second) after)
  have hskip2 := parseDirectiveSkipLoop_run h
      (⟨tokens :: after :: lower, tokens.head? :: some second :: lastStack.drop 1, some second,
        docs, mods, g⟩ : IDLCompilerState G) [] (fuel + 1) tokens htokens none
  rw [List.append_nil] at hskip2
  have hskip : parseDirectiveSkipLoop h (run.length + (tokens.length + (fuel + 1) + 1))
      (withActive
        (⟨(run ++ second :: after) :: lower, some first :: lastStack.drop 1, some first,
          docs, mods, g⟩ : IDLCompilerState G) none (run ++ second :: after))
      = Result.ok false
          (withActive
            (⟨tokens :: after :: lower, tokens.head? :: some second :: lastStack.drop 1,
              some second, docs, mods, g⟩ : IDLCompilerState G)
            (if tokens = [] then none else tokens.getLast?) []) := by
    rw [hskip1, parseDirectiveSkipLoop]
    simp only [M.bind_apply, M.pure_apply, getState, withActive_hasMoreTokens, Bool.not_true,
      Bool.false_eq_true, if_false, withActive_extract, hpush none]
    rw [← parseDirectiveSkipLoop_end h _ _ fuel, ← hskip2]
    rfl
  have hpop2 : popTokens
      (withActive
        (⟨tokens :: after :: lower, tokens.head? :: some second :: lastStack.drop 1,
          some second, docs, mods, g⟩ : IDLCompilerState G)
        (if tokens = [] then none else tokens.getLast?) [])
      = Result.ok []
          (consumed
            (⟨(first :: (run ++ second :: after)) :: lower, lastStack, last, docs, mods, g⟩ :
              IDLCompilerState G) second after) := by
    cases (if tokens = [] then none else tokens.getLast?) <;> rfl
  rw [parseDirective]
  simp only [M.bind_apply, M.pure_apply, peekNextToken]
  rw [if_neg hfirst']
  simp only [M.bind_apply, M.pure_apply, hx,
    pushDirectiveTokens_directive h _ first hfirst _ hlex1, List.head?_cons]
  rw [show run.length + (tokens.length + (fuel + 1)) + 2
    = (run.length + (tokens.length + (fuel + 1) + 1)) + 1 from rfl, parseDirectiveLoop]
  simp only [M.bind_apply, M.pure_apply, hex, hpop, hskip, hpop2, Bool.not_true,
    Bool.false_eq_true, if_false, Bool.not_false, if_true]

/-- C26 on the stream of the directive `EXCLUSIVE foo`, `a`, the directive
`EXCLUSIVE bar` and `b`, with no exclusive defined: `b` is left. -/
theorem parseDirective_ignore_witness :
    parseDirective
        (graphObjectModel
          (⟨fun _ _ _ => none, fun g n _ => (g, n), fun _ _ _ => none, fun _ _ _ => none,
            fun _ => [], fun _ => none, fun _ => none, fun g _ _ _ => g, fun _ => pure (),
            fun _ _ => pure (), fun _ _ => pure (), fun _ _ _ => pure (),
            fun n _ => pure (n, true), fun _ _ => pure (), fun _ _ => pure none⟩ :
            ObjectModel (Project Unit) Nat Unit))
        specHelper 6
        ⟨[[⟨TokenType_Directive, "EXCLUSIVE foo".toList, 1⟩, ⟨TokenType_Identifier, ['a'], 2⟩,
            ⟨TokenType_Directive, "EXCLUSIVE bar".toList, 3⟩, ⟨TokenType_Identifier, ['b'], 4⟩]],
          [none], none, [], [], ⟨[], []⟩⟩
      = Result.ok true
          ⟨[[⟨TokenType_Identifier, ['b'], 4⟩]],
            [some ⟨TokenType_Directive, "EXCLUSIVE bar".toList, 3⟩],
            some ⟨TokenType_Directive, "EXCLUSIVE bar".toList, 3⟩, [], [], ⟨[], []⟩⟩ := by
  have hw := parseDirective_ignore
    (graphObjectModel
      (⟨fun _ _ _ => none, fun g n _ => (g, n), fun _ _ _ => none, fun _ _ _ => none,
        fun _ => [], fun _ => none, fun _ => none, fun g _ _ _ => g, fun _ => pure (),
        fun _ _ => pure (), fun _ _ => pure (), fun _ _ _ => pure (),
        fun n _ => pure (n, true), fun _ _ => pure (), fun _ _ => pure none⟩ :
        ObjectModel (Project Unit) Nat Unit)) specHelper
    ⟨[[⟨TokenType_Directive, "EXCLUSIVE foo".toList, 1⟩, ⟨TokenType_Identifier, ['a'], 2⟩,
        ⟨TokenType_Directive, "EXCLUSIVE bar".toList, 3⟩, ⟨TokenType_Identifier, ['b'], 4⟩]],
      [none], none, [], [], ⟨[], []⟩⟩
    ⟨TokenType_Directive, "EXCLUSIVE foo".toList, 1⟩
    ⟨TokenType_Directive, "EXCLUSIVE bar".toList, 3⟩ "foo".toList 1 1
    [⟨TokenType_Identifier, ['a'], 2⟩]
    [⟨TokenType_Identifier, "EXCLUSIVE".toList, 3⟩, ⟨TokenType_Identifier, "bar".toList, 3⟩]
    [⟨TokenType_Identifier, ['b'], 4⟩] [] 0 rfl rfl rfl (by decide) (by decide)
    (by decide) (by decide) (by decide)
  exact hw

/-! ## The object graph -/

theorem fillContext_documented {Modifier : Type} [DecidableEq Modifier]
    (toModifier : List Char → Option Modifier) (p : Nat)
    (s : IDLCompilerState (Project Modifier)) (hm : s.mPendingModifiers = []) :
    fillContext toModifier p s = Result.ok () (documented s p) := by
  obtain ⟨stack, lastStack, last, docs, mods, g⟩ := s
  simp only at hm
  subst hm
  unfold fillContext mergeDocumentation getDocumentation mergeModifiers documented
  by_cases hd : docs.length < 1
  · simp only [M.bind_apply, M.pure_apply, getState, setState, hd, if_true, mergeModifiersLoop]
  · simp only [M.bind_apply, M.pure_apply, getState, setState, setProject, hd, if_false,
      mergeModifiersLoop]

theorem documented_stack {Modifier : Type} (s : IDLCompilerState (Project Modifier)) (p : Nat) :
    (documented s p).mTokenListStack = s.mTokenListStack
    ∧ (documented s p).mLastTokenStack = s.mLastTokenStack
    ∧ (documented s p).mLastToken = s.mLastToken := by
  unfold documented
  split_ifs <;> exact ⟨rfl, rfl, rfl⟩

theorem mergeDocumentation_documented {Modifier : Type} (context : Nat)
    (s : IDLCompilerState (Project Modifier)) :
    mergeDocumentation context s = Result.ok () (documented s context) := by
  obtain ⟨stack, lastStack, last, docs, mods, g⟩ := s
  unfold mergeDocumentation getDocumentation documented
  by_cases hd : docs.length < 1
  · simp only [M.bind_apply, M.pure_apply, getState, setState, hd, if_true]
  · simp only [M.bind_apply, M.pure_apply, getState, setState, setProject, hd, if_false]

theorem documented_pending {Modifier : Type} (s : IDLCompilerState (Project Modifier))
    (p : Nat) :
    (documented s p).mPendingDocumentation = []
    ∧ (documented s p).mPendingModifiers = s.mPendingModifiers := by
  unfold documented
  split_ifs with hlen
  · exact ⟨List.length_eq_zero.mp (by omega), rfl⟩
  · exact ⟨rfl, rfl⟩

theorem processStructForward_found {Modifier : Type} [DecidableEq Modifier]
    (toModifier : List Char → Option Modifier) (context : Nat) (typeName : List Char)
    (s : IDLCompilerState (Project Modifier)) (c : Context Modifier) (found : Nat)
    (hc : s.mProject.node context = some c)
    (hk : c.kind = ContextKind.Namespace ∨ c.kind = ContextKind.Struct)
    (hf : c.mStructs.lookup typeName = some found) (hm : s.mPendingModifiers = []) :
    processStructForward toModifier context typeName s
      = Result.ok (found, false) (documented s found) := by
  unfold processStructForward
  simp only [M.bind_apply, getState, hc]
  have hin : processStructForwardIn toModifier context c typeName s
      = Result.ok (found, false) (documented s found) := by
    unfold processStructForwardIn
    simp only [hf, M.bind_apply, M.pure_apply, fillContext_documented toModifier found s hm]
  rcases hk with hk | hk
  · rw [if_pos hk, hin]
  · by_cases hn : c.kind = ContextKind.Namespace
    · rw [if_pos hn, hin]
    · rw [if_neg hn, if_pos hk, hin]

theorem processStructForward_new {Modifier : Type} [DecidableEq Modifier]
    (toModifier : List Char → Option Modifier) (context : Nat) (typeName : List Char)
    (s : IDLCompilerState (Project Modifier)) (c : Context Modifier)
    (hc : s.mProject.node context = some c)
    (hk : c.kind = ContextKind.Namespace ∨ c.kind = ContextKind.Struct)
    (hf : c.mStructs.lookup typeName = none) (hm : s.mPendingModifiers = []) :
    processStructForward toModifier context typeName s
      = Result.ok (s.mProject.nodes.length, true) (forwardCreated s context typeName) := by
  unfold processStructForward
  simp only [M.bind_apply, getState, hc]
  have hin : processStructForwardIn toModifier context c typeName s
      = Result.ok (s.mProject.nodes.length, true) (forwardCreated s context typeName) := by
    unfold processStructForwardIn
    obtain ⟨stack, lastStack, last, docs, mods, g⟩ := s
    simp only at hm
    subst hm
    simp only [hf, M.bind_apply, M.pure_apply, getState, setProject, setState, Project.create]
    rw [fillContext_documented toModifier _ _ rfl]
    rfl
  rcases hk with hk | hk
  · rw [if_pos hk, hin]
  · by_cases hn : c.kind = ContextKind.Namespace
    · rw [if_pos hn, hin]
    · rw [if_neg hn, if_pos hk, hin]

theorem node_lt {Modifier : Type} (g : Project Modifier) (p : Nat) (c : Context Modifier)
    (hc : g.node p = some c) : p < g.nodes.length := by
  simp only [Project.node, List.get?_eq_getElem?] at hc
  by_contra hlt
  rw [List.getElem?_eq_none (not_lt.mp hlt)] at hc
  cases hc

theorem forwardCreated_stack {Modifier : Type} (s : IDLCompilerState (Project Modifier))
    (context : Nat) (typeName : List Char) :
    (forwardCreated s context typeName).mTokenListStack = s.mTokenListStack
    ∧ (forwardCreated s context typeName).mLastTokenStack = s.mLastTokenStack
    ∧ (forwardCreated s context typeName).mLastToken = s.mLastToken := by
  unfold forwardCreated documented
  simp only
  split_ifs <;> exact ⟨rfl, rfl, rfl⟩

theorem forwardCreated_context {Modifier : Type} (s : IDLCompilerState (Project Modifier))
    (context : Nat) (typeName : List Char) (c : Context Modifier)
    (hc : s.mProject.node context = some c) (hf : c.mStructs.lookup typeName = none) :
    (forwardCreated s context typeName).mProject.node context
      = some { c with mStructs := c.mStructs ++ [(typeName, s.mProject.nodes.length)] } := by
  have hlt := node_lt _ _ _ hc
  have hne : s.mProject.nodes.length ≠ context := Nat.ne_of_gt hlt
  simp only [Project.node, List.get?_eq_getElem?] at hc
  unfold forwardCreated documented
  simp only
  split_ifs <;>
    simp [Project.node, Project.update, Project.create, List.getElem?_modify,
      List.getElem?_append_left hlt, hc, hne, mapInsert, hf]

theorem forwardCreated_struct {Modifier : Type} (s : IDLCompilerState (Project Modifier))
    (context : Nat) (typeName : List Char) (c : Context Modifier)
    (hc : s.mProject.node context = some c) :
    ∃ n, (forwardCreated s context typeName).mProject.node s.mProject.nodes.length = some n
      ∧ n.kind = ContextKind.Struct ∧ n.mName = typeName ∧ n.parent = some context
      ∧ n.mStructs = [] ∧ n.mModifiers = [] := by
  have hlt := node_lt _ _ _ hc
  have hne : ¬ context = s.mProject.nodes.length := Nat.ne_of_lt hlt
  unfold forwardCreated documented
  simp only
  split_ifs <;>
    simp [Project.node, Project.update, Project.create, List.getElem?_modify, hne]

theorem forwardCreated_other {Modifier : Type} (s : IDLCompilerState (Project Modifier))
    (context : Nat) (typeName : List Char) (q : Nat) (hq : q ≠ context)
    (hlt : q < s.mProject.nodes.length) :
    (forwardCreated s context typeName).mProject.node q = s.mProject.node q := by
  have hne : ¬ s.mProject.nodes.length = q := Nat.ne_of_gt hlt
  have hq' : ¬ context = q := fun h => hq h.symm
  unfold forwardCreated documented
  simp only
  split_ifs <;>
    simp [Project.node, Project.update, Project.create, List.getElem?_modify,
      List.getElem?_append_left hlt, hne, hq']

theorem documented_hasModifier {Modifier : Type} [DecidableEq Modifier]
    (s : IDLCompilerState (Project Modifier)) (p q : Nat) (m : Modifier) :
    (documented s p).mProject.hasModifier q m = s.mProject.hasModifier q m := by
  unfold documented
  split_ifs
  · rfl
  · simp only [Project.hasModifier, Project.node, Project.update, List.get?_eq_getElem?]
    rw [List.getElem?_modify]
    cases s.mProject.nodes[q]? with
    | none => rfl
    | some c => by_cases hpq : p = q <;> simp [hpq]

theorem setModifier_node {Modifier : Type} (g : Project Modifier) (p q : Nat) (m : Modifier)
    (v : List (List Char)) :
    (g.setModifier p m v).node q
      = (g.node q).map fun c =>
          if p = q then { c with mModifiers := c.mModifiers ++ [(m, v)] } else c := by
  simp only [Project.setModifier, Project.node, Project.update, List.get?_eq_getElem?]
  rw [List.getElem?_modify]
  rfl

theorem hasModifier_setModifier {Modifier : Type} [DecidableEq Modifier] (g : Project Modifier)
    (p : Nat) (m m' : Modifier) (v : List (List Char)) (hne : m' ≠ m)
    (hfresh : g.hasModifier p m' = false) : (g.setModifier p m v).hasModifier p m' = false := by
  unfold Project.hasModifier at hfresh ⊢
  rw [setModifier_node]
  cases hn : g.node p with
  | none => rfl
  | some c =>
    rw [hn] at hfresh
    simp only [Option.map_some', if_true]
    simp only at hfresh
    cases hl : List.lookup m' c.mModifiers with
    | some a => rw [hl] at hfresh; cases hfresh
    | none =>
      have hb : (m' == m) = false := by simpa using hne
      rw [List.lookup_append, hl]
      simp [List.lookup, hb]

/-- The loop of `mergeModifiers` over pending modifiers that resolve, no two
to the same modifier and none to a modifier that the node has: it sets them
on the node and goes on with the entries behind them. -/
theorem mergeModifiersLoop_resolved {Modifier : Type} [DecidableEq Modifier]
    (toModifier : List Char → Option Modifier) (p : Nat)
    (tail : List (List Char × List (List Char))) :
    ∀ (pre : List (List Char × List (List Char))) (resolved : List (Modifier × List (List Char)))
      (s : IDLCompilerState (Project Modifier)),
      ResolvedModifiers toModifier pre resolved → (resolved.map Prod.fst).Nodup →
      (∀ r ∈ resolved, s.mProject.hasModifier p r.1 = false) →
      mergeModifiersLoop toModifier p (pre ++ tail) s
        = mergeModifiersLoop toModifier p tail
            { s with mProject := s.mProject.setModifiers p resolved } := by
  intro pre
  induction pre with
  | nil =>
    intro resolved s hres _ _
    cases hres
    rfl
  | cons entry pre ih =>
    intro resolved s hres hnodup hfresh
    cases hres with
    | cons hhead hrest =>
      rename_i r rs
      obtain ⟨name, values⟩ := entry
      obtain ⟨m, v⟩ := r
      simp only at hhead
      obtain ⟨hm, hv⟩ := hhead
      subst hv
      have hf0 : s.mProject.hasModifier p m = false := hfresh (m, values) (by simp)
      simp only [List.map_cons, List.nodup_cons] at hnodup
      have hfresh2 : ∀ r ∈ rs, (s.mProject.setModifier p m values).hasModifier p r.1 = false := by
        intro r hr
        refine hasModifier_setModifier _ _ _ _ _ ?_ (hfresh r (by simp [hr]))
        intro heq
        exact hnodup.1 (heq ▸ List.mem_map_of_mem Prod.fst hr)
      have hih := ih rs { s with mProject := s.mProject.setModifier p m values } hrest hnodup.2
        hfresh2
      simp only [List.cons_append, mergeModifiersLoop, hm, M.bind_apply, M.pure_apply, getState,
        hf0, Bool.false_eq_true, if_false, setProject]
      exact hih

/-- The method `fillContext` when the pending modifiers resolve, no two to
the same modifier and none to a modifier that the node has. -/
theorem fillContext_resolved {Modifier : Type} [DecidableEq Modifier]
    (toModifier : List Char → Option Modifier) (p : Nat)
    (s : IDLCompilerState (Project Modifier)) (resolved : List (Modifier × List (List Char)))
    (hres : ResolvedModifiers toModifier s.mPendingModifiers resolved)
    (hnodup : (resolved.map Prod.fst).Nodup)
    (hfresh : ∀ r ∈ resolved, s.mProject.hasModifier p r.1 = false) :
    fillContext toModifier p s = Result.ok () (filled s p resolved) := by
  have hres2 : ResolvedModifiers toModifier (documented s p).mPendingModifiers resolved := by
    rw [(documented_pending s p).2]; exact hres
  have hfresh2 : ∀ r ∈ resolved, (documented s p).mProject.hasModifier p r.1 = false := by
    intro r hr
    rw [documented_hasModifier]
    exact hfresh r hr
  have hloop := mergeModifiersLoop_resolved toModifier p [] (documented s p).mPendingModifiers
    resolved (documented s p) hres2 hnodup hfresh2
  rw [List.append_nil] at hloop
  unfold fillContext mergeModifiers
  simp only [M.bind_apply, M.pure_apply, getState, setState, mergeDocumentation_documented,
    hloop, mergeModifiersLoop, filled]

theorem structKeywords_not_template (keyword : List Char) (hk : keyword ∈ structKeywords) :
    ¬ "template".toList = keyword := by
  simp only [structKeywords, List.mem_cons, List.mem_singleton, List.not_mem_nil, or_false] at hk
  rcases hk with rfl | rfl | rfl | rfl <;> decide

theorem structKeywords_keyword (keyword : List Char) (hk : keyword ∈ structKeywords) :
    ¬ ("class".toList ≠ keyword ∧ "interface".toList ≠ keyword ∧
        "interaction".toList ≠ keyword ∧ "struct".toList ≠ keyword) := by
  simp only [structKeywords, List.mem_cons, List.mem_singleton, List.not_mem_nil, or_false] at hk
  rcases hk with rfl | rfl | rfl | rfl <;> decide

/-- The method `parseStruct` on a forward declaration: the keyword and the
name are extracted, and the result is that of `processStructForward`. -/
theorem parseStruct_semicolon {G Node Modifier : Type} (om : ObjectModel G Node Modifier)
    (h : Helper) (context : Node) (s : IDLCompilerState G) (keyword name : List Char)
    (line1 line2 : Nat) (semi : Token) (rest : List Token) (lower : List (List Token))
    (fuel : Nat)
    (hs : s.mTokenListStack
      = (⟨TokenType_Identifier, keyword, line1⟩ :: ⟨TokenType_Identifier, name, line2⟩
          :: semi :: rest) :: lower)
    (hk : keyword ∈ structKeywords) (hsemi : semi.mTokenType = TokenType_SemiColon) :
    parseStruct om h (fuel + 1) context s
      = (match om.processStructForward context name
            (consumed s ⟨TokenType_Identifier, name, line2⟩ (semi :: rest)) with
         | Result.ok _ s' => Result.ok true s'
         | Result.error e s' => Result.error e s'
         | Result.timeout => Result.timeout) := by
  obtain ⟨stack, lastStack, last, docs, mods, g⟩ := s
  simp only at hs
  subst hs
  have hT := structKeywords_not_template keyword hk
  have hC := structKeywords_keyword keyword hk
  have hS : (TokenType_SemiColon = semi.mTokenType) = True := eq_true hsemi.symm
  rw [parseStruct]
  simp only [M.bind_apply, M.pure_apply, peekNextToken, extractNextToken, consumed,
    List.drop_succ_cons, List.drop_zero, ne_eq, not_true_eq_false, if_false, if_neg hT,
    if_neg hC, hS, if_true, Bool.false_eq_true]
  cases om.processStructForward context name _ <;> rfl

/-- The method `parseStruct` on a definition with a body when
`processStructForward` has not created the struct: it throws. -/
theorem parseStruct_existing {G Node Modifier : Type} (om : ObjectModel G Node Modifier)
    (h : Helper) (context : Node) (s s3 : IDLCompilerState G) (keyword name : List Char)
    (line1 line2 : Nat) (next : Token) (rest : List Token) (lower : List (List Token))
    (fuel : Nat) (found : Node)
    (hs : s.mTokenListStack
      = (⟨TokenType_Identifier, keyword, line1⟩ :: ⟨TokenType_Identifier, name, line2⟩
          :: next :: rest) :: lower)
    (hk : keyword ∈ structKeywords) (hnext : next.mTokenType ≠ TokenType_SemiColon)
    (hforward : om.processStructForward context name
        (consumed s ⟨TokenType_Identifier, name, line2⟩ (next :: rest))
      = Result.ok (found, false) s3) :
    parseStruct om h (fuel + 1) context s
      = Result.error
          (Failure.FailureWithLine ZS_EVENTING_TOOL_INVALID_CONTENT (getLastLineNumber s3)
            ("interface/struct struct/interface was not created: ".toList ++ name)) s3 := by
  obtain ⟨stack, lastStack, last, docs, mods, g⟩ := s
  simp only at hs
  subst hs
  have hT := structKeywords_not_template keyword hk
  have hC := structKeywords_keyword keyword hk
  have hS : (TokenType_SemiColon = next.mTokenType) = False := eq_false fun h => hnext h.symm
  simp only [consumed, List.drop_succ_cons, List.drop_zero] at hforward
  rw [parseStruct]
  simp only [M.bind_apply, M.pure_apply, peekNextToken, extractNextToken,
    List.drop_succ_cons, List.drop_zero, ne_eq, not_true_eq_false, if_false, if_neg hT,
    if_neg hC, hS, Bool.false_eq_true, hforward, Bool.not_false, if_true]
  rfl

/-- The method `parseStruct` on a definition whose open curly brace is not
followed by an open brace: the call of `extractToClosingBraceToken` comes after
the curly brace has been extracted, finds no open brace and extracts nothing,
so the body that is parsed is empty and the tokens after the curly brace stay
in the active stream. -/
theorem parseStruct_body_not_open {G Node Modifier : Type} (om : ObjectModel G Node Modifier)
    (h : Helper) (context : Node) (s s3 : IDLCompilerState G) (keyword name : List Char)
    (line1 line2 : Nat) (brace t : Token) (rest : List Token) (lower : List (List Token))
    (fuel : Nat) (newStruct : Node)
    (hs : s.mTokenListStack
      = (⟨TokenType_Identifier, keyword, line1⟩ :: ⟨TokenType_Identifier, name, line2⟩
          :: brace :: t :: rest) :: lower)
    (hk : keyword ∈ structKeywords) (hbrace : brace.mTokenType = TokenType_CurlyBrace)
    (ht : t.isOpenBrace = false)
    (hforward : om.processStructForward context name
        (consumed s ⟨TokenType_Identifier, name, line2⟩ (brace :: t :: rest))
      = Result.ok (newStruct, true) s3)
    (hs3 : s3.mTokenListStack = (brace :: t :: rest) :: lower) :
    parseStruct om h (fuel + 2) context s = Result.ok true (consumed s3 brace (t :: rest)) := by
  obtain ⟨stack, lastStack, last, docs, mods, g⟩ := s
  simp only at hs
  subst hs
  obtain ⟨stack3, lastStack3, last3, docs3, mods3, g3⟩ := s3
  simp only at hs3
  subst hs3
  have hT := structKeywords_not_template keyword hk
  have hC := structKeywords_keyword keyword hk
  have hS : (TokenType_SemiColon = brace.mTokenType) = False := by rw [hbrace]; decide
  have hCo : (TokenType_ColonOperator = brace.mTokenType) = False := by rw [hbrace]; decide
  have hCu : (TokenType_CurlyBrace = brace.mTokenType) = True := eq_true hbrace.symm
  simp only [consumed, List.drop_succ_cons, List.drop_zero] at hforward
  have hx := extractToClosingBraceToken_not_open "interface/struct".toList
    (⟨(t :: rest) :: lower, some brace :: lastStack3.drop 1, some brace, docs3, mods3, g3⟩ :
      IDLCompilerState G) t rest lower rfl ht [] includeOuterBraceDefault (fuel + 1)
  rw [parseStruct]
  simp only [M.bind_apply, M.pure_apply, peekNextToken, extractNextToken,
    List.drop_succ_cons, List.drop_zero, ne_eq, not_true_eq_false, if_false, if_neg hT,
    if_neg hC, hS, hCo, hCu, Bool.false_eq_true, hforward, Bool.not_true, if_true, hx,
    pushTokens, parseStructBodyLoop, getState, popTokens, consumed]
  rfl

/-- C23 (amended): when no modifiers are pending, in a context that is a
namespace or a struct whose struct map has an entry `N`, with or without a
body, `parseStruct` on a stream `k N` followed by a token that is no semicolon,
so on a definition `k N { ... }`, throws `FailureWithLine` (invalid content,
struct/interface was not created) at the line of the name. -/
theorem parseStruct_redefinition {Modifier : Type} [DecidableEq Modifier]
    (om : ObjectModel (Project Modifier) Nat Modifier) (h : Helper) (context : Nat)
    (s : IDLCompilerState (Project Modifier)) (c : Context Modifier) (found : Nat)
    (keyword name : List Char) (line1 line2 : Nat) (next : Token) (rest : List Token)
    (lower : List (List Token)) (fuel : Nat)
    (hs : s.mTokenListStack
      = (⟨TokenType_Identifier, keyword, line1⟩ :: ⟨TokenType_Identifier, name, line2⟩
          :: next :: rest) :: lower)
    (hk : keyword ∈ structKeywords) (hnext : next.mTokenType ≠ TokenType_SemiColon)
    (hc : s.mProject.node context = some c)
    (hkind : c.kind = ContextKind.Namespace ∨ c.kind = ContextKind.Struct)
    (hf : c.mStructs.lookup name = some found) (hm : s.mPendingModifiers = []) :
    ∃ s', parseStruct (graphObjectModel om) h (fuel + 1) context s
      = Result.error
          (Failure.FailureWithLine ZS_EVENTING_TOOL_INVALID_CONTENT line2
            ("interface/struct struct/interface was not created: ".toList ++ name)) s' := by
  have hrun : (graphObjectModel om).processStructForward context name
      (consumed s ⟨TokenType_Identifier, name, line2⟩ (next :: rest))
      = Result.ok (found, false)
          (documented (consumed s ⟨TokenType_Identifier, name, line2⟩ (next :: rest)) found) :=
    processStructForward_found om.toModifier context name
      (consumed s ⟨TokenType_Identifier, name, line2⟩ (next :: rest)) c found hc hkind hf hm
  have hthrow := parseStruct_existing (graphObjectModel om) h context s _ keyword name line1
    line2 next rest lower fuel found hs hk hnext hrun
  have hline : getLastLineNumber
      (documented (consumed s ⟨TokenType_Identifier, name, line2⟩ (next :: rest)) found)
      = line2 := by
    unfold getLastLineNumber
    rw [(documented_stack _ _).2.2]
    rfl
  rw [hline] at hthrow
  exact ⟨_, hthrow⟩

/-- C23 on the stream `struct S { }` in a namespace that has a struct `S`
without a body. -/
theorem parseStruct_redefinition_witness :
    ∃ s', parseStruct
        (graphObjectModel
          (⟨fun _ _ _ => none, fun g n _ => (g, n), fun _ _ _ => none, fun _ _ _ => none,
            fun _ => [], fun _ => none, fun _ => none, fun g _ _ _ => g, fun _ => pure (),
            fun _ _ => pure (), fun _ _ => pure (), fun _ _ _ => pure (),
            fun n _ => pure (n, true), fun _ _ => pure (), fun _ _ => pure none⟩ :
            ObjectModel (Project Unit) Nat Unit))
        specHelper 1 0
        ⟨[[⟨TokenType_Identifier, "struct".toList, 2⟩, ⟨TokenType_Identifier, ['S'], 2⟩,
            ⟨TokenType_CurlyBrace, ['\x7b'], 2⟩, ⟨TokenType_CurlyBrace, ['\x7d'], 2⟩]],
          [none], none, [], [],
          ⟨[{ kind := ContextKind.Namespace, mStructs := [(['S'], 1)] },
            { kind := ContextKind.Struct, mName := ['S'], parent := some 0 }], []⟩⟩
      = Result.error
          (Failure.FailureWithLine ZS_EVENTING_TOOL_INVALID_CONTENT 2
            ("interface/struct struct/interface was not created: ".toList ++ ['S'])) s' := by
  have hw := parseStruct_redefinition
    (⟨fun _ _ _ => none, fun g n _ => (g, n), fun _ _ _ => none, fun _ _ _ => none,
      fun _ => [], fun _ => none, fun _ => none, fun g _ _ _ => g, fun _ => pure (),
      fun _ _ => pure (), fun _ _ => pure (), fun _ _ _ => pure (),
      fun n _ => pure (n, true), fun _ _ => pure (), fun _ _ => pure none⟩ :
      ObjectModel (Project Unit) Nat Unit)
    specHelper 0
    ⟨[[⟨TokenType_Identifier, "struct".toList, 2⟩, ⟨TokenType_Identifier, ['S'], 2⟩,
        ⟨TokenType_CurlyBrace, ['\x7b'], 2⟩, ⟨TokenType_CurlyBrace, ['\x7d'], 2⟩]],
      [none], none, [], [],
      ⟨[{ kind := ContextKind.Namespace, mStructs := [(['S'], 1)] },
        { kind := ContextKind.Struct, mName := ['S'], parent := some 0 }], []⟩⟩
    { kind := ContextKind.Namespace, mStructs := [(['S'], 1)] } 1 "struct".toList ['S'] 2 2
    ⟨TokenType_CurlyBrace, ['\x7b'], 2⟩ [⟨TokenType_CurlyBrace, ['\x7d'], 2⟩] [] 0 rfl
    (by decide) (by decide) rfl (Or.inl rfl) rfl rfl
  exact hw

/-- C23, counterexample: on the stream `struct S ; struct S { }` in a
namespace without structs, `parseStruct` accepts the forward declaration,
`parseSemiColon` the semicolon, and `parseStruct` on the definition then
throws. -/
theorem parseStruct_redefinition_counterexample :
    parseStruct
        (graphObjectModel
          (⟨fun _ _ _ => none, fun g n _ => (g, n), fun _ _ _ => none, fun _ _ _ => none,
            fun _ => [], fun _ => none, fun _ => none, fun g _ _ _ => g, fun _ => pure (),
            fun _ _ => pure (), fun _ _ => pure (), fun _ _ _ => pure (),
            fun n _ => pure (n, true), fun _ _ => pure (), fun _ _ => pure none⟩ :
            ObjectModel (Project Unit) Nat Unit))
        specHelper 1 0
        ⟨[[⟨TokenType_Identifier, "struct".toList, 1⟩, ⟨TokenType_Identifier, ['S'], 1⟩,
            ⟨TokenType_SemiColon, [';'], 1⟩,
            ⟨TokenType_Identifier, "struct".toList, 2⟩, ⟨TokenType_Identifier, ['S'], 2⟩,
            ⟨TokenType_CurlyBrace, ['\x7b'], 2⟩, ⟨TokenType_CurlyBrace, ['\x7d'], 2⟩]],
          [none], none, [], [], ⟨[{ kind := ContextKind.Namespace }], []⟩⟩
      = Result.ok true
          ⟨[[⟨TokenType_SemiColon, [';'], 1⟩,
              ⟨TokenType_Identifier, "struct".toList, 2⟩, ⟨TokenType_Identifier, ['S'], 2⟩,
              ⟨TokenType_CurlyBrace, ['\x7b'], 2⟩, ⟨TokenType_CurlyBrace, ['\x7d'], 2⟩]],
            [some ⟨TokenType_Identifier, ['S'], 1⟩], some ⟨TokenType_Identifier, ['S'], 1⟩,
            [], [],
            ⟨[{ kind := ContextKind.Namespace, mStructs := [(['S'], 1)] },
              { kind := ContextKind.Struct, mName := ['S'], parent := some 0 }], []⟩⟩
    ∧ parseSemiColon
        (⟨[[⟨TokenType_SemiColon, [';'], 1⟩,
              ⟨TokenType_Identifier, "struct".toList, 2⟩, ⟨TokenType_Identifier, ['S'], 2⟩,
              ⟨TokenType_CurlyBrace, ['\x7b'], 2⟩, ⟨TokenType_CurlyBrace, ['\x7d'], 2⟩]],
            [some ⟨TokenType_Identifier, ['S'], 1⟩], some ⟨TokenType_Identifier, ['S'], 1⟩,
            [], [],
            ⟨[{ kind := ContextKind.Namespace, mStructs := [(['S'], 1)] },
              { kind := ContextKind.Struct, mName := ['S'], parent := some 0 }], []⟩⟩ :
          IDLCompilerState (Project Unit))
      = Result.ok true
          ⟨[[⟨TokenType_Identifier, "struct".toList, 2⟩, ⟨TokenType_Identifier, ['S'], 2⟩,
              ⟨TokenType_CurlyBrace, ['\x7b'], 2⟩, ⟨TokenType_CurlyBrace, ['\x7d'], 2⟩]],
            [some ⟨TokenType_SemiColon, [';'], 1⟩], some ⟨TokenType_SemiColon, [';'], 1⟩,
            [], [],
            ⟨[{ kind := ContextKind.Namespace, mStructs := [(['S'], 1)] },
              { kind := ContextKind.Struct, mName := ['S'], parent := some 0 }], []⟩⟩
    ∧ parseStruct
        (graphObjectModel
          (⟨fun _ _ _ => none, fun g n _ => (g, n), fun _ _ _ => none, fun _ _ _ => none,
            fun _ => [], fun _ => none, fun _ => none, fun g _ _ _ => g, fun _ => pure (),
            fun _ _ => pure (), fun _ _ => pure (), fun _ _ _ => pure (),
            fun n _ => pure (n, true), fun _ _ => pure (), fun _ _ => pure none⟩ :
            ObjectModel (Project Unit) Nat Unit))
        specHelper 1 0
        ⟨[[⟨TokenType_Identifier, "struct".toList, 2⟩, ⟨TokenType_Identifier, ['S'], 2⟩,
            ⟨TokenType_CurlyBrace, ['\x7b'], 2⟩, ⟨TokenType_CurlyBrace, ['\x7d'], 2⟩]],
          [some ⟨TokenType_SemiColon, [';'], 1⟩], some ⟨TokenType_SemiColon, [';'], 1⟩,
          [], [],
          ⟨[{ kind := ContextKind.Namespace, mStructs := [(['S'], 1)] },
            { kind := ContextKind.Struct, mName := ['S'], parent := some 0 }], []⟩⟩
      = Result.error
          (Failure.FailureWithLine ZS_EVENTING_TOOL_INVALID_CONTENT 2
            "interface/struct struct/interface was not created: S".toList)
          ⟨[[⟨TokenType_CurlyBrace, ['\x7b'], 2⟩, ⟨TokenType_CurlyBrace, ['\x7d'], 2⟩]],
            [some ⟨TokenType_Identifier, ['S'], 2⟩], some ⟨TokenType_Identifier, ['S'], 2⟩,
            [], [],
            ⟨[{ kind := ContextKind.Namespace, mStructs := [(['S'], 1)] },
              { kind := ContextKind.Struct, mName := ['S'], parent := some 0 }], []⟩⟩ := by
  refine ⟨?_, rfl, ?_⟩
  · rw [parseStruct_semicolon _ _ _ _ "struct".toList ['S'] 1 1 ⟨TokenType_SemiColon, [';'], 1⟩ _
      [] 0 rfl (by decide) rfl]
    rfl
  · rw [parseStruct_existing _ _ _ _ _ "struct".toList ['S'] 2 2
      ⟨TokenType_CurlyBrace, ['\x7b'], 2⟩ _ [] 0 1 rfl (by decide) (by decide) rfl]
    rfl

/-- C24: when no modifiers are pending, in a context that is a namespace or a
struct without a struct `N`, `parseStruct` on the stream `k N {` followed by a
token `t` that is no open brace and by `rest` returns true and leaves `t` and
`rest` as the active stream: the curly brace alone has been extracted and no
token has been parsed as the body. On `struct S { } rest` the active stream
left is `} rest`, not `rest`. -/
theorem parseStruct_definition_body {Modifier : Type} [DecidableEq Modifier]
    (om : ObjectModel (Project Modifier) Nat Modifier) (h : Helper) (context : Nat)
    (s : IDLCompilerState (Project Modifier)) (c : Context Modifier)
    (keyword name : List Char) (line1 line2 : Nat) (brace t : Token) (rest : List Token)
    (lower : List (List Token)) (fuel : Nat)
    (hs : s.mTokenListStack
      = (⟨TokenType_Identifier, keyword, line1⟩ :: ⟨TokenType_Identifier, name, line2⟩
          :: brace :: t :: rest) :: lower)
    (hk : keyword ∈ structKeywords) (hbrace : brace.mTokenType = TokenType_CurlyBrace)
    (ht : t.isOpenBrace = false)
    (hc : s.mProject.node context = some c)
    (hkind : c.kind = ContextKind.Namespace ∨ c.kind = ContextKind.Struct)
    (hf : c.mStructs.lookup name = none) (hm : s.mPendingModifiers = []) :
    ∃ s', parseStruct (graphObjectModel om) h (fuel + 2) context s = Result.ok true s'
      ∧ s'.mTokenListStack = (t :: rest) :: lower
      ∧ s'.mTokenListStack ≠ rest :: lower
      ∧ s'.mLastToken = some brace := by
  have hstack : (consumed s ⟨TokenType_Identifier, name, line2⟩
      (brace :: t :: rest)).mTokenListStack = (brace :: t :: rest) :: lower := by
    simp only [consumed, hs, List.drop_succ_cons, List.drop_zero]
  have hrun : (graphObjectModel om).processStructForward context name
      (consumed s ⟨TokenType_Identifier, name, line2⟩ (brace :: t :: rest))
      = Result.ok (s.mProject.nodes.length, true)
          (forwardCreated (consumed s ⟨TokenType_Identifier, name, line2⟩ (brace :: t :: rest))
            context name) :=
    processStructForward_new om.toModifier context name
      (consumed s ⟨TokenType_Identifier, name, line2⟩ (brace :: t :: rest)) c hc hkind hf hm
  have hs3 : (forwardCreated (consumed s ⟨TokenType_Identifier, name, line2⟩
      (brace :: t :: rest)) context name).mTokenListStack = (brace :: t :: rest) :: lower := by
    rw [(forwardCreated_stack _ _ _).1, hstack]
  have hres := parseStruct_body_not_open (graphObjectModel om) h context s _ keyword name line1
    line2 brace t rest lower fuel _ hs hk hbrace ht hrun hs3
  have hfinal : (consumed (forwardCreated (consumed s ⟨TokenType_Identifier, name, line2⟩
      (brace :: t :: rest)) context name) brace (t :: rest)).mTokenListStack
      = (t :: rest) :: lower := by
    show (t :: rest) :: List.drop 1 (forwardCreated _ context name).mTokenListStack = _
    rw [hs3]
    rfl
  refine ⟨_, hres, hfinal, ?_, rfl⟩
  rw [hfinal]
  intro heq
  exact List.cons_ne_self t rest (List.cons.inj heq).1

/-- C24 on the stream `struct S { } z` in a namespace without structs. -/
theorem parseStruct_definition_body_witness :
    ∃ s', parseStruct
        (graphObjectModel
          (⟨fun _ _ _ => none, fun g n _ => (g, n), fun _ _ _ => none, fun _ _ _ => none,
            fun _ => [], fun _ => none, fun _ => none, fun g _ _ _ => g, fun _ => pure (),
            fun _ _ => pure (), fun _ _ => pure (), fun _ _ _ => pure (),
            fun n _ => pure (n, true), fun _ _ => pure (), fun _ _ => pure none⟩ :
            ObjectModel (Project Unit) Nat Unit))
        specHelper 2 0
        ⟨[[⟨TokenType_Identifier, "struct".toList, 1⟩, ⟨TokenType_Identifier, ['S'], 1⟩,
            ⟨TokenType_CurlyBrace, ['\x7b'], 1⟩, ⟨TokenType_CurlyBrace, ['\x7d'], 1⟩,
            ⟨TokenType_Identifier, ['z'], 2⟩]],
          [none], none, [], [], ⟨[{ kind := ContextKind.Namespace }], []⟩⟩
        = Result.ok true s'
      ∧ s'.mTokenListStack
          = [[⟨TokenType_CurlyBrace, ['\x7d'], 1⟩, ⟨TokenType_Identifier, ['z'], 2⟩]]
      ∧ s'.mTokenListStack ≠ [[⟨TokenType_Identifier, ['z'], 2⟩]]
      ∧ s'.mLastToken = some ⟨TokenType_CurlyBrace, ['\x7b'], 1⟩ := by
  have hw := parseStruct_definition_body
    (⟨fun _ _ _ => none, fun g n _ => (g, n), fun _ _ _ => none, fun _ _ _ => none,
      fun _ => [], fun _ => none, fun _ => none, fun g _ _ _ => g, fun _ => pure (),
      fun _ _ => pure (), fun _ _ => pure (), fun _ _ _ => pure (),
      fun n _ => pure (n, true), fun _ _ => pure (), fun _ _ => pure none⟩ :
      ObjectModel (Project Unit) Nat Unit)
    specHelper 0
    ⟨[[⟨TokenType_Identifier, "struct".toList, 1⟩, ⟨TokenType_Identifier, ['S'], 1⟩,
        ⟨TokenType_CurlyBrace, ['\x7b'], 1⟩, ⟨TokenType_CurlyBrace, ['\x7d'], 1⟩,
        ⟨TokenType_Identifier, ['z'], 2⟩]],
      [none], none, [], [], ⟨[{ kind := ContextKind.Namespace }], []⟩⟩
    { kind := ContextKind.Namespace } "struct".toList ['S'] 1 1
    ⟨TokenType_CurlyBrace, ['\x7b'], 1⟩ ⟨TokenType_CurlyBrace, ['\x7d'], 1⟩
    [⟨TokenType_Identifier, ['z'], 2⟩] [] 0 rfl (by decide) rfl rfl rfl (Or.inl rfl) rfl rfl
  exact hw

/-! ## The type resolver: order of the modifiers -/

/-- C37: the fold of `insert` accepts `double long long`, and `getBasicType`
gives ldouble for it, while it rejects `long long double` at the `double`; it
accepts `short float` and `short double`, and `getBasicType` gives short for
both, while it rejects `float short` and `double short` at the `short`. -/
theorem insertAll_order :
    (∃ m, insertAll {} ["double".toList, "long".toList, "long".toList] = Except.ok m
      ∧ m.getBasicType = Except.ok PredefinedTypedef_ldouble)
    ∧ FailsAtInsert ["long".toList, "long".toList] "double".toList
        "has invalid type modifier".toList
    ∧ (∃ m, insertAll {} ["short".toList, "float".toList] = Except.ok m
      ∧ m.getBasicType = Except.ok PredefinedTypedef_short)
    ∧ (∃ m, insertAll {} ["short".toList, "double".toList] = Except.ok m
      ∧ m.getBasicType = Except.ok PredefinedTypedef_short)
    ∧ FailsAtInsert ["float".toList] "short".toList "has invalid type modifier".toList
    ∧ FailsAtInsert ["double".toList] "short".toList "has invalid type modifier".toList :=
  ⟨⟨_, rfl, rfl⟩, failsAtInsert_of _ _ _ _ rfl rfl, ⟨_, rfl, rfl⟩, ⟨_, rfl, rfl⟩,
    failsAtInsert_of _ _ _ _ rfl rfl, failsAtInsert_of _ _ _ _ rfl rfl⟩

/-- C38: for a bag without a basic modifier, `mergePredefined` throws
`InvalidContent` (has invalid type modifier) on each of pointer, binary, size,
string, astring and wstring, and on every other predefined typedef, void
through ldouble, it returns that typedef and leaves the bag as it was. -/
theorem mergePredefined_noModifier (m : FoundBasicTypeModifiers) (b : PredefinedTypedefs)
    (hm : m.noBasicModifier = true) :
    (b ∈ unmergedTypedefs →
      m.mergePredefined b = Except.error ⟨"has invalid type modifier".toList⟩)
    ∧ (b ∉ unmergedTypedefs → m.mergePredefined b = Except.ok (b, m)) := by
  obtain ⟨any, other, sgn, unsgn, chr, shrt, int, longs, flt, dbl, cnst, lt, ls, name⟩ := m
  simp only [FoundBasicTypeModifiers.noBasicModifier, Bool.and_eq_true, Bool.not_eq_true',
    decide_eq_true_eq] at hm
  obtain ⟨⟨⟨⟨⟨⟨⟨⟨h1, h2⟩, h3⟩, h4⟩, h5⟩, h6⟩, h7⟩, h8⟩, h9⟩ := hm
  subst h1 h2 h3 h4 h5 h6 h7 h8 h9
  cases b <;> refine ⟨fun h => ?_, fun h => ?_⟩ <;>
    first
      | rfl
      | exact absurd h (by decide)

/-- C38 on the bag that holds `const` alone, for int and for string. -/
theorem mergePredefined_noModifier_witness :
    ({ mConst := true, mAnyOtherModifier := true } : FoundBasicTypeModifiers).mergePredefined
        PredefinedTypedef_int
      = Except.ok (PredefinedTypedef_int, { mConst := true, mAnyOtherModifier := true })
    ∧ ({ mConst := true, mAnyOtherModifier := true } : FoundBasicTypeModifiers).mergePredefined
        PredefinedTypedef_string
      = Except.error ⟨"has invalid type modifier".toList⟩ :=
  ⟨(mergePredefined_noModifier { mConst := true, mAnyOtherModifier := true }
      PredefinedTypedef_int rfl).2 (by decide),
   (mergePredefined_noModifier { mConst := true, mAnyOtherModifier := true }
      PredefinedTypedef_string rfl).1 (by decide)⟩

/-! ## Brace regions: nesting -/

/-- C39: on the stream `( [ ) ]`, whatever follows it, with fuel for four
tokens, `extractToClosingBraceToken(what, out, true)` called with `out` empty
returns true with the four tokens in `out` and what follows left in the
active stream, and throws nothing, although the four tokens are not properly
nested: each kind has as many open as close braces. -/
theorem extractToClosingBraceToken_crossed {G : Type} (what : List Char)
    (s : IDLCompilerState G) (line1 line2 line3 line4 : Nat) (rest : List Token)
    (lower : List (List Token)) (fuel : Nat) :
    extractToClosingBraceToken what [] true (fuel + 4)
        { s with mTokenListStack :=
          (⟨TokenType_Brace, ['('], line1⟩ :: ⟨TokenType_SquareBrace, ['['], line2⟩
            :: ⟨TokenType_Brace, [')'], line3⟩ :: ⟨TokenType_SquareBrace, [']'], line4⟩
            :: rest) :: lower }
      = Result.ok
          (true, [⟨TokenType_Brace, ['('], line1⟩, ⟨TokenType_SquareBrace, ['['], line2⟩,
            ⟨TokenType_Brace, [')'], line3⟩, ⟨TokenType_SquareBrace, [']'], line4⟩])
          { s with mTokenListStack := rest :: lower
                   mLastToken := some ⟨TokenType_SquareBrace, [']'], line4⟩
                   mLastTokenStack :=
                     some ⟨TokenType_SquareBrace, [']'], line4⟩ :: s.mLastTokenStack.drop 1 }
    ∧ properlyNested []
        [⟨TokenType_Brace, ['('], line1⟩, ⟨TokenType_SquareBrace, ['['], line2⟩,
          ⟨TokenType_Brace, [')'], line3⟩, ⟨TokenType_SquareBrace, [']'], line4⟩] = false
    ∧ Balanced
        [⟨TokenType_Brace, ['('], line1⟩, ⟨TokenType_SquareBrace, ['['], line2⟩,
          ⟨TokenType_Brace, [')'], line3⟩, ⟨TokenType_SquareBrace, [']'], line4⟩] := by
  refine ⟨?_, rfl, ?_⟩
  · obtain ⟨stack, lastStack, last, docs, mods, g⟩ := s
    rfl
  · intro k hk
    simp only [braceKinds, List.mem_cons, List.mem_singleton, List.not_mem_nil, or_false] at hk
    rcases hk with rfl | rfl | rfl | rfl <;> rfl

/-! ## Extraction up to a token kind: nothing is lost -/

theorem extractNextToken_active {G : Type} (what : List Char) (s s' : IDLCompilerState G)
    (t : Token) (h : extractNextToken what s = Result.ok t s') :
    activeTokens s = t :: activeTokens s'
    ∧ s'.mTokenListStack.drop 1 = s.mTokenListStack.drop 1 := by
  obtain ⟨stack, lastStack, last, docs, mods, g⟩ := s
  unfold extractNextToken at h
  split at h
  · next token rest lower heq =>
    simp only [Result.ok.injEq] at h
    obtain ⟨rfl, rfl⟩ := h
    simp only at heq
    subst heq
    exact ⟨rfl, rfl⟩
  · cases h

theorem putBackToken_active {G : Type} (s s' : IDLCompilerState G) (t : Token)
    (h : putBackToken t s = Result.ok () s') :
    activeTokens s' = t :: activeTokens s
    ∧ s'.mTokenListStack.drop 1 = s.mTokenListStack.drop 1 := by
  obtain ⟨stack, lastStack, last, docs, mods, g⟩ := s
  unfold putBackToken at h
  split at h
  · cases h
  · next tokens lower heq =>
    simp only [Result.ok.injEq, true_and] at h
    subst h
    simp only at heq
    subst heq
    exact ⟨rfl, rfl⟩

theorem extractToClosingBraceLoop_active {G : Type} (what : List Char) :
    ∀ (fuel : Nat) (c : BraceCounts) (out out' : List Token) (s s' : IDLCompilerState G),
      extractToClosingBraceLoop what fuel c out s = Result.ok out' s' →
      out' ++ activeTokens s' = out ++ activeTokens s
      ∧ s'.mTokenListStack.drop 1 = s.mTokenListStack.drop 1 := by
  intro fuel
  induction fuel with
  | zero => intro c out out' s s' h; cases h
  | succ fuel ih =>
    intro c out out' s s' h
    unfold extractToClosingBraceLoop at h
    simp only [M.bind_apply] at h
    cases hx : extractNextToken what s with
    | error e s1 => rw [hx] at h; cases h
    | timeout => rw [hx] at h; cases h
    | ok token s1 =>
      rw [hx] at h
      simp only at h
      obtain ⟨ha, hl⟩ := extractNextToken_active what s s1 token hx
      cases hu : c.update token with
      | none =>
        rw [hu] at h
        simp only [getState, M.bind_apply, throwFailure] at h
        cases h
      | some c' =>
        rw [hu] at h
        simp only at h
        by_cases hopen : c'.anyOpen = true
        · rw [if_pos hopen] at h
          obtain ⟨ha', hl'⟩ := ih c' _ out' s1 s' h
          refine ⟨?_, hl'.trans hl⟩
          rw [ha', ha, List.append_assoc]
          rfl
        · rw [if_neg hopen] at h
          simp only [M.pure_apply, Result.ok.injEq] at h
          obtain ⟨rfl, rfl⟩ := h
          refine ⟨?_, hl⟩
          rw [ha, List.append_assoc]
          rfl

theorem peekNextToken_state {G : Type} (what : List Char) (s s' : IDLCompilerState G)
    (t : Token) (h : peekNextToken what s = Result.ok t s') : s' = s := by
  unfold peekNextToken at h
  split at h
  · simp only [Result.ok.injEq] at h
    exact h.2.symm
  · cases h

theorem extractToClosingBraceToken_active {G : Type} (what : List Char) (fuel : Nat)
    (out : List Token) (r : Bool × List Token) (s s' : IDLCompilerState G)
    (h : extractToClosingBraceToken what out true fuel s = Result.ok r s') :
    r.2 ++ activeTokens s' = out ++ activeTokens s
    ∧ s'.mTokenListStack.drop 1 = s.mTokenListStack.drop 1 := by
  unfold extractToClosingBraceToken at h
  simp only [M.bind_apply] at h
  cases hp : peekNextToken what s with
  | error e s1 => rw [hp] at h; cases h
  | timeout => rw [hp] at h; cases h
  | ok token s1 =>
    rw [hp] at h
    have hs1 := peekNextToken_state what s s1 token hp
    subst hs1
    simp only at h
    by_cases hb : (!token.isBrace) = true
    · rw [if_pos hb] at h
      simp only [M.pure_apply, Result.ok.injEq] at h
      obtain ⟨rfl, rfl⟩ := h
      exact ⟨rfl, rfl⟩
    · rw [if_neg hb] at h
      simp only [M.bind_apply, M.pure_apply] at h
      by_cases ho : (!token.isOpenBrace) = true
      · rw [if_pos ho] at h
        simp only [M.pure_apply, Result.ok.injEq] at h
        obtain ⟨rfl, rfl⟩ := h
        exact ⟨rfl, rfl⟩
      · rw [if_neg ho] at h
        simp only [M.bind_apply, M.pure_apply, Bool.not_true, Bool.false_eq_true, if_false] at h
        cases hl : extractToClosingBraceLoop what fuel ⟨0, 0, 0, 0⟩ out s1 with
        | error e s2 => rw [hl] at h; cases h
        | timeout => rw [hl] at h; cases h
        | ok out' s2 =>
          rw [hl] at h
          simp only [Result.ok.injEq] at h
          obtain ⟨rfl, rfl⟩ := h
          exact extractToClosingBraceLoop_active what fuel _ out out' s1 s2 hl

theorem extractToTokenType_active {G : Type} (what : List Char) (searchTokenType : TokenTypes)
    (processBrackets : Bool) :
    ∀ (fuel : Nat) (out : List Token) (r : Bool × List Token) (s s' : IDLCompilerState G),
      extractToTokenType what searchTokenType false processBrackets fuel out s
        = Result.ok r s' →
      r.2 ++ activeTokens s' = out ++ activeTokens s
      ∧ s'.mTokenListStack.drop 1 = s.mTokenListStack.drop 1 := by
  intro fuel
  induction fuel with
  | zero => intro out r s s' h; cases h
  | succ fuel ih =>
    intro out r s s' h
    unfold extractToTokenType at h
    simp only [M.bind_apply, getState] at h
    by_cases hm : (!hasMoreTokens s) = true
    · rw [if_pos hm] at h
      simp only [M.pure_apply, Result.ok.injEq] at h
      obtain ⟨rfl, rfl⟩ := h
      exact ⟨rfl, rfl⟩
    · rw [if_neg hm] at h
      simp only [M.bind_apply, M.pure_apply] at h
      cases hx : extractNextToken what s with
      | error e s1 => rw [hx] at h; cases h
      | timeout => rw [hx] at h; cases h
      | ok token s1 =>
        rw [hx] at h
        simp only at h
        obtain ⟨ha, hl⟩ := extractNextToken_active what s s1 token hx
        by_cases hk : searchTokenType = token.mTokenType
        · rw [if_pos hk] at h
          simp only [Bool.not_false, if_true, M.bind_apply, M.pure_apply] at h
          cases hp : putBackToken token s1 with
          | error e s2 => rw [hp] at h; cases h
          | timeout => rw [hp] at h; cases h
          | ok u s2 =>
            rw [hp] at h
            simp only [Result.ok.injEq] at h
            obtain ⟨rfl, rfl⟩ := h
            obtain ⟨ha2, hl2⟩ := putBackToken_active s1 s2 token hp
            exact ⟨by rw [ha2, ha], hl2.trans hl⟩
        · rw [if_neg hk] at h
          by_cases hb : (processBrackets && token.isBrace) = true
          · rw [if_pos hb] at h
            simp only [M.bind_apply, M.pure_apply] at h
            cases hp : putBackToken token s1 with
            | error e s2 => rw [hp] at h; cases h
            | timeout => rw [hp] at h; cases h
            | ok u s2 =>
              rw [hp] at h
              simp only at h
              obtain ⟨ha2, hl2⟩ := putBackToken_active s1 s2 token hp
              by_cases hc : token.isCloseBrace = true
              · rw [if_pos hc] at h
                simp only [M.pure_apply, Result.ok.injEq] at h
                obtain ⟨rfl, rfl⟩ := h
                exact ⟨by rw [ha2, ha], hl2.trans hl⟩
              · rw [if_neg hc] at h
                simp only [M.bind_apply, M.pure_apply] at h
                cases hr : extractToClosingBraceToken what [] true fuel s2 with
                | error e s3 => rw [hr] at h; cases h
                | timeout => rw [hr] at h; cases h
                | ok region s3 =>
                  rw [hr] at h
                  simp only at h
                  obtain ⟨ha3, hl3⟩ :=
                    extractToClosingBraceToken_active what fuel [] region s2 s3 hr
                  obtain ⟨ha4, hl4⟩ := ih _ r s3 s' h
                  refine ⟨?_, hl4.trans (hl3.trans (hl2.trans hl))⟩
                  rw [ha4, List.append_assoc, ha3, List.nil_append, ha2, ha]
          · rw [if_neg hb] at h
            obtain ⟨ha4, hl4⟩ := ih _ r s1 s' h
            refine ⟨?_, hl4.trans hl⟩
            rw [ha4, ha, List.append_assoc]
            rfl

theorem hasMoreTokens_stack {G : Type} (s : IDLCompilerState G)
    (h : hasMoreTokens s = true) :
    ∃ t ts lower, s.mTokenListStack = (t :: ts) :: lower := by
  obtain ⟨stack, lastStack, last, docs, mods, g⟩ := s
  cases stack with
  | nil => simp [hasMoreTokens] at h
  | cons top lower =>
    cases top with
    | nil => simp [hasMoreTokens, getTokens] at h
    | cons t ts => exact ⟨t, ts, lower, rfl⟩

theorem extractToTokenType_returns {G : Type} (what : List Char) (searchTokenType : TokenTypes) :
    ∀ (fuel : Nat) (out : List Token) (s : IDLCompilerState G),
      (activeTokens s).length < fuel →
      ∃ r s', extractToTokenType what searchTokenType false false fuel out s
        = Result.ok r s' := by
  intro fuel
  induction fuel with
  | zero => intro out s hf; cases hf
  | succ fuel ih =>
    intro out s hf
    unfold extractToTokenType
    simp only [M.bind_apply, getState]
    by_cases hm : (!hasMoreTokens s) = true
    · rw [if_pos hm]
      exact ⟨_, _, rfl⟩
    · rw [if_neg hm]
      have hm' : hasMoreTokens s = true := by simpa using hm
      obtain ⟨t, ts, lower, hs⟩ := hasMoreTokens_stack s hm'
      obtain ⟨stack, lastStack, last, docs, mods, g⟩ := s
      simp only at hs
      subst hs
      simp only [M.bind_apply, M.pure_apply, extractNextToken, Bool.false_and,
        Bool.false_eq_true, if_false, Bool.not_false, if_true]
      by_cases hk : searchTokenType = t.mTokenType
      · rw [if_pos hk]
        exact ⟨_, _, rfl⟩
      · rw [if_neg hk]
        apply ih
        simp only [activeTokens, List.headD_cons, List.length_cons] at hf ⊢
        omega

/-- C40: for every state, search kind, value of `processBrackets` and fuel,
when `extractToTokenType` with `includeFoundToken` false and `out` empty
returns, `out` followed by the active stream it leaves is the active stream
it found, and the frames below the active one are the ones it found. With
`processBrackets` false and more fuel than the active stream has tokens it
does return. -/
theorem extractToTokenType_frame {G : Type} (what : List Char) (searchTokenType : TokenTypes)
    (processBrackets : Bool) (fuel : Nat) (s : IDLCompilerState G) :
    (∀ (r : Bool × List Token) (s' : IDLCompilerState G),
      extractToTokenType what searchTokenType false processBrackets fuel [] s
        = Result.ok r s' →
      r.2 ++ activeTokens s' = activeTokens s
      ∧ s'.mTokenListStack.drop 1 = s.mTokenListStack.drop 1)
    ∧ (processBrackets = false → (activeTokens s).length < fuel →
      ∃ r s', extractToTokenType what searchTokenType false processBrackets fuel [] s
        = Result.ok r s') := by
  refine ⟨fun r s' h =>
    extractToTokenType_active what searchTokenType processBrackets fuel [] r s s' h, ?_⟩
  intro hp hf
  subst hp
  exact extractToTokenType_returns what searchTokenType fuel [] s hf

/-- C40 on the stream `a ( b , c ) , d` above a frame `e`, for the search of
a comma: with `processBrackets` true `out` is `a ( b , c )` and `, d` stays;
with `processBrackets` false the call returns as well. -/
theorem extractToTokenType_frame_witness :
    (∃ s', extractToTokenType "type".toList TokenType_CommaOperator false true 9 []
        (⟨[[⟨TokenType_Identifier, ['a'], 1⟩, ⟨TokenType_Brace, ['('], 1⟩,
            ⟨TokenType_Identifier, ['b'], 1⟩, ⟨TokenType_CommaOperator, [','], 1⟩,
            ⟨TokenType_Identifier, ['c'], 1⟩, ⟨TokenType_Brace, [')'], 1⟩,
            ⟨TokenType_CommaOperator, [','], 1⟩, ⟨TokenType_Identifier, ['d'], 1⟩],
            [⟨TokenType_Identifier, ['e'], 2⟩]],
          [none, none], none, [], [], ()⟩ : IDLCompilerState Unit)
        = Result.ok
            (true, [⟨TokenType_Identifier, ['a'], 1⟩, ⟨TokenType_Brace, ['('], 1⟩,
              ⟨TokenType_Identifier, ['b'], 1⟩, ⟨TokenType_CommaOperator, [','], 1⟩,
              ⟨TokenType_Identifier, ['c'], 1⟩, ⟨TokenType_Brace, [')'], 1⟩]) s'
      ∧ [⟨TokenType_Identifier, ['a'], 1⟩, ⟨TokenType_Brace, ['('], 1⟩,
            ⟨TokenType_Identifier, ['b'], 1⟩, ⟨TokenType_CommaOperator, [','], 1⟩,
            ⟨TokenType_Identifier, ['c'], 1⟩, ⟨TokenType_Brace, [')'], 1⟩]
          ++ activeTokens s'
          = activeTokens
              (⟨[[⟨TokenType_Identifier, ['a'], 1⟩, ⟨TokenType_Brace, ['('], 1⟩,
            ⟨TokenType_Identifier, ['b'], 1⟩, ⟨TokenType_CommaOperator, [','], 1⟩,
            ⟨TokenType_Identifier, ['c'], 1⟩, ⟨TokenType_Brace, [')'], 1⟩,
            ⟨TokenType_CommaOperator, [','], 1⟩, ⟨TokenType_Identifier, ['d'], 1⟩],
            [⟨TokenType_Identifier, ['e'], 2⟩]],
          [none, none], none, [], [], ()⟩ : IDLCompilerState Unit)
      ∧ s'.mTokenListStack.drop 1 = [[⟨TokenType_Identifier, ['e'], 2⟩]])
    ∧ ∃ r s', extractToTokenType "type".toList TokenType_CommaOperator false false 9 []
        (⟨[[⟨TokenType_Identifier, ['a'], 1⟩, ⟨TokenType_Brace, ['('], 1⟩,
            ⟨TokenType_Identifier, ['b'], 1⟩, ⟨TokenType_CommaOperator, [','], 1⟩,
            ⟨TokenType_Identifier, ['c'], 1⟩, ⟨TokenType_Brace, [')'], 1⟩,
            ⟨TokenType_CommaOperator, [','], 1⟩, ⟨TokenType_Identifier, ['d'], 1⟩],
            [⟨TokenType_Identifier, ['e'], 2⟩]],
          [none, none], none, [], [], ()⟩ : IDLCompilerState Unit)
        = Result.ok r s' := by
  have hrun : extractToTokenType "type".toList TokenType_CommaOperator false true 9 []
      (⟨[[⟨TokenType_Identifier, ['a'], 1⟩, ⟨TokenType_Brace, ['('], 1⟩,
          ⟨TokenType_Identifier, ['b'], 1⟩, ⟨TokenType_CommaOperator, [','], 1⟩,
          ⟨TokenType_Identifier, ['c'], 1⟩, ⟨TokenType_Brace, [')'], 1⟩,
          ⟨TokenType_CommaOperator, [','], 1⟩, ⟨TokenType_Identifier, ['d'], 1⟩],
          [⟨TokenType_Identifier, ['e'], 2⟩]],
        [none, none], none, [], [], ()⟩ : IDLCompilerState Unit)
      = Result.ok
          (true, [⟨TokenType_Identifier, ['a'], 1⟩, ⟨TokenType_Brace, ['('], 1⟩,
            ⟨TokenType_Identifier, ['b'], 1⟩, ⟨TokenType_CommaOperator, [','], 1⟩,
            ⟨TokenType_Identifier, ['c'], 1⟩, ⟨TokenType_Brace, [')'], 1⟩])
          ⟨[[⟨TokenType_CommaOperator, [','], 1⟩, ⟨TokenType_Identifier, ['d'], 1⟩],
              [⟨TokenType_Identifier, ['e'], 2⟩]],
            [some ⟨TokenType_CommaOperator, [','], 1⟩, none],
            some ⟨TokenType_CommaOperator, [','], 1⟩, [], [], ()⟩ := rfl
  have hw := (extractToTokenType_frame "type".toList TokenType_CommaOperator true 9
    (⟨[[⟨TokenType_Identifier, ['a'], 1⟩, ⟨TokenType_Brace, ['('], 1⟩,
          ⟨TokenType_Identifier, ['b'], 1⟩, ⟨TokenType_CommaOperator, [','], 1⟩,
          ⟨TokenType_Identifier, ['c'], 1⟩, ⟨TokenType_Brace, [')'], 1⟩,
          ⟨TokenType_CommaOperator, [','], 1⟩, ⟨TokenType_Identifier, ['d'], 1⟩],
          [⟨TokenType_Identifier, ['e'], 2⟩]],
        [none, none], none, [], [], ()⟩ : IDLCompilerState Unit)).1
    _ _ hrun
  have hw2 := (extractToTokenType_frame "type".toList TokenType_CommaOperator false 9
    (⟨[[⟨TokenType_Identifier, ['a'], 1⟩, ⟨TokenType_Brace, ['('], 1⟩,
          ⟨TokenType_Identifier, ['b'], 1⟩, ⟨TokenType_CommaOperator, [','], 1⟩,
          ⟨TokenType_Identifier, ['c'], 1⟩, ⟨TokenType_Brace, [')'], 1⟩,
          ⟨TokenType_CommaOperator, [','], 1⟩, ⟨TokenType_Identifier, ['d'], 1⟩],
          [⟨TokenType_Identifier, ['e'], 2⟩]],
        [none, none], none, [], [], ()⟩ : IDLCompilerState Unit)).2
    rfl (by decide)
  exact ⟨⟨_, hrun, hw⟩, hw2⟩

/-! ## Termination of the scanner -/

theorem getNextToken_directive (rest : List Char) (fuel line : Nat) (b : Bool) :
    getNextToken specHelper (fuel + 1) ⟨'/' :: '/' :: '!' :: rest, b, line⟩
      = some (some ⟨TokenType_Directive,
            (specSkipToEOL rest).take (rest.length - (specSkipToEOL rest).length), line⟩,
          ⟨'/' :: '/' :: '!' :: rest, true, (specSkipEOL (specSkipToEOL rest) line).2.2⟩) := by
  simp [getNextToken, getNextTokenTurn, specHelper, specSkipWhitespaceExceptEOL, specSkipEOL,
    specSkipCComments, getCPPDirectiveToken, peek, peekAt, NUL, isspace, isEOL]

theorem getNextToken_documentation (rest : List Char) (fuel line : Nat) (b : Bool) :
    getNextToken specHelper (fuel + 1) ⟨'/' :: '/' :: '/' :: rest, b, line⟩
      = some (some ⟨TokenType_Documentation,
            (specSkipToEOL rest).take (rest.length - (specSkipToEOL rest).length), line⟩,
          ⟨'/' :: '/' :: '/' :: rest, true, (specSkipEOL (specSkipToEOL rest) line).2.2⟩) := by
  simp [getNextToken, getNextTokenTurn, specHelper, specSkipWhitespaceExceptEOL, specSkipEOL,
    specSkipCComments, getCPPDirectiveToken, getCPPDocToken, peek, peekAt, NUL, isspace, isEOL]

/-- When `getNextToken` hands back a token and leaves the cursor where it
was, whatever the flag and the line, the loop of `tokenize` does not reach
its `break`: after `n` calls it has pushed `n` tokens. -/
theorem tokenizeLoop_stuck (h : Helper) (fuel : Nat) (p : List Char)
    (hstuck : ∀ b line, ∃ t b' line',
      getNextToken h fuel ⟨p, b, line⟩ = some (some t, ⟨p, b', line'⟩)) :
    ∀ (n : Nat) (b : Bool) (line : Nat),
      (tokenizeLoop h fuel n ⟨p, b, line⟩).1.length = n
      ∧ (tokenizeLoop h fuel n ⟨p, b, line⟩).2 = false := by
  intro n
  induction n with
  | zero => intro b line; exact ⟨rfl, rfl⟩
  | succ n ih =>
    intro b line
    obtain ⟨t, b', line', hnext⟩ := hstuck b line
    simp only [tokenizeLoop, hnext, List.length_cons]
    exact ⟨by rw [(ih b' line').1], (ih b' line').2⟩

theorem tokenize_stuck (h : Helper) (p : List Char)
    (hstuck : ∀ fuel b line, ∃ t b' line',
      getNextToken h (fuel + 1) ⟨p, b, line⟩ = some (some t, ⟨p, b', line'⟩))
    (fuel n startLineNumber : Nat) : tokenize h fuel n p startLineNumber = none := by
  unfold tokenize
  cases fuel with
  | zero =>
    cases n with
    | zero => rfl
    | succ n => simp [tokenizeLoop, getNextToken]
  | succ fuel =>
    simp only [(tokenizeLoop_stuck h (fuel + 1) p (hstuck fuel) n true startLineNumber).2]
    rfl

/-- C35: on an input that starts with `//!` or with `///`, whatever follows,
`getNextToken` returns a Directive or a Documentation token and leaves the
cursor where it found it, so after `n` calls `tokenize` has pushed `n` tokens,
more than the input has bytes when `n` is large, and its loop does not end,
whatever the fuel; on the input `@` the Operator token comes with the cursor
unmoved as well and `tokenize` does not end either. -/
theorem tokenize_cursor_stuck (rest : List Char) (fuel n line : Nat) (b : Bool) :
    (∃ t line', getNextToken specHelper (fuel + 1) ⟨'/' :: '/' :: '!' :: rest, b, line⟩
        = some (some t, ⟨'/' :: '/' :: '!' :: rest, true, line'⟩)
      ∧ t.mTokenType = TokenType_Directive)
    ∧ (∃ t line', getNextToken specHelper (fuel + 1) ⟨'/' :: '/' :: '/' :: rest, b, line⟩
        = some (some t, ⟨'/' :: '/' :: '/' :: rest, true, line'⟩)
      ∧ t.mTokenType = TokenType_Documentation)
    ∧ (tokenizeLoop specHelper (fuel + 1) n ⟨'/' :: '/' :: '!' :: rest, b, line⟩).1.length = n
    ∧ (tokenizeLoop specHelper (fuel + 1) n ⟨'/' :: '/' :: '/' :: rest, b, line⟩).1.length = n
    ∧ tokenize specHelper fuel n ('/' :: '/' :: '!' :: rest) line = none
    ∧ tokenize specHelper fuel n ('/' :: '/' :: '/' :: rest) line = none
    ∧ (tokenizeLoop specHelper (fuel + 1) n ⟨['@'], b, line⟩).1.length = n
    ∧ tokenize specHelper fuel n ['@'] line = none := by
  have hat : ∀ fuel b line, ∃ t b' line',
      getNextToken specHelper (fuel + 1) ⟨['@'], b, line⟩ = some (some t, ⟨['@'], b', line'⟩) :=
    fun fuel b line => ⟨⟨TokenType_Operator, [], line⟩, false, line, by cases b <;> rfl⟩
  refine ⟨⟨_, _, getNextToken_directive rest fuel line b, rfl⟩,
    ⟨_, _, getNextToken_documentation rest fuel line b, rfl⟩,
    (tokenizeLoop_stuck specHelper (fuel + 1) _
      (fun b line => ⟨_, _, _, getNextToken_directive rest fuel line b⟩) n b line).1,
    (tokenizeLoop_stuck specHelper (fuel + 1) _
      (fun b line => ⟨_, _, _, getNextToken_documentation rest fuel line b⟩) n b line).1,
    tokenize_stuck specHelper _
      (fun fuel b line => ⟨_, _, _, getNextToken_directive rest fuel line b⟩) fuel n line,
    tokenize_stuck specHelper _
      (fun fuel b line => ⟨_, _, _, getNextToken_documentation rest fuel line b⟩) fuel n line,
    (tokenizeLoop_stuck specHelper (fuel + 1) _ (hat fuel) n b line).1,
    tokenize_stuck specHelper _ hat fuel n line⟩

/-! ## Termination of `skipPreprocessor` -/

/-- The turns of `skipPreprocessor` on `#a\`, a newline and an empty line: the
cursor goes back and forth between the two newlines and the backslash. -/
theorem skipPreprocessor_empty_line (rest : List Char) :
    ∀ (fuel line : Nat),
      skipPreprocessor specHelper ('#' :: 'a' :: '\\' :: '\n' :: '\n' :: rest) fuel
          ('\n' :: rest) line = none
      ∧ skipPreprocessor specHelper ('#' :: 'a' :: '\\' :: '\n' :: '\n' :: rest) fuel
          ('\n' :: '\n' :: rest) line = none
      ∧ skipPreprocessor specHelper ('#' :: 'a' :: '\\' :: '\n' :: '\n' :: rest) fuel
          ('#' :: 'a' :: '\\' :: '\n' :: '\n' :: rest) line = none := by
  intro fuel
  induction fuel with
  | zero => intro line; exact ⟨rfl, rfl, rfl⟩
  | succ fuel ih =>
    intro line
    have h3 : rest.length + 1 + 1 + 1 + 1 + 1 - (rest.length + 1 + 1) = 3 := by omega
    have h4 : rest.length + 1 + 1 + 1 + 1 + 1 - (rest.length + 1) = 4 := by omega
    have hsk : specHelper.skipToEOL = specSkipToEOL := rfl
    have hse : specHelper.skipEOL = specSkipEOL := rfl
    refine ⟨?_, ?_, ?_⟩
    · simp only [skipPreprocessor, hsk, hse, specSkipToEOL, isEOL, NUL, List.length_cons, h4]
      simp [lookBack, peekAt, (ih line).2.1]
    · simp only [skipPreprocessor, hsk, hse, specSkipToEOL, isEOL, NUL, List.length_cons, h3]
      simp [lookBack, peekAt, peek, isspace, specSkipEOL, specSkipToEOL, isEOL, NUL,
        (ih (line + 1)).1]
    · simp only [skipPreprocessor, hsk, hse, specSkipToEOL, isEOL, NUL, List.length_cons]
      simp [h3, lookBack, peekAt, peek, isspace, specSkipEOL, specSkipToEOL, isEOL, NUL,
        (ih (line + 1)).1]

/-- The turns of `skipPreprocessor` on `#a\`, a newline and a line that holds
one blank. -/
theorem skipPreprocessor_blank_line (rest : List Char) :
    ∀ (fuel line : Nat),
      skipPreprocessor specHelper ('#' :: 'a' :: '\\' :: '\n' :: ' ' :: '\n' :: rest) fuel
          (' ' :: '\n' :: rest) line = none
      ∧ skipPreprocessor specHelper ('#' :: 'a' :: '\\' :: '\n' :: ' ' :: '\n' :: rest) fuel
          ('\n' :: ' ' :: '\n' :: rest) line = none
      ∧ skipPreprocessor specHelper ('#' :: 'a' :: '\\' :: '\n' :: ' ' :: '\n' :: rest) fuel
          ('#' :: 'a' :: '\\' :: '\n' :: ' ' :: '\n' :: rest) line = none := by
  intro fuel
  induction fuel with
  | zero => intro line; exact ⟨rfl, rfl, rfl⟩
  | succ fuel ih =>
    intro line
    have h3 : rest.length + 1 + 1 + 1 + 1 + 1 + 1 - (rest.length + 1 + 1 + 1) = 3 := by omega
    have h5 : rest.length + 1 + 1 + 1 + 1 + 1 + 1 - (rest.length + 1) = 5 := by omega
    have hsk : specHelper.skipToEOL = specSkipToEOL := rfl
    have hse : specHelper.skipEOL = specSkipEOL := rfl
    refine ⟨?_, ?_, ?_⟩
    · simp only [skipPreprocessor, hsk, hse, specSkipToEOL, isEOL, NUL, List.length_cons]
      simp [h5, lookBack, peekAt, isspace, (ih line).2.1]
    · simp only [skipPreprocessor, hsk, hse, specSkipToEOL, isEOL, NUL, List.length_cons, h3]
      simp [lookBack, peekAt, peek, isspace, specSkipEOL, specSkipToEOL, isEOL, NUL,
        (ih (line + 1)).1]
    · simp only [skipPreprocessor, hsk, hse, specSkipToEOL, isEOL, NUL, List.length_cons]
      simp [h3, lookBack, peekAt, peek, isspace, specSkipEOL, specSkipToEOL, isEOL, NUL,
        (ih (line + 1)).1]

/-- When `skipPreprocessor` does not end on an input that starts with `#`,
`tokenize` does not end on it. -/
theorem tokenize_preprocessor_loops (rest : List Char)
    (hloop : ∀ fuel line, skipPreprocessor specHelper ('#' :: rest) fuel ('#' :: rest) line
      = none)
    (fuel n startLineNumber : Nat) :
    tokenize specHelper fuel n ('#' :: rest) startLineNumber = none := by
  have hnext : getNextToken specHelper fuel ⟨'#' :: rest, true, startLineNumber⟩ = none := by
    cases fuel with
    | zero => rfl
    | succ fuel =>
      have hturn : getNextTokenTurn specHelper fuel ⟨'#' :: rest, true, startLineNumber⟩
          = Turn.outOfFuel := by
        have hsk : specHelper.skipWhitespaceExceptEOL = specSkipWhitespaceExceptEOL := rfl
        have hse : specHelper.skipEOL = specSkipEOL := rfl
        simp only [getNextTokenTurn, hsk, hse]
        simp [specSkipWhitespaceExceptEOL, specSkipEOL, peek, isspace, isEOL, hloop]
      simp [getNextToken, hturn, peek, NUL]
  unfold tokenize
  cases n with
  | zero => rfl
  | succ n => simp [tokenizeLoop, hnext]

/-- C36: on `#a\`, a newline, an empty line or a line that holds one blank,
and whatever follows, `skipPreprocessor` does not end, whatever the fuel: the
cursor goes from the second newline back to the backslash and forward over
the first newline again, and the line counter is incremented each time; so
`tokenize` does not end on these inputs either. -/
theorem skipPreprocessor_loops (rest : List Char) (fuel n line : Nat) :
    skipPreprocessor specHelper ('#' :: 'a' :: '\\' :: '\n' :: '\n' :: rest) fuel
        ('#' :: 'a' :: '\\' :: '\n' :: '\n' :: rest) line = none
    ∧ skipPreprocessor specHelper ('#' :: 'a' :: '\\' :: '\n' :: ' ' :: '\n' :: rest) fuel
        ('#' :: 'a' :: '\\' :: '\n' :: ' ' :: '\n' :: rest) line = none
    ∧ tokenize specHelper fuel n ('#' :: 'a' :: '\\' :: '\n' :: '\n' :: rest) line = none
    ∧ tokenize specHelper fuel n ('#' :: 'a' :: '\\' :: '\n' :: ' ' :: '\n' :: rest) line
        = none :=
  ⟨(skipPreprocessor_empty_line rest fuel line).2.2,
    (skipPreprocessor_blank_line rest fuel line).2.2,
    tokenize_preprocessor_loops _
      (fun fuel line => (skipPreprocessor_empty_line rest fuel line).2.2) fuel n line,
    tokenize_preprocessor_loops _
      (fun fuel line => (skipPreprocessor_blank_line rest fuel line).2.2) fuel n line⟩

/-! ## The type resolver: qualified names -/

theorem insert_scoped (a b : List Char) (ha : a ∉ modifierKeywords)
    (hb : b ∉ modifierKeywords) :
    ∃ m1 m2, ({} : FoundBasicTypeModifiers).insert a = Except.ok m1
      ∧ m1.insertScope = Except.ok m2
      ∧ m2.mTypeName = a ++ "::".toList
      ∧ m2.insert b = Except.error ⟨"has type name redeclared".toList⟩ := by
  refine ⟨{ mLastWasTypename := true, mTypeName := a },
    { mLastWasScope := true, mTypeName := a ++ "::".toList }, ?_, rfl, rfl, ?_⟩
  · rw [insert_typename _ a ha]
    rfl
  · rw [insert_typename _ b hb]
    have hne : a ++ "::".toList ≠ [] := by simp
    exact if_pos hne

theorem insertScope_typename (a : List Char) (ha : a ∉ modifierKeywords) :
    ∃ m1, ({} : FoundBasicTypeModifiers).insertScope = Except.ok m1
      ∧ m1.mTypeName = "::".toList
      ∧ m1.insert a = Except.error ⟨"has type name redeclared".toList⟩ := by
  refine ⟨{ mLastWasScope := true, mTypeName := "::".toList }, rfl, rfl, ?_⟩
  rw [insert_typename _ a ha]
  rfl

theorem findTypeModifiersLoop_identifier {G : Type} (s : IDLCompilerState G) (x : List Char)
    (line : Nat) (ts : List Token) (lower : List (List Token)) (fuel : Nat)
    (m : FoundBasicTypeModifiers)
    (hs : s.mTokenListStack = (⟨TokenType_Identifier, x, line⟩ :: ts) :: lower) :
    findTypeModifiersLoop (fuel + 1) m s
      = match m.insert x with
        | Except.error e =>
          Result.error (Failure.InvalidContent e.message)
            (consumed s ⟨TokenType_Identifier, x, line⟩ ts)
        | Except.ok m' =>
          findTypeModifiersLoop fuel m' (consumed s ⟨TokenType_Identifier, x, line⟩ ts) := by
  obtain ⟨stack, lastStack, last, docs, mods, g⟩ := s
  simp only at hs
  subst hs
  have hm : hasMoreTokens (⟨(⟨TokenType_Identifier, x, line⟩ :: ts) :: lower, lastStack, last,
      docs, mods, g⟩ : IDLCompilerState G) = true := rfl
  rw [findTypeModifiersLoop]
  simp only [M.bind_apply, M.pure_apply, getState, hm, Bool.not_true, Bool.false_eq_true,
    if_false, extractNextToken]
  cases m.insert x <;> rfl

theorem findTypeModifiersLoop_scope {G : Type} (s : IDLCompilerState G) (x : List Char)
    (line : Nat) (ts : List Token) (lower : List (List Token)) (fuel : Nat)
    (m : FoundBasicTypeModifiers)
    (hs : s.mTokenListStack = (⟨TokenType_ScopeOperator, x, line⟩ :: ts) :: lower) :
    findTypeModifiersLoop (fuel + 1) m s
      = match m.insertScope with
        | Except.error e =>
          Result.error (Failure.InvalidContent e.message)
            (consumed s ⟨TokenType_ScopeOperator, x, line⟩ ts)
        | Except.ok m' =>
          findTypeModifiersLoop fuel m' (consumed s ⟨TokenType_ScopeOperator, x, line⟩ ts) := by
  obtain ⟨stack, lastStack, last, docs, mods, g⟩ := s
  simp only at hs
  subst hs
  have hm : hasMoreTokens (⟨(⟨TokenType_ScopeOperator, x, line⟩ :: ts) :: lower, lastStack,
      last, docs, mods, g⟩ : IDLCompilerState G) = true := rfl
  rw [findTypeModifiersLoop]
  simp only [M.bind_apply, M.pure_apply, getState, hm, Bool.not_true, Bool.false_eq_true,
    if_false, extractNextToken]
  cases m.insertScope <;> rfl

theorem consumed_stack {G : Type} (s : IDLCompilerState G) (t : Token) (ts : List Token)
    (top : List Token) (lower : List (List Token)) (hs : s.mTokenListStack = top :: lower) :
    (consumed s t ts).mTokenListStack = ts :: lower := by
  simp only [consumed, hs, List.drop_succ_cons, List.drop_zero]

theorem findTypeModifiersLoop_scoped {G : Type} (s : IDLCompilerState G) (a b : List Char)
    (line1 line2 line3 : Nat) (lower : List (List Token)) (fuel : Nat)
    (hs : s.mTokenListStack
      = [⟨TokenType_Identifier, a, line1⟩, ⟨TokenType_ScopeOperator, "::".toList, line2⟩,
          ⟨TokenType_Identifier, b, line3⟩] :: lower)
    (ha : a ∉ modifierKeywords) (hb : b ∉ modifierKeywords) :
    findTypeModifiersLoop (fuel + 3) {} s
      = Result.error (Failure.InvalidContent "has type name redeclared".toList)
          (consumed s ⟨TokenType_Identifier, b, line3⟩ []) := by
  obtain ⟨m1, m2, h1, h2, _, h3⟩ := insert_scoped a b ha hb
  rw [findTypeModifiersLoop_identifier s a line1 _ lower (fuel + 2) {} hs, h1]
  simp only
  rw [findTypeModifiersLoop_scope _ _ line2 _ lower (fuel + 1) m1
    (consumed_stack s _ _ _ lower hs), h2]
  simp only
  rw [findTypeModifiersLoop_identifier _ b line3 _ lower fuel m2
    (consumed_stack _ _ _ _ lower (consumed_stack s _ _ _ lower hs)), h3]
  simp only [consumed_consumed]

theorem findTypeModifiersLoop_leading_scope {G : Type} (s : IDLCompilerState G)
    (a : List Char) (line1 line2 : Nat) (lower : List (List Token)) (fuel : Nat)
    (hs : s.mTokenListStack
      = [⟨TokenType_ScopeOperator, "::".toList, line1⟩, ⟨TokenType_Identifier, a, line2⟩]
        :: lower)
    (ha : a ∉ modifierKeywords) :
    findTypeModifiersLoop (fuel + 2) {} s
      = Result.error (Failure.InvalidContent "has type name redeclared".toList)
          (consumed s ⟨TokenType_Identifier, a, line2⟩ []) := by
  obtain ⟨m1, h1, _, h2⟩ := insertScope_typename a ha
  rw [findTypeModifiersLoop_scope s _ line1 _ lower (fuel + 1) {} hs, h1]
  simp only
  rw [findTypeModifiersLoop_identifier _ a line2 _ lower fuel m1
    (consumed_stack s _ _ _ lower hs), h2]
  simp only [consumed_consumed]

/-- C31: for identifiers `a` and `b` that are no keywords, the fold of
`insert` and `insertScope` over `a :: b` throws at `b`, and over `:: a` at
`a`: the type name built so far, `a::` or `::`, is not empty, which `insert`
takes for a redeclared type name. On these tokens `findTypeOrCreateTypedef`
throws `FailureWithLine` (invalid content, Type search has type name
redeclared) at the line of the last token, with the stream it folded left on
the stack. -/
theorem findTypeOrCreateTypedef_scoped {G Node : Type} (tm : TypeSearchModel G Node)
    (context : Node) (outCreatedTypedef : Option Node) (s : IDLCompilerState G)
    (a b : List Char) (line1 line2 line3 : Nat) (fuel : Nat)
    (ha : a ∉ modifierKeywords) (hb : b ∉ modifierKeywords) :
    (∃ m1 m2, ({} : FoundBasicTypeModifiers).insert a = Except.ok m1
      ∧ m1.insertScope = Except.ok m2
      ∧ m2.mTypeName = a ++ "::".toList
      ∧ m2.insert b = Except.error ⟨"has type name redeclared".toList⟩)
    ∧ (∃ m1, ({} : FoundBasicTypeModifiers).insertScope = Except.ok m1
      ∧ m1.mTypeName = "::".toList
      ∧ m1.insert a = Except.error ⟨"has type name redeclared".toList⟩)
    ∧ findTypeOrCreateTypedef tm (fuel + 5) context
        [⟨TokenType_Identifier, a, line1⟩, ⟨TokenType_ScopeOperator, "::".toList, line2⟩,
          ⟨TokenType_Identifier, b, line3⟩] outCreatedTypedef s
      = Result.error
          (Failure.FailureWithLine ZS_EVENTING_TOOL_INVALID_CONTENT line3
            "Type search has type name redeclared".toList)
          { s with mTokenListStack := [] :: s.mTokenListStack
                   mLastTokenStack := some ⟨TokenType_Identifier, b, line3⟩ :: s.mLastTokenStack
                   mLastToken := some ⟨TokenType_Identifier, b, line3⟩ }
    ∧ findTypeOrCreateTypedef tm (fuel + 5) context
        [⟨TokenType_ScopeOperator, "::".toList, line1⟩, ⟨TokenType_Identifier, a, line2⟩]
        outCreatedTypedef s
      = Result.error
          (Failure.FailureWithLine ZS_EVENTING_TOOL_INVALID_CONTENT line2
            "Type search has type name redeclared".toList)
          { s with mTokenListStack := [] :: s.mTokenListStack
                   mLastTokenStack := some ⟨TokenType_Identifier, a, line2⟩ :: s.mLastTokenStack
                   mLastToken := some ⟨TokenType_Identifier, a, line2⟩ } := by
  refine ⟨insert_scoped a b ha hb, insertScope_typename a ha, ?_, ?_⟩
  · obtain ⟨stack, lastStack, last, docs, mods, g⟩ := s
    have hpre : ∀ (cb : List Token → M G Node) (l : Option Token),
        findTypePretemplateLoop cb (fuel + 4) []
          (⟨[⟨TokenType_Identifier, a, line1⟩, ⟨TokenType_ScopeOperator, "::".toList, line2⟩,
              ⟨TokenType_Identifier, b, line3⟩] :: stack,
            some ⟨TokenType_Identifier, a, line1⟩ :: lastStack, l, docs, mods, g⟩ :
            IDLCompilerState G)
        = Result.ok
            ([⟨TokenType_Identifier, a, line1⟩,
              ⟨TokenType_ScopeOperator, "::".toList, line2⟩,
              ⟨TokenType_Identifier, b, line3⟩], [])
            ⟨[] :: stack, some ⟨TokenType_Identifier, b, line3⟩ :: lastStack,
              some ⟨TokenType_Identifier, b, line3⟩, docs, mods, g⟩ := by
      intro cb l
      rfl
    rw [findTypeOrCreateTypedef]
    simp only [M.bind_apply, M.pure_apply, pushTokens, List.head?_cons, hpre, popTokens,
      List.headD_cons, List.drop_succ_cons, List.drop_zero, catchInvalidContent]
    rw [findTypeModifiersLoop_scoped _ a b line1 line2 line3 stack (fuel + 1) rfl ha hb]
    rfl
  · obtain ⟨stack, lastStack, last, docs, mods, g⟩ := s
    have hpre : ∀ (cb : List Token → M G Node) (l : Option Token),
        findTypePretemplateLoop cb (fuel + 4) []
          (⟨[⟨TokenType_ScopeOperator, "::".toList, line1⟩,
              ⟨TokenType_Identifier, a, line2⟩] :: stack,
            some ⟨TokenType_ScopeOperator, "::".toList, line1⟩ :: lastStack, l, docs, mods,
            g⟩ : IDLCompilerState G)
        = Result.ok
            ([⟨TokenType_ScopeOperator, "::".toList, line1⟩,
              ⟨TokenType_Identifier, a, line2⟩], [])
            ⟨[] :: stack, some ⟨TokenType_Identifier, a, line2⟩ :: lastStack,
              some ⟨TokenType_Identifier, a, line2⟩, docs, mods, g⟩ := by
      intro cb l
      rfl
    rw [findTypeOrCreateTypedef]
    simp only [M.bind_apply, M.pure_apply, pushTokens, List.head?_cons, hpre, popTokens,
      List.headD_cons, List.drop_succ_cons, List.drop_zero, catchInvalidContent]
    rw [findTypeModifiersLoop_leading_scope _ a line1 line2 stack (fuel + 2) rfl ha]
    rfl

/-- C31 on the tokens `ns :: T` of line 3, in a graph of one node where every
name is found. -/
theorem findTypeOrCreateTypedef_scoped_witness :
    findTypeOrCreateTypedef
        (⟨⟨fun _ _ _ => some (), fun _ _ => none, fun _ _ => none, fun _ _ => none,
            fun _ _ => PredefinedTypedef_void, fun g _ => g, fun g n => (g, n),
            fun g _ _ => g, fun g _ _ => g, fun _ => []⟩, fun _ _ => none, fun _ n => n⟩ :
          TypeSearchModel Unit Unit)
        5 ()
        [⟨TokenType_Identifier, "ns".toList, 3⟩, ⟨TokenType_ScopeOperator, "::".toList, 3⟩,
          ⟨TokenType_Identifier, ['T'], 3⟩] none
        ⟨[[⟨TokenType_SemiColon, [';'], 3⟩]], [none], none, [], [], ()⟩
      = Result.error
          (Failure.FailureWithLine ZS_EVENTING_TOOL_INVALID_CONTENT 3
            "Type search has type name redeclared".toList)
          ⟨[[], [⟨TokenType_SemiColon, [';'], 3⟩]], [some ⟨TokenType_Identifier, ['T'], 3⟩, none],
            some ⟨TokenType_Identifier, ['T'], 3⟩, [], [], ()⟩ := by
  have hw := (findTypeOrCreateTypedef_scoped
    (⟨⟨fun _ _ _ => some (), fun _ _ => none, fun _ _ => none, fun _ _ => none,
        fun _ _ => PredefinedTypedef_void, fun g _ => g, fun g n => (g, n),
        fun g _ _ => g, fun g _ _ => g, fun _ => []⟩, fun _ _ => none, fun _ n => n⟩ :
      TypeSearchModel Unit Unit)
    () none ⟨[[⟨TokenType_SemiColon, [';'], 3⟩]], [none], none, [], [], ()⟩
    "ns".toList ['T'] 3 3 3 0 (by decide) (by decide)).2.2.1
  exact hw

/-! ## The object graph: `using namespace` -/

theorem processUsingEntry_found {Modifier : Type} (g : Project Modifier) (cur : Nat)
    (name : List Char) (type : Nat) (c : Context Modifier) (hc : g.node cur = some c)
    (hf : (c.mTypedefs.lookup name).isSome = true) :
    processUsingEntry cur name type g = g := by
  simp only [processUsingEntry, hc, hf, if_true]

theorem processUsingEntry_new {Modifier : Type} (g : Project Modifier) (cur : Nat)
    (name : List Char) (type : Nat) (c : Context Modifier) (hc : g.node cur = some c)
    (hf : c.mTypedefs.lookup name = none) :
    (processUsingEntry cur name type g).nodes.length = g.nodes.length + 1
    ∧ (processUsingEntry cur name type g).mDefinedExclusives = g.mDefinedExclusives
    ∧ (processUsingEntry cur name type g).node cur
        = some { c with mTypedefs := c.mTypedefs ++ [(name, g.nodes.length)] }
    ∧ (processUsingEntry cur name type g).node g.nodes.length
        = some { kind := ContextKind.TypedefType, parent := some cur, mName := name,
                 mOriginalType := some type }
    ∧ ∀ q, q < g.nodes.length → q ≠ cur →
        (processUsingEntry cur name type g).node q = g.node q := by
  have hlt := node_lt _ _ _ hc
  have hne : g.nodes.length ≠ cur := Nat.ne_of_gt hlt
  have hne' : ¬ cur = g.nodes.length := Nat.ne_of_lt hlt
  have hc' := hc
  simp only [Project.node, List.get?_eq_getElem?] at hc'
  simp only [processUsingEntry, hc, hf, Option.isSome_none, Bool.false_eq_true, if_false]
  refine ⟨?_, rfl, ?_, ?_, ?_⟩
  · simp [Project.update, Project.create]
  · simp [Project.node, Project.update, Project.create, List.getElem?_modify,
      List.getElem?_append_left hlt, hc', hne, mapInsert, hf]
  · simp [Project.node, Project.update, Project.create, List.getElem?_modify, hne']
  · intro q hq hqc
    have h1 : ¬ g.nodes.length = q := Nat.ne_of_gt hq
    have h2 : ¬ cur = q := fun h => hqc h.symm
    simp [Project.node, Project.update, Project.create, List.getElem?_modify,
      List.getElem?_append_left hq, h1, h2]

theorem lookup_snoc (l : List (List Char × Nat)) (name k : List Char) (v : Nat) :
    (l ++ [(name, v)]).lookup k
      = match l.lookup k with
        | some w => some w
        | none => if k = name then some v else none := by
  rw [List.lookup_append]
  cases l.lookup k with
  | some w => rfl
  | none =>
    by_cases hk : k = name
    · subst hk
      simp
    · have hb : (k == name) = false := by simpa using hk
      simp [List.lookup, hb, hk]

theorem imported_refl {Modifier : Type} (g : Project Modifier) (cur : Nat)
    (c : Context Modifier) (hc : g.node cur = some c) : Imported g g cur [] :=
  ⟨le_refl _, rfl, fun _ _ _ => rfl, c, c, hc, hc, rfl, fun name => by simp,
    fun _ _ h => h, fun name v h0 h1 => by rw [h0] at h1; cases h1⟩

theorem imported_entry {Modifier : Type} (g0 g : Project Modifier) (cur : Nat)
    (names : List (List Char)) (name : List Char) (type : Nat)
    (h : Imported g0 g cur names) :
    Imported g0 (processUsingEntry cur name type g) cur (names ++ [name]) := by
  obtain ⟨hlen, hex, hframe, c0, c, h0, hc, hceq, hkeys, hold, hnew⟩ := h
  have hcur0 := node_lt _ _ _ h0
  cases hf : c.mTypedefs.lookup name with
  | some v =>
    rw [processUsingEntry_found g cur name type c hc (by rw [hf]; rfl)]
    refine ⟨hlen, hex, hframe, c0, c, h0, hc, hceq, ?_, hold, hnew⟩
    intro n
    rw [hkeys n, List.mem_append, List.mem_singleton]
    constructor
    · rintro (h1 | h1)
      · exact Or.inl h1
      · exact Or.inr (Or.inl h1)
    · rintro (h1 | h1 | h1)
      · exact Or.inl h1
      · exact Or.inr h1
      · subst h1
        have : (c.mTypedefs.lookup n).isSome = true := by rw [hf]; rfl
        exact (hkeys n).mp this
  | none =>
    obtain ⟨e1, e2, e3, e4, e5⟩ := processUsingEntry_new g cur name type c hc hf
    refine ⟨by omega, e2.trans hex, ?_, c0,
      { c with mTypedefs := c.mTypedefs ++ [(name, g.nodes.length)] }, h0, e3, ?_, ?_, ?_, ?_⟩
    · intro q hq hqc
      rw [e5 q (by omega) hqc, hframe q hq hqc]
    · rw [hceq]
    · intro n
      simp only [lookup_snoc, List.mem_append, List.mem_singleton]
      cases hl : c.mTypedefs.lookup n with
      | some w =>
        have : (c.mTypedefs.lookup n).isSome = true := by rw [hl]; rfl
        have := (hkeys n).mp this
        simp only [Option.isSome_some, true_iff]
        rcases this with h1 | h1
        · exact Or.inl h1
        · exact Or.inr (Or.inl h1)
      | none =>
        have hno : ¬ ((c0.mTypedefs.lookup n).isSome = true ∨ n ∈ names) := by
          intro hh
          have := (hkeys n).mpr hh
          rw [hl] at this
          cases this
        by_cases hn : n = name
        · simp [hn]
        · simp only [hn, if_false, Option.isSome_none, Bool.false_eq_true, false_iff, or_false]
          exact hno
    · intro n v hv
      simp only [lookup_snoc, hold n v hv]
    · intro n v hn0 hv
      simp only [lookup_snoc] at hv
      cases hl : c.mTypedefs.lookup n with
      | some w =>
        rw [hl] at hv
        simp only [Option.some.injEq] at hv
        subst hv
        obtain ⟨hge, nd, hnd, k1, k2, k3⟩ := hnew n w hn0 hl
        have hwlt := node_lt _ _ _ hnd
        refine ⟨hge, nd, ?_, k1, k2, k3⟩
        rw [e5 w hwlt (by omega), hnd]
      | none =>
        rw [hl] at hv
        simp only at hv
        by_cases hnn : n = name
        · rw [if_pos hnn] at hv
          simp only [Option.some.injEq] at hv
          subst hv
          subst hnn
          exact ⟨hlen, _, e4, rfl, rfl, rfl⟩
        · rw [if_neg hnn] at hv
          cases hv

theorem imported_loop {Modifier : Type} (g0 : Project Modifier) (cur : Nat)
    (originalType : Project Modifier → Nat → Nat) :
    ∀ (entries : List (List Char × Nat)) (g : Project Modifier) (names : List (List Char)),
      Imported g0 g cur names →
      Imported g0 (processUsingLoop cur originalType entries g) cur
        (names ++ mapKeys entries) := by
  intro entries
  induction entries with
  | nil =>
    intro g names h
    simpa [processUsingLoop, mapKeys] using h
  | cons e rest ih =>
    intro g names h
    obtain ⟨name, type⟩ := e
    have := ih _ _ (imported_entry g0 g cur names name (originalType g type) h)
    simpa [processUsingLoop, mapKeys, List.append_assoc] using this

theorem processUsingLoop_bound {Modifier : Type} (cur : Nat)
    (originalType : Project Modifier → Nat → Nat) (g : Project Modifier)
    (c : Context Modifier) (hc : g.node cur = some c) :
    ∀ (entries : List (List Char × Nat)),
      (∀ e ∈ entries, (c.mTypedefs.lookup e.1).isSome = true) →
      processUsingLoop cur originalType entries g = g := by
  intro entries
  induction entries with
  | nil => intro _; rfl
  | cons e rest ih =>
    intro h
    obtain ⟨name, type⟩ := e
    simp only [processUsingLoop]
    rw [processUsingEntry_found g cur name _ c hc (h (name, type) (List.mem_cons_self _ _))]
    exact ih fun e he => h e (List.mem_cons_of_mem _ he)

theorem mem_mapKeys (map : List (List Char × Nat)) (e : List Char × Nat) (he : e ∈ map) :
    e.1 ∈ mapKeys map :=
  List.mem_map_of_mem _ he

/-- C32: for namespaces `cur` and `other` of the graph that are not the same
node, after `processUsingNamespace(cur, other)` the key set of the typedef map
of `cur` is the old one united with the names of the enums, the structs and
the typedefs of `other`; every entry there was is as it was; each new entry is
a new node, a typedef with that name whose parent is `cur`; the other nodes
of the graph are as they were; a second run changes nothing; and
`processUsingNamespace(cur, cur)` changes nothing. -/
theorem processUsingNamespace_import {Modifier : Type}
    (getTypeBypassingTypedefIfNoop : Project Modifier → Nat → Nat)
    (s : IDLCompilerState (Project Modifier)) (cur other : Nat) (c o : Context Modifier)
    (hcur : s.mProject.node cur = some c) (hother : s.mProject.node other = some o)
    (hne : cur ≠ other) :
    processUsingNamespace getTypeBypassingTypedefIfNoop cur other s
      = Result.ok ()
          { s with mProject :=
            processUsingNamespaceIn getTypeBypassingTypedefIfNoop cur other s.mProject }
    ∧ Imported s.mProject
        (processUsingNamespaceIn getTypeBypassingTypedefIfNoop cur other s.mProject) cur
        (mapKeys o.mEnums ++ mapKeys o.mStructs ++ mapKeys o.mTypedefs)
    ∧ processUsingNamespaceIn getTypeBypassingTypedefIfNoop cur other
        (processUsingNamespaceIn getTypeBypassingTypedefIfNoop cur other s.mProject)
      = processUsingNamespaceIn getTypeBypassingTypedefIfNoop cur other s.mProject
    ∧ processUsingNamespaceIn getTypeBypassingTypedefIfNoop cur cur s.mProject
      = s.mProject := by
  refine ⟨rfl, ?_⟩
  generalize s.mProject = g at hcur hother ⊢
  have hlt := node_lt _ _ _ hother
  have hne' : other ≠ cur := fun h => hne h.symm
  have h1 := imported_loop g cur (fun _ type => type) o.mEnums g [] (imported_refl g cur c hcur)
  have ho1 := (h1.2.2.1 other hlt hne').trans hother
  have h2 := imported_loop g cur getTypeBypassingTypedefIfNoop o.mStructs _ _ h1
  have ho2 := (h2.2.2.1 other hlt hne').trans hother
  have h3 := imported_loop g cur (fun _ type => type) o.mTypedefs _ _ h2
  have ho3 := (h3.2.2.1 other hlt hne').trans hother
  have heq : processUsingNamespaceIn getTypeBypassingTypedefIfNoop cur other g
      = processUsingLoop cur (fun _ type => type) o.mTypedefs
          (processUsingLoop cur getTypeBypassingTypedefIfNoop o.mStructs
            (processUsingLoop cur (fun _ type => type) o.mEnums g)) := by
    simp only [processUsingNamespaceIn, if_neg hne, hother, ho1, ho2, Option.map_some',
      Option.getD_some]
  refine ⟨?_, ?_, ?_⟩
  · rw [heq]
    simpa using h3
  · rw [heq]
    obtain ⟨_, _, _, c0, c', _, hc', _, hkeys, _, _⟩ := h3
    have hkey : ∀ name, name ∈ mapKeys o.mEnums ∨ name ∈ mapKeys o.mStructs
        ∨ name ∈ mapKeys o.mTypedefs → (c'.mTypedefs.lookup name).isSome = true := by
      intro name hname
      refine (hkeys name).mpr (Or.inr ?_)
      simp only [List.nil_append, List.mem_append]
      tauto
    simp only [processUsingNamespaceIn, if_neg hne, ho3, Option.map_some', Option.getD_some]
    rw [processUsingLoop_bound cur _ _ c' hc' o.mEnums
      (fun e he => hkey e.1 (Or.inl (mem_mapKeys _ e he)))]
    simp only [ho3, Option.map_some', Option.getD_some]
    rw [processUsingLoop_bound cur _ _ c' hc' o.mStructs
      (fun e he => hkey e.1 (Or.inr (Or.inl (mem_mapKeys _ e he))))]
    simp only [ho3, Option.map_some', Option.getD_some]
    rw [processUsingLoop_bound cur _ _ c' hc' o.mTypedefs
      (fun e he => hkey e.1 (Or.inr (Or.inr (mem_mapKeys _ e he))))]
  · simp only [processUsingNamespaceIn, if_true]

/-- C32 on a graph of a namespace, node 0, without typedefs and a namespace,
node 1, with the enum `E` and the typedef `T`: the typedef map of node 0 gets
`E` and `T`, for the new nodes 4 and 5. -/
theorem processUsingNamespace_import_witness :
    Imported
        (⟨[{ kind := ContextKind.Namespace },
            { kind := ContextKind.Namespace, mEnums := [(['E'], 2)],
              mTypedefs := [(['T'], 3)] },
            { kind := ContextKind.Enum, mName := ['E'], parent := some 1 },
            { kind := ContextKind.TypedefType, mName := ['T'], parent := some 1 }], []⟩ :
          Project Unit)
        (processUsingNamespaceIn (fun _ type => type) 0 1
          (⟨[{ kind := ContextKind.Namespace },
              { kind := ContextKind.Namespace, mEnums := [(['E'], 2)],
                mTypedefs := [(['T'], 3)] },
              { kind := ContextKind.Enum, mName := ['E'], parent := some 1 },
              { kind := ContextKind.TypedefType, mName := ['T'], parent := some 1 }], []⟩ :
            Project Unit))
        0 (mapKeys [(['E'], 2)] ++ mapKeys [] ++ mapKeys [(['T'], 3)])
    ∧ (processUsingNamespaceIn (fun _ type => type) 0 1
          (⟨[{ kind := ContextKind.Namespace },
              { kind := ContextKind.Namespace, mEnums := [(['E'], 2)],
                mTypedefs := [(['T'], 3)] },
              { kind := ContextKind.Enum, mName := ['E'], parent := some 1 },
              { kind := ContextKind.TypedefType, mName := ['T'], parent := some 1 }], []⟩ :
            Project Unit)).node 0
        = some { kind := ContextKind.Namespace, mTypedefs := [(['E'], 4), (['T'], 5)] } := by
  have hw := (processUsingNamespace_import (fun _ type => type)
    (⟨[], [], none, [], [],
      ⟨[{ kind := ContextKind.Namespace },
        { kind := ContextKind.Namespace, mEnums := [(['E'], 2)], mTypedefs := [(['T'], 3)] },
        { kind := ContextKind.Enum, mName := ['E'], parent := some 1 },
        { kind := ContextKind.TypedefType, mName := ['T'], parent := some 1 }], []⟩⟩ :
      IDLCompilerState (Project Unit))
    0 1 { kind := ContextKind.Namespace }
    { kind := ContextKind.Namespace, mEnums := [(['E'], 2)], mTypedefs := [(['T'], 3)] }
    rfl rfl (by decide)).2.1
  exact ⟨hw, rfl⟩

/-! ## The pending buffers -/

theorem parseDocumentationLoop_docs {G : Type} :
    ∀ (docs : List Token), (∀ t ∈ docs, t.mTokenType = TokenType_Documentation) →
    ∀ (fuel : Nat) (found : Bool) (s : IDLCompilerState G) (lower : List (List Token)),
      s.mTokenListStack = docs :: lower → docs.length < fuel →
      ∃ s', parseDocumentationLoop fuel found s = Result.ok (found || !docs.isEmpty) s'
        ∧ s'.mTokenListStack = [] :: lower
        ∧ s'.mPendingDocumentation = s.mPendingDocumentation ++ docs
        ∧ s'.mPendingModifiers = s.mPendingModifiers ∧ s'.mProject = s.mProject := by
  intro docs
  induction docs with
  | nil =>
    intro _ fuel found s lower hs hf
    obtain ⟨f, rfl⟩ : ∃ f, fuel = f + 1 := ⟨fuel - 1, by omega⟩
    obtain ⟨stack, lastStack, last, pending, mods, g⟩ := s
    simp only at hs
    subst hs
    exact ⟨_, by cases found <;> rfl, rfl, by simp, rfl, rfl⟩
  | cons d ds ih =>
    intro hdocs fuel found s lower hs hf
    obtain ⟨f, rfl⟩ : ∃ f, fuel = f + 1 := ⟨fuel - 1, by omega⟩
    obtain ⟨stack, lastStack, last, pending, mods, g⟩ := s
    simp only at hs
    subst hs
    have hd : (TokenType_Documentation = d.mTokenType) = True :=
      eq_true (hdocs d (List.mem_cons_self _ _)).symm
    have hm : hasMoreTokens (⟨(d :: ds) :: lower, lastStack, last, pending, mods, g⟩ :
        IDLCompilerState G) = true := rfl
    obtain ⟨s', hrun, h1, h2, h3, h4⟩ := ih (fun t ht => hdocs t (List.mem_cons_of_mem _ ht)) f
      true (⟨ds :: lower, some d :: lastStack.drop 1, some d, pending ++ [d], mods, g⟩ :
        IDLCompilerState G) lower rfl (by simp at hf ⊢; omega)
    refine ⟨s', ?_, h1, ?_, h3, h4⟩
    · rw [parseDocumentationLoop]
      simp only [M.bind_apply, M.pure_apply, getState, setState, hm, Bool.not_true,
        Bool.false_eq_true, if_false, peekNextToken, extractNextToken, hd, ne_eq,
        not_true_eq_false]
      rw [hrun]
      simp
    · rw [h2]
      simp

theorem mergeModifiersLoop_pending {Modifier : Type} [DecidableEq Modifier]
    (toModifier : List Char → Option Modifier) (context : Nat) :
    ∀ (pending : List (List Char × List (List Char)))
      (s s' : IDLCompilerState (Project Modifier)),
      mergeModifiersLoop toModifier context pending s = Result.ok () s' →
      s'.mPendingDocumentation = s.mPendingDocumentation := by
  intro pending
  induction pending with
  | nil =>
    intro s s' h
    simp only [mergeModifiersLoop, pure, M.pure, Result.ok.injEq, true_and] at h
    rw [← h]
  | cons p rest ih =>
    intro s s' h
    obtain ⟨name, values⟩ := p
    simp only [mergeModifiersLoop] at h
    cases hm : toModifier name with
    | none =>
      rw [hm] at h
      cases h
    | some modifier =>
      rw [hm] at h
      simp only [M.bind_apply, M.pure_apply, getState, setProject, throwFailure] at h
      by_cases hdup : s.mProject.hasModifier context modifier = true
      · rw [if_pos hdup] at h
        cases h
      · rw [if_neg hdup] at h
        simp only [M.bind_apply, M.pure_apply, setProject] at h
        have hrest := ih _ s' h
        exact hrest

theorem fillContext_pending {Modifier : Type} [DecidableEq Modifier]
    (toModifier : List Char → Option Modifier) (context : Nat)
    (s s' : IDLCompilerState (Project Modifier))
    (h : fillContext toModifier context s = Result.ok () s') :
    s'.mPendingDocumentation = [] ∧ s'.mPendingModifiers = [] := by
  unfold fillContext mergeModifiers at h
  simp only [M.bind_apply, getState, mergeDocumentation_documented] at h
  cases hl : mergeModifiersLoop toModifier context (documented s context).mPendingModifiers
      (documented s context) with
  | error e s2 => rw [hl] at h; cases h
  | timeout => rw [hl] at h; cases h
  | ok u2 s2 =>
    rw [hl] at h
    simp only [setState, Result.ok.injEq, true_and] at h
    subst h
    exact ⟨(mergeModifiersLoop_pending toModifier context _ _ s2 hl).trans
      (documented_pending s context).1, rfl⟩

theorem parseNamespaceContents_docs {G Node Modifier : Type}
    (om : ObjectModel G Node Modifier) (h : Helper) (namespaceObj : Node)
    (s : IDLCompilerState G) (docs : List Token) (lower : List (List Token)) (fuel : Nat)
    (hs : s.mTokenListStack = docs :: lower)
    (hdocs : ∀ t ∈ docs, t.mTokenType = TokenType_Documentation)
    (hf : docs.length + 1 < fuel) :
    ∃ s', parseNamespaceContents om h fuel namespaceObj s = Result.ok () s'
      ∧ s'.mTokenListStack = [] :: lower
      ∧ s'.mPendingDocumentation = s.mPendingDocumentation ++ docs
      ∧ s'.mPendingModifiers = s.mPendingModifiers := by
  obtain ⟨f, rfl⟩ : ∃ f, fuel = f + 2 := ⟨fuel - 2, by omega⟩
  cases docs with
  | nil =>
    obtain ⟨stack, lastStack, last, pending, mods, g⟩ := s
    simp only at hs
    subst hs
    exact ⟨_, rfl, rfl, by simp, rfl⟩
  | cons d ds =>
    obtain ⟨s', hrun, h1, h2, h3, _⟩ := parseDocumentationLoop_docs (d :: ds) hdocs (f + 1) false
      s lower hs (by omega)
    have hm : hasMoreTokens s = true := hasMoreTokens_cons s d ds lower hs
    have hm' : hasMoreTokens s' = false := by
      unfold hasMoreTokens getTokens
      rw [h1]
      rfl
    refine ⟨s', ?_, h1, h2, h3⟩
    rw [parseNamespaceContents]
    simp only [M.bind_apply, M.pure_apply, getState, hm, Bool.not_true, Bool.false_eq_true,
      if_false, parseNamespaceContentsTurn, parseDocumentation, hrun, Bool.false_or,
      List.isEmpty_cons, Bool.not_false, if_true]
    rw [parseNamespaceContents]
    simp only [M.bind_apply, M.pure_apply, getState, hm', Bool.not_false, if_true]

/-- C34 (amended): every `fillContext` on a context that returns, from any
state, leaves the pending documentation and the pending modifiers both empty,
and it does return when the pending modifiers are all known to `toModifier`,
no two of them the same modifier and none of them set on the context already
(so when none is pending). The method `parseNamespaceContents` does not empty
them at the end of the stream: on a stream of Documentation tokens it returns
with these tokens appended to the pending documentation and the pending
modifiers as they were. -/
theorem fillContext_drains {Modifier : Type} [DecidableEq Modifier]
    (om : ObjectModel (Project Modifier) Nat Modifier) (h : Helper) (context : Nat) :
    (∀ s s' : IDLCompilerState (Project Modifier),
      (graphObjectModel om).fillContext context s = Result.ok () s' →
      s'.mPendingDocumentation = [] ∧ s'.mPendingModifiers = [])
    ∧ (∀ (s : IDLCompilerState (Project Modifier))
        (resolved : List (Modifier × List (List Char))),
      ResolvedModifiers om.toModifier s.mPendingModifiers resolved →
      (resolved.map Prod.fst).Nodup →
      (∀ r ∈ resolved, s.mProject.hasModifier context r.1 = false) →
      ∃ s', (graphObjectModel om).fillContext context s = Result.ok () s'
        ∧ s'.mPendingDocumentation = [] ∧ s'.mPendingModifiers = [])
    ∧ (∀ (s : IDLCompilerState (Project Modifier)) (docs : List Token)
        (lower : List (List Token)) (fuel : Nat),
      s.mTokenListStack = docs :: lower →
      (∀ t ∈ docs, t.mTokenType = TokenType_Documentation) →
      docs.length + 1 < fuel →
      ∃ s', parseNamespaceContents (graphObjectModel om) h fuel context s = Result.ok () s'
        ∧ s'.mTokenListStack = [] :: lower
        ∧ s'.mPendingDocumentation = s.mPendingDocumentation ++ docs
        ∧ s'.mPendingModifiers = s.mPendingModifiers) := by
  refine ⟨fun s s' hfill => fillContext_pending om.toModifier context s s' hfill, ?_, ?_⟩
  · intro s resolved hres hnodup hfresh
    have hrun : (graphObjectModel om).fillContext context s
        = Result.ok () (filled s context resolved) :=
      fillContext_resolved om.toModifier context s resolved hres hnodup hfresh
    exact ⟨_, hrun, fillContext_pending om.toModifier context s _ hrun⟩
  · intro s docs lower fuel hs hdocs hf
    exact parseNamespaceContents_docs (graphObjectModel om) h context s docs lower fuel hs hdocs hf

/-- C34 on a namespace, node 0: with one Documentation token and the modifier
`deprecated` pending, `fillContext` returns with both buffers empty; on the
stream of one Documentation token, with the modifier `deprecated` pending,
`parseNamespaceContents` returns with the token and the modifier pending. -/
theorem fillContext_drains_witness :
    (∃ s', (graphObjectModel
          (⟨fun _ _ _ => none, fun g n _ => (g, n), fun _ _ _ => none, fun _ _ _ => none,
            fun _ => [], fun _ => some (), fun _ => none, fun g _ _ _ => g, fun _ => pure (),
            fun _ _ => pure (), fun _ _ => pure (), fun _ _ _ => pure (),
            fun n _ => pure (n, true), fun _ _ => pure (), fun _ _ => pure none⟩ :
            ObjectModel (Project Unit) Nat Unit)).fillContext 0
        (⟨[[]], [none], none, [⟨TokenType_Documentation, "doc".toList, 1⟩],
          [("deprecated".toList, [])], ⟨[{ kind := ContextKind.Namespace }], []⟩⟩ :
          IDLCompilerState (Project Unit))
        = Result.ok () s'
      ∧ s'.mPendingDocumentation = [] ∧ s'.mPendingModifiers = [])
    ∧ ∃ s', parseNamespaceContents
        (graphObjectModel
          (⟨fun _ _ _ => none, fun g n _ => (g, n), fun _ _ _ => none, fun _ _ _ => none,
            fun _ => [], fun _ => some (), fun _ => none, fun g _ _ _ => g, fun _ => pure (),
            fun _ _ => pure (), fun _ _ => pure (), fun _ _ _ => pure (),
            fun n _ => pure (n, true), fun _ _ => pure (), fun _ _ => pure none⟩ :
            ObjectModel (Project Unit) Nat Unit))
        specHelper 3 0
        (⟨[[⟨TokenType_Documentation, "doc".toList, 1⟩]], [none], none, [],
          [("deprecated".toList, [])], ⟨[{ kind := ContextKind.Namespace }], []⟩⟩ :
          IDLCompilerState (Project Unit)) = Result.ok () s'
      ∧ s'.mTokenListStack = [[]]
      ∧ s'.mPendingDocumentation = [] ++ [⟨TokenType_Documentation, "doc".toList, 1⟩]
      ∧ s'.mPendingModifiers = [("deprecated".toList, [])] := by
  have hw := fillContext_drains
    (⟨fun _ _ _ => none, fun g n _ => (g, n), fun _ _ _ => none, fun _ _ _ => none,
      fun _ => [], fun _ => some (), fun _ => none, fun g _ _ _ => g, fun _ => pure (),
      fun _ _ => pure (), fun _ _ => pure (), fun _ _ _ => pure (),
      fun n _ => pure (n, true), fun _ _ => pure (), fun _ _ => pure none⟩ :
      ObjectModel (Project Unit) Nat Unit)
    specHelper 0
  exact ⟨hw.2.1
      (⟨[[]], [none], none, [⟨TokenType_Documentation, "doc".toList, 1⟩],
        [("deprecated".toList, [])], ⟨[{ kind := ContextKind.Namespace }], []⟩⟩ :
        IDLCompilerState (Project Unit))
      [((), [])] (List.Forall₂.cons ⟨rfl, rfl⟩ List.Forall₂.nil) (by decide)
      (fun r hr => by
        simp only [List.mem_singleton] at hr
        subst hr
        rfl),
    hw.2.2
      (⟨[[⟨TokenType_Documentation, "doc".toList, 1⟩]], [none], none, [],
        [("deprecated".toList, [])], ⟨[{ kind := ContextKind.Namespace }], []⟩⟩ :
        IDLCompilerState (Project Unit))
      [⟨TokenType_Documentation, "doc".toList, 1⟩] [] 3 rfl (by decide) (by decide)⟩

/-- C34, counterexample: on the stream of one Documentation token
`parseNamespaceContents` runs to its end and leaves that token in the
pending documentation. -/
theorem fillContext_drains_counterexample :
    parseNamespaceContents
        (graphObjectModel
          (⟨fun _ _ _ => none, fun g n _ => (g, n), fun _ _ _ => none, fun _ _ _ => none,
            fun _ => [], fun _ => some (), fun _ => none, fun g _ _ _ => g, fun _ => pure (),
            fun _ _ => pure (), fun _ _ => pure (), fun _ _ _ => pure (),
            fun n _ => pure (n, true), fun _ _ => pure (), fun _ _ => pure none⟩ :
            ObjectModel (Project Unit) Nat Unit))
        specHelper 3 0
        (⟨[[⟨TokenType_Documentation, "doc".toList, 1⟩]], [none], none, [], [],
          ⟨[{ kind := ContextKind.Namespace }], []⟩⟩ : IDLCompilerState (Project Unit))
      = Result.ok ()
          ⟨[[]], [some ⟨TokenType_Documentation, "doc".toList, 1⟩],
            some ⟨TokenType_Documentation, "doc".toList, 1⟩,
            [⟨TokenType_Documentation, "doc".toList, 1⟩], [],
            ⟨[{ kind := ContextKind.Namespace }], []⟩⟩ := by
  rfl

/-! ## The depth of the stacks on a normal return -/

theorem triple_pure {G α : Type} (P : IDLCompilerState G → Prop) (a : α) :
    Triple P (pure a : M G α) (fun _ => P) := by
  intro s hs b s' h
  simp only [M.pure_apply, Result.ok.injEq] at h
  rw [← h.2]
  exact hs

theorem triple_bind {G α β : Type} {P : IDLCompilerState G → Prop}
    {Q : α → IDLCompilerState G → Prop} {R : β → IDLCompilerState G → Prop} {m : M G α}
    {f : α → M G β} (hm : Triple P m Q) (hf : ∀ a, Triple (Q a) (f a) R) :
    Triple P (m >>= f) R := by
  intro s hs b s' h
  simp only [M.bind_apply] at h
  cases hms : m s with
  | error e s1 => rw [hms] at h; cases h
  | timeout => rw [hms] at h; cases h
  | ok a s1 =>
    rw [hms] at h
    exact hf a s1 (hm s hs a s1 hms) b s' h

theorem triple_error {G α : Type} (P : IDLCompilerState G → Prop)
    (Q : α → IDLCompilerState G → Prop) (m : M G α)
    (h : ∀ s a s', m s ≠ Result.ok a s') : Triple P m Q :=
  fun s _ a s' hm => absurd hm (h s a s')

theorem triple_ite {G α : Type} {P : IDLCompilerState G → Prop}
    {Q : α → IDLCompilerState G → Prop} (c : Prop) [Decidable c] {m1 m2 : M G α}
    (h1 : Triple P m1 Q) (h2 : Triple P m2 Q) : Triple P (if c then m1 else m2) Q := by
  by_cases hc : c
  · rw [if_pos hc]; exact h1
  · rw [if_neg hc]; exact h2

theorem triple_throwInvalidContent {G α : Type} (P : IDLCompilerState G → Prop)
    (Q : α → IDLCompilerState G → Prop) (message : List Char) :
    Triple P (throwInvalidContent message : M G α) Q :=
  triple_error P Q _ (fun _ _ _ h => by cases h)

theorem triple_throwFailure {G α : Type} (P : IDLCompilerState G → Prop)
    (Q : α → IDLCompilerState G → Prop) (e : Failure) :
    Triple P (throwFailure e : M G α) Q :=
  triple_error P Q _ (fun _ _ _ h => by cases h)

theorem triple_getState_bind {G β : Type} {P : IDLCompilerState G → Prop}
    {Q : β → IDLCompilerState G → Prop} {f : IDLCompilerState G → M G β}
    (hf : ∀ s, Triple P (f s) Q) : Triple P (getState >>= f) Q :=
  fun s hs b s' h => hf s s hs b s' h

theorem triple_throwOf_bind {G α β : Type} (P : IDLCompilerState G → Prop)
    (Q : β → IDLCompilerState G → Prop) (e : InvalidContent) (f : α → M G β) :
    Triple P ((throwInvalidContentOf e : M G α) >>= f) Q :=
  triple_error P Q _ (fun _ _ _ h => by cases h)

theorem depthIs_setProject {G : Type} (exact : Bool) (g : G) :
    KeepsDepth exact (setProject g : M G Unit) := by
  intro d s hs a s' h
  simp only [setProject, Result.ok.injEq, true_and] at h
  subst h
  exact hs

theorem triple_bind_same {G α β : Type} {P : IDLCompilerState G → Prop}
    {R : β → IDLCompilerState G → Prop} {m : M G α} {f : α → M G β}
    (hm : Triple P m (fun _ => P)) (hf : ∀ a, Triple P (f a) R) : Triple P (m >>= f) R :=
  triple_bind hm hf

/-- The method `parseDirective` on the stream of the directive `EXCLUSIVE foo`
and `a`, with no exclusive defined and no later directive: it returns true
with no stream left on either stack, the stream of its caller popped with the
one it pushed itself. -/
theorem parseDirective_ignore_last :
    parseDirective
        (⟨fun _ _ _ => none, fun g n _ => (g, n), fun _ _ _ => none, fun _ _ _ => none,
          fun _ => [], fun _ => none, fun _ => none, fun g _ _ _ => g, fun _ => pure (),
          fun _ _ => pure (), fun _ _ => pure (), fun _ _ _ => pure (),
          fun n _ => pure (n, true), fun _ _ => pure (), fun _ _ => pure none⟩ :
          ObjectModel Unit Unit Unit)
        specHelper 6
        ⟨[[⟨TokenType_Directive, "EXCLUSIVE foo".toList, 1⟩, ⟨TokenType_Identifier, ['a'], 2⟩]],
          [none], none, [], [], ()⟩
      = Result.ok true
          ⟨[], [], some ⟨TokenType_Identifier, ['a'], 2⟩, [], [], ()⟩ := by
  have hlex : tokenize specHelper 6 6 "EXCLUSIVE foo".toList 1
      = some [⟨TokenType_Identifier, "EXCLUSIVE".toList, 1⟩,
          ⟨TokenType_Identifier, "foo".toList, 1⟩] := rfl
  have hpush := pushDirectiveTokens_directive specHelper 6
    ⟨TokenType_Directive, "EXCLUSIVE foo".toList, 1⟩ rfl _ hlex
    (⟨[[⟨TokenType_Identifier, ['a'], 2⟩]],
      [some ⟨TokenType_Directive, "EXCLUSIVE foo".toList, 1⟩],
      some ⟨TokenType_Directive, "EXCLUSIVE foo".toList, 1⟩, [], [], ()⟩ :
      IDLCompilerState Unit)
  have hloop : parseDirectiveLoop
      (⟨fun _ _ _ => none, fun g n _ => (g, n), fun _ _ _ => none, fun _ _ _ => none,
        fun _ => [], fun _ => none, fun _ => none, fun g _ _ _ => g, fun _ => pure (),
        fun _ _ => pure (), fun _ _ => pure (), fun _ _ _ => pure (),
        fun n _ => pure (n, true), fun _ _ => pure (), fun _ _ => pure none⟩ :
        ObjectModel Unit Unit Unit)
      specHelper 6 false
      ⟨[[⟨TokenType_Identifier, "EXCLUSIVE".toList, 1⟩, ⟨TokenType_Identifier, "foo".toList, 1⟩],
          [⟨TokenType_Identifier, ['a'], 2⟩]],
        [some ⟨TokenType_Identifier, "EXCLUSIVE".toList, 1⟩,
          some ⟨TokenType_Directive, "EXCLUSIVE foo".toList, 1⟩],
        some ⟨TokenType_Directive, "EXCLUSIVE foo".toList, 1⟩, [], [], ()⟩
    = Result.ok ()
        ⟨[[]], [some ⟨TokenType_Identifier, ['a'], 2⟩], some ⟨TokenType_Identifier, ['a'], 2⟩,
          [], [], ()⟩ := rfl
  have hx : extractNextToken "directive".toList
      (⟨[[⟨TokenType_Directive, "EXCLUSIVE foo".toList, 1⟩, ⟨TokenType_Identifier, ['a'], 2⟩]],
        [none], none, [], [], ()⟩ : IDLCompilerState Unit)
    = Result.ok ⟨TokenType_Directive, "EXCLUSIVE foo".toList, 1⟩
        ⟨[[⟨TokenType_Identifier, ['a'], 2⟩]],
          [some ⟨TokenType_Directive, "EXCLUSIVE foo".toList, 1⟩],
          some ⟨TokenType_Directive, "EXCLUSIVE foo".toList, 1⟩, [], [], ()⟩ := rfl
  rw [parseDirective]
  simp only [M.bind_apply, M.pure_apply, peekNextToken]
  rw [if_neg (by decide)]
  simp only [M.bind_apply, M.pure_apply, hx, hpush, List.head?_cons]
  rw [hloop]
  rfl

/-! ## Brace regions, for any fuel -/

theorem keepsDepth_mergeDocumentation {Modifier : Type} (exact : Bool) (p : Nat) :
    KeepsDepth exact (mergeDocumentation p : M (Project Modifier) Unit) := by
  intro d s hs a s' hrun
  rw [mergeDocumentation_documented] at hrun
  simp only [Result.ok.injEq, true_and] at hrun
  rw [← hrun]
  obtain ⟨h1, h2, h3⟩ := documented_stack s p
  unfold DepthIs Synced at hs ⊢
  rw [h1, h2]
  exact hs

theorem keepsDepth_mergeModifiersLoop {Modifier : Type} [DecidableEq Modifier] (exact : Bool)
    (toModifier : List Char → Option Modifier) (context : Nat) :
    ∀ (pending : List (List Char × List (List Char))),
      KeepsDepth exact
        (mergeModifiersLoop toModifier context pending : M (Project Modifier) Unit) := by
  intro pending
  induction pending with
  | nil => intro d; exact triple_pure _ _
  | cons p rest ih =>
    intro d
    obtain ⟨name, values⟩ := p
    unfold mergeModifiersLoop
    dsimp only
    repeat' first
      | with_reducible exact triple_pure _ _
      | with_reducible exact triple_throwFailure _ _ _
      | with_reducible exact triple_error _ _ _ (fun _ _ _ h => by cases h)
      | with_reducible exact depthIs_setProject exact _ d
      | with_reducible exact ih d
      | with_reducible refine triple_getState_bind (fun _ => ?_)
      | with_reducible refine triple_ite _ ?_ ?_
      | with_reducible refine triple_bind_same ?_ (fun _ => ?_)
      | split

theorem keepsDepth_fillContext {Modifier : Type} [DecidableEq Modifier] (exact : Bool)
    (toModifier : List Char → Option Modifier) (context : Nat) :
    KeepsDepth exact (fillContext toModifier context : M (Project Modifier) Unit) := by
  intro d
  unfold fillContext mergeModifiers
  refine triple_bind_same (keepsDepth_mergeDocumentation exact context d) (fun _ => ?_)
  refine triple_getState_bind (fun _ => ?_)
  refine triple_bind_same (keepsDepth_mergeModifiersLoop exact toModifier context _ d)
    (fun _ => ?_)
  intro s hs b s' hrun
  simp only [M.bind_apply, getState, setState, Result.ok.injEq] at hrun
  rw [← hrun.2]
  exact hs

theorem keepsDepth_processStructForward {Modifier : Type} [DecidableEq Modifier]
    (exact : Bool) (toModifier : List Char → Option Modifier) (context : Nat)
    (typeName : List Char) :
    KeepsDepth exact
      (processStructForward toModifier context typeName : M (Project Modifier) (Nat × Bool)) := by
  intro d
  unfold processStructForward processStructForwardIn
  dsimp only
  repeat' first
    | with_reducible exact triple_pure _ _
    | with_reducible exact triple_throwInvalidContent _ _ _
    | with_reducible exact depthIs_setProject exact _ d
    | with_reducible exact keepsDepth_fillContext exact toModifier _ d
    | with_reducible refine triple_getState_bind (fun _ => ?_)
    | with_reducible refine triple_ite _ ?_ ?_
    | with_reducible refine triple_bind_same ?_ (fun _ => ?_)
    | split

/-- The object model over the graph keeps the stacks when the two members it
takes from the rest of the compiler do. -/
theorem graphObjectModel_keepsStacks {Modifier : Type} [DecidableEq Modifier]
    (om : ObjectModel (Project Modifier) Nat Modifier)
    (hrelated : ∀ structObj typeTokens,
      KeepsDepth true (om.processRelated structObj typeTokens))
    (hfind : ∀ context typeTokens,
      KeepsDepth true (om.findTypeOrCreateTypedef context typeTokens)) :
    (graphObjectModel om).KeepsStacks :=
  ⟨fun context name => keepsDepth_processStructForward true om.toModifier context name,
    hrelated, hfind⟩

/-! ## The depth of the stacks on a normal return of `parseDirective` -/

end IDLCompiler
